import Mathlib

/-!
# OshinoDB: buffer pool, record heap, log and transaction manager

A shallow embedding of the storage and transaction layers of the engine
(`storage/buffer_pool_manager.cpp`, `record/rm_file_handle.cpp`,
`transaction/transaction_manager.cpp`, `transaction/concurrency/lock_manager.cpp`,
`system/sm_manager.cpp`, `recovery/log_manager.h`) together with the properties
established about them.

Conventions: C++ `int` values are `Int` (overflow is never reached by the
properties below), pointers to frames are frame numbers, maps are total
functions into `Option`, a `nullptr` result is `none`.
-/

namespace OshinoDB

/-! ## Storage layer: page identifiers, frames, disk, replacer -/

/-- Identifier of a page: the file descriptor and the page number in that file. -/
structure PageId where
  fd : Int
  page_no : Int
deriving DecidableEq, Repr

/-- Sentinel page number of a frame that holds no page. -/
def INVALID_PAGE_ID : Int := -1

/-- Sentinel frame number. -/
def INVALID_FRAME_ID : Int := -1

/-- Sentinel log sequence number. -/
def INVALID_LSN : Int := -1

/-- Frame numbers index the frame array `pages_`. -/
abbrev frame_id_t := Int

/-- The `PAGE_SIZE` bytes of a page: the page LSN stored at the start of the
buffer and the remaining bytes, whose layout the buffer pool never inspects. -/
structure PageImage (α : Type) where
  lsn : Int
  body : α

/-- The all-zero buffer left by `Page::reset_memory`. -/
def PageImage.zero {α : Type} [Zero α] : PageImage α := { lsn := 0, body := 0 }

/-- A frame of the pool (`Page`): the id of the page it holds, its bytes, the
dirty flag and the pin count. -/
structure Page (α : Type) where
  id : PageId
  data : PageImage α
  is_dirty : Bool
  pin_count : Nat

/-- Modelled from the spec: the disk layer (`DiskManager` is not among the
sources). It "offers page-indexed read/write" and `new_page` "allocate[s] a fresh
page number from the disk layer for the file": the page contents per page id and
the next page number to hand out per file. -/
structure DiskManager (α : Type) where
  pages : PageId → PageImage α
  fd2pageno : Int → Int

/-- Modelled from the spec: `DiskManager::write_page` stores the bytes under the page id. -/
def DiskManager.write_page {α : Type} (d : DiskManager α) (fd page_no : Int)
    (data : PageImage α) : DiskManager α :=
  { d with pages := Function.update d.pages ⟨fd, page_no⟩ data }

/-- Modelled from the spec: `DiskManager::read_page` yields the bytes stored under the page id. -/
def DiskManager.read_page {α : Type} (d : DiskManager α) (fd page_no : Int) : PageImage α :=
  d.pages ⟨fd, page_no⟩

/-- Modelled from the spec: `DiskManager::allocate_page` hands out the next page
number of the file and advances the counter. -/
def DiskManager.allocate_page {α : Type} (d : DiskManager α) (fd : Int) :
    Int × DiskManager α :=
  (d.fd2pageno fd, { d with fd2pageno := Function.update d.fd2pageno fd (d.fd2pageno fd + 1) })

/-- Modelled from the spec: the replacer (`LRUReplacer` is not among the sources)
"holds frames whose pin_count = 0", least-recently-unpinned first: the list has
the most recently unpinned frame at its head and the next victim at its end. -/
structure LRUReplacer where
  LRUlist : List frame_id_t
deriving DecidableEq, Repr

/-- Modelled from the spec: `victim` removes and returns the least recently
unpinned frame, or fails when the replacer is empty. -/
def LRUReplacer.victim (r : LRUReplacer) : Option (frame_id_t × LRUReplacer) :=
  match r.LRUlist.getLast? with
  | none => none
  | some f => some (f, { LRUlist := r.LRUlist.dropLast })

/-- Modelled from the spec: `pin` takes the frame out of the replacer. -/
def LRUReplacer.pin (r : LRUReplacer) (f : frame_id_t) : LRUReplacer :=
  { LRUlist := r.LRUlist.filter (fun g => g ≠ f) }

/-- Modelled from the spec: `unpin` puts the frame into the replacer as the most
recently unpinned one, unless it is already there. -/
def LRUReplacer.unpin (r : LRUReplacer) (f : frame_id_t) : LRUReplacer :=
  if f ∈ r.LRUlist then r else { LRUlist := f :: r.LRUlist }

/-- The buffer pool: frame array `pages_`, `page_table_`, `free_list_`,
`replacer_` and the disk manager it writes through. -/
structure BufferPoolManager (α : Type) where
  pool_size : Nat
  pages : frame_id_t → Page α
  page_table : PageId → Option frame_id_t
  free_list : List frame_id_t
  replacer : LRUReplacer
  disk : DiskManager α

namespace BufferPoolManager

variable {α : Type} [Zero α]

/-- Modelled from the spec: the pool after construction (the constructor is in
the header, which is not among the sources): every frame is empty, unpinned and
clean and sits in the free list; nothing is mapped; the replacer is empty. -/
def init (pool_size : Nat) (disk : DiskManager α) : BufferPoolManager α :=
  { pool_size := pool_size
    pages := fun _ => { id := ⟨-1, INVALID_PAGE_ID⟩, data := PageImage.zero,
                        is_dirty := false, pin_count := 0 }
    page_table := fun _ => none
    free_list := (List.range pool_size).map Int.ofNat
    replacer := { LRUlist := [] }
    disk := disk }

/-- `BufferPoolManager::find_victim_page`: the front of the free list if there
is one, otherwise the replacer's victim; `none` is the `false` result. -/
def find_victim_page (b : BufferPoolManager α) :
    Option (frame_id_t × BufferPoolManager α) :=
  match b.free_list with
  | [] =>
    match b.replacer.victim with
    | none => none
    | some (f, r) => some (f, { b with replacer := r })
  | f :: rest => some (f, { b with free_list := rest })

/-- `BufferPoolManager::update_page` on the frame `f`: write the old page back
if dirty, drop its mapping, clear the buffer, read the new page, map it. -/
def update_page (b : BufferPoolManager α) (f : frame_id_t) (new_page_id : PageId)
    (new_frame_id : frame_id_t) : BufferPoolManager α :=
  let page := b.pages f
  let disk1 := if page.is_dirty then b.disk.write_page page.id.fd page.id.page_no page.data
               else b.disk
  let page1 : Page α := if page.is_dirty then { page with is_dirty := false } else page
  let pt1 := Function.update b.page_table page.id none
  let page2 : Page α := { page1 with data := PageImage.zero }
  let page3 : Page α := { page2 with data := disk1.read_page new_page_id.fd new_page_id.page_no }
  let pt2 := if new_frame_id ≠ INVALID_FRAME_ID
             then Function.update pt1 new_page_id (some new_frame_id) else pt1
  let page4 : Page α := { page3 with id := new_page_id }
  { b with pages := Function.update b.pages f page4, page_table := pt2, disk := disk1 }

/-- The statement `page->pin_count_++` on frame `f`. -/
def incr_pin (b : BufferPoolManager α) (f : frame_id_t) : BufferPoolManager α :=
  let page := b.pages f
  { b with pages := Function.update b.pages f { page with pin_count := page.pin_count + 1 } }

/-- `BufferPoolManager::fetch_page`: the frame holding the page (`none` for
`nullptr`) and the pool afterwards. -/
def fetch_page (b : BufferPoolManager α) (page_id : PageId) :
    Option frame_id_t × BufferPoolManager α :=
  match b.page_table page_id with
  | some frame_id =>
    let b1 := { b with replacer := b.replacer.pin frame_id }
    (some frame_id, b1.incr_pin frame_id)
  | none =>
    match b.find_victim_page with
    | none => (none, b)
    | some (frame_id, b1) =>
      let b2 := b1.update_page frame_id page_id frame_id
      let b3 := { b2 with replacer := b2.replacer.pin frame_id }
      (some frame_id, b3.incr_pin frame_id)

/-- `BufferPoolManager::unpin_page`: the boolean result and the pool afterwards. -/
def unpin_page (b : BufferPoolManager α) (page_id : PageId) (is_dirty : Bool) :
    Bool × BufferPoolManager α :=
  match b.page_table page_id with
  | none => (false, b)
  | some frame_id =>
    let page := b.pages frame_id
    if page.pin_count = 0 then (false, b)
    else
      let page1 : Page α := { page with pin_count := page.pin_count - 1 }
      let r1 := if page1.pin_count = 0 then b.replacer.unpin frame_id else b.replacer
      let page2 : Page α := { page1 with is_dirty := page1.is_dirty || is_dirty }
      (true, { b with pages := Function.update b.pages frame_id page2, replacer := r1 })

/-- `BufferPoolManager::flush_page`: write the cached page through and clear
its dirty flag; `false` when the page is not cached. -/
def flush_page (b : BufferPoolManager α) (page_id : PageId) :
    Bool × BufferPoolManager α :=
  match b.page_table page_id with
  | none => (false, b)
  | some frame_id =>
    let page := b.pages frame_id
    let disk1 := b.disk.write_page page_id.fd page_id.page_no page.data
    (true, { b with pages := Function.update b.pages frame_id { page with is_dirty := false },
                    disk := disk1 })

/-- `BufferPoolManager::new_page` for the file `fd` (the `fd` field of the
in/out `PageId*`): the frame and the id of the new page (`none` for `nullptr`)
and the pool afterwards. -/
def new_page (b : BufferPoolManager α) (fd : Int) :
    Option (frame_id_t × PageId) × BufferPoolManager α :=
  match b.find_victim_page with
  | none => (none, b)
  | some (frame_id, b1) =>
    let page := b1.pages frame_id
    let disk1 := if page.is_dirty then b1.disk.write_page page.id.fd page.id.page_no page.data
                 else b1.disk
    let pt1 := Function.update b1.page_table page.id none
    let (page_no, disk2) := disk1.allocate_page fd
    let page_id : PageId := ⟨fd, page_no⟩
    let r1 := b1.replacer.pin frame_id
    let page1 : Page α :=
      { id := page_id, data := { lsn := INVALID_LSN, body := 0 },
        is_dirty := false, pin_count := page.pin_count + 1 }
    let disk3 := disk2.write_page page1.id.fd page1.id.page_no page1.data
    let pt2 := Function.update pt1 page_id (some frame_id)
    (some (frame_id, page_id),
     { b1 with pages := Function.update b1.pages frame_id page1, page_table := pt2,
               replacer := r1, disk := disk3 })

/-- `BufferPoolManager::delete_page`. -/
def delete_page (b : BufferPoolManager α) (page_id : PageId) :
    Bool × BufferPoolManager α :=
  match b.page_table page_id with
  | none => (true, b)
  | some frame_id =>
    let page := b.pages frame_id
    if page.pin_count > 0 then (false, b)
    else
      let disk1 := b.disk.write_page page_id.fd page_id.page_no page.data
      let pt1 := Function.update b.page_table page_id none
      let page1 : Page α :=
        { id := ⟨-1, INVALID_PAGE_ID⟩, data := PageImage.zero, is_dirty := false, pin_count := 0 }
      (true, { b with pages := Function.update b.pages frame_id page1, page_table := pt1,
                      free_list := b.free_list ++ [frame_id], disk := disk1 })

/-- One iteration of the loop of `BufferPoolManager::flush_all_pages`. -/
def flush_all_pages_step (fd : Int) (b : BufferPoolManager α) (frame_id : frame_id_t) :
    BufferPoolManager α :=
  let page := b.pages frame_id
  if page.id.fd ≠ fd ∨ page.id.page_no = INVALID_PAGE_ID then b
  else
    let disk1 := b.disk.write_page page.id.fd page.id.page_no page.data
    let page1 : Page α := { page with is_dirty := false }
    if page1.pin_count ≠ 0 then
      { b with pages := Function.update b.pages frame_id page1, disk := disk1 }
    else
      let pt1 := Function.update b.page_table page1.id none
      let page2 : Page α := { page1 with id := ⟨-1, INVALID_PAGE_ID⟩, data := PageImage.zero }
      { b with pages := Function.update b.pages frame_id page2, page_table := pt1,
               replacer := b.replacer.unpin frame_id, disk := disk1 }

/-- `BufferPoolManager::flush_all_pages`: the loop over all frames. -/
def flush_all_pages (b : BufferPoolManager α) (fd : Int) : BufferPoolManager α :=
  (List.range b.pool_size).foldl (fun s i => flush_all_pages_step fd s (i : Int)) b

/-- A holder of a pin overwrites the bytes of the frame it has pinned (this is
what the record and index layers do through the `Page*` they were handed). -/
def write_data (b : BufferPoolManager α) (f : frame_id_t) (d : PageImage α) :
    BufferPoolManager α :=
  let page := b.pages f
  { b with pages := Function.update b.pages f { page with data := d } }

/-- The pool states reachable from `b0` through the public operations, each
with any argument: `fetch_page` makes no check that the page exists in its file,
so it is issued for every page id. Bytes are written only through a pinned
frame. -/
inductive Reachable (b0 : BufferPoolManager α) : BufferPoolManager α → Prop
  | start : Reachable b0 b0
  | fetch_page (b : BufferPoolManager α) (page_id : PageId) :
      Reachable b0 b → Reachable b0 (b.fetch_page page_id).2
  | new_page (b : BufferPoolManager α) (fd : Int) :
      Reachable b0 b → Reachable b0 (b.new_page fd).2
  | unpin_page (b : BufferPoolManager α) (page_id : PageId) (is_dirty : Bool) :
      Reachable b0 b → Reachable b0 (b.unpin_page page_id is_dirty).2
  | flush_page (b : BufferPoolManager α) (page_id : PageId) :
      Reachable b0 b → Reachable b0 (b.flush_page page_id).2
  | delete_page (b : BufferPoolManager α) (page_id : PageId) :
      Reachable b0 b → Reachable b0 (b.delete_page page_id).2
  | flush_all_pages (b : BufferPoolManager α) (fd : Int) :
      Reachable b0 b → Reachable b0 (b.flush_all_pages fd)
  | write_data (b : BufferPoolManager α) (f : frame_id_t) (d : PageImage α) :
      Reachable b0 b → 0 < (b.pages f).pin_count → Reachable b0 (b.write_data f d)

/-- Consistency of frames, page table, free list and replacer; it holds in
every state reachable from the constructed pool (`Reachable.wf`). A frame that
carries a page id need not be the frame the page table gives for that id:
`new_page` can map an id afresh that another frame still carries. -/
structure WF (b : BufferPoolManager α) : Prop where
  table_id : ∀ pid f, b.page_table pid = some f → (b.pages f).id = pid
  free_unpinned : ∀ f ∈ b.free_list,
    (b.pages f).pin_count = 0 ∧ (b.pages f).id.page_no = INVALID_PAGE_ID
  free_unmapped : ∀ f ∈ b.free_list, ∀ pid, b.page_table pid ≠ some f
  free_nodup : b.free_list.Nodup
  repl_unpinned : ∀ f ∈ b.replacer.LRUlist, (b.pages f).pin_count = 0
  free_range : ∀ f ∈ b.free_list, 0 ≤ f ∧ f < (b.pool_size : Int)
  repl_range : ∀ f ∈ b.replacer.LRUlist, 0 ≤ f ∧ f < (b.pool_size : Int)
  table_range : ∀ pid f, b.page_table pid = some f → 0 ≤ f ∧ f < (b.pool_size : Int)

/-- What `find_victim_page` guarantees about the frame it hands out and the
state it leaves. -/
structure VictimOf (b : BufferPoolManager α) (f : frame_id_t) (b1 : BufferPoolManager α) :
    Prop where
  pages_eq : b1.pages = b.pages
  page_table_eq : b1.page_table = b.page_table
  disk_eq : b1.disk = b.disk
  pool_size_eq : b1.pool_size = b.pool_size
  free_sub : ∀ g ∈ b1.free_list, g ∈ b.free_list ∧ g ≠ f
  free_nodup : b1.free_list.Nodup
  repl_sub : ∀ g ∈ b1.replacer.LRUlist, g ∈ b.replacer.LRUlist
  pin0 : (b.pages f).pin_count = 0
  range : 0 ≤ f ∧ f < (b.pool_size : Int)

/-- A disk whose pages are all zero and on which every file has one page allocated. -/
def example_disk : DiskManager Nat :=
  { pages := fun _ => PageImage.zero, fd2pageno := fun _ => 1 }

/-- A one-frame pool after `new_page` on file 0 and `unpin_page` of the new page
(page 1 of file 0) with the dirty hint set: the frame is unpinned, dirty and in
the replacer. -/
def example_unpinned_dirty : BufferPoolManager Nat :=
  ((((init 1 example_disk).new_page 0).2).unpin_page ⟨0, 1⟩ true).2

/-- A one-frame pool after `fetch_page` of page 1 of file 0, a page number the
disk layer has not handed out yet (the next one of file 0 is 1), a write of the
byte 7 through the pinned frame and `unpin_page` with the dirty hint: the frame
carries the id (0,1), is unpinned, dirty and in the replacer. -/
def example_fetched_beyond : BufferPoolManager Nat :=
  (((((init 1 example_disk).fetch_page ⟨0, 1⟩).2).write_data 0 { lsn := 0, body := 7 }).unpin_page
    ⟨0, 1⟩ true).2

/-- A one-frame pool after `new_page` on file 0 (page 1), a write of the byte 7
with page LSN 3 through the pinned frame and `unpin_page` with the dirty hint:
the frame is unpinned, dirty and in the replacer, and its bytes are not those
the disk holds for the page. -/
def example_written : BufferPoolManager Nat :=
  (((((init 1 example_disk).new_page 0).2).write_data 0 { lsn := 3, body := 7 }).unpin_page
    ⟨0, 1⟩ true).2

/-- The state `example_unpinned_dirty` followed by `delete_page` of the page. -/
def example_deleted : BufferPoolManager Nat :=
  (example_unpinned_dirty.delete_page ⟨0, 1⟩).2

end BufferPoolManager

/-! ## Record heap pages, log records, log manager -/

/-- Record identifier: page number and slot number. -/
structure Rid where
  page_no : Int
  slot_no : Int
deriving DecidableEq, Repr

/-- Page number meaning "no page" in the free-page list. -/
def RM_NO_PAGE : Int := -1

/-- Page number of the file header page. -/
def RM_FILE_HDR_PAGE : Int := 0

/-- The body of a heap page: page header (`next_free_page_no`, `num_records`),
slot bitmap and slot array. Slots hold `record_size` bytes each. The page holds
the slots `0 .. num_records_per_page - 1`; `bitmap` and `slots` are total maps
only for convenience. For a slot number outside that range the pointer
`get_slot` computes (`slots + slot_no * record_size`) and the bit `Bitmap::set`
addresses lie in the bitmap, in the page header or outside the page, which this
model does not follow: what it says about such a slot number is not what the
code does, and statements about writes are made for slot numbers in range. -/
structure RmPage where
  next_free_page_no : Int
  num_records : Int
  bitmap : Int → Bool
  slots : Int → List Nat

/-- The in-memory file header `file_hdr_` of a heap file. -/
structure RmFileHdr where
  record_size : Nat
  num_pages : Int
  num_records_per_page : Nat
  first_free_page_no : Int
  bitmap_size : Nat
  lsn : Int
deriving DecidableEq, Repr

/-- Modelled from the spec: `Bitmap::init` (the bitmap helper is not among the
sources) clears every bit. -/
def Bitmap.init (_bm : Int → Bool) : Int → Bool := fun _ => false

/-- Modelled from the spec: `Bitmap::set` sets the bit at `pos`. -/
def Bitmap.set (bm : Int → Bool) (pos : Int) : Int → Bool := Function.update bm pos true

/-- Modelled from the spec: `Bitmap::reset` clears the bit at `pos`. -/
def Bitmap.reset (bm : Int → Bool) (pos : Int) : Int → Bool := Function.update bm pos false

/-- Modelled from the spec: `Bitmap::first_bit(bit, bm, max_n)` is the first
position below `max_n` whose bit equals `bit` ("find first clear bitmap bit"),
and `max_n` when there is none. -/
def Bitmap.first_bit (bit : Bool) (bm : Int → Bool) (max_n : Nat) : Int :=
  match (List.range max_n).find? (fun i => bm (Int.ofNat i) == bit) with
  | some i => Int.ofNat i
  | none => Int.ofNat max_n

/-- Log record types (`LogRecordType`). -/
inductive LogRecordType
  | UPDATE | INSERT | DELETE | BEGIN | COMMIT | ABORT | END
  | PAGE_SET | UNDO_NEXT | INDEX_PAGE | CREATE_INDEX | DROP_INDEX
deriving DecidableEq, Repr

/-- What a page image of a `PageLogRecord` holds: a heap page, or the file
header for page 0. -/
inductive PageBytes
  | heap (page : PageImage RmPage)
  | hdr (file_hdr : RmFileHdr)

/-- Type-specific payload of a log record. -/
inductive LogPayload
  | header_only
  | tuple (record : List Nat) (rid : Rid) (tab_name : String)
  | update (old_record new_record : List Nat) (rid : Rid) (tab_name : String)
  | page (tab_name : String) (page_no : Int) (old_page new_page : PageBytes)
  | undo_next (undo_next : Int)
  | index_pages (idx_name : String)
  | index_ddl (tab_name : String) (col_names : List String)

/-- Size of the common record header. -/
def LOG_HEADER_SIZE : Nat := 20

/-- A log record: the five header fields of `LogRecord` and the payload. -/
structure LogRecord where
  log_type_ : LogRecordType
  lsn_ : Int
  log_tot_len_ : Nat
  log_tid_ : Int
  prev_lsn_ : Int
  payload : LogPayload

/-- `BeginLogRecord(txn_id, prev_lsn)`. -/
def BeginLogRecord (txn_id prev_lsn : Int) : LogRecord :=
  { log_type_ := .BEGIN, lsn_ := INVALID_LSN, log_tot_len_ := LOG_HEADER_SIZE,
    log_tid_ := txn_id, prev_lsn_ := prev_lsn, payload := .header_only }

/-- `CommitLogRecord(txn_id, prev_lsn)`. -/
def CommitLogRecord (txn_id prev_lsn : Int) : LogRecord :=
  { log_type_ := .COMMIT, lsn_ := INVALID_LSN, log_tot_len_ := LOG_HEADER_SIZE,
    log_tid_ := txn_id, prev_lsn_ := prev_lsn, payload := .header_only }

/-- `AbortLogRecord(txn_id, prev_lsn)`. -/
def AbortLogRecord (txn_id prev_lsn : Int) : LogRecord :=
  { log_type_ := .ABORT, lsn_ := INVALID_LSN, log_tot_len_ := LOG_HEADER_SIZE,
    log_tid_ := txn_id, prev_lsn_ := prev_lsn, payload := .header_only }

/-- `EndLogRecord(txn_id, prev_lsn)`. -/
def EndLogRecord (txn_id prev_lsn : Int) : LogRecord :=
  { log_type_ := .END, lsn_ := INVALID_LSN, log_tot_len_ := LOG_HEADER_SIZE,
    log_tid_ := txn_id, prev_lsn_ := prev_lsn, payload := .header_only }

/-- `UndoNextLogRecord(txn_id, prev_lsn, undo_next)`. -/
def UndoNextLogRecord (txn_id prev_lsn undo_next : Int) : LogRecord :=
  { log_type_ := .UNDO_NEXT, lsn_ := INVALID_LSN, log_tot_len_ := LOG_HEADER_SIZE + 4,
    log_tid_ := txn_id, prev_lsn_ := prev_lsn, payload := .undo_next undo_next }

/-- `PageLogRecord(txn_id, prev_lsn, tab_name, page_no, old_data)` followed by
`set_new_page(new_data)`; `page_size` is the constant `PAGE_SIZE`. -/
def PageLogRecord (page_size : Nat) (txn_id prev_lsn : Int) (tab_name : String)
    (page_no : Int) (old_page new_page : PageBytes) : LogRecord :=
  { log_type_ := .PAGE_SET, lsn_ := INVALID_LSN,
    log_tot_len_ := LOG_HEADER_SIZE + 8 + tab_name.length + 8 + 2 * page_size,
    log_tid_ := txn_id, prev_lsn_ := prev_lsn,
    payload := .page tab_name page_no old_page new_page }

/-- `IndexPagesLogRecord(txn_id, prev_lsn, idx_name)`. -/
def IndexPagesLogRecord (txn_id prev_lsn : Int) (idx_name : String) : LogRecord :=
  { log_type_ := .INDEX_PAGE, lsn_ := INVALID_LSN,
    log_tot_len_ := LOG_HEADER_SIZE + 8 + idx_name.length + 8,
    log_tid_ := txn_id, prev_lsn_ := prev_lsn, payload := .index_pages idx_name }

/-- The amount the constructors of `CreateIndexLogRecord` / `DropIndexLogRecord`
add to `log_tot_len_`:
`(col_names.size() + 2) * sizeof(size_t) + col_names.size()` plus the sizes of
the column names. -/
def index_ddl_len (col_names : List String) : Nat :=
  (col_names.length + 2) * 8 + col_names.length + (col_names.map String.length).sum

/-- `CreateIndexLogRecord(txn_id, prev_lsn, tab_name, col_names)`. -/
def CreateIndexLogRecord (txn_id prev_lsn : Int) (tab_name : String)
    (col_names : List String) : LogRecord :=
  { log_type_ := .CREATE_INDEX, lsn_ := INVALID_LSN,
    log_tot_len_ := LOG_HEADER_SIZE + index_ddl_len col_names,
    log_tid_ := txn_id, prev_lsn_ := prev_lsn, payload := .index_ddl tab_name col_names }

/-- `DropIndexLogRecord(txn_id, prev_lsn, tab_name, col_names)`. -/
def DropIndexLogRecord (txn_id prev_lsn : Int) (tab_name : String)
    (col_names : List String) : LogRecord :=
  { log_type_ := .DROP_INDEX, lsn_ := INVALID_LSN,
    log_tot_len_ := LOG_HEADER_SIZE + index_ddl_len col_names,
    log_tid_ := txn_id, prev_lsn_ := prev_lsn, payload := .index_ddl tab_name col_names }

/-- The log manager: the LSN counter `global_lsn_`, the records serialised in
`log_buffer_` (oldest first) with the buffer offset, `persist_lsn_`, and the
records already written to the log file. `LOG_BUFFER_SIZE` and `PAGE_SIZE` are
the configuration constants. -/
structure LogManager where
  global_lsn_ : Int
  buffer_ : List LogRecord
  offset_ : Nat
  persist_lsn_ : Int
  log_file : List LogRecord
  LOG_BUFFER_SIZE : Nat
  PAGE_SIZE : Nat

/-- `LogBuffer::is_full(append_size)`. -/
def LogManager.is_full (lm : LogManager) (append_size : Nat) : Bool :=
  if lm.offset_ + append_size > lm.LOG_BUFFER_SIZE then true else false

/-- Modelled from the spec: `LogManager::flush_log_to_disk` (its body is not among
the sources) "write[s] buffer contents to the log file ..., then reset[s] the
buffer offset"; `persist_lsn_` becomes the LSN of the last record written. -/
def LogManager.flush_log_to_disk (lm : LogManager) : LogManager :=
  { lm with log_file := lm.log_file ++ lm.buffer_, buffer_ := [], offset_ := 0,
            persist_lsn_ := match lm.buffer_.getLast? with
                            | some r => r.lsn_
                            | none => lm.persist_lsn_ }

/-- Modelled from the spec: `LogManager::add_log_to_buffer` (its body is not among
the sources): "if the buffer would overflow, flush first"; the record gets the
next LSN from the monotonic counter, "record's own lsn field is set to the
assigned LSN", and it is serialised at the end of the buffer. -/
def LogManager.add_log_to_buffer (lm : LogManager) (log_record : LogRecord) :
    Int × LogManager :=
  let lm1 := if lm.is_full log_record.log_tot_len_ then lm.flush_log_to_disk else lm
  let lsn := lm1.global_lsn_
  (lsn, { lm1 with global_lsn_ := lsn + 1,
                   buffer_ := lm1.buffer_ ++ [{ log_record with lsn_ := lsn }],
                   offset_ := lm1.offset_ + log_record.log_tot_len_ })

/-- Every record the log manager has been given, oldest first: the log file
followed by the buffer. -/
def LogManager.records (lm : LogManager) : List LogRecord := lm.log_file ++ lm.buffer_

/-! ## Transactions and the lock manager -/

/-- `TransactionState`. -/
inductive TransactionState
  | DEFAULT | GROWING | SHRINKING | COMMITTED | ABORTED
deriving DecidableEq, Repr

/-- `IsolationLevel`. -/
inductive IsolationLevel
  | READ_UNCOMMITTED | REPEATABLE_READ | READ_COMMITTED | SERIALIZABLE
deriving DecidableEq, Repr

/-- `WType`: the kind of a write-set entry. -/
inductive WType
  | INSERT_TUPLE | DELETE_TUPLE | UPDATE_TUPLE | CREATE_INDEX | DROP_INDEX
deriving DecidableEq, Repr

/-- `WriteRecord`: an entry of a transaction's write set. Tuple entries use
`rid_` (and `record_` for update and delete), index entries use `col_names_`. -/
structure WriteRecord where
  wtype_ : WType
  tab_name_ : String
  rid_ : Rid
  record_ : List Nat
  col_names_ : List String
  lsn_ : Int
deriving DecidableEq, Repr

/-- `LockDataType`. -/
inductive LockDataType
  | TABLE | RECORD
deriving DecidableEq, Repr

/-- `LockDataId`: what a lock is on. -/
structure LockDataId where
  fd_ : Int
  rid_ : Rid
  type_ : LockDataType
deriving DecidableEq, Repr

/-- `LockDataId(fd, LockDataType::TABLE)`. -/
def LockDataId.table (fd : Int) : LockDataId := ⟨fd, ⟨-1, -1⟩, .TABLE⟩

/-- `GroupLockMode`. -/
inductive GroupLockMode
  | NON_LOCK | IS | IX | S | X | SIX
deriving DecidableEq, Repr

/-- `LockStatus`: an entry of the global lock table. -/
structure LockStatus where
  shared_num : Int
  mode : GroupLockMode
deriving DecidableEq, Repr

/-- `LockManager`: the global lock table. -/
structure LockManager where
  lock_table_ : LockDataId → Option LockStatus

/-- `Transaction`. `lock_set_` is the unordered set of held locks, kept as a
duplicate-free list; `idx_pending_` names the indexes with modified pages whose
log record is still to be written. -/
structure Transaction where
  txn_id_ : Int
  state_ : TransactionState
  isolation_level_ : IsolationLevel
  prev_lsn_ : Int
  write_set_ : List WriteRecord
  lock_set_ : List LockDataId
  idx_pending_ : List String

/-- `lock_set_->insert(id)`. -/
def Transaction.lock_set_insert (txn : Transaction) (id : LockDataId) : Transaction :=
  if id ∈ txn.lock_set_ then txn else { txn with lock_set_ := txn.lock_set_ ++ [id] }

/-- `Transaction::append_write_record`. -/
def Transaction.append_write_record (txn : Transaction) (w : WriteRecord) : Transaction :=
  { txn with write_set_ := txn.write_set_ ++ [w] }

/-- Modelled from the spec: `Transaction::add_idx_log` / `add_idx_log(txn, log_manager)`
(not among the sources) "emit[s] any deferred index-maintenance log": one
`IndexPages` record per index with modified pages, each chained to the
transaction's previous record; nothing is left pending afterwards. -/
def Transaction.add_idx_log (txn : Transaction) (log_mgr : LogManager) :
    Transaction × LogManager :=
  let r := txn.idx_pending_.foldl
    (fun (acc : Int × LogManager) idx_name =>
      acc.2.add_log_to_buffer (IndexPagesLogRecord txn.txn_id_ acc.1 idx_name))
    (txn.prev_lsn_, log_mgr)
  ({ txn with prev_lsn_ := r.1, idx_pending_ := [] }, r.2)

namespace LockManager

/-- `LockManager::lock_shared_on_record`: row locks always succeed and record nothing. -/
def lock_shared_on_record (_lm : LockManager) (_txn : Transaction) (_rid : Rid) (_fd : Int) :
    Bool := true

/-- `LockManager::lock_exclusive_on_record`: row locks always succeed and record nothing. -/
def lock_exclusive_on_record (_lm : LockManager) (_txn : Transaction) (_rid : Rid)
    (_fd : Int) : Bool := true

/-- `LockManager::lock_shared_on_table`. The first component is `none` when
`TransactionAbortException` is thrown. -/
def lock_shared_on_table (lm : LockManager) (txn : Transaction) (fd : Int) :
    Option Bool × Transaction × LockManager :=
  if txn.isolation_level_ = .READ_UNCOMMITTED then
    (none, { txn with state_ := .ABORTED }, lm)
  else
    let txn1 := { txn with state_ := .GROWING }
    let lock_data_id := LockDataId.table fd
    if lock_data_id ∈ txn1.lock_set_ then (some true, txn1, lm)
    else
      match lm.lock_table_ lock_data_id with
      | some st =>
        if st.mode = .S then
          (some true, txn1.lock_set_insert lock_data_id,
           { lock_table_ := Function.update lm.lock_table_ lock_data_id
               (some { st with shared_num := st.shared_num + 1 }) })
        else (some false, txn1, lm)
      | none =>
        (some true, txn1.lock_set_insert lock_data_id,
         { lock_table_ := Function.update lm.lock_table_ lock_data_id (some ⟨1, .S⟩) })

/-- `LockManager::lock_exclusive_on_table`. The first component is `none` when
`TransactionAbortException` is thrown. A missing entry read through
`lock_table_[id]` is the default `LockStatus`. -/
def lock_exclusive_on_table (lm : LockManager) (txn : Transaction) (fd : Int) :
    Option Bool × Transaction × LockManager :=
  if txn.isolation_level_ = .READ_UNCOMMITTED then
    (none, { txn with state_ := .ABORTED }, lm)
  else
    let txn1 := { txn with state_ := .GROWING }
    let lock_data_id := LockDataId.table fd
    if lock_data_id ∈ txn1.lock_set_ then
      let status : LockStatus := (lm.lock_table_ lock_data_id).getD ⟨0, .NON_LOCK⟩
      let lm1 : LockManager :=
        { lock_table_ := Function.update lm.lock_table_ lock_data_id (some status) }
      if status.mode = .S then
        if status.shared_num > 1 then (some false, txn1, lm1)
        else
          (some true, txn1,
           { lock_table_ := Function.update lm.lock_table_ lock_data_id
               (some { status with mode := .X }) })
      else (some true, txn1, lm1)
    else
      match lm.lock_table_ lock_data_id with
      | some _ => (some false, txn1, lm)
      | none =>
        (some true, txn1.lock_set_insert lock_data_id,
         { lock_table_ := Function.update lm.lock_table_ lock_data_id (some ⟨0, .X⟩) })

/-- `LockManager::unlock`. -/
def unlock (lm : LockManager) (txn : Transaction) (lock_data_id : LockDataId) :
    Bool × Transaction × LockManager :=
  let txn1 := { txn with state_ := .SHRINKING }
  match lm.lock_table_ lock_data_id with
  | none => (false, txn1, lm)
  | some st =>
    if st.mode = .S then
      let st1 := { st with shared_num := st.shared_num - 1 }
      if st1.shared_num ≤ 0 then
        (true, txn1, { lock_table_ := Function.update lm.lock_table_ lock_data_id none })
      else
        (true, txn1, { lock_table_ := Function.update lm.lock_table_ lock_data_id (some st1) })
    else (true, txn1, { lock_table_ := Function.update lm.lock_table_ lock_data_id none })

end LockManager

/-- `Context`: what an operation running inside a transaction is handed. -/
structure Context where
  lock_mgr_ : LockManager
  log_mgr_ : LogManager
  txn_ : Transaction

/-! ## Record heap: `RmFileHandle`

The heap operations reach pages through `fetch_page` / `new_page` and hand them
back with `unpin_page(…, true)`. Here the buffer pool is taken as a transparent
cache with a frame to spare: `pages` gives the current bytes of each page of the
file, fetching a page reads it and unpinning it dirty stores the changed bytes. -/

/-- `RmFileHandle`: file descriptor, file name (`disk_manager_->get_file_name(fd_)`),
the in-memory file header and the pages of the file. -/
structure RmFileHandle where
  fd_ : Int
  file_name : String
  file_hdr_ : RmFileHdr
  pages : Int → PageImage RmPage

namespace RmFileHandle

/-- `RmFileHandle::get_record`: the `record_size` bytes of the slot. The row
lock it takes first always succeeds. -/
def get_record (fh : RmFileHandle) (rid : Rid) (context : Option Context) :
    Option (List Nat) :=
  if (match context with
      | some c => !(c.lock_mgr_.lock_shared_on_record c.txn_ rid fh.fd_)
      | none => false) then none
  else
    some (((fh.pages rid.page_no).body.slots rid.slot_no).take fh.file_hdr_.record_size)

/-- `RmFileHandle::create_new_page_handle`: the number of the new page and the
file afterwards. `new_page` hands out the next page number of the file, which is
`num_pages`; the page comes zeroed with `INVALID_LSN`, then the page header and
bitmap are initialised and the page is put at the head of the free list. -/
def create_new_page_handle (fh : RmFileHandle) : Int × RmFileHandle :=
  let page_no := fh.file_hdr_.num_pages
  let page : PageImage RmPage :=
    { lsn := INVALID_LSN,
      body := { num_records := 0, next_free_page_no := RM_NO_PAGE,
                bitmap := Bitmap.init (fun _ => false),
                slots := fun _ => List.replicate fh.file_hdr_.record_size 0 } }
  (page_no,
   { fh with pages := Function.update fh.pages page_no page,
             file_hdr_ := { fh.file_hdr_ with first_free_page_no := page_no,
                                              num_pages := fh.file_hdr_.num_pages + 1 } })

/-- `RmFileHandle::create_page_handle`: the first free page, or a new page when
there is none. -/
def create_page_handle (fh : RmFileHandle) : Int × RmFileHandle :=
  if fh.file_hdr_.first_free_page_no = RM_NO_PAGE then fh.create_new_page_handle
  else (fh.file_hdr_.first_free_page_no, fh)

/-- The log records written at the end of `insert_record` and `delete_record`
when a context is given: a page record for the heap page (stamping the page with
its LSN) and a page record for the file header chained to it. Returns the page
LSN, the header LSN and the log manager. -/
def log_page_and_hdr (c : Context) (file_name : String) (page_no : Int)
    (old_page : PageImage RmPage) (new_body : RmPage) (old_hdr new_hdr : RmFileHdr) :
    Int × Int × LogManager :=
  let page_log := PageLogRecord c.log_mgr_.PAGE_SIZE c.txn_.txn_id_ c.txn_.prev_lsn_ file_name
    page_no (.heap old_page) (.heap { lsn := old_page.lsn, body := new_body })
  let r1 := c.log_mgr_.add_log_to_buffer page_log
  let hdr_page_log := PageLogRecord c.log_mgr_.PAGE_SIZE c.txn_.txn_id_ r1.1 file_name
    RM_FILE_HDR_PAGE (.hdr old_hdr) (.hdr new_hdr)
  let r2 := r1.2.add_log_to_buffer hdr_page_log
  (r1.1, r2.1, r2.2)

/-- `RmFileHandle::insert_record(buf, context)`: the rid of the new record, the
file afterwards and the context afterwards; `none` when the row lock is refused. -/
def insert_record (fh : RmFileHandle) (buf : List Nat) (context : Option Context) :
    Option (Rid × RmFileHandle × Option Context) :=
  let (page_no, fh1) := fh.create_page_handle
  let old_page := fh1.pages page_no
  let old_hdr := fh1.file_hdr_
  let pos := Bitmap.first_bit false old_page.body.bitmap fh1.file_hdr_.num_records_per_page
  let rid : Rid := ⟨page_no, pos⟩
  if (match context with
      | some c => !(c.lock_mgr_.lock_exclusive_on_record c.txn_ rid fh.fd_)
      | none => false) then none
  else
    let body1 : RmPage :=
      { old_page.body with
          slots := Function.update old_page.body.slots pos (buf.take fh1.file_hdr_.record_size),
          num_records := old_page.body.num_records + 1 }
    let hdr1 : RmFileHdr :=
      if body1.num_records ≥ (fh1.file_hdr_.num_records_per_page : Int)
      then { old_hdr with first_free_page_no := body1.next_free_page_no } else old_hdr
    let body2 : RmPage := { body1 with bitmap := Bitmap.set body1.bitmap pos }
    match context with
    | none =>
      some (rid,
        { fh1 with file_hdr_ := hdr1,
                   pages := Function.update fh1.pages page_no { old_page with body := body2 } },
        none)
    | some c =>
      let r := log_page_and_hdr c fh.file_name page_no old_page body2 old_hdr hdr1
      some (rid,
        { fh1 with file_hdr_ := { hdr1 with lsn := r.2.1 },
                   pages := Function.update fh1.pages page_no { lsn := r.1, body := body2 } },
        some { c with log_mgr_ := r.2.2, txn_ := { c.txn_ with prev_lsn_ := r.2.1 } })

/-- `RmFileHandle::insert_record(rid, buf)`, the variant "used for rollback":
the bytes go into the given slot and its bit is set. -/
def insert_record_at (fh : RmFileHandle) (rid : Rid) (buf : List Nat) : RmFileHandle :=
  let page := fh.pages rid.page_no
  let body1 : RmPage :=
    { page.body with
        slots := Function.update page.body.slots rid.slot_no (buf.take fh.file_hdr_.record_size),
        bitmap := Bitmap.set page.body.bitmap rid.slot_no }
  { fh with pages := Function.update fh.pages rid.page_no { page with body := body1 } }

/-- `RmFileHandle::release_page_handle` on the page `page_no` with body `body`:
the page goes to the head of the free list. -/
def release_page_handle (hdr : RmFileHdr) (page_no : Int) (body : RmPage) :
    RmFileHdr × RmPage :=
  ({ hdr with first_free_page_no := page_no },
   { body with next_free_page_no := hdr.first_free_page_no })

/-- `RmFileHandle::delete_record(rid, context)`: the file and the context
afterwards; `none` when the row lock is refused. -/
def delete_record (fh : RmFileHandle) (rid : Rid) (context : Option Context) :
    Option (RmFileHandle × Option Context) :=
  if (match context with
      | some c => !(c.lock_mgr_.lock_exclusive_on_record c.txn_ rid fh.fd_)
      | none => false) then none
  else
    let old_page := fh.pages rid.page_no
    let old_hdr := fh.file_hdr_
    let body1 : RmPage :=
      { old_page.body with
          slots := Function.update old_page.body.slots rid.slot_no
                     (List.replicate fh.file_hdr_.record_size 0),
          bitmap := Bitmap.reset old_page.body.bitmap rid.slot_no }
    let rel : RmFileHdr × RmPage :=
      if body1.num_records = (fh.file_hdr_.num_records_per_page : Int)
      then release_page_handle old_hdr rid.page_no body1 else (old_hdr, body1)
    let body2 : RmPage := { rel.2 with num_records := rel.2.num_records - 1 }
    match context with
    | none =>
      some ({ fh with file_hdr_ := rel.1,
                      pages := Function.update fh.pages rid.page_no
                                 { old_page with body := body2 } }, none)
    | some c =>
      let r := log_page_and_hdr c fh.file_name rid.page_no old_page body2 old_hdr rel.1
      some ({ fh with file_hdr_ := { rel.1 with lsn := r.2.1 },
                      pages := Function.update fh.pages rid.page_no
                                 { lsn := r.1, body := body2 } },
            some { c with log_mgr_ := r.2.2, txn_ := { c.txn_ with prev_lsn_ := r.2.1 } })

/-- `RmFileHandle::update_record(rid, buf, context)`: the file and the context
afterwards; `none` when the row lock is refused. -/
def update_record (fh : RmFileHandle) (rid : Rid) (buf : List Nat) (context : Option Context) :
    Option (RmFileHandle × Option Context) :=
  if (match context with
      | some c => !(c.lock_mgr_.lock_exclusive_on_record c.txn_ rid fh.fd_)
      | none => false) then none
  else
    let old_page := fh.pages rid.page_no
    let body1 : RmPage :=
      { old_page.body with
          slots := Function.update old_page.body.slots rid.slot_no
                     (buf.take fh.file_hdr_.record_size) }
    match context with
    | none =>
      some ({ fh with pages := Function.update fh.pages rid.page_no
                                 { old_page with body := body1 } }, none)
    | some c =>
      let page_log := PageLogRecord c.log_mgr_.PAGE_SIZE c.txn_.txn_id_ c.txn_.prev_lsn_
        fh.file_name rid.page_no (.heap old_page) (.heap { old_page with body := body1 })
      let r := c.log_mgr_.add_log_to_buffer page_log
      some ({ fh with pages := Function.update fh.pages rid.page_no
                                 { lsn := r.1, body := body1 } },
            some { c with log_mgr_ := r.2, txn_ := { c.txn_ with prev_lsn_ := r.1 } })

end RmFileHandle

/-! ## Catalog, indexes and the rollback primitives of `SmManager` -/

/-- `ColType`. -/
inductive ColType
  | TYPE_INT | TYPE_FLOAT | TYPE_STRING | TYPE_BIGINT | TYPE_DATETIME
deriving DecidableEq, Repr

/-- `ColMeta`: a column of a table. -/
structure ColMeta where
  tab_name : String
  name : String
  type : ColType
  len : Nat
  offset : Nat
  index : Bool
deriving DecidableEq, Repr

/-- `IndexMeta`: an index of a table. -/
structure IndexMeta where
  tab_name : String
  col_tot_len : Nat
  col_num : Nat
  cols : List ColMeta
deriving DecidableEq, Repr

/-- `TabMeta`: a table of the catalog. -/
structure TabMeta where
  name : String
  cols : List ColMeta
  indexes : List IndexMeta
deriving DecidableEq, Repr

namespace TabMeta

/-- Modelled from the spec: `TabMeta::is_index` (the catalog header is not among
the sources): there is an index whose column-name list is `col_names`. -/
def is_index (tab : TabMeta) (col_names : List String) : Bool :=
  tab.indexes.any (fun ix => ix.cols.map (fun c => c.name) == col_names)

/-- Modelled from the spec: `TabMeta::get_col`: the column of that name; `none`
stands for `ColumnNotFoundError`. -/
def get_col (tab : TabMeta) (col_name : String) : Option ColMeta :=
  tab.cols.find? (fun c => c.name == col_name)

/-- Modelled from the spec: the table without its first index on `col_names`
(`get_index_meta` followed by `indexes.erase`). -/
def erase_index (tab : TabMeta) (col_names : List String) : TabMeta :=
  match tab.indexes.find? (fun ix => ix.cols.map (fun c => c.name) == col_names) with
  | some ix => { tab with indexes := tab.indexes.erase ix }
  | none => tab

/-- The statement `tab.get_col(name)->index = v`. -/
def set_col_index (tab : TabMeta) (col_name : String) (v : Bool) : TabMeta :=
  match tab.cols.find? (fun c => c.name == col_name) with
  | some col =>
    { tab with cols := tab.cols.map (fun c => if c = col then { c with index := v } else c) }
  | none => tab

/-- The statement `if (col_names.size() == 1) tab.get_col(col_names[0])->index = v`. -/
def set_single_col_index (tab : TabMeta) (col_names : List String) (v : Bool) : TabMeta :=
  match col_names with
  | [c] => tab.set_col_index c v
  | _ => tab

end TabMeta

/-- Modelled from the spec: `IxManager::get_index_name`, "a deterministic
function of (table, column-name-list)": `<tbl>_<col1>_<col2>…`. -/
def get_index_name (tab_name : String) (cols : List ColMeta) : String :=
  cols.foldl (fun acc c => acc ++ "_" ++ c.name) tab_name

/-- Modelled from the spec: an open index (`IxIndexHandle`; the B+-tree is not
among the sources), "a unique ordered mapping from ... keys ... to RIDs", kept as
its list of entries. -/
structure IxIndexHandle where
  entries : List (List Nat × Rid)
deriving DecidableEq, Repr

/-- Record that pages of the index `idx_name` were modified inside the
transaction of the context, to be logged by the next `add_idx_log`. -/
def Context.touch_index (c : Context) (idx_name : String) : Context :=
  if idx_name ∈ c.txn_.idx_pending_ then c
  else { c with txn_ := { c.txn_ with idx_pending_ := c.txn_.idx_pending_ ++ [idx_name] } }

namespace IxIndexHandle

/-- Modelled from the spec: `insert_entry(key, rid)` "returns INVALID_PAGE when
the key already exists ..., else the leaf page number where it landed" and
"leaves the tree unchanged" in the first case. The result `false` stands for
`INVALID_PAGE`, `true` for a leaf page number. -/
def insert_entry (ih : IxIndexHandle) (idx_name : String) (key : List Nat) (rid : Rid)
    (context : Option Context) : Bool × IxIndexHandle × Option Context :=
  if ih.entries.any (fun e => e.1 == key) then (false, ih, context)
  else (true, { entries := ih.entries ++ [(key, rid)] },
        context.map (fun c => c.touch_index idx_name))

/-- Modelled from the spec: `delete_entry(key)` is "true if removed, false if absent". -/
def delete_entry (ih : IxIndexHandle) (idx_name : String) (key : List Nat)
    (context : Option Context) : Bool × IxIndexHandle × Option Context :=
  if ih.entries.any (fun e => e.1 == key) then
    (true, { entries := ih.entries.filter (fun e => e.1 != key) },
     context.map (fun c => c.touch_index idx_name))
  else (false, ih, context)

end IxIndexHandle

/-- The key of a record for an index: the bytes of the indexed columns, copied
one after the other into a zeroed buffer of `col_tot_len` bytes. -/
def make_key (index : IndexMeta) (data : List Nat) : List Nat :=
  ((index.cols.map (fun (col : ColMeta) => (data.drop col.offset).take col.len)).flatten
    ++ List.replicate index.col_tot_len 0).take index.col_tot_len

/-- `std::strcmp(a, b) == 0` on two key buffers: equal up to the first zero byte
(the end of the buffer counts as one). -/
def strcmp_eq (a b : List Nat) : Bool :=
  a.takeWhile (fun x => x != 0) == b.takeWhile (fun x => x != 0)

/-- Modelled from the spec: the RIDs a sequential scan (`RmScan`, not among the
sources) visits: "(page_no ∈ [1, num_pages), slot_no ∈ set_bits(bitmap))" in
page and slot order. -/
def RmScan (fh : RmFileHandle) : List Rid :=
  ((List.range (fh.file_hdr_.num_pages.toNat - 1)).map (fun i => Int.ofNat (i + 1))).flatMap
    (fun page_no =>
      ((List.range fh.file_hdr_.num_records_per_page).filter
        (fun slot => (fh.pages page_no).body.bitmap (Int.ofNat slot))).map
        (fun slot => (⟨page_no, Int.ofNat slot⟩ : Rid)))

/-- `SmManager`: the catalog `db_.tabs_`, the open heap files `fhs_` and the
open indexes `ihs_`, each keyed by name. -/
structure SmManager where
  tabs_ : String → Option TabMeta
  fhs_ : String → Option RmFileHandle
  ihs_ : String → Option IxIndexHandle

namespace SmManager

/-- The statement `fhs_[tab_name] = fh` (the handle is updated in place). -/
def set_fh (sm : SmManager) (tab_name : String) (fh : RmFileHandle) : SmManager :=
  { sm with fhs_ := Function.update sm.fhs_ tab_name (some fh) }

/-- The loop of `rollback_insert` over the indexes of the table: the entry of
the record is deleted from each. `none` when `ihs_.at` throws. -/
def delete_entries (tab_name : String) (data : List Nat) :
    List IndexMeta → SmManager → Option Context → Option (SmManager × Option Context)
  | [], sm, context => some (sm, context)
  | index :: rest, sm, context =>
    let index_name := get_index_name tab_name index.cols
    match sm.ihs_ index_name with
    | none => none
    | some ih =>
      let r := ih.delete_entry index_name (make_key index data) context
      delete_entries tab_name data rest
        { sm with ihs_ := Function.update sm.ihs_ index_name (some r.2.1) } r.2.2

/-- The loop of `rollback_delete` over the indexes of the table: the entry of
the record is inserted into each under `rid`. `none` when `ihs_.at` throws. -/
def insert_entries (tab_name : String) (data : List Nat) (rid : Rid) :
    List IndexMeta → SmManager → Option Context → Option (SmManager × Option Context)
  | [], sm, context => some (sm, context)
  | index :: rest, sm, context =>
    let index_name := get_index_name tab_name index.cols
    match sm.ihs_ index_name with
    | none => none
    | some ih =>
      let r := ih.insert_entry index_name (make_key index data) rid context
      insert_entries tab_name data rid rest
        { sm with ihs_ := Function.update sm.ihs_ index_name (some r.2.1) } r.2.2

/-- The loop of `rollback_update` over the indexes of the table: where the key
of the current record and the key of the old image differ (by `strcmp`), the
entry is moved from the one to the other. `none` when `ihs_.at` throws. -/
def swap_entries (tab_name : String) (cur old_image : List Nat) (rid : Rid) :
    List IndexMeta → SmManager → Option Context → Option (SmManager × Option Context)
  | [], sm, context => some (sm, context)
  | index :: rest, sm, context =>
    let old_key := make_key index cur
    let new_key := make_key index old_image
    if strcmp_eq old_key new_key then swap_entries tab_name cur old_image rid rest sm context
    else
      let index_name := get_index_name tab_name index.cols
      match sm.ihs_ index_name with
      | none => none
      | some ih =>
        let r1 := ih.delete_entry index_name old_key context
        let r2 := r1.2.1.insert_entry index_name new_key rid r1.2.2
        swap_entries tab_name cur old_image rid rest
          { sm with ihs_ := Function.update sm.ihs_ index_name (some r2.2.1) } r2.2.2

/-- The statement `if (context != nullptr) context->txn_->add_idx_log(context->log_mgr_)`. -/
def ctx_add_idx_log (context : Option Context) : Option Context :=
  context.map (fun c =>
    let r := c.txn_.add_idx_log c.log_mgr_
    { c with txn_ := r.1, log_mgr_ := r.2 })

/-- `SmManager::rollback_insert`: undo an insert by deleting the index entries
and the record. `none` when an exception is thrown. -/
def rollback_insert (sm : SmManager) (tab_name : String) (rid : Rid)
    (context : Option Context) : Option (SmManager × Option Context) :=
  match sm.tabs_ tab_name, sm.fhs_ tab_name with
  | some tab, some fh =>
    match fh.get_record rid context with
    | none => none
    | some rec =>
      match delete_entries tab_name rec tab.indexes sm context with
      | none => none
      | some (sm1, context1) =>
        let context2 := ctx_add_idx_log context1
        match sm1.fhs_ tab_name with
        | none => none
        | some fh1 =>
          match fh1.delete_record rid context2 with
          | none => none
          | some (fh2, context3) => some (sm1.set_fh tab_name fh2, context3)
  | _, _ => none

/-- `SmManager::rollback_delete`: undo a delete by inserting the record with
`insert_record(record.data, context)` and inserting its index entries under the
rid that this insert returned. `none` when an exception is thrown. -/
def rollback_delete (sm : SmManager) (tab_name : String) (_rid : Rid) (record : List Nat)
    (context : Option Context) : Option (SmManager × Option Context) :=
  match sm.tabs_ tab_name, sm.fhs_ tab_name with
  | some tab, some fh =>
    match fh.insert_record record context with
    | none => none
    | some (new_rid, fh1, context1) =>
      match insert_entries tab_name record new_rid tab.indexes (sm.set_fh tab_name fh1)
          context1 with
      | none => none
      | some (sm1, context2) => some (sm1, ctx_add_idx_log context2)
  | _, _ => none

/-- `SmManager::rollback_update`: undo an update by moving the index entries
back and writing the old image over the record. `none` when an exception is
thrown. -/
def rollback_update (sm : SmManager) (tab_name : String) (rid : Rid) (record : List Nat)
    (context : Option Context) : Option (SmManager × Option Context) :=
  match sm.tabs_ tab_name, sm.fhs_ tab_name with
  | some tab, some fh =>
    match fh.get_record rid context with
    | none => none
    | some rec =>
      match swap_entries tab_name rec record rid tab.indexes sm context with
      | none => none
      | some (sm1, context1) =>
        let context2 := ctx_add_idx_log context1
        match sm1.fhs_ tab_name with
        | none => none
        | some fh1 =>
          match fh1.update_record rid record context2 with
          | none => none
          | some (fh2, context3) => some (sm1.set_fh tab_name fh2, context3)
  | _, _ => none

/-- The statement `if (context != nullptr && !lock_exclusive_on_table(txn, fd)) throw`:
`none` when an exception is thrown, otherwise the context after the call. -/
def ctx_lock_exclusive_on_table (context : Option Context) (fd : Int) :
    Option (Option Context) :=
  match context with
  | none => some none
  | some c =>
    match c.lock_mgr_.lock_exclusive_on_table c.txn_ fd with
    | (some true, txn1, lm1) => some (some { c with txn_ := txn1, lock_mgr_ := lm1 })
    | _ => none

/-- The columns named by `col_names` (`tab.get_col` for each); `none` when one
of them does not exist. -/
def get_cols (tab : TabMeta) : List String → Option (List ColMeta)
  | [] => some []
  | col_name :: rest =>
    match tab.get_col col_name, get_cols tab rest with
    | some c, some cs => some (c :: cs)
    | _, _ => none

/-- The loop of `create_index` over the records of the table: each record's key
is inserted into the new index (a refused duplicate is ignored). -/
def populate_index (fh : RmFileHandle) (index : IndexMeta) (index_name : String) :
    List Rid → IxIndexHandle → Option Context → Option (IxIndexHandle × Option Context)
  | [], ih, context => some (ih, context)
  | rid :: rest, ih, context =>
    match fh.get_record rid context with
    | none => none
    | some rec =>
      let r := ih.insert_entry index_name (make_key index rec) rid context
      populate_index fh index index_name rest r.2.1 r.2.2

/-- `SmManager::create_index`: the index is created, filled from a scan of the
table and entered into the catalog; with a context, a `CreateIndex` log record is
written and a `CREATE_INDEX` entry is appended to the transaction's write set.
`none` when an exception is thrown. -/
def create_index (sm : SmManager) (tab_name : String) (col_names : List String)
    (context : Option Context) : Option (SmManager × Option Context) :=
  match sm.tabs_ tab_name, sm.fhs_ tab_name with
  | some tab, some fh =>
    match ctx_lock_exclusive_on_table context fh.fd_ with
    | none => none
    | some context1 =>
      if tab.is_index col_names then none
      else
        match get_cols tab col_names with
        | none => none
        | some cols =>
          let len := (cols.map (fun (c : ColMeta) => c.len)).sum
          let idx_meta : IndexMeta :=
            { tab_name := tab_name, col_tot_len := len, col_num := col_names.length, cols := cols }
          let index_name := get_index_name tab_name cols
          match populate_index fh idx_meta index_name (RmScan fh) { entries := [] } context1 with
          | none => none
          | some (ih, context2) =>
            let tab1 : TabMeta := { tab with indexes := tab.indexes ++ [idx_meta] }
            let tab2 : TabMeta := tab1.set_single_col_index col_names true
            let sm1 : SmManager :=
              { sm with tabs_ := Function.update sm.tabs_ tab_name (some tab2),
                        ihs_ := Function.update sm.ihs_ index_name (some ih) }
            match context2 with
            | none => some (sm1, none)
            | some c =>
              let rec_ := CreateIndexLogRecord c.txn_.txn_id_ c.txn_.prev_lsn_ tab_name col_names
              let r := c.log_mgr_.add_log_to_buffer rec_
              let txn1 := { c.txn_ with prev_lsn_ := r.1 }
              let txn2 := txn1.append_write_record
                { wtype_ := .CREATE_INDEX, tab_name_ := tab_name, rid_ := ⟨-1, -1⟩,
                  record_ := [], col_names_ := col_names, lsn_ := r.1 }
              some (sm1, some { c with log_mgr_ := r.2, txn_ := txn2 })
  | _, _ => none

/-- `SmManager::drop_index` (both overloads): the index is closed, destroyed and
taken out of the catalog; with a context, a `DropIndex` log record is written and
a `DROP_INDEX` entry is appended to the transaction's write set. `none` when an
exception is thrown. -/
def drop_index (sm : SmManager) (tab_name : String) (col_names : List String)
    (context : Option Context) : Option (SmManager × Option Context) :=
  match sm.tabs_ tab_name, sm.fhs_ tab_name with
  | some tab, some fh =>
    match get_cols tab col_names with
    | none => none
    | some cols =>
      match ctx_lock_exclusive_on_table context fh.fd_ with
      | none => none
      | some context1 =>
        let col_names1 := cols.map (fun (c : ColMeta) => c.name)
        if !(tab.is_index col_names1) then none
        else
          let index_name := get_index_name tab_name cols
          match sm.ihs_ index_name with
          | none => none
          | some _ =>
            let tab1 := tab.erase_index col_names1
            let tab2 : TabMeta := tab1.set_single_col_index col_names1 false
            let sm1 : SmManager :=
              { sm with tabs_ := Function.update sm.tabs_ tab_name (some tab2),
                        ihs_ := Function.update sm.ihs_ index_name none }
            match context1 with
            | none => some (sm1, none)
            | some c =>
              let rec_ := DropIndexLogRecord c.txn_.txn_id_ c.txn_.prev_lsn_ tab_name col_names1
              let r := c.log_mgr_.add_log_to_buffer rec_
              let txn1 := { c.txn_ with prev_lsn_ := r.1 }
              let txn2 := txn1.append_write_record
                { wtype_ := .DROP_INDEX, tab_name_ := tab_name, rid_ := ⟨-1, -1⟩,
                  record_ := [], col_names_ := col_names1, lsn_ := r.1 }
              some (sm1, some { c with log_mgr_ := r.2, txn_ := txn2 })
  | _, _ => none

/-- `SmManager::rollback_create_index`: calls `drop_index` with the context. -/
def rollback_create_index (sm : SmManager) (tab_name : String) (col_names : List String)
    (context : Option Context) : Option (SmManager × Option Context) :=
  sm.drop_index tab_name col_names context

/-- `SmManager::rollback_drop_index`: calls `create_index` with the context. -/
def rollback_drop_index (sm : SmManager) (tab_name : String) (col_names : List String)
    (context : Option Context) : Option (SmManager × Option Context) :=
  sm.create_index tab_name col_names context

end SmManager

/-! ## Transaction manager -/

/-- The result of running code that may throw or, in this model, exhaust the
iteration budget given to a loop. -/
inductive Outcome (σ : Type)
  | done (s : σ)
  | threw
  | out_of_fuel

/-- The search loop of `std::lower_bound` over the positions `first ..
first + count` of `l`: binary search for the first position whose element is not
less than `val`. -/
def lower_bound_loop (l : List Int) (val : Int) (first count : Nat) : Nat :=
  if h : count = 0 then first
  else
    let step := count / 2
    if l.getD (first + step) 0 < val then
      lower_bound_loop l val (first + step + 1) (count - (step + 1))
    else lower_bound_loop l val first step
termination_by count
decreasing_by
  all_goals simp_wf
  all_goals omega

/-- `std::lower_bound(lsns.begin(), lsns.end(), val) - lsns.begin()`. -/
def lower_bound (l : List Int) (val : Int) : Nat := lower_bound_loop l val 0 l.length

/-- The whole system a transaction acts on: catalog and files, lock manager, log manager. -/
structure Database where
  sm_manager_ : SmManager
  lock_manager_ : LockManager
  log_manager_ : LogManager

namespace TransactionManager

/-- `add_undo_log(txn, log_manager, undo_next)`. -/
def add_undo_log (txn : Transaction) (log_manager : LogManager) (undo_next : Int) :
    Transaction × LogManager :=
  let undo_rec := UndoNextLogRecord txn.txn_id_ txn.prev_lsn_ undo_next
  let r := log_manager.add_log_to_buffer undo_rec
  ({ txn with prev_lsn_ := r.1 }, r.2)

/-- The `switch` of `abort` on the type of the write-set entry. -/
def rollback_item (sm : SmManager) (item : WriteRecord) (context : Context) :
    Option (SmManager × Option Context) :=
  match item.wtype_ with
  | .INSERT_TUPLE => sm.rollback_insert item.tab_name_ item.rid_ (some context)
  | .UPDATE_TUPLE => sm.rollback_update item.tab_name_ item.rid_ item.record_ (some context)
  | .DELETE_TUPLE => sm.rollback_delete item.tab_name_ item.rid_ item.record_ (some context)
  | .CREATE_INDEX => sm.rollback_create_index item.tab_name_ item.col_names_ (some context)
  | .DROP_INDEX => sm.rollback_drop_index item.tab_name_ item.col_names_ (some context)

/-- One pass through the body of the `while (!write_set->empty())` loop of
`abort` for the entry `item` that was popped: the rollback primitive, then
`add_undo_log` with `undo_next` computed from `lsns`, then `add_idx_log`.
`none` when the primitive throws. -/
def abort_step (lsns : List Int) (sm : SmManager) (context : Context) (item : WriteRecord) :
    Option (SmManager × Context) :=
  match rollback_item sm item context with
  | some (sm1, some context1) =>
    let idx := lower_bound lsns item.lsn_
    let undo_next : Int := if idx = 0 then -1 else lsns.getD (idx - 1) 0
    let r1 := add_undo_log context1.txn_ context1.log_mgr_ undo_next
    let r2 := r1.1.add_idx_log r1.2
    some (sm1, { context1 with txn_ := r2.1, log_mgr_ := r2.2 })
  | _ => none

/-- The loop `while (!write_set->empty())` of `abort`. The entry at the back of
the write set is popped and undone; `fuel` bounds the number of iterations the
model runs. -/
def abort_loop (lsns : List Int) : Nat → SmManager → Context → Outcome (SmManager × Context)
  | fuel, sm, context =>
    match context.txn_.write_set_.getLast? with
    | none => .done (sm, context)
    | some item =>
      match fuel with
      | 0 => .out_of_fuel
      | fuel1 + 1 =>
        let context1 : Context :=
          { context with txn_ := { context.txn_ with
                                     write_set_ := context.txn_.write_set_.dropLast } }
        match abort_step lsns sm context1 item with
        | none => .threw
        | some (sm1, context2) => abort_loop lsns fuel1 sm1 context2

/-- The loop releasing every lock of the lock set (`lock_manager_->unlock(txn, it)`). -/
def unlock_all : List LockDataId → Transaction → LockManager → Transaction × LockManager
  | [], txn, lm => (txn, lm)
  | id :: rest, txn, lm =>
    let r := lm.unlock txn id
    unlock_all rest r.2.1 r.2.2

/-- The first part of `TransactionManager::abort`, up to the creation of the
context: pending index log, the Abort record, the flush, and the context built
from lock manager, log manager and transaction. -/
def abort_context (db : Database) (txn : Transaction) : Context :=
  let r0 := txn.add_idx_log db.log_manager_
  let log_rec := AbortLogRecord r0.1.txn_id_ r0.1.prev_lsn_
  let r1 := r0.2.add_log_to_buffer log_rec
  let txn1 := { r0.1 with prev_lsn_ := r1.1 }
  let log1 := r1.2.flush_log_to_disk
  { lock_mgr_ := db.lock_manager_, log_mgr_ := log1, txn_ := txn1 }

/-- The last part of `TransactionManager::abort`, after the loop: the End
record, the flush, the release of all locks, and the state change.
`unpin_pages` only touches the buffer pool and has no effect on the state kept
here. -/
def abort_finish (sm1 : SmManager) (context1 : Context) : Database × Transaction :=
  let txn2 := context1.txn_
  let end_rec := EndLogRecord txn2.txn_id_ txn2.prev_lsn_
  let log2 := (context1.log_mgr_.add_log_to_buffer end_rec).2.flush_log_to_disk
  let r3 := unlock_all txn2.lock_set_ txn2 context1.lock_mgr_
  let txn3 := { r3.1 with lock_set_ := [], state_ := .ABORTED }
  ({ sm_manager_ := sm1, lock_manager_ := r3.2, log_manager_ := log2 }, txn3)

/-- `TransactionManager::abort` for a non-null transaction: `abort_context`,
the vector `lsns` of the LSNs of the write set, the undo loop, `abort_finish`. -/
def abort (fuel : Nat) (db : Database) (txn : Transaction) :
    Outcome (Database × Transaction) :=
  let context := abort_context db txn
  let lsns := context.txn_.write_set_.map (fun item => item.lsn_)
  match abort_loop lsns fuel db.sm_manager_ context with
  | .threw => .threw
  | .out_of_fuel => .out_of_fuel
  | .done (sm1, context1) => .done (abort_finish sm1 context1)

/-- The undo pass as the specification words it: "for each write-set entry from
newest to oldest invoke the corresponding rollback primitive. After each undone
entry, emit UndoNext(prev_lsn_of_previous_entry)". `newest_first` holds the
entries still to be undone, newest first; the entry is taken off the write set,
its rollback primitive runs, and an UndoNext record of the transaction is
appended to the log whose `undo_next` is the LSN of the entry inserted just
before it (`INVALID_LSN` for the oldest) and whose LSN becomes the
transaction's `prev_lsn`, followed by the pending index log. -/
def undo_newest_to_oldest :
    List WriteRecord → SmManager → Context → Outcome (SmManager × Context)
  | [], sm, context => .done (sm, context)
  | item :: older, sm, context =>
    let context1 : Context :=
      { context with txn_ := { context.txn_ with write_set_ := older.reverse } }
    match rollback_item sm item context1 with
    | some (sm1, some context2) =>
      let undo_next : Int := match older with
                             | [] => INVALID_LSN
                             | prev :: _ => prev.lsn_
      let r1 := context2.log_mgr_.add_log_to_buffer
        (UndoNextLogRecord context2.txn_.txn_id_ context2.txn_.prev_lsn_ undo_next)
      let r2 := Transaction.add_idx_log { context2.txn_ with prev_lsn_ := r1.1 } r1.2
      undo_newest_to_oldest older sm1 { context2 with txn_ := r2.1, log_mgr_ := r2.2 }
    | _ => .threw

/-- `TransactionManager::commit` for a non-null transaction. `unpin_pages` only
touches the buffer pool and has no effect on the state kept here. -/
def commit (db : Database) (txn : Transaction) : Database × Transaction :=
  let r0 := txn.add_idx_log db.log_manager_
  let commit_rec := CommitLogRecord r0.1.txn_id_ r0.1.prev_lsn_
  let r1 := r0.2.add_log_to_buffer commit_rec
  let txn1 := { r0.1 with prev_lsn_ := r1.1 }
  let end_rec := EndLogRecord txn1.txn_id_ txn1.prev_lsn_
  let log2 := (r1.2.add_log_to_buffer end_rec).2.flush_log_to_disk
  let txn2 := { txn1 with write_set_ := [] }
  let r3 := unlock_all txn2.lock_set_ txn2 db.lock_manager_
  let txn3 := { r3.1 with lock_set_ := [], state_ := .COMMITTED }
  ({ db with lock_manager_ := r3.2, log_manager_ := log2 }, txn3)

/-- Modelled from the spec: a new `Transaction(txn_id, SERIALIZABLE)` (the class
is not among the sources), with no previous log record, empty write set and
empty lock set; `begin` then sets its state to `DEFAULT`. -/
def new_transaction (txn_id : Int) : Transaction :=
  { txn_id_ := txn_id, state_ := .DEFAULT, isolation_level_ := .SERIALIZABLE,
    prev_lsn_ := INVALID_LSN, write_set_ := [], lock_set_ := [], idx_pending_ := [] }

/-- `TransactionManager::begin`: `txn = none` is the null pointer, for which a
new transaction with the next id is created. Returns the transaction, the log
manager and the next transaction id. -/
def begin (next_txn_id_ : Int) (txn : Option Transaction) (log_manager : LogManager) :
    Transaction × LogManager × Int :=
  let t := match txn with
           | none => new_transaction next_txn_id_
           | some t => t
  let next1 := match txn with
               | none => next_txn_id_ + 1
               | some _ => next_txn_id_
  let log_rec := BeginLogRecord t.txn_id_ t.prev_lsn_
  let r := log_manager.add_log_to_buffer log_rec
  ({ t with prev_lsn_ := r.1 }, r.2, next1)

end TransactionManager

/-! ## The delete operator and an example database -/

/-- `DeleteLogRecord(txn_id, prev_lsn, delete_value, rid, table_name)`. -/
def DeleteLogRecord (txn_id prev_lsn : Int) (delete_value : List Nat) (rid : Rid)
    (table_name : String) : LogRecord :=
  { log_type_ := .DELETE, lsn_ := INVALID_LSN,
    log_tot_len_ := LOG_HEADER_SIZE + 4 + delete_value.length + 8 + (8 + (table_name.length + 1)),
    log_tid_ := txn_id, prev_lsn_ := prev_lsn,
    payload := .tuple delete_value rid table_name }

namespace DeleteExecutor

/-- The index loop of `DeleteExecutor::Next` for one record: its entry is
deleted from every index; `none` when `ihs_.at` throws or an entry is missing
(`InternalError`). -/
def delete_index_entries (tab_name : String) (data : List Nat) :
    List IndexMeta → SmManager → Context → Option (SmManager × Context)
  | [], sm, context => some (sm, context)
  | index :: rest, sm, context =>
    let index_name := get_index_name tab_name index.cols
    match sm.ihs_ index_name with
    | none => none
    | some ih =>
      match ih.delete_entry index_name (make_key index data) (some context) with
      | (true, ih1, some context1) =>
        delete_index_entries tab_name data rest
          { sm with ihs_ := Function.update sm.ihs_ index_name (some ih1) } context1
      | _ => none

/-- The body of the loop of `DeleteExecutor::Next` for one `rid`: the record is
read, its index entries and the record itself are deleted, a Delete log record
is written and a `DELETE_TUPLE` entry with the old image is appended to the write
set. `tab` is the table metadata the operator copied when it was built. `none`
when an exception is thrown. -/
def delete_rid (sm : SmManager) (tab : TabMeta) (tab_name : String) (rid : Rid)
    (context : Context) : Option (SmManager × Context) :=
  match sm.fhs_ tab_name with
  | none => none
  | some fh =>
    match fh.get_record rid (some context) with
    | none => none
    | some old_rec =>
      match delete_index_entries tab_name old_rec tab.indexes sm context with
      | none => none
      | some (sm1, context1) =>
        match fh.delete_record rid (some context1) with
        | some (fh1, some context2) =>
          let log_rec := DeleteLogRecord context2.txn_.txn_id_ context2.txn_.prev_lsn_ old_rec
            rid tab_name
          let r := context2.log_mgr_.add_log_to_buffer log_rec
          let txn1 := { context2.txn_ with prev_lsn_ := r.1 }
          let txn2 := txn1.append_write_record
            { wtype_ := .DELETE_TUPLE, tab_name_ := tab_name, rid_ := rid, record_ := old_rec,
              col_names_ := [], lsn_ := r.1 }
          some (sm1.set_fh tab_name fh1, { context2 with log_mgr_ := r.2, txn_ := txn2 })
        | _ => none

end DeleteExecutor

namespace Example

/-- Page 1 of the example table: three slots of four bytes; slot 0 is free,
slots 1 and 2 hold the records `1` and `2`. -/
def page1 : PageImage RmPage :=
  { lsn := INVALID_LSN,
    body := { next_free_page_no := RM_NO_PAGE, num_records := 2,
              bitmap := fun i => i == 1 || i == 2,
              slots := fun i => if i = 1 then [1, 0, 0, 0]
                                else if i = 2 then [2, 0, 0, 0] else [0, 0, 0, 0] } }

/-- The heap file of the example table `t`: the header page and page 1, which
is the head of the free list. -/
def fh : RmFileHandle :=
  { fd_ := 3, file_name := "t",
    file_hdr_ := { record_size := 4, num_pages := 2, num_records_per_page := 3,
                   first_free_page_no := 1, bitmap_size := 1, lsn := INVALID_LSN },
    pages := fun _ => page1 }

/-- The example table `t (a INT)` without indexes. -/
def tab : TabMeta :=
  { name := "t", cols := [⟨"t", "a", .TYPE_INT, 4, 0, false⟩], indexes := [] }

/-- The catalog with the table `t` only. -/
def sm : SmManager :=
  { tabs_ := fun n => if n = "t" then some tab else none,
    fhs_ := fun n => if n = "t" then some fh else none,
    ihs_ := fun _ => none }

/-- An empty log manager with a buffer of 1000 bytes and pages of 16 bytes. -/
def log : LogManager :=
  { global_lsn_ := 0, buffer_ := [], offset_ := 0, persist_lsn_ := INVALID_LSN,
    log_file := [], LOG_BUFFER_SIZE := 1000, PAGE_SIZE := 16 }

/-- The example database: catalog, empty lock table, empty log. -/
def db : Database :=
  { sm_manager_ := sm, lock_manager_ := { lock_table_ := fun _ => none },
    log_manager_ := log }

/-- The transaction `begin` creates on the example database (id 1), after it
has taken the table lock as the delete operator does when it is built. -/
def started : Option (Database × Transaction) :=
  let r := TransactionManager.begin 1 none db.log_manager_
  match db.lock_manager_.lock_exclusive_on_table r.1 fh.fd_ with
  | (some true, txn1, lm1) =>
    some ({ db with lock_manager_ := lm1, log_manager_ := r.2.1 }, txn1)
  | _ => none

/-- The example database after `begin; DELETE` of the record at rid (1,2). -/
def deleted : Option (Database × Transaction) :=
  match started with
  | none => none
  | some (db1, txn1) =>
    match DeleteExecutor.delete_rid db1.sm_manager_ tab "t" ⟨1, 2⟩
        { lock_mgr_ := db1.lock_manager_, log_mgr_ := db1.log_manager_, txn_ := txn1 } with
    | none => none
    | some (sm2, c2) =>
      some ({ sm_manager_ := sm2, lock_manager_ := c2.lock_mgr_, log_manager_ := c2.log_mgr_ },
            c2.txn_)

/-- The example database after `begin; DELETE; abort`. -/
def deleted_aborted : Outcome (Database × Transaction) :=
  match deleted with
  | none => .threw
  | some (db2, txn2) => TransactionManager.abort 10 db2 txn2

/-- Page 1 of the table `t` in the outcome of a run, when it returned. -/
def page1_of : Outcome (Database × Transaction) → Option (PageImage RmPage)
  | .done (d, _) => (d.sm_manager_.fhs_ "t").map (fun f => f.pages 1)
  | _ => none

end Example

/-! ## The per-transaction chain through the log -/

/-- The chain property of a log: every record has a non-negative LSN below the
LSN counter, and its `prev_lsn` is `INVALID_LSN` or the LSN of a record of the
same transaction with a strictly smaller LSN. -/
def LogManager.ChainOK (lm : LogManager) : Prop :=
  ∀ r ∈ lm.records, 0 ≤ r.lsn_ ∧ r.lsn_ < lm.global_lsn_ ∧
    (r.prev_lsn_ = INVALID_LSN ∨
      ∃ r2 ∈ lm.records, r2.lsn_ = r.prev_lsn_ ∧ r2.log_tid_ = r.log_tid_ ∧ r2.lsn_ < r.lsn_)

/-- The `prev_lsn` `p` kept by transaction `tid` is `INVALID_LSN` or the LSN of
a record of that transaction in the log. -/
def LogManager.PrevOK (lm : LogManager) (tid p : Int) : Prop :=
  p = INVALID_LSN ∨ ∃ r ∈ lm.records, r.lsn_ = p ∧ r.log_tid_ = tid

/-- How the operations of transaction `tid` move the pair (log manager, the
transaction's `prev_lsn`): by appending a record of the transaction whose
`prev_lsn` is the transaction's current one, after which the transaction's
`prev_lsn` is the new record's LSN (`append`) or stays (`append_keep`, the End
record), and by flushing. -/
inductive LogChain (tid : Int) : LogManager × Int → LogManager × Int → Prop
  | refl (a : LogManager × Int) : LogChain tid a a
  | append (a : LogManager × Int) (lm : LogManager) (p : Int) (rec : LogRecord) :
      LogChain tid a (lm, p) → rec.log_tid_ = tid → rec.prev_lsn_ = p →
      LogChain tid a ((lm.add_log_to_buffer rec).2, (lm.add_log_to_buffer rec).1)
  | append_keep (a : LogManager × Int) (lm : LogManager) (p : Int) (rec : LogRecord) :
      LogChain tid a (lm, p) → rec.log_tid_ = tid → rec.prev_lsn_ = p →
      LogChain tid a ((lm.add_log_to_buffer rec).2, p)
  | flush (a : LogManager × Int) (lm : LogManager) (p : Int) :
      LogChain tid a (lm, p) → LogChain tid a (lm.flush_log_to_disk, p)

/-- An operation took the context `c` to `c1`: same transaction id, and log
and `prev_lsn` moved along the transaction's chain. -/
def CtxChain (c c1 : Context) : Prop :=
  c1.txn_.txn_id_ = c.txn_.txn_id_ ∧
  LogChain c.txn_.txn_id_ (c.log_mgr_, c.txn_.prev_lsn_) (c1.log_mgr_, c1.txn_.prev_lsn_)

/-- An operation took the context `c` to `c1` without touching the lock
manager, the lock set, the isolation level or the write set. -/
def CtxKeeps (c c1 : Context) : Prop :=
  c1.lock_mgr_ = c.lock_mgr_ ∧ c1.txn_.lock_set_ = c.txn_.lock_set_ ∧
  c1.txn_.isolation_level_ = c.txn_.isolation_level_ ∧
  c1.txn_.write_set_ = c.txn_.write_set_

/-- The `prev_lsn` stored in the first record of the log with LSN `lsn`. -/
def prev_of (records : List LogRecord) (lsn : Int) : Option Int :=
  (records.find? (fun r => r.lsn_ == lsn)).map (fun r => r.prev_lsn_)

/-- Following `prev_lsn` from `lsn` reaches `INVALID_LSN` within `fuel` steps. -/
def chain_reaches_invalid (records : List LogRecord) : Nat → Int → Bool
  | fuel, lsn =>
    if lsn = INVALID_LSN then true
    else
      match fuel with
      | 0 => false
      | fuel1 + 1 =>
        match prev_of records lsn with
        | none => false
        | some p => chain_reaches_invalid records fuel1 p

/-- The log and the transactions produced by any sequence of
`TransactionManager::begin` / `commit` / `abort` and of `RmFileHandle`
`insert_record` / `delete_record` / `update_record` calls with a context,
starting from an empty log. `ts` holds every value a transaction object has
had; the bookkeeping done elsewhere (write set, lock set, state, pending index
pages) may change a transaction in any way that keeps its id and `prev_lsn`. -/
inductive LogReachable : LogManager → List Transaction → Prop
  | init (lm : LogManager) : lm.log_file = [] → lm.buffer_ = [] → 0 ≤ lm.global_lsn_ →
      LogReachable lm []
  | bookkeeping (lm : LogManager) (ts : List Transaction) (t t1 : Transaction) :
      LogReachable lm ts → t ∈ ts → t1.txn_id_ = t.txn_id_ → t1.prev_lsn_ = t.prev_lsn_ →
      LogReachable lm (t1 :: ts)
  | begin_new (lm : LogManager) (ts : List Transaction) (next_txn_id : Int) :
      LogReachable lm ts →
      LogReachable (TransactionManager.begin next_txn_id none lm).2.1
        ((TransactionManager.begin next_txn_id none lm).1 :: ts)
  | begin_existing (lm : LogManager) (ts : List Transaction) (next_txn_id : Int)
      (t : Transaction) :
      LogReachable lm ts → t ∈ ts →
      LogReachable (TransactionManager.begin next_txn_id (some t) lm).2.1
        ((TransactionManager.begin next_txn_id (some t) lm).1 :: ts)
  | commit (lm : LogManager) (ts : List Transaction) (sm : SmManager) (lk : LockManager)
      (t : Transaction) :
      LogReachable lm ts → t ∈ ts →
      LogReachable (TransactionManager.commit ⟨sm, lk, lm⟩ t).1.log_manager_
        ((TransactionManager.commit ⟨sm, lk, lm⟩ t).2 :: ts)
  | abort (lm : LogManager) (ts : List Transaction) (sm : SmManager) (lk : LockManager)
      (t : Transaction) (fuel : Nat) (r : Database × Transaction) :
      LogReachable lm ts → t ∈ ts → TransactionManager.abort fuel ⟨sm, lk, lm⟩ t = .done r →
      LogReachable r.1.log_manager_ (r.2 :: ts)
  | insert_record (lm : LogManager) (ts : List Transaction) (fh fh1 : RmFileHandle)
      (lk : LockManager) (t : Transaction) (buf : List Nat) (rid : Rid) (c1 : Context) :
      LogReachable lm ts → t ∈ ts →
      fh.insert_record buf (some ⟨lk, lm, t⟩) = some (rid, fh1, some c1) →
      LogReachable c1.log_mgr_ (c1.txn_ :: ts)
  | delete_record (lm : LogManager) (ts : List Transaction) (fh fh1 : RmFileHandle)
      (lk : LockManager) (t : Transaction) (rid : Rid) (c1 : Context) :
      LogReachable lm ts → t ∈ ts →
      fh.delete_record rid (some ⟨lk, lm, t⟩) = some (fh1, some c1) →
      LogReachable c1.log_mgr_ (c1.txn_ :: ts)
  | update_record (lm : LogManager) (ts : List Transaction) (fh fh1 : RmFileHandle)
      (lk : LockManager) (t : Transaction) (rid : Rid) (buf : List Nat) (c1 : Context) :
      LogReachable lm ts → t ∈ ts →
      fh.update_record rid buf (some ⟨lk, lm, t⟩) = some (fh1, some c1) →
      LogReachable c1.log_mgr_ (c1.txn_ :: ts)

/-- A write-set entry made by `create_index` or `drop_index`. -/
def WriteRecord.is_index_entry (w : WriteRecord) : Prop :=
  w.wtype_ = .CREATE_INDEX ∨ w.wtype_ = .DROP_INDEX

instance (w : WriteRecord) : Decidable w.is_index_entry :=
  inferInstanceAs (Decidable (w.wtype_ = .CREATE_INDEX ∨ w.wtype_ = .DROP_INDEX))

namespace Example

/-- A transaction on the example table that has updated the record at rid (1,1)
(old image `9`) and then inserted a record at rid (1,0), and holds the table lock. -/
def two_writes : Transaction :=
  { txn_id_ := 1, state_ := .GROWING, isolation_level_ := .SERIALIZABLE, prev_lsn_ := 4,
    write_set_ := [⟨.UPDATE_TUPLE, "t", ⟨1, 1⟩, [9, 0, 0, 0], [], 2⟩,
                   ⟨.INSERT_TUPLE, "t", ⟨1, 0⟩, [], [], 4⟩],
    lock_set_ := [LockDataId.table 3], idx_pending_ := [] }

/-- The example database after `begin; CREATE INDEX t(a)`. -/
def index_created : Option (Database × Transaction) :=
  let r := TransactionManager.begin 1 none db.log_manager_
  match db.sm_manager_.create_index "t" ["a"]
      (some { lock_mgr_ := db.lock_manager_, log_mgr_ := r.2.1, txn_ := r.1 }) with
  | some (sm1, some c1) =>
    some ({ sm_manager_ := sm1, lock_manager_ := c1.lock_mgr_, log_manager_ := c1.log_mgr_ },
          c1.txn_)
  | _ => none

/-- The outcome of `begin; CREATE INDEX t(a); abort` when the loop of `abort` is
run for at most `fuel` iterations. -/
def index_created_aborted (fuel : Nat) : Outcome (Database × Transaction) :=
  match index_created with
  | none => .threw
  | some (db1, txn1) => TransactionManager.abort fuel db1 txn1

/-- The example table once the index on `a` exists. -/
def tab_indexed : TabMeta :=
  { name := "t", cols := [⟨"t", "a", .TYPE_INT, 4, 0, true⟩],
    indexes := [⟨"t", 4, 1, [⟨"t", "a", .TYPE_INT, 4, 0, false⟩]⟩] }

/-- The write-set entry that `create_index` (`created = true`) or `drop_index`
(`created = false`) makes for the index on `a`, with log sequence number `lsn`. -/
def index_entry (created : Bool) (lsn : Int) : WriteRecord :=
  { wtype_ := if created then .CREATE_INDEX else .DROP_INDEX, tab_name_ := "t",
    rid_ := ⟨-1, -1⟩, record_ := [], col_names_ := ["a"], lsn_ := lsn }

/-- The states the undo loop of `abort` passes through on the example: the index
on `a` exists (`created = true`) or not, the heap file is the example file, the
transaction holds the exclusive table lock, and the write set consists of the
one index entry that matches. -/
def IndexCycle (created : Bool) (sm : SmManager) (c : Context) : Prop :=
  sm.tabs_ "t" = some (if created then tab_indexed else tab) ∧
  sm.fhs_ "t" = some fh ∧
  (created = true → ∃ ih, sm.ihs_ "t_a" = some ih) ∧
  c.txn_.isolation_level_ = .SERIALIZABLE ∧
  LockDataId.table 3 ∈ c.txn_.lock_set_ ∧
  c.lock_mgr_.lock_table_ (LockDataId.table 3) = some ⟨0, .X⟩ ∧
  ∃ lsn, c.txn_.write_set_ = [index_entry created lsn]

end Example

/-! ## The buffer pool together with the log -/

/-- The buffer pool and the log manager side by side. The buffer pool holds no
reference to the log manager: its operations act on `bpm` alone. -/
structure StorageState (α : Type) where
  bpm : BufferPoolManager α
  log : LogManager

namespace StorageState

variable {α : Type} [Zero α]

/-- The calls a record operation with a context makes once it holds the pinned
frame `f` (`RmFileHandle::update_record`): the bytes are changed, the log record
is appended with `add_log_to_buffer`, and `set_page_lsn` stamps the page with
the LSN that was returned. -/
def logged_write (s : StorageState α) (f : frame_id_t) (body : α) (rec : LogRecord) :
    StorageState α :=
  let r := s.log.add_log_to_buffer rec
  { bpm := s.bpm.write_data f { lsn := r.1, body := body }, log := r.2 }

/-- The states of pool and log reachable from `s0`: any run of buffer-pool
operations, appending a log record, flushing the log, and logged writes to a
pinned frame. -/
inductive Reachable (s0 : StorageState α) : StorageState α → Prop
  | start : Reachable s0 s0
  | pool (s : StorageState α) (b : BufferPoolManager α) :
      Reachable s0 s → BufferPoolManager.Reachable s.bpm b → Reachable s0 { s with bpm := b }
  | add_log_to_buffer (s : StorageState α) (rec : LogRecord) :
      Reachable s0 s → Reachable s0 { s with log := (s.log.add_log_to_buffer rec).2 }
  | flush_log_to_disk (s : StorageState α) :
      Reachable s0 s → Reachable s0 { s with log := s.log.flush_log_to_disk }
  | logged_write (s : StorageState α) (f : frame_id_t) (body : α) (rec : LogRecord) :
      Reachable s0 s → 0 < (s.bpm.pages f).pin_count → Reachable s0 (s.logged_write f body rec)

/-- The write-ahead rule for writing the page image `img` to disk while the log
is in state `lg`: no record with an LSN up to the page LSN is still in the log
buffer. -/
def wal_ok (lg : LogManager) (img : PageImage α) : Prop :=
  ∀ r ∈ lg.buffer_, img.lsn < r.lsn_

/-- The write-ahead rule at eviction: if the frame that `fetch_page` / `new_page`
would now take as victim is dirty, writing it back respects `wal_ok`. -/
def EvictionRespectsWAL (s : StorageState α) : Prop :=
  ∀ f b1, s.bpm.find_victim_page = some (f, b1) → (s.bpm.pages f).is_dirty = true →
    wal_ok s.log (s.bpm.pages f).data

/-- `fetch_page` as seen on pool and log together. -/
def fetch_page (s : StorageState α) (page_id : PageId) : StorageState α :=
  { s with bpm := (s.bpm.fetch_page page_id).2 }

/-- `new_page` as seen on pool and log together. -/
def new_page (s : StorageState α) (fd : Int) : StorageState α :=
  { s with bpm := (s.bpm.new_page fd).2 }

/-- An empty log manager with room for two page log records. -/
def example_log : LogManager :=
  { global_lsn_ := 0, buffer_ := [], offset_ := 0, persist_lsn_ := INVALID_LSN,
    log_file := [], LOG_BUFFER_SIZE := 1000, PAGE_SIZE := 16 }

/-- The fresh one-frame pool with the empty log. -/
def example_start : StorageState Nat :=
  { bpm := BufferPoolManager.init 1 BufferPoolManager.example_disk, log := example_log }

/-- A page log record of transaction 1 for page 0 of table `t`. -/
def example_record : LogRecord :=
  PageLogRecord 16 1 INVALID_LSN "t" 0
    (.heap ⟨0, ⟨RM_NO_PAGE, 1, fun _ => false, fun _ => []⟩⟩)
    (.heap ⟨0, ⟨RM_NO_PAGE, 1, fun _ => false, fun _ => []⟩⟩)

/-- The update of a record on page 0 of file 0 by transaction 1: the page is
fetched and pinned, its bytes are changed and logged (LSN 0), and it is unpinned
with the dirty hint. -/
def example_updated : StorageState Nat :=
  let s1 : StorageState Nat := { example_start with bpm := (example_start.bpm.fetch_page ⟨0, 0⟩).2 }
  let s2 := s1.logged_write 0 7 example_record
  { s2 with bpm := (s2.bpm.unpin_page ⟨0, 0⟩ true).2 }

end StorageState

/-! ## Heap file invariants -/

/-- The number of set bits among the first `n` bits of a bitmap. -/
def Bitmap.popcount (bm : Int → Bool) (n : Nat) : Nat :=
  ((List.range n).filter (fun i => bm (Int.ofNat i))).length

namespace RmFileHandle

/-- The slot `rid` holds a record: its page is a data page of the file, the slot
number is in range and the bitmap bit of the slot is set. -/
def occupied (fh : RmFileHandle) (rid : Rid) : Prop :=
  1 ≤ rid.page_no ∧ rid.page_no < fh.file_hdr_.num_pages ∧
  0 ≤ rid.slot_no ∧ rid.slot_no < fh.file_hdr_.num_records_per_page ∧
  (fh.pages rid.page_no).body.bitmap rid.slot_no = true

/-- The rid names a slot of the file: its page is a data page of the file and the
slot number is in range; the slot may hold a record or not. -/
def is_slot (fh : RmFileHandle) (rid : Rid) : Prop :=
  1 ≤ rid.page_no ∧ rid.page_no < fh.file_hdr_.num_pages ∧
  0 ≤ rid.slot_no ∧ rid.slot_no < fh.file_hdr_.num_records_per_page

instance (fh : RmFileHandle) (rid : Rid) : Decidable (fh.is_slot rid) :=
  inferInstanceAs (Decidable (1 ≤ rid.page_no ∧ rid.page_no < fh.file_hdr_.num_pages ∧
    0 ≤ rid.slot_no ∧ rid.slot_no < fh.file_hdr_.num_records_per_page))

instance (fh : RmFileHandle) (rid : Rid) : Decidable (fh.occupied rid) :=
  inferInstanceAs (Decidable (1 ≤ rid.page_no ∧ rid.page_no < fh.file_hdr_.num_pages ∧
    0 ≤ rid.slot_no ∧ rid.slot_no < fh.file_hdr_.num_records_per_page ∧
    (fh.pages rid.page_no).body.bitmap rid.slot_no = true))

/-- The free-page list: `chain` lists the pages met from `start` by following
the `next_free_page_no` links up to `RM_NO_PAGE`. -/
def free_chain (fh : RmFileHandle) : Int → List Int → Prop
  | start, [] => start = RM_NO_PAGE
  | start, p :: rest => start = p ∧ free_chain fh (fh.pages p).body.next_free_page_no rest

/-- The free-list invariant of a heap file: the pages reachable from
`first_free_page_no` through the `next_free_page_no` links are exactly the data
pages with `num_records < num_records_per_page`. -/
def FreeListOK (fh : RmFileHandle) : Prop :=
  ∃ chain, fh.free_chain fh.file_hdr_.first_free_page_no chain ∧ chain.Nodup ∧
    ∀ p, p ∈ chain ↔ (1 ≤ p ∧ p < fh.file_hdr_.num_pages ∧
      (fh.pages p).body.num_records < fh.file_hdr_.num_records_per_page)

/-- The record-count invariant of a heap file: on every data page,
`num_records` is the number of set bits of the bitmap. -/
def CountsOK (fh : RmFileHandle) : Prop :=
  ∀ p, 1 ≤ p → p < fh.file_hdr_.num_pages →
    (fh.pages p).body.num_records
      = Bitmap.popcount (fh.pages p).body.bitmap fh.file_hdr_.num_records_per_page

/-- The heap invariants: a page holds at least one slot, page 0 is the file
header, the record counts agree with the bitmaps, and the free list holds
exactly the pages that are not full. -/
structure HeapOK (fh : RmFileHandle) : Prop where
  slots_pos : 0 < fh.file_hdr_.num_records_per_page
  hdr_page : 1 ≤ fh.file_hdr_.num_pages
  counts : fh.CountsOK
  free_list : fh.FreeListOK

end RmFileHandle

namespace RmFileHandle

/-- `rid = insert_record(buf, context)` followed by `delete_record(rid, context)`. -/
def insert_then_delete (fh : RmFileHandle) (buf : List Nat) (context : Option Context) :
    Option (RmFileHandle × Option Context) :=
  match fh.insert_record buf context with
  | none => none
  | some (rid, fh1, context1) => fh1.delete_record rid context1

end RmFileHandle

namespace Example

/-- A heap file as it is right after its creation: the header page only, no free page. -/
def fh_new : RmFileHandle :=
  { fd_ := 4, file_name := "u",
    file_hdr_ := { record_size := 4, num_pages := 1, num_records_per_page := 3,
                   first_free_page_no := RM_NO_PAGE, bitmap_size := 1, lsn := INVALID_LSN },
    pages := fun _ => page1 }

end Example

/-! ## Example transactions for the lock manager -/

namespace Example

/-- The transaction `begin` creates (id 1) after it has taken the shared lock on
the table with file descriptor 3 and released it again, together with the lock
manager afterwards. -/
def after_unlock : Transaction × LockManager :=
  let r := TransactionManager.begin 1 none db.log_manager_
  let r1 := db.lock_manager_.lock_shared_on_table r.1 3
  let r2 := r1.2.2.unlock r1.2.1 (LockDataId.table 3)
  (r2.2.1, r2.2.2)

end Example

/-! ## The insert operator -/

/-- `InsertLogRecord(txn_id, prev_lsn, insert_value, rid, table_name)`. -/
def InsertLogRecord (txn_id prev_lsn : Int) (insert_value : List Nat) (rid : Rid)
    (table_name : String) : LogRecord :=
  { log_type_ := .INSERT, lsn_ := INVALID_LSN,
    log_tot_len_ := LOG_HEADER_SIZE + 4 + insert_value.length + 8 + (8 + (table_name.length + 1)),
    log_tid_ := txn_id, prev_lsn_ := prev_lsn,
    payload := .tuple insert_value rid table_name }

/-- How a statement ended, with the state it left behind: it returned, or it
threw an exception. -/
inductive Ended (σ : Type)
  | returned (s : σ)
  | threw (s : σ)

/-- The state a statement left behind. -/
def Ended.state {σ : Type} : Ended σ → σ
  | .returned s => s
  | .threw s => s

/-- Whether the statement threw. -/
def Ended.failed {σ : Type} : Ended σ → Bool
  | .returned _ => false
  | .threw _ => true

namespace InsertExecutor

/-- The key `InsertExecutor::Next` builds for an index: the bytes of the indexed
columns of the record, one after the other. -/
def key_of (index : IndexMeta) (rec : List Nat) : List Nat :=
  (index.cols.map (fun (col : ColMeta) => (rec.drop col.offset).take col.len)).flatten

/-- How the index loop of `InsertExecutor::Next` ended: every index took the
key, or one refused it (`insert_entry` returned `INVALID_PAGE_ID`), or
`ihs_.at` threw. -/
inductive IndexLoop
  | inserted (sm : SmManager) (context : Context)
  | refused (sm : SmManager) (context : Context)
  | no_handle (sm : SmManager) (context : Context)

/-- The loop `for (auto &index: tab_.indexes)` of `InsertExecutor::Next` up to
the point where an index refuses the key. -/
def insert_index_entries (tab_name : String) (rec : List Nat) (rid : Rid) :
    List IndexMeta → SmManager → Context → IndexLoop
  | [], sm, context => .inserted sm context
  | index :: rest, sm, context =>
    let index_name := get_index_name tab_name index.cols
    match sm.ihs_ index_name with
    | none => .no_handle sm context
    | some ih =>
      match ih.insert_entry index_name (key_of index rec) rid (some context) with
      | (true, ih1, some context1) =>
        insert_index_entries tab_name rec rid rest
          { sm with ihs_ := Function.update sm.ihs_ index_name (some ih1) } context1
      | (_, ih1, context1) =>
        .refused { sm with ihs_ := Function.update sm.ihs_ index_name (some ih1) }
          (context1.getD context)

/-- `InsertExecutor::Next` for the record bytes `rec` (the values already
converted): the record goes into the heap file, its key into every index of
`tab` (the metadata the operator copied when it was built); when an index
refuses the key the heap record is deleted again and `InternalError` is thrown;
otherwise an Insert log record is written and an `INSERT_TUPLE` entry is
appended to the write set. -/
def Next (sm : SmManager) (tab : TabMeta) (tab_name : String) (rec : List Nat)
    (context : Context) : Ended (SmManager × Context) :=
  match sm.fhs_ tab_name with
  | none => .threw (sm, context)
  | some fh =>
    match fh.insert_record rec (some context) with
    | some (rid, fh1, some context1) =>
      match insert_index_entries tab_name rec rid tab.indexes (sm.set_fh tab_name fh1)
          context1 with
      | .no_handle sm2 context2 => .threw (sm2, context2)
      | .refused sm2 context2 =>
        match fh1.delete_record rid (some context2) with
        | some (fh2, some context3) => .threw (sm2.set_fh tab_name fh2, context3)
        | _ => .threw (sm2, context2)
      | .inserted sm2 context2 =>
        let log_rec := InsertLogRecord context2.txn_.txn_id_ context2.txn_.prev_lsn_ rec rid
          tab_name
        let r := context2.log_mgr_.add_log_to_buffer log_rec
        let txn1 := { context2.txn_ with prev_lsn_ := r.1 }
        let txn2 := txn1.append_write_record
          { wtype_ := .INSERT_TUPLE, tab_name_ := tab_name, rid_ := rid, record_ := [],
            col_names_ := [], lsn_ := r.1 }
        .returned (sm2, { context2 with log_mgr_ := r.2, txn_ := txn2 })
    | _ => .threw (sm, context)

end InsertExecutor

namespace Example

/-- Page 1 of the example table `w`: slot 0 holds the row `(1, 5)`, slots 1 and
2 are free. -/
def w_page1 : PageImage RmPage :=
  { lsn := INVALID_LSN,
    body := { next_free_page_no := RM_NO_PAGE, num_records := 1,
              bitmap := fun i => i == 0,
              slots := fun i => if i = 0 then [1, 5] else [0, 0] } }

/-- The heap file of the example table `w`: records of two bytes. -/
def w_fh : RmFileHandle :=
  { fd_ := 6, file_name := "w",
    file_hdr_ := { record_size := 2, num_pages := 2, num_records_per_page := 3,
                   first_free_page_no := 1, bitmap_size := 1, lsn := INVALID_LSN },
    pages := fun _ => w_page1 }

/-- The example table `w (a, b)` of two one-byte columns with a unique index on
`a` and a unique index on `b`. -/
def w_tab : TabMeta :=
  { name := "w",
    cols := [⟨"w", "a", .TYPE_INT, 1, 0, true⟩, ⟨"w", "b", .TYPE_INT, 1, 1, true⟩],
    indexes := [⟨"w", 1, 1, [⟨"w", "a", .TYPE_INT, 1, 0, false⟩]⟩,
                ⟨"w", 1, 1, [⟨"w", "b", .TYPE_INT, 1, 1, false⟩]⟩] }

/-- The catalog with the table `w`, its heap file and its two indexes, which
hold the entries of the row `(1, 5)`. -/
def w_sm : SmManager :=
  { tabs_ := fun n => if n = "w" then some w_tab else none,
    fhs_ := fun n => if n = "w" then some w_fh else none,
    ihs_ := fun n => if n = "w_a" then some { entries := [([1], ⟨1, 0⟩)] }
                     else if n = "w_b" then some { entries := [([5], ⟨1, 0⟩)] } else none }

/-- The context of a transaction that `begin` has just created, on an empty
lock table and an empty log. -/
def w_context : Context :=
  let r := TransactionManager.begin 1 none log
  { lock_mgr_ := { lock_table_ := fun _ => none }, log_mgr_ := r.2.1, txn_ := r.1 }

/-- The statement `INSERT INTO w VALUES (2, 5)`: the value of `b` is already in
the index on `b`. -/
def w_insert_dup : Ended (SmManager × Context) :=
  InsertExecutor.Next w_sm w_tab "w" [2, 5] w_context

/-- The entries of the index `name` in a catalog. -/
def index_entries (sm : SmManager) (name : String) : Option (List (List Nat × Rid)) :=
  (sm.ihs_ name).map (fun ih => ih.entries)

end Example

/-! ## Log records as bytes: `serialize` and `deserialize`

The classes of `log_manager.h` with the fields they have in memory. A `char *`
buffer is the byte at each offset; `int`, `lsn_t`, `txn_id_t` and the enum
`LogRecordType` are four bytes, `uint32_t` four, `size_t` eight. A `std::string`
and a `char` array are the list of their bytes. -/

namespace Serial

/-- A `char *` buffer: the byte at each offset. -/
abbrev Buf := Nat → Nat

/-- `memcpy(dest + off, src, src.length)` (also `memmove`). -/
def memcpy (dest : Buf) (off : Nat) (src : List Nat) : Buf :=
  fun i => if off ≤ i ∧ i < off + src.length then src.getD (i - off) 0 else dest i

/-- The `n` bytes of the buffer from offset `off` on. -/
def read (src : Buf) (off n : Nat) : List Nat :=
  (List.range n).map (fun i => src (off + i))

/-- The `w` low bytes of `v`, least significant first (the byte order of the
target; it is the same for writing and reading). -/
def le_bytes : Nat → Nat → List Nat
  | 0, _ => []
  | w + 1, v => v % 256 :: le_bytes w (v / 256)

/-- The number a list of bytes stands for, least significant byte first. -/
def le_val : List Nat → Nat
  | [] => 0
  | b :: bs => b + 256 * le_val bs

/-- The four bytes of an `int` (two's complement). -/
def int_bytes (v : Int) : List Nat := le_bytes 4 (v % 4294967296).toNat

/-- The `int` four bytes stand for: `*reinterpret_cast<const int *>(p)`. -/
def bytes_int (bs : List Nat) : Int :=
  if le_val bs < 2147483648 then (le_val bs : Int) else (le_val bs : Int) - 4294967296

/-- The four bytes of a `uint32_t`. -/
def uint32_bytes (v : Nat) : List Nat := le_bytes 4 v

/-- The eight bytes of a `size_t`. -/
def size_bytes (v : Nat) : List Nat := le_bytes 8 v

/-- An `int` value: it fits into 32 bits with sign. -/
@[reducible] def IsInt (v : Int) : Prop := -2147483648 ≤ v ∧ v < 2147483648

/-- The assignment of a `char *` string to a `std::string`: the bytes up to the
first zero byte. -/
def c_str (bs : List Nat) : List Nat := bs.takeWhile (fun b => b != 0)

/-- The values of the enum `LogRecordType : int`. -/
def LogRecordType.toInt : OshinoDB.LogRecordType → Int
  | .UPDATE => 0 | .INSERT => 1 | .DELETE => 2 | .BEGIN => 3 | .COMMIT => 4 | .ABORT => 5
  | .END => 6 | .PAGE_SET => 7 | .UNDO_NEXT => 8 | .INDEX_PAGE => 9 | .CREATE_INDEX => 10
  | .DROP_INDEX => 11

/-- The offsets of the header fields (`log_defs.h` is not among the sources:
the fields follow one another in the order `deserialize` reads them, the type at
offset 0, and the header is `LOG_HEADER_SIZE` = 20 bytes long). -/
def OFFSET_LOG_TYPE : Nat := 0

/-- Offset of `lsn_`. -/
def OFFSET_LSN : Nat := 4

/-- Offset of `log_tot_len_`. -/
def OFFSET_LOG_TOT_LEN : Nat := 8

/-- Offset of `log_tid_`. -/
def OFFSET_LOG_TID : Nat := 12

/-- Offset of `prev_lsn_`. -/
def OFFSET_PREV_LSN : Nat := 16

/-- Offset of the type-specific data. -/
def OFFSET_LOG_DATA : Nat := 20

/-- The class `LogRecord`: the five header fields. `log_type_` is the `int`
under the enum. -/
structure LogRecord where
  log_type_ : Int
  lsn_ : Int
  log_tot_len_ : Nat
  log_tid_ : Int
  prev_lsn_ : Int
deriving DecidableEq, Repr

/-- `LogRecord::serialize`. -/
def LogRecord.serialize (r : LogRecord) (dest : Buf) : Buf :=
  let d1 := memcpy dest OFFSET_LOG_TYPE (int_bytes r.log_type_)
  let d2 := memcpy d1 OFFSET_LSN (int_bytes r.lsn_)
  let d3 := memcpy d2 OFFSET_LOG_TOT_LEN (uint32_bytes r.log_tot_len_)
  let d4 := memcpy d3 OFFSET_LOG_TID (int_bytes r.log_tid_)
  memcpy d4 OFFSET_PREV_LSN (int_bytes r.prev_lsn_)

/-- `LogRecord::deserialize`. -/
def LogRecord.deserialize (src : Buf) : LogRecord :=
  { log_type_ := bytes_int (read src OFFSET_LOG_TYPE 4),
    lsn_ := bytes_int (read src OFFSET_LSN 4),
    log_tot_len_ := le_val (read src OFFSET_LOG_TOT_LEN 4),
    log_tid_ := bytes_int (read src OFFSET_LOG_TID 4),
    prev_lsn_ := bytes_int (read src OFFSET_PREV_LSN 4) }

/-- The header fields hold values of their machine types. -/
@[reducible] def LogRecord.Valid (r : LogRecord) : Prop :=
  IsInt r.log_type_ ∧ IsInt r.lsn_ ∧ r.log_tot_len_ < 4294967296 ∧ IsInt r.log_tid_ ∧
  IsInt r.prev_lsn_

/-- The eight bytes of a `Rid` (`page_no`, then `slot_no`). -/
def rid_bytes (rid : Rid) : List Nat := int_bytes rid.page_no ++ int_bytes rid.slot_no

/-- The `Rid` at offset `off`: `*reinterpret_cast<const Rid *>(src + off)`. -/
def read_rid (src : Buf) (off : Nat) : Rid :=
  { page_no := bytes_int (read src off 4), slot_no := bytes_int (read src (off + 4) 4) }

/-- Modelled from the spec: `RmRecord::Deserialize(src + off)` (`rm_defs.h` is
not among the sources) reads a record the way `serialize` lays it out: the size
as an `int`, then that many bytes. An `RmRecord` is the list of its `size` bytes. -/
def RmRecord.Deserialize (src : Buf) (off : Nat) : List Nat :=
  read src (off + 4) (bytes_int (read src off 4)).toNat

/-- The class `InsertLogRecord`. `table_name_` is the array of
`table_name_size_` bytes (the name and its terminating zero). -/
structure InsertLogRecord extends LogRecord where
  insert_value_ : List Nat
  rid_ : Rid
  table_name_ : List Nat
  table_name_size_ : Nat
  undo_next : Int
deriving DecidableEq, Repr

/-- `InsertLogRecord::serialize`. -/
def InsertLogRecord.serialize (r : InsertLogRecord) (dest : Buf) : Buf :=
  let d0 := r.toLogRecord.serialize dest
  let offset := OFFSET_LOG_DATA
  let d1 := memcpy d0 offset (int_bytes r.insert_value_.length)
  let offset := offset + 4
  let d2 := memcpy d1 offset r.insert_value_
  let offset := offset + r.insert_value_.length
  let d3 := memcpy d2 offset (rid_bytes r.rid_)
  let offset := offset + 8
  let d4 := memcpy d3 offset (size_bytes r.table_name_size_)
  let offset := offset + 8
  let d5 := memcpy d4 offset r.table_name_
  let offset := offset + r.table_name_size_
  memcpy d5 offset (int_bytes r.undo_next)

/-- `InsertLogRecord::deserialize`. -/
def InsertLogRecord.deserialize (src : Buf) : InsertLogRecord :=
  let hdr := LogRecord.deserialize src
  let value := RmRecord.Deserialize src OFFSET_LOG_DATA
  let offset := OFFSET_LOG_DATA + value.length + 4
  let rid := read_rid src offset
  let offset := offset + 8
  let name_size := le_val (read src offset 8)
  let offset := offset + 8
  let name := read src offset name_size
  let offset := offset + name_size
  { toLogRecord := hdr, insert_value_ := value, rid_ := rid, table_name_ := name,
    table_name_size_ := name_size, undo_next := bytes_int (read src offset 4) }

/-- The fields hold values of their machine types and the table name array has
`table_name_size_` bytes. -/
@[reducible] def InsertLogRecord.Valid (r : InsertLogRecord) : Prop :=
  r.toLogRecord.Valid ∧ r.insert_value_.length < 2147483648 ∧
  IsInt r.rid_.page_no ∧ IsInt r.rid_.slot_no ∧
  r.table_name_.length = r.table_name_size_ ∧ r.table_name_size_ < 18446744073709551616 ∧
  IsInt r.undo_next

/-- The class `DeleteLogRecord`. -/
structure DeleteLogRecord extends LogRecord where
  delete_value_ : List Nat
  rid_ : Rid
  table_name_ : List Nat
  table_name_size_ : Nat
  undo_next : Int
deriving DecidableEq, Repr

/-- `DeleteLogRecord::serialize`. -/
def DeleteLogRecord.serialize (r : DeleteLogRecord) (dest : Buf) : Buf :=
  let d0 := r.toLogRecord.serialize dest
  let offset := OFFSET_LOG_DATA
  let d1 := memcpy d0 offset (int_bytes r.delete_value_.length)
  let offset := offset + 4
  let d2 := memcpy d1 offset r.delete_value_
  let offset := offset + r.delete_value_.length
  let d3 := memcpy d2 offset (rid_bytes r.rid_)
  let offset := offset + 8
  let d4 := memcpy d3 offset (size_bytes r.table_name_size_)
  let offset := offset + 8
  let d5 := memcpy d4 offset r.table_name_
  let offset := offset + r.table_name_size_
  memcpy d5 offset (int_bytes r.undo_next)

/-- `DeleteLogRecord::deserialize`. -/
def DeleteLogRecord.deserialize (src : Buf) : DeleteLogRecord :=
  let hdr := LogRecord.deserialize src
  let value := RmRecord.Deserialize src OFFSET_LOG_DATA
  let offset := OFFSET_LOG_DATA + value.length + 4
  let rid := read_rid src offset
  let offset := offset + 8
  let name_size := le_val (read src offset 8)
  let offset := offset + 8
  let name := read src offset name_size
  let offset := offset + name_size
  { toLogRecord := hdr, delete_value_ := value, rid_ := rid, table_name_ := name,
    table_name_size_ := name_size, undo_next := bytes_int (read src offset 4) }

/-- The fields hold values of their machine types and the table name array has
`table_name_size_` bytes. -/
@[reducible] def DeleteLogRecord.Valid (r : DeleteLogRecord) : Prop :=
  r.toLogRecord.Valid ∧ r.delete_value_.length < 2147483648 ∧
  IsInt r.rid_.page_no ∧ IsInt r.rid_.slot_no ∧
  r.table_name_.length = r.table_name_size_ ∧ r.table_name_size_ < 18446744073709551616 ∧
  IsInt r.undo_next

/-- The class `UpdateLogRecord`. -/
structure UpdateLogRecord extends LogRecord where
  old_value_ : List Nat
  new_value_ : List Nat
  rid_ : Rid
  table_name_ : List Nat
  table_name_size_ : Nat
  undo_next : Int
deriving DecidableEq, Repr

/-- `UpdateLogRecord::serialize`. -/
def UpdateLogRecord.serialize (r : UpdateLogRecord) (dest : Buf) : Buf :=
  let d0 := r.toLogRecord.serialize dest
  let offset := OFFSET_LOG_DATA
  let d1 := memcpy d0 offset (int_bytes r.old_value_.length)
  let offset := offset + 4
  let d2 := memcpy d1 offset r.old_value_
  let offset := offset + r.old_value_.length
  let d3 := memcpy d2 offset (int_bytes r.new_value_.length)
  let offset := offset + 4
  let d4 := memcpy d3 offset r.new_value_
  let offset := offset + r.new_value_.length
  let d5 := memcpy d4 offset (rid_bytes r.rid_)
  let offset := offset + 8
  let d6 := memcpy d5 offset (size_bytes r.table_name_size_)
  let offset := offset + 8
  let d7 := memcpy d6 offset r.table_name_
  let offset := offset + r.table_name_size_
  memcpy d7 offset (int_bytes r.undo_next)

/-- `UpdateLogRecord::deserialize`. -/
def UpdateLogRecord.deserialize (src : Buf) : UpdateLogRecord :=
  let hdr := LogRecord.deserialize src
  let old_value := RmRecord.Deserialize src OFFSET_LOG_DATA
  let offset := OFFSET_LOG_DATA + old_value.length + 4
  let new_value := RmRecord.Deserialize src offset
  let offset := offset + new_value.length + 4
  let rid := read_rid src offset
  let offset := offset + 8
  let name_size := le_val (read src offset 8)
  let offset := offset + 8
  let name := read src offset name_size
  let offset := offset + name_size
  { toLogRecord := hdr, old_value_ := old_value, new_value_ := new_value, rid_ := rid,
    table_name_ := name, table_name_size_ := name_size,
    undo_next := bytes_int (read src offset 4) }

/-- The fields hold values of their machine types and the table name array has
`table_name_size_` bytes. -/
@[reducible] def UpdateLogRecord.Valid (r : UpdateLogRecord) : Prop :=
  r.toLogRecord.Valid ∧ r.old_value_.length < 2147483648 ∧
  r.new_value_.length < 2147483648 ∧
  IsInt r.rid_.page_no ∧ IsInt r.rid_.slot_no ∧
  r.table_name_.length = r.table_name_size_ ∧ r.table_name_size_ < 18446744073709551616 ∧
  IsInt r.undo_next

/-- The class `UndoNextLogRecord`. -/
structure UndoNextLogRecord extends LogRecord where
  undo_next : Int
deriving DecidableEq, Repr

/-- `UndoNextLogRecord::serialize`. -/
def UndoNextLogRecord.serialize (r : UndoNextLogRecord) (dest : Buf) : Buf :=
  memcpy (r.toLogRecord.serialize dest) OFFSET_LOG_DATA (int_bytes r.undo_next)

/-- `UndoNextLogRecord::deserialize`. -/
def UndoNextLogRecord.deserialize (src : Buf) : UndoNextLogRecord :=
  { toLogRecord := LogRecord.deserialize src,
    undo_next := bytes_int (read src OFFSET_LOG_DATA 4) }

/-- The fields hold values of their machine types. -/
@[reducible] def UndoNextLogRecord.Valid (r : UndoNextLogRecord) : Prop :=
  r.toLogRecord.Valid ∧ IsInt r.undo_next

/-- The class `PageLogRecord` once `set_new_page` has been called: table name,
page number (a `size_t`) and the two page images of `PAGE_SIZE` bytes. -/
structure PageLogRecord extends LogRecord where
  tab_name : List Nat
  page_no : Nat
  old_page : List Nat
  new_page : List Nat
deriving DecidableEq, Repr

/-- `PageLogRecord::serialize`; `PAGE_SIZE` is the constant of `config.h`. -/
def PageLogRecord.serialize (PAGE_SIZE : Nat) (r : PageLogRecord) (dest : Buf) : Buf :=
  let d0 := r.toLogRecord.serialize dest
  let offset := OFFSET_LOG_DATA
  let tab_name_size := r.tab_name.length
  let d1 := memcpy d0 offset (size_bytes tab_name_size)
  let offset := offset + 8
  let d2 := memcpy d1 offset r.tab_name
  let offset := offset + tab_name_size
  let d3 := memcpy d2 offset (size_bytes r.page_no)
  let offset := offset + 8
  let d4 := memcpy d3 offset (r.old_page.take PAGE_SIZE)
  let offset := offset + PAGE_SIZE
  memcpy d4 offset (r.new_page.take PAGE_SIZE)

/-- `PageLogRecord::deserialize`. The table name is copied into a buffer with a
terminating zero and assigned to the string from there. -/
def PageLogRecord.deserialize (PAGE_SIZE : Nat) (src : Buf) : PageLogRecord :=
  let hdr := LogRecord.deserialize src
  let offset := OFFSET_LOG_DATA
  let tab_name_size := le_val (read src offset 8)
  let offset := offset + 8
  let tab_name := c_str (read src offset tab_name_size ++ [0])
  let offset := offset + tab_name_size
  let page_no := le_val (read src offset 8)
  let offset := offset + 8
  let old_page := read src offset PAGE_SIZE
  let offset := offset + PAGE_SIZE
  { toLogRecord := hdr, tab_name := tab_name, page_no := page_no, old_page := old_page,
    new_page := read src offset PAGE_SIZE }

/-- The fields hold values of their machine types, the table name has no zero
byte and the page images have `PAGE_SIZE` bytes. -/
@[reducible] def PageLogRecord.Valid (PAGE_SIZE : Nat) (r : PageLogRecord) : Prop :=
  r.toLogRecord.Valid ∧ r.tab_name.length < 18446744073709551616 ∧ 0 ∉ r.tab_name ∧
  r.page_no < 18446744073709551616 ∧ r.old_page.length = PAGE_SIZE ∧
  r.new_page.length = PAGE_SIZE

/-- The loop `for (auto& col : col_names)` of `serialize`: for each column name
its size, then its bytes. Returns the buffer and the offset afterwards. -/
def write_cols : List (List Nat) → Buf → Nat → Buf × Nat
  | [], d, offset => (d, offset)
  | col :: rest, d, offset =>
    let d1 := memcpy d offset (size_bytes col.length)
    let offset := offset + 8
    let d2 := memcpy d1 offset col
    write_cols rest d2 (offset + col.length)

/-- The loop `for (int i = 0; i < n; i++)` of `deserialize`: the `n` column names
read from `offset` on, each copied into a zero-terminated buffer and made a
string from there. -/
def read_cols (src : Buf) : Nat → Nat → List (List Nat)
  | 0, _ => []
  | n + 1, offset =>
    let len := le_val (read src offset 8)
    let offset := offset + 8
    c_str (read src offset len ++ [0]) :: read_cols src n (offset + len)

/-- The class `CreateIndexLogRecord`. -/
structure CreateIndexLogRecord extends LogRecord where
  tab_name : List Nat
  col_names : List (List Nat)
deriving DecidableEq, Repr

/-- The record the constructor `CreateIndexLogRecord()` makes. -/
def CreateIndexLogRecord.fresh : CreateIndexLogRecord :=
  { log_type_ := LogRecordType.toInt .CREATE_INDEX, lsn_ := INVALID_LSN,
    log_tot_len_ := LOG_HEADER_SIZE, log_tid_ := -1, prev_lsn_ := INVALID_LSN,
    tab_name := [], col_names := [] }

/-- `CreateIndexLogRecord::serialize`. -/
def CreateIndexLogRecord.serialize (r : CreateIndexLogRecord) (dest : Buf) : Buf :=
  let d0 := r.toLogRecord.serialize dest
  let offset := LOG_HEADER_SIZE
  let idx_name_size := r.tab_name.length
  let d1 := memcpy d0 offset (size_bytes idx_name_size)
  let offset := offset + 8
  let d2 := memcpy d1 offset r.tab_name
  let offset := offset + idx_name_size
  let d3 := memcpy d2 offset (size_bytes r.col_names.length)
  let offset := offset + 8
  (write_cols r.col_names d3 offset).1

/-- `CreateIndexLogRecord::deserialize` on the record `self`: the column names
read are pushed onto `self.col_names`. -/
def CreateIndexLogRecord.deserialize (self : CreateIndexLogRecord) (src : Buf) :
    CreateIndexLogRecord :=
  let hdr := LogRecord.deserialize src
  let offset := LOG_HEADER_SIZE
  let idx_name_size := le_val (read src offset 8)
  let offset := offset + 8
  let tab_name := c_str (read src offset idx_name_size ++ [0])
  let offset := offset + idx_name_size
  let n := le_val (read src offset 8)
  let offset := offset + 8
  { toLogRecord := hdr, tab_name := tab_name,
    col_names := self.col_names ++ read_cols src n offset }

/-- The fields hold values of their machine types, the names have no zero byte,
and the number of columns fits the `int` loop counter. -/
@[reducible] def CreateIndexLogRecord.Valid (r : CreateIndexLogRecord) : Prop :=
  r.toLogRecord.Valid ∧ r.tab_name.length < 18446744073709551616 ∧ 0 ∉ r.tab_name ∧
  r.col_names.length < 2147483648 ∧
  ∀ col ∈ r.col_names, col.length < 18446744073709551616 ∧ 0 ∉ col

/-- The class `DropIndexLogRecord`. -/
structure DropIndexLogRecord extends LogRecord where
  tab_name : List Nat
  col_names : List (List Nat)
deriving DecidableEq, Repr

/-- The record the constructor `DropIndexLogRecord()` makes. -/
def DropIndexLogRecord.fresh : DropIndexLogRecord :=
  { log_type_ := LogRecordType.toInt .DROP_INDEX, lsn_ := INVALID_LSN,
    log_tot_len_ := LOG_HEADER_SIZE, log_tid_ := -1, prev_lsn_ := INVALID_LSN,
    tab_name := [], col_names := [] }

/-- `DropIndexLogRecord::serialize`. -/
def DropIndexLogRecord.serialize (r : DropIndexLogRecord) (dest : Buf) : Buf :=
  let d0 := r.toLogRecord.serialize dest
  let offset := LOG_HEADER_SIZE
  let idx_name_size := r.tab_name.length
  let d1 := memcpy d0 offset (size_bytes idx_name_size)
  let offset := offset + 8
  let d2 := memcpy d1 offset r.tab_name
  let offset := offset + idx_name_size
  let d3 := memcpy d2 offset (size_bytes r.col_names.length)
  let offset := offset + 8
  (write_cols r.col_names d3 offset).1

/-- `DropIndexLogRecord::deserialize` on the record `self`. -/
def DropIndexLogRecord.deserialize (self : DropIndexLogRecord) (src : Buf) :
    DropIndexLogRecord :=
  let hdr := LogRecord.deserialize src
  let offset := LOG_HEADER_SIZE
  let idx_name_size := le_val (read src offset 8)
  let offset := offset + 8
  let tab_name := c_str (read src offset idx_name_size ++ [0])
  let offset := offset + idx_name_size
  let n := le_val (read src offset 8)
  let offset := offset + 8
  { toLogRecord := hdr, tab_name := tab_name,
    col_names := self.col_names ++ read_cols src n offset }

/-- The fields hold values of their machine types, the names have no zero byte,
and the number of columns fits the `int` loop counter. -/
@[reducible] def DropIndexLogRecord.Valid (r : DropIndexLogRecord) : Prop :=
  r.toLogRecord.Valid ∧ r.tab_name.length < 18446744073709551616 ∧ 0 ∉ r.tab_name ∧
  r.col_names.length < 2147483648 ∧
  ∀ col ∈ r.col_names, col.length < 18446744073709551616 ∧ 0 ∉ col

/-- A log record of one of the classes `BeginLogRecord`, `CommitLogRecord`,
`AbortLogRecord`, `EndLogRecord` (the header only), `UndoNextLogRecord`,
`InsertLogRecord`, `DeleteLogRecord`, `UpdateLogRecord`, `PageLogRecord`,
`CreateIndexLogRecord`, `DropIndexLogRecord`. -/
inductive AnyLogRecord
  | Begin (r : LogRecord)
  | Commit (r : LogRecord)
  | Abort (r : LogRecord)
  | End (r : LogRecord)
  | UndoNext (r : UndoNextLogRecord)
  | Insert (r : InsertLogRecord)
  | Delete (r : DeleteLogRecord)
  | Update (r : UpdateLogRecord)
  | Page (r : PageLogRecord)
  | CreateIndex (r : CreateIndexLogRecord)
  | DropIndex (r : DropIndexLogRecord)
deriving DecidableEq, Repr

namespace AnyLogRecord

/-- The virtual call `record->serialize(dest)`; the four header-only classes
call `LogRecord::serialize`. -/
def serialize (PAGE_SIZE : Nat) : AnyLogRecord → Buf → Buf
  | .Begin r, dest => r.serialize dest
  | .Commit r, dest => r.serialize dest
  | .Abort r, dest => r.serialize dest
  | .End r, dest => r.serialize dest
  | .UndoNext r, dest => r.serialize dest
  | .Insert r, dest => r.serialize dest
  | .Delete r, dest => r.serialize dest
  | .Update r, dest => r.serialize dest
  | .Page r, dest => r.serialize PAGE_SIZE dest
  | .CreateIndex r, dest => r.serialize dest
  | .DropIndex r, dest => r.serialize dest

/-- The fields of the record hold values of their machine types, names have no
zero byte, arrays have their declared sizes. -/
def Valid (PAGE_SIZE : Nat) : AnyLogRecord → Prop
  | .Begin r => r.Valid
  | .Commit r => r.Valid
  | .Abort r => r.Valid
  | .End r => r.Valid
  | .UndoNext r => r.Valid
  | .Insert r => r.Valid
  | .Delete r => r.Valid
  | .Update r => r.Valid
  | .Page r => r.Valid PAGE_SIZE
  | .CreateIndex r => r.Valid
  | .DropIndex r => r.Valid

end AnyLogRecord

/-- The eight bytes of a `PageId` (`fd`, then `page_no`). -/
def page_id_bytes (id : PageId) : List Nat := int_bytes id.fd ++ int_bytes id.page_no

/-- The `PageId` at offset `off`: `*(PageId *) (src + off)`. -/
def read_page_id (src : Buf) (off : Nat) : PageId :=
  { fd := bytes_int (read src off 4), page_no := bytes_int (read src (off + 4) 4) }

/-- The class `IndexPagesLogRecord`: index name, the page ids and page images
added with `add_page`, and the file header added with `add_file_hdr` (`none`
while `file_hdr` is the null pointer). -/
structure IndexPagesLogRecord extends LogRecord where
  idx_name : List Nat
  page_ids : List PageId
  pages : List (List Nat)
  hdr_len : Int
  file_hdr : Option (List Nat)
deriving DecidableEq, Repr

/-- `IndexPagesLogRecord(txn_id, prev_lsn, idx_name)`. -/
def IndexPagesLogRecord.create (txn_id prev_lsn : Int) (idx_name : List Nat) :
    IndexPagesLogRecord :=
  { log_type_ := LogRecordType.toInt .INDEX_PAGE, lsn_ := INVALID_LSN,
    log_tot_len_ := LOG_HEADER_SIZE + 8 + idx_name.length + 8, log_tid_ := txn_id,
    prev_lsn_ := prev_lsn, idx_name := idx_name, page_ids := [], pages := [], hdr_len := 0,
    file_hdr := none }

/-- The record the constructor `IndexPagesLogRecord()` makes. -/
def IndexPagesLogRecord.fresh : IndexPagesLogRecord :=
  { log_type_ := LogRecordType.toInt .INDEX_PAGE, lsn_ := INVALID_LSN,
    log_tot_len_ := LOG_HEADER_SIZE, log_tid_ := -1, prev_lsn_ := INVALID_LSN,
    idx_name := [], page_ids := [], pages := [], hdr_len := 0, file_hdr := none }

/-- `IndexPagesLogRecord::add_page(page)` for a page with id `id` and the
`PAGE_SIZE` bytes `data`. -/
def IndexPagesLogRecord.add_page (PAGE_SIZE : Nat) (r : IndexPagesLogRecord) (id : PageId)
    (data : List Nat) : IndexPagesLogRecord :=
  { r with log_tot_len_ := r.log_tot_len_ + (PAGE_SIZE + 8),
           pages := r.pages ++ [data.take PAGE_SIZE], page_ids := r.page_ids ++ [id] }

/-- `IndexPagesLogRecord::add_file_hdr(hdr, len)`. -/
def IndexPagesLogRecord.add_file_hdr (r : IndexPagesLogRecord) (hdr : List Nat) (len : Nat) :
    IndexPagesLogRecord :=
  { r with hdr_len := len, file_hdr := some (hdr.take len),
           log_tot_len_ := r.log_tot_len_ + (4 + len) }

/-- The loop `for (auto page_id: page_ids)` of `IndexPagesLogRecord::serialize`:
each id is copied to `dest` itself (`memcpy(dest, &page_id, …)`, offset 0) and
the offset moves on. -/
def write_page_ids : List PageId → Buf → Nat → Buf × Nat
  | [], d, offset => (d, offset)
  | id :: rest, d, offset => write_page_ids rest (memcpy d 0 (page_id_bytes id)) (offset + 8)

/-- The loop `for (auto page: pages)` of `IndexPagesLogRecord::serialize`. -/
def write_pages (PAGE_SIZE : Nat) : List (List Nat) → Buf → Nat → Buf × Nat
  | [], d, offset => (d, offset)
  | page :: rest, d, offset =>
    write_pages PAGE_SIZE rest (memcpy d offset (page.take PAGE_SIZE)) (offset + PAGE_SIZE)

/-- `IndexPagesLogRecord::serialize`; `none` when it throws `InternalError`
(no file header). The header length is copied to `dest` itself
(`memmove(dest, &hdr_len, …)`, offset 0). -/
def IndexPagesLogRecord.serialize (PAGE_SIZE : Nat) (r : IndexPagesLogRecord) (dest : Buf) :
    Option Buf :=
  let d0 := r.toLogRecord.serialize dest
  let offset := LOG_HEADER_SIZE
  let idx_name_size := r.idx_name.length
  let d1 := memcpy d0 offset (size_bytes idx_name_size)
  let offset := offset + 8
  let d2 := memcpy d1 offset r.idx_name
  let offset := offset + idx_name_size
  let d3 := memcpy d2 offset (size_bytes r.pages.length)
  let offset := offset + 8
  let w4 := write_page_ids r.page_ids d3 offset
  let w5 := write_pages PAGE_SIZE r.pages w4.1 w4.2
  let d6 := memcpy w5.1 0 (int_bytes r.hdr_len)
  let offset := w5.2 + 4
  match r.file_hdr with
  | none => none
  | some file_hdr => some (memcpy d6 offset (file_hdr.take r.hdr_len.toNat))

/-- The loop reading `n` page ids in `IndexPagesLogRecord::deserialize`. -/
def read_page_ids (src : Buf) : Nat → Nat → List PageId
  | 0, _ => []
  | n + 1, offset => read_page_id src offset :: read_page_ids src n (offset + 8)

/-- The loop reading `n` page images in `IndexPagesLogRecord::deserialize`. -/
def read_pages (PAGE_SIZE : Nat) (src : Buf) : Nat → Nat → List (List Nat)
  | 0, _ => []
  | n + 1, offset => read src offset PAGE_SIZE :: read_pages PAGE_SIZE src n (offset + PAGE_SIZE)

/-- `IndexPagesLogRecord::deserialize` on the record `self`. The file header
array is allocated with `hdr_len` bytes and `PAGE_SIZE` bytes are copied into
it; the record's file header is what the array holds, its first `hdr_len` bytes. -/
def IndexPagesLogRecord.deserialize (PAGE_SIZE : Nat) (self : IndexPagesLogRecord)
    (src : Buf) : IndexPagesLogRecord :=
  let hdr := LogRecord.deserialize src
  let offset := LOG_HEADER_SIZE
  let idx_name_size := le_val (read src offset 8)
  let offset := offset + 8
  let idx_name := c_str (read src offset idx_name_size ++ [0])
  let offset := offset + idx_name_size
  let n := le_val (read src offset 8)
  let offset := offset + 8
  let page_ids := read_page_ids src n offset
  let offset := offset + 8 * n
  let pages := read_pages PAGE_SIZE src n offset
  let offset := offset + PAGE_SIZE * n
  let hdr_len := bytes_int (read src offset 4)
  let offset := offset + 4
  { toLogRecord := hdr, idx_name := idx_name, page_ids := self.page_ids ++ page_ids,
    pages := self.pages ++ pages, hdr_len := hdr_len,
    file_hdr := some ((read src offset PAGE_SIZE).take hdr_len.toNat) }

/-- An IndexPages record for the index `i` with the page `(fd 7, page 3)` of two
bytes and a file header of four bytes; `PAGE_SIZE` is 2 here. -/
def example_index_pages : IndexPagesLogRecord :=
  (((IndexPagesLogRecord.create 1 5 [105]).add_page 2 ⟨7, 3⟩ [9, 9]).add_file_hdr
    [1, 2, 3, 4] 4)

/-- The record read back from the bytes `serialize` writes for
`example_index_pages` into a zeroed buffer. -/
def example_index_pages_back : Option IndexPagesLogRecord :=
  (example_index_pages.serialize 2 (fun _ => 0)).map
    (fun bytes => IndexPagesLogRecord.fresh.deserialize 2 bytes)

end Serial

/-! ## Values: `Value::init_raw`, `Value::to_bytes`, `Value::is_valid_datetime` -/

/-- The conversion `(int) n` of a `size_t`: the low 32 bits, read with sign. -/
def to_int32 (n : Nat) : Int :=
  if n % 4294967296 < 2147483648 then ((n % 4294967296 : Nat) : Int)
  else ((n % 4294967296 : Nat) : Int) - 4294967296

/-- `Value`: the type tag, the numeric members (`float_val` as its 32 bits; in
the source the three share storage), the string, and the raw buffer
(`none` for the null pointer). -/
structure Value where
  type : ColType
  int_val : Int
  float_val : Nat
  bigint_val : Int
  str_val : List Nat
  raw : Option (List Nat)
deriving DecidableEq, Repr

namespace Value

/-- `Value::set_str` on a new value. -/
def of_str (s : List Nat) : Value :=
  { type := .TYPE_STRING, int_val := 0, float_val := 0, bigint_val := 0, str_val := s,
    raw := none }

/-- `Value::set_int` on a new value. -/
def of_int (i : Int) : Value :=
  { type := .TYPE_INT, int_val := i, float_val := 0, bigint_val := 0, str_val := [],
    raw := none }

/-- `Value::set_bigint`. -/
def set_bigint (v : Value) (bigint_val_ : Int) : Value :=
  { v with type := .TYPE_BIGINT, bigint_val := bigint_val_ }

/-- How `Value::init_raw` ends: it returns (with the value it left), it throws
`StringOverflowError`, or an `assert` fails. -/
inductive InitRaw
  | done (v : Value)
  | string_overflow
  | assertion_failed
deriving DecidableEq, Repr

/-- `Value::init_raw(len)` for a column length `len`. For a string the buffer of
`len` bytes is zeroed and the bytes of the string are copied to its start. -/
def init_raw (v : Value) (len : Nat) : InitRaw :=
  if v.raw.isSome then .assertion_failed
  else
    match v.type with
    | .TYPE_INT =>
      if len = 4 then .done { v with raw := some (Serial.int_bytes v.int_val) }
      else .assertion_failed
    | .TYPE_FLOAT =>
      if len = 4 then .done { v with raw := some (Serial.le_bytes 4 v.float_val) }
      else .assertion_failed
    | .TYPE_STRING | .TYPE_DATETIME =>
      if (len : Int) < to_int32 v.str_val.length then .string_overflow
      else
        .done { v with raw := some ((v.str_val ++ List.replicate (len - v.str_val.length) 0).take len) }
    | .TYPE_BIGINT =>
      if len = 8 then
        .done { v with raw := some (Serial.le_bytes 8 (v.bigint_val % 18446744073709551616).toNat) }
      else .assertion_failed

/-- `Value::to_bytes`: the new array `buff`. For a string it has exactly the
bytes of the string, without padding or terminator. -/
def to_bytes (v : Value) : List Nat :=
  match v.type with
  | .TYPE_INT => Serial.int_bytes v.int_val
  | .TYPE_FLOAT => Serial.le_bytes 4 v.float_val
  | .TYPE_STRING | .TYPE_DATETIME => v.str_val
  | .TYPE_BIGINT => Serial.le_bytes 8 (v.bigint_val % 18446744073709551616).toNat

end Value

/-- `s.substr(pos, n)`. -/
def substr (s : List Nat) (pos n : Nat) : List Nat := (s.drop pos).take n

/-- `isspace` in the C locale: space, `\t`, `\n`, `\v`, `\f`, `\r`. -/
def is_space (c : Nat) : Bool := c == 32 || (9 ≤ c && c ≤ 13)

/-- `isdigit`: the characters `0` to `9`. -/
def is_digit (c : Nat) : Bool := 48 ≤ c && c ≤ 57

/-- The number a string of decimal digits stands for. -/
def decimal (ds : List Nat) : Nat := ds.foldl (fun acc c => acc * 10 + (c - 48)) 0

/-- `std::stoi(s)` of the C++ library: white space is skipped, then an optional
sign and the longest run of decimal digits are converted; what follows is
ignored. `none` stands for an exception: `std::invalid_argument` when there is
no digit, `std::out_of_range` when the number does not fit an `int`. -/
def stoi (s : List Nat) : Option Int :=
  let s1 := s.dropWhile is_space
  let negative := s1.head? = some 45
  let s2 := if s1.head? = some 45 ∨ s1.head? = some 43 then s1.tail else s1
  let digits := s2.takeWhile is_digit
  if digits = [] then none
  else
    let v : Int := if negative then -(decimal digits : Int) else (decimal digits : Int)
    if v < -2147483648 ∨ v > 2147483647 then none else some v

namespace Value

/-- `Value::is_valid_datetime`; `none` when one of the `std::stoi` calls throws. -/
def is_valid_datetime (v : Value) : Option Bool :=
  let dateTimeStr := v.str_val
  if dateTimeStr.length ≠ 19 then some false
  else
    match stoi (substr dateTimeStr 0 4) with
    | none => none
    | some year =>
      if year < 1000 ∨ year > 9999 then some false
      else
        match stoi (substr dateTimeStr 5 2) with
        | none => none
        | some month =>
          if month < 1 ∨ month > 12 then some false
          else
            match stoi (substr dateTimeStr 8 2) with
            | none => none
            | some day =>
              if day < 1 then some false
              else
                let maxDay : Int :=
                  if month = 2 then
                    (if (year % 4 = 0 ∧ year % 100 ≠ 0) ∨ year % 400 = 0 then 29 else 28)
                  else if month = 4 ∨ month = 6 ∨ month = 9 ∨ month = 11 then 30
                  else 31
                if day > maxDay then some false
                else
                  match stoi (substr dateTimeStr 11 2) with
                  | none => none
                  | some hour =>
                    if hour < 0 ∨ hour > 23 then some false
                    else
                      match stoi (substr dateTimeStr 14 2) with
                      | none => none
                      | some minute =>
                        if minute < 0 ∨ minute > 59 then some false
                        else
                          match stoi (substr dateTimeStr 17 2) with
                          | none => none
                          | some second =>
                            if second < 0 ∨ second > 59 then some false else some true

/-- The number of days of a month in a year, by the Gregorian leap-year rule. -/
def days_in_month (year month : Nat) : Nat :=
  if month = 2 then
    (if year % 400 = 0 ∨ (year % 4 = 0 ∧ year % 100 ≠ 0) then 29 else 28)
  else if month = 4 ∨ month = 6 ∨ month = 9 ∨ month = 11 then 30
  else 31

/-- The six numeric fields of a string `YYYY?MM?DD?HH?MM?SS` are in range: year
1000..9999, month 1..12, day 1..days of the month, hour 0..23, minute and
second 0..59. -/
def fields_in_range (s : List Nat) : Bool :=
  decide (1000 ≤ decimal (substr s 0 4) ∧ decimal (substr s 0 4) ≤ 9999 ∧
    1 ≤ decimal (substr s 5 2) ∧ decimal (substr s 5 2) ≤ 12 ∧
    1 ≤ decimal (substr s 8 2) ∧
    decimal (substr s 8 2) ≤ days_in_month (decimal (substr s 0 4)) (decimal (substr s 5 2)) ∧
    decimal (substr s 11 2) ≤ 23 ∧ decimal (substr s 14 2) ≤ 59 ∧
    decimal (substr s 17 2) ≤ 59)

/-- The six numeric fields of a string of 19 characters consist of digits. -/
def fields_are_digits (s : List Nat) : Prop :=
  ∀ c, (c ∈ substr s 0 4 ∨ c ∈ substr s 5 2 ∨ c ∈ substr s 8 2 ∨ c ∈ substr s 11 2 ∨
    c ∈ substr s 14 2 ∨ c ∈ substr s 17 2) → is_digit c = true

/-- The string `2023/01/01T00:00:00`, with `/`, `T` where `-` and the space belong. -/
def example_slashes : Value :=
  of_str [50, 48, 50, 51, 47, 48, 49, 47, 48, 49, 84, 48, 48, 58, 48, 48, 58, 48, 48]

/-- The string `abcd-01-01 00:00:00`. -/
def example_letters : Value :=
  of_str [97, 98, 99, 100, 45, 48, 49, 45, 48, 49, 32, 48, 48, 58, 48, 48, 58, 48, 48]

/-- The string `2024-02-29 23:59:59`. -/
def example_leap_day : Value :=
  of_str [50, 48, 50, 52, 45, 48, 50, 45, 50, 57, 32, 50, 51, 58, 53, 57, 58, 53, 57]

end Value

/-! ## The update operator: building the new record -/

/-- `Func`: the aggregate function of a selected column. -/
inductive Func
  | FUNC_NULL | FUNC_COUNT | FUNC_MAX | FUNC_MIN | FUNC_SUM
deriving DecidableEq, Repr

/-- `TabCol`. -/
structure TabCol where
  tab_name : String
  col_name : String
  func : Func
  alias_ : String
  is_desc : Bool
deriving DecidableEq, Repr

/-- `SetClause`. -/
structure SetClause where
  lhs : TabCol
  rhs : Value
deriving DecidableEq, Repr

namespace UpdateExecutor

/-- How the statements of `UpdateExecutor::Next` that apply one set clause end:
the new record and the clause (its value may have been converted), or one of
the exceptions. -/
inductive SetResult
  | done (new_rec : List Nat) (set_clause : SetClause)
  | column_not_found
  | invalid_datetime
  | incompatible_type
  | string_overflow
  | assertion_failed
  | stoi_threw
deriving DecidableEq, Repr

/-- `memcpy(rec + offset, src, len)` on a record kept as the list of its bytes. -/
def copy_into (rec : List Nat) (offset : Nat) (src : List Nat) (len : Nat) : List Nat :=
  rec.take offset ++ src.take len ++ rec.drop (offset + len)

/-- The body of the loop `for (auto &set_clause: set_clauses_)`: the type
conversion and `memcpy(new_rec.data + lhs_col->offset, set_clause.rhs.to_bytes(),
lhs_col->len)`. The array `to_bytes` returns may be shorter than `lhs_col->len`;
`beyond` is what lies behind it in memory. -/
def apply_set_clause (tab : TabMeta) (beyond : List Nat) (new_rec : List Nat)
    (set_clause : SetClause) : SetResult :=
  match tab.get_col set_clause.lhs.col_name with
  | none => .column_not_found
  | some lhs_col =>
    let write (rhs : Value) : SetResult :=
      .done (copy_into new_rec lhs_col.offset (rhs.to_bytes ++ beyond) lhs_col.len)
        { set_clause with rhs := rhs }
    if lhs_col.type ≠ set_clause.rhs.type then
      if lhs_col.type = .TYPE_BIGINT ∧ set_clause.rhs.type = .TYPE_INT then
        match (set_clause.rhs.set_bigint set_clause.rhs.int_val).init_raw lhs_col.len with
        | .done rhs => write rhs
        | .string_overflow => .string_overflow
        | .assertion_failed => .assertion_failed
      else if lhs_col.type = .TYPE_DATETIME ∧ set_clause.rhs.type = .TYPE_STRING then
        match set_clause.rhs.is_valid_datetime with
        | none => .stoi_threw
        | some false => .invalid_datetime
        | some true => write set_clause.rhs
      else .incompatible_type
    else write set_clause.rhs

end UpdateExecutor

namespace Example

/-- The table `c (s CHAR(2))`. -/
def c_tab : TabMeta :=
  { name := "c", cols := [⟨"c", "s", .TYPE_STRING, 2, 0, false⟩], indexes := [] }

/-- The clause `SET s = 'abc'`: three characters for a column of two. -/
def set_abc : SetClause :=
  { lhs := ⟨"c", "s", .FUNC_NULL, "", false⟩, rhs := Value.of_str [97, 98, 99] }

/-- The clause `SET s = 'a'`: one character for a column of two. -/
def set_a : SetClause :=
  { lhs := ⟨"c", "s", .FUNC_NULL, "", false⟩, rhs := Value.of_str [97] }

end Example

/-! ## Heap files that have only received inserts -/

/-- The order of rids: by page number, then by slot number. -/
def Rid.lt (a b : Rid) : Prop :=
  a.page_no < b.page_no ∨ (a.page_no = b.page_no ∧ a.slot_no < b.slot_no)

instance (a b : Rid) : Decidable (Rid.lt a b) :=
  inferInstanceAs (Decidable (a.page_no < b.page_no ∨
    (a.page_no = b.page_no ∧ a.slot_no < b.slot_no)))

namespace RmFileHandle

/-- Successive calls `insert_record(buf, context)`, one for each buffer of the
list: the rids returned, in the order of the calls, and the file and the context
afterwards. `none` when a call throws. -/
def insert_records : RmFileHandle → List (List Nat) → Option Context →
    Option (List Rid × RmFileHandle × Option Context)
  | fh, [], context => some ([], fh, context)
  | fh, buf :: rest, context =>
    match fh.insert_record buf context with
    | none => none
    | some (rid, fh1, context1) =>
      match insert_records fh1 rest context1 with
      | none => none
      | some (rids, fh2, context2) => some (rid :: rids, fh2, context2)

/-- Modelled from the spec: a heap file right after its creation
(`RmManager::create_file` is not among the sources): the header page only, and
"`first_free_page_no = NO_PAGE` means no partially-free page; new inserts
allocate". A page has room for at least one record. -/
def Created (fh : RmFileHandle) : Prop :=
  fh.file_hdr_.num_pages = 1 ∧ fh.file_hdr_.first_free_page_no = RM_NO_PAGE ∧
  0 < fh.file_hdr_.num_records_per_page

/-- The shape of a heap file that has only received inserts: every data page is
full, except possibly the last one, which is then the only free page and holds
its records in the slots `0 .. num_records - 1`. -/
structure InsertOnly (fh : RmFileHandle) : Prop where
  slots_pos : 0 < fh.file_hdr_.num_records_per_page
  hdr_page : 1 ≤ fh.file_hdr_.num_pages
  full : ∀ p, 1 ≤ p → p < fh.file_hdr_.num_pages → p ≠ fh.file_hdr_.first_free_page_no →
    ∀ i : Nat, i < fh.file_hdr_.num_records_per_page →
      (fh.pages p).body.bitmap (Int.ofNat i) = true
  last : fh.file_hdr_.first_free_page_no ≠ RM_NO_PAGE →
    fh.file_hdr_.first_free_page_no = fh.file_hdr_.num_pages - 1 ∧
    1 ≤ fh.file_hdr_.first_free_page_no ∧
    (fh.pages fh.file_hdr_.first_free_page_no).body.next_free_page_no = RM_NO_PAGE ∧
    0 ≤ (fh.pages fh.file_hdr_.first_free_page_no).body.num_records ∧
    (fh.pages fh.file_hdr_.first_free_page_no).body.num_records
      < fh.file_hdr_.num_records_per_page ∧
    ∀ i : Nat, i < fh.file_hdr_.num_records_per_page →
      ((fh.pages fh.file_hdr_.first_free_page_no).body.bitmap (Int.ofNat i) = true ↔
        (Int.ofNat i) < (fh.pages fh.file_hdr_.first_free_page_no).body.num_records)

/-- The slot the next insert into an insert-only file takes: the first clear
slot of the free page, or slot 0 of the page that will be added. -/
def frontier (fh : RmFileHandle) : Rid :=
  if fh.file_hdr_.first_free_page_no = RM_NO_PAGE then ⟨fh.file_hdr_.num_pages, 0⟩
  else ⟨fh.file_hdr_.first_free_page_no,
        (fh.pages fh.file_hdr_.first_free_page_no).body.num_records⟩

/-- The rids of the set bits of one page, in slot order (the part of `RmScan`
for one page). -/
def page_rids (fh : RmFileHandle) (page_no : Int) : List Rid :=
  ((List.range fh.file_hdr_.num_records_per_page).filter
    (fun slot => (fh.pages page_no).body.bitmap (Int.ofNat slot))).map
    (fun slot => (⟨page_no, Int.ofNat slot⟩ : Rid))

end RmFileHandle

/-! ## Child operators and aggregates -/

/-- A child operator as the operators above it use it (`AbstractExecutor`; the
operators that stand below are of any kind): its columns, its row length, the
rows it yields and the position of the current row. -/
structure RowSource where
  cols : List ColMeta
  tupleLen : Nat
  rows : List (List Nat)
  pos : Nat
deriving DecidableEq, Repr

namespace RowSource

/-- Child `beginTuple()`: back to the first row. -/
def beginTuple (s : RowSource) : RowSource := { s with pos := 0 }

/-- Child `is_end()`. -/
def is_end (s : RowSource) : Bool := decide (s.rows.length ≤ s.pos)

/-- Child `nextTuple()`. -/
def nextTuple (s : RowSource) : RowSource := { s with pos := s.pos + 1 }

/-- Child `Next()`: the current row. -/
def Next (s : RowSource) : List Nat := s.rows.getD s.pos []

end RowSource

/-- `get_col(rec_cols, target)` of `Filter` (the operators use the one of
`AbstractExecutor`, which is not among the sources and is taken to be the same):
the position of the first column with the table and column name of the target;
`none` for `ColumnNotFoundError`. -/
def get_col (rec_cols : List ColMeta) (target : TabCol) : Option Nat :=
  let pos := rec_cols.findIdx
    (fun col => col.tab_name == target.tab_name && col.name == target.col_name)
  if pos = rec_cols.length then none else some pos

/-- A fresh allocation of `n` bytes (`new char[n]`, `new int`): its contents are
whatever `fresh` holds. -/
def alloc (fresh : List Nat) (n : Nat) : List Nat := (fresh ++ List.replicate n 0).take n

/-- `memmove(dest, src, n)` on buffers kept as lists of bytes. -/
def memmove (dest src : List Nat) (n : Nat) : List Nat := src.take n ++ dest.drop n

/-- The sign of `strcmp(a, b)`: the bytes up to the first zero byte (the end of
the buffer counts as one) are compared as unsigned characters. -/
def strcmp : List Nat → List Nat → Int
  | [], [] => 0
  | [], b :: _ => if b = 0 then 0 else -1
  | a :: _, [] => if a = 0 then 0 else 1
  | a :: as, b :: bs =>
    if a < b then -1 else if b < a then 1 else if a = 0 then 0 else strcmp as bs

/-- The `int` a record holds at an offset: `*(int *)(rec->data + offset)`. -/
def int_at (rec : List Nat) (offset : Nat) : Int := Serial.bytes_int ((rec.drop offset).take 4)

/-- The arithmetic of `float` on four-byte buffers, a parameter of the model. -/
structure FloatOps where
  max : List Nat → List Nat → List Nat
  min : List Nat → List Nat → List Nat
  add : List Nat → List Nat → List Nat

/-- `struct function`: the running value of one aggregate. `result` is the
buffer the pointer `result` refers to. -/
structure function where
  result : List Nat
  type : ColType
  len : Nat
  f : Func
  is_null : Bool
deriving DecidableEq, Repr

namespace function

/-- `*(int*)result`. -/
def read_int (buf : List Nat) : Int := Serial.bytes_int (buf.take 4)

/-- `*(int*)result = v` (two's complement, four bytes). -/
def write_int (buf : List Nat) (v : Int) : List Nat := Serial.int_bytes v ++ buf.drop 4

/-- `function::calc(param)` (`calc` is a reserved word here). -/
def calc_ (fl : FloatOps) (fn : function) (param : List Nat) : function :=
  if fn.f = .FUNC_NULL then fn
  else if fn.is_null then
    { fn with result := memmove fn.result param fn.len, is_null := false }
  else
    match fn.f with
    | .FUNC_NULL => fn
    | .FUNC_COUNT => { fn with result := write_int fn.result (read_int fn.result + 1) }
    | .FUNC_MAX =>
      if fn.type = .TYPE_INT then
        { fn with result := write_int fn.result (max (read_int fn.result) (read_int param)) }
      else if fn.type = .TYPE_FLOAT then
        { fn with result := fl.max (fn.result.take 4) (param.take 4) ++ fn.result.drop 4 }
      else if fn.type = .TYPE_STRING then
        if strcmp fn.result param < 0 then { fn with result := memmove fn.result param fn.len }
        else fn
      else fn
    | .FUNC_MIN =>
      if fn.type = .TYPE_INT then
        { fn with result := write_int fn.result (min (read_int fn.result) (read_int param)) }
      else if fn.type = .TYPE_FLOAT then
        { fn with result := fl.min (fn.result.take 4) (param.take 4) ++ fn.result.drop 4 }
      else if fn.type = .TYPE_STRING then
        if strcmp fn.result param > 0 then { fn with result := memmove fn.result param fn.len }
        else fn
      else fn
    | .FUNC_SUM =>
      if fn.type = .TYPE_INT then
        { fn with result := write_int fn.result (read_int fn.result + read_int param) }
      else if fn.type = .TYPE_FLOAT then
        { fn with result := fl.add (fn.result.take 4) (param.take 4) ++ fn.result.drop 4 }
      else fn

/-- The constructor `function(f_, type_, len_)`; `none` for `InternalError`.
`fresh` holds the contents of the new buffer; for a type other than INT, FLOAT
and STRING the source leaves the pointer uninitialised, and the model gives the
buffer no bytes. `zero_float` is the four bytes of the float 0. -/
def create (zero_float : List Nat) (fresh : List Nat) (f_ : Func) (type_ : ColType)
    (len_ : Nat) : Option function :=
  let result : List Nat :=
    if type_ = .TYPE_INT then alloc fresh 4
    else if type_ = .TYPE_FLOAT then alloc fresh 4
    else if type_ = .TYPE_STRING then alloc fresh len_
    else []
  if f_ = .FUNC_COUNT then
    some { result := write_int result 0, type := .TYPE_INT, len := 4, f := f_,
           is_null := false }
  else if f_ = .FUNC_SUM then
    if type_ ≠ .TYPE_INT ∧ type_ ≠ .TYPE_FLOAT then none
    else if type_ = .TYPE_INT then
      some { result := write_int result 0, type := type_, len := len_, f := f_,
             is_null := false }
    else
      some { result := zero_float ++ result.drop 4, type := type_, len := len_, f := f_,
             is_null := false }
  else some { result := result, type := type_, len := len_, f := f_, is_null := true }

end function

/-- `AggregateExecutor`. -/
structure AggregateExecutor where
  prev_ : RowSource
  cols_ : List ColMeta
  len_ : Nat
  sel_idxs_ : List Nat
  sel_cols_ : List TabCol
  functions : List function
  is_end_ : Bool
deriving DecidableEq, Repr

namespace AggregateExecutor

/-- The loop over `sel_cols` in the constructor, on the part of the operator it
fills in; `curr_offset` is kept in `len_`. `none` when an exception is thrown. -/
def add_sel_cols (zero_float fresh : List Nat) :
    List TabCol → AggregateExecutor → Option AggregateExecutor
  | [], e => some e
  | sel_col :: rest, e =>
    match get_col e.prev_.cols sel_col with
    | none => none
    | some pos =>
      match e.prev_.cols.get? pos with
      | none => none
      | some prev_col =>
        match function.create zero_float fresh sel_col.func prev_col.type prev_col.len with
        | none => none
        | some f =>
          let col : ColMeta := { prev_col with len := f.len, type := f.type, offset := e.len_ }
          add_sel_cols zero_float fresh rest
            { e with sel_idxs_ := e.sel_idxs_ ++ [pos],
                     functions := e.functions ++ [f],
                     len_ := e.len_ + f.len,
                     is_end_ := if f.f = .FUNC_COUNT then false else e.is_end_,
                     cols_ := e.cols_ ++ [col] }

/-- The constructor `AggregateExecutor(prev, sel_cols)`. -/
def create (zero_float fresh : List Nat) (prev : RowSource) (sel_cols : List TabCol) :
    Option AggregateExecutor :=
  (add_sel_cols zero_float fresh sel_cols
    { prev_ := prev, cols_ := [], len_ := 0, sel_idxs_ := [], sel_cols_ := [],
      functions := [], is_end_ := true }).map
    (fun e => { e with sel_cols_ := sel_cols })

/-- `beginTuple()`. -/
def beginTuple (e : AggregateExecutor) : AggregateExecutor :=
  { e with prev_ := e.prev_.beginTuple }

/-- `nextTuple()` does nothing. -/
def nextTuple (e : AggregateExecutor) : AggregateExecutor := e

/-- `is_end()`. -/
def is_end (e : AggregateExecutor) : Bool := e.is_end_ && e.prev_.is_end

/-- The inner loop of `Next` over `idx`: every function takes the bytes of the
child row from the offset of its column on. -/
def calc_row (fl : FloatOps) (prev_cols : List ColMeta) (prev_rec : List Nat) :
    List Nat → List function → List function
  | prev_idx :: idxs, fn :: fns =>
    fn.calc_ fl (prev_rec.drop (((prev_cols.get? prev_idx).map (fun c => c.offset)).getD 0))
      :: calc_row fl prev_cols prev_rec idxs fns
  | _, fns => fns

/-- The loop `for (auto f : functions) memmove(proj_rec->data, f.result, f.len)`:
every result is copied to the start of the record. -/
def write_results (proj_rec : List Nat) : List function → List Nat
  | [] => proj_rec
  | f :: rest => write_results (memmove proj_rec f.result f.len) rest

/-- `Next()`: `none` for `nullptr`. The loop over the child runs through the
rows the child has left. `fresh` holds the contents of the new record. -/
def Next (fl : FloatOps) (fresh : List Nat) (e : AggregateExecutor) :
    Option (List Nat) × AggregateExecutor :=
  if e.is_end then (none, e)
  else
    let functions := (e.prev_.rows.drop e.prev_.pos).foldl
      (fun fns prev_rec => calc_row fl e.prev_.cols prev_rec e.sel_idxs_ fns) e.functions
    let prev1 : RowSource := { e.prev_ with pos := max e.prev_.pos e.prev_.rows.length }
    (some (write_results (alloc fresh e.len_) functions),
     { e with prev_ := prev1, functions := functions, is_end_ := true })

/-- Modelled from the spec: the loop that drains an operator (the query driver
is not among the sources), `for (beginTuple(); !is_end(); nextTuple()) Next()`,
here from after `beginTuple` on: the rows yielded, `none` when `fuel` rounds
were not enough. -/
def drain (fl : FloatOps) (fresh : List Nat) : Nat → AggregateExecutor →
    Option (List (List Nat))
  | 0, _ => none
  | fuel + 1, e =>
    if e.is_end then some []
    else
      match e.Next fl fresh with
      | (some rec, e1) => (drain fl fresh fuel e1.nextTuple).map (fun rows => rec :: rows)
      | (none, _) => none

/-- The rows of `SELECT f(col)` over a child: the operator is built, begun and
drained. `none` when an exception is thrown or `fuel` rounds were not enough. -/
def select (fl : FloatOps) (zero_float fresh : List Nat) (fuel : Nat) (prev : RowSource)
    (sel_cols : List TabCol) : Option (List (List Nat)) :=
  match create zero_float fresh prev sel_cols with
  | none => none
  | some e => drain fl fresh fuel e.beginTuple

end AggregateExecutor

namespace Example

/-- A child with one INT column `a` and the rows 1, 5, 3. -/
def ints : RowSource :=
  { cols := [⟨"t", "a", .TYPE_INT, 4, 0, false⟩], tupleLen := 4,
    rows := [[1, 0, 0, 0], [5, 0, 0, 0], [3, 0, 0, 0]], pos := 0 }

/-- Float operations that are never looked at in the examples. -/
def no_floats : FloatOps :=
  { max := fun a _ => a, min := fun a _ => a, add := fun a _ => a }

end Example

/-! ## Comparison of column values: `Filter::compare` -/

/-- The order of `float` on four-byte buffers, a parameter of the model. -/
structure FloatCompare where
  lt : List Nat → List Nat → Bool

/-- The sign of `memcmp(lhs, rhs, len)`: the first `len` bytes are compared as
unsigned characters. -/
def memcmp : List Nat → List Nat → Nat → Int
  | a :: as, b :: bs, n + 1 => if a < b then -1 else if b < a then 1 else memcmp as bs n
  | _, _, _ => 0

/-- The `long long` a record holds at an offset: `*(long long *)(rec->data + offset)`. -/
def bigint_at (rec : List Nat) (offset : Nat) : Int :=
  let v := Serial.le_val ((rec.drop offset).take 8)
  if v < 9223372036854775808 then (v : Int) else (v : Int) - 18446744073709551616

namespace Filter

/-- `Filter::compare(lhs, rhs, len, type)`. -/
def compare (fc : FloatCompare) (lhs rhs : List Nat) (len : Nat) (type : ColType) : Int :=
  match type with
  | .TYPE_INT =>
    let ia := int_at lhs 0
    let ib := int_at rhs 0
    if ia < ib then -1 else if ia > ib then 1 else 0
  | .TYPE_BIGINT =>
    let ia := bigint_at lhs 0
    let ib := bigint_at rhs 0
    if ia < ib then -1 else if ia > ib then 1 else 0
  | .TYPE_FLOAT =>
    if fc.lt (lhs.take 4) (rhs.take 4) then -1
    else if fc.lt (rhs.take 4) (lhs.take 4) then 1 else 0
  | .TYPE_STRING => memcmp lhs rhs len
  | .TYPE_DATETIME => memcmp lhs rhs len

end Filter

/-! ## The sort operator -/

/-- Insertion of an element into a list sorted by `less`. -/
def insert_sorted {α : Type} (less : α → α → Bool) (x : α) : List α → List α
  | [] => [x]
  | y :: ys => if less x y then x :: y :: ys else y :: insert_sorted less x ys

/-- `std::sort(first, last, less)`: the elements in an order in which no element
is `less` than one before it. The library does not say which of several such
orders comes out; the model takes the one of insertion sort. -/
def std_sort {α : Type} (less : α → α → Bool) (l : List α) : List α :=
  l.foldr (insert_sorted less) []

/-- `SortExecutor`. `cols_map` is the `std::map` from column names to columns. -/
structure SortExecutor where
  prev_ : RowSource
  cols_map : String → Option ColMeta
  key_cols_ : List TabCol
  used_tuple : Int
  records : List (List Nat)
  limit_ : Int

namespace SortExecutor

/-- The value `cols_map[name]`: the column entered under the name, or a
value-initialised `ColMeta` when there is none. -/
def cols_map_at (cols_map : String → Option ColMeta) (name : String) : ColMeta :=
  (cols_map name).getD ⟨"", "", .TYPE_INT, 0, 0, false⟩

/-- The loop over `key_cols` in the constructor: `find_if` looks the key up by
table and column name, and the column found is entered into `cols_map` under
its column name. `none` when a key is not a column of the child (the source
then dereferences the end iterator). -/
def add_key_cols (cols : List ColMeta) :
    List TabCol → (String → Option ColMeta) → Option (String → Option ColMeta)
  | [], cols_map => some cols_map
  | key_col :: rest, cols_map =>
    match cols.find? (fun col => col.tab_name == key_col.tab_name
        && col.name == key_col.col_name) with
    | none => none
    | some it => add_key_cols cols rest (Function.update cols_map it.name (some it))

/-- The constructor `SortExecutor(prev, key_cols, limit)`. -/
def create (prev : RowSource) (key_cols : List TabCol) (limit : Int) : Option SortExecutor :=
  (add_key_cols prev.cols key_cols (fun _ => none)).map (fun cols_map =>
    { prev_ := prev, cols_map := cols_map, key_cols_ := key_cols, used_tuple := 0,
      records := [], limit_ := limit })

/-- The comparator handed to `std::sort`: the loop over `key_cols_`. -/
def less (fc : FloatCompare) (cols_map : String → Option ColMeta) :
    List TabCol → List Nat → List Nat → Bool
  | [], _, _ => false
  | tab_col :: rest, l, r =>
    let col_meta := cols_map_at cols_map tab_col.col_name
    let cmp := Filter.compare fc (l.drop col_meta.offset) (r.drop col_meta.offset)
      col_meta.len col_meta.type
    if cmp ≠ 0 then (if tab_col.is_desc then decide (cmp > 0) else decide (cmp < 0))
    else less fc cols_map rest l r

/-- `beginTuple()`: the rows of the child are collected and sorted. -/
def beginTuple (fc : FloatCompare) (e : SortExecutor) : SortExecutor :=
  let limit1 : Int := if e.limit_ < 0 then 2147483647 else e.limit_
  let records1 := e.records ++ e.prev_.beginTuple.rows
  let prev1 : RowSource := { e.prev_ with pos := e.prev_.rows.length }
  let records2 :=
    if e.key_cols_ ≠ [] then std_sort (less fc e.cols_map e.key_cols_) records1 else records1
  { e with limit_ := limit1, records := records2, prev_ := prev1 }

/-- `nextTuple()`. -/
def nextTuple (e : SortExecutor) : SortExecutor := { e with used_tuple := e.used_tuple + 1 }

/-- `is_end()`. -/
def is_end (e : SortExecutor) : Bool :=
  decide (e.used_tuple ≥ e.limit_) || decide (e.used_tuple ≥ (e.records.length : Int))

/-- `Next()`: `none` for `nullptr`. -/
def Next (e : SortExecutor) : Option (List Nat) :=
  if e.is_end then none else some (e.records.getD e.used_tuple.toNat [])

/-- Modelled from the spec: the loop that drains an operator (the query driver
is not among the sources), `for (beginTuple(); !is_end(); nextTuple()) Next()`,
here from after `beginTuple` on: the rows yielded, `none` when `fuel` rounds
were not enough. -/
def drain : Nat → SortExecutor → Option (List (List Nat))
  | 0, _ => none
  | fuel + 1, e =>
    match e.Next with
    | none => some []
    | some rec => (drain fuel e.nextTuple).map (fun rows => rec :: rows)

/-- The rows of `SELECT ... ORDER BY key_cols LIMIT limit` over a child: the
operator is built, begun and drained. -/
def select (fc : FloatCompare) (fuel : Nat) (prev : RowSource) (key_cols : List TabCol)
    (limit : Int) : Option (List (List Nat)) :=
  match create prev key_cols limit with
  | none => none
  | some e => drain fuel (e.beginTuple fc)

end SortExecutor

namespace Example

/-- The child of a join of `t1 (a INT)` and `t2 (a INT)`: the rows (1, 2) and (2, 1). -/
def joined : RowSource :=
  { cols := [⟨"t1", "a", .TYPE_INT, 4, 0, false⟩, ⟨"t2", "a", .TYPE_INT, 4, 4, false⟩],
    tupleLen := 8,
    rows := [[1, 0, 0, 0, 2, 0, 0, 0], [2, 0, 0, 0, 1, 0, 0, 0]], pos := 0 }

/-- The keys `ORDER BY t1.a, t2.a`, both ascending. -/
def order_by_both : List TabCol :=
  [⟨"t1", "a", .FUNC_NULL, "", false⟩, ⟨"t2", "a", .FUNC_NULL, "", false⟩]

/-- A float order that is never looked at in the examples. -/
def no_float_order : FloatCompare := { lt := fun _ _ => false }

end Example

/-! ## Recovery: `analyze` and `undo` -/

/-- `TxnStatus`. -/
inductive TxnStatus
  | UndoCandidate | Committed | Aborting
deriving DecidableEq, Repr

/-- The value `m[key]` of a `std::unordered_map` kept as the list of its entries;
`dflt` is the value-initialised value `operator[]` gives for a key that is not
there. -/
def map_at {κ ν : Type} [DecidableEq κ] (m : List (κ × ν)) (key : κ) (dflt : ν) : ν :=
  match m.find? (fun kv => decide (kv.1 = key)) with
  | some kv => kv.2
  | none => dflt

/-- The assignment `m[key] = v`. -/
def map_set {κ ν : Type} [DecidableEq κ] (m : List (κ × ν)) (key : κ) (v : ν) : List (κ × ν) :=
  if m.any (fun kv => decide (kv.1 = key)) then
    m.map (fun kv => if kv.1 = key then (key, v) else kv)
  else m ++ [(key, v)]

/-- The call `m.erase(key)`. -/
def map_erase {κ ν : Type} [DecidableEq κ] (m : List (κ × ν)) (key : κ) : List (κ × ν) :=
  m.filter (fun kv => !decide (kv.1 = key))

/-- `RecoveryManager`. `log` holds the records of the log file in file order;
`lsn_mapping_` gives for an LSN the position of its record in the file, here its
index in `log`. -/
structure RecoveryManager where
  sm_manager_ : SmManager
  log : List LogRecord
  active_txn_ : List (Int × Int)
  txn_status : List (Int × TxnStatus)
  lsn_mapping_ : List (Int × Nat)
  dirty_page_ : List (Int × Int)

namespace RecoveryManager

/-- The page a data record names, for the dirty-page table of `analyze`. -/
def touched_page (log_rec : LogRecord) : Int :=
  match log_rec.payload with
  | .tuple _ rid _ => rid.page_no
  | .update _ _ rid _ => rid.page_no
  | .page _ page_no _ _ => page_no
  | _ => 0

/-- The body of the loop of `analyze` for the record at position `offset`. -/
def analyze_record (rm : RecoveryManager) (offset : Nat) (log_rec : LogRecord) :
    RecoveryManager :=
  let rm1 : RecoveryManager :=
    if log_rec.log_type_ = .BEGIN ∨ log_rec.log_type_ = .COMMIT ∨ log_rec.log_type_ = .ABORT then
      { rm with
          active_txn_ := map_set rm.active_txn_ log_rec.log_tid_ log_rec.lsn_,
          txn_status := map_set rm.txn_status log_rec.log_tid_
            (if log_rec.log_type_ = .BEGIN then TxnStatus.UndoCandidate
             else if log_rec.log_type_ = .ABORT then TxnStatus.Aborting
             else TxnStatus.Committed) }
    else if log_rec.log_type_ = .END then
      { rm with txn_status := map_erase rm.txn_status log_rec.log_tid_,
                active_txn_ := map_erase rm.active_txn_ log_rec.log_tid_ }
    else if log_rec.log_type_ = .UPDATE ∨ log_rec.log_type_ = .INSERT
        ∨ log_rec.log_type_ = .DELETE ∨ log_rec.log_type_ = .PAGE_SET then
      { rm with
          dirty_page_ :=
            if rm.dirty_page_.any (fun kv => decide (kv.1 = touched_page log_rec)) then
              map_set rm.dirty_page_ (touched_page log_rec) log_rec.lsn_
            else rm.dirty_page_,
          active_txn_ := map_set rm.active_txn_ log_rec.log_tid_ log_rec.lsn_ }
    else rm
  { rm1 with lsn_mapping_ := map_set rm1.lsn_mapping_ log_rec.lsn_ offset }

/-- The loop of `analyze` from position `offset` on. -/
def analyze_from : Nat → List LogRecord → RecoveryManager → RecoveryManager
  | _, [], rm => rm
  | offset, log_rec :: rest, rm => analyze_from (offset + 1) rest (rm.analyze_record offset log_rec)

/-- `RecoveryManager::analyze`. -/
def analyze (rm : RecoveryManager) : RecoveryManager := analyze_from 0 rm.log rm

/-- `get_max_lsn(active_txn)`; `uninit` is the value of the variable `txn`, which
the source does not initialise. -/
def get_max_lsn (uninit : Int) (active_txn : List (Int × Int)) : Int × Int :=
  active_txn.foldl
    (fun (acc : Int × Int) kv => if kv.2 > acc.2 then (kv.1, kv.2) else acc) (uninit, -1)

/-- The loop `while (true)` of `undo` that walks the chain of one transaction,
from the record at position `offset` on: the catalog and files afterwards.
`threw` when a rollback primitive throws or there is no record at the position;
`fuel` bounds the number of records the model visits. -/
def undo_walk : Nat → SmManager → List LogRecord → List (Int × Nat) → TxnStatus → Nat →
    Outcome SmManager
  | 0, _, _, _, _, _ => .out_of_fuel
  | fuel + 1, sm, log, lsn_mapping_, status, offset =>
    match log.get? offset with
    | none => .threw
    | some log_rec =>
      let jump : Option (Option Nat) :=
        if status = .Aborting ∧ log_rec.log_type_ = .UNDO_NEXT then
          match log_rec.payload with
          | .undo_next u => if u < 0 then some none else some (some (map_at lsn_mapping_ u 0))
          | _ => none
        else none
      match jump with
      | some none => .done sm
      | some (some offset1) => undo_walk fuel sm log lsn_mapping_ .UndoCandidate offset1
      | none =>
        let rolled : Option SmManager :=
          match log_rec.log_type_, log_rec.payload with
          | .UPDATE, .update old_value _ rid table_name =>
            (sm.rollback_update table_name rid old_value none).map (fun r => r.1)
          | .DELETE, .tuple delete_value rid table_name =>
            (sm.rollback_delete table_name rid delete_value none).map (fun r => r.1)
          | .INSERT, .tuple _ rid table_name =>
            (sm.rollback_insert table_name rid none).map (fun r => r.1)
          | .CREATE_INDEX, .index_ddl tab_name col_names =>
            (sm.rollback_create_index tab_name col_names none).map (fun r => r.1)
          | .DROP_INDEX, .index_ddl tab_name col_names =>
            (sm.rollback_drop_index tab_name col_names none).map (fun r => r.1)
          | _, _ => some sm
        match rolled with
        | none => .threw
        | some sm1 =>
          if log_rec.prev_lsn_ = -1 then .done sm1
          else undo_walk fuel sm1 log lsn_mapping_ .UndoCandidate
            (map_at lsn_mapping_ log_rec.prev_lsn_ 0)

/-- `RecoveryManager::undo`: the loop `while (!active_txn_.empty())`. `fuel`
bounds the number of rounds of the loop (and of each walk) the model runs. -/
def undo (uninit : Int) : Nat → RecoveryManager → Outcome RecoveryManager
  | 0, rm => if rm.active_txn_ = [] then .done rm else .out_of_fuel
  | fuel + 1, rm =>
    if rm.active_txn_ = [] then .done rm
    else
      let max_pair := get_max_lsn uninit rm.active_txn_
      let status := map_at rm.txn_status max_pair.1 TxnStatus.UndoCandidate
      let rm0 : RecoveryManager :=
        if rm.txn_status.any (fun kv => decide (kv.1 = max_pair.1)) then rm
        else { rm with txn_status := rm.txn_status ++ [(max_pair.1, TxnStatus.UndoCandidate)] }
      if status = .Committed then undo uninit fuel rm0
      else
        match undo_walk (fuel + 1) rm0.sm_manager_ rm0.log rm0.lsn_mapping_ status
            (map_at rm0.lsn_mapping_ max_pair.2 0) with
        | .threw => .threw
        | .out_of_fuel => .out_of_fuel
        | .done sm1 =>
          undo uninit fuel
            { rm0 with sm_manager_ := sm1,
                       active_txn_ := map_erase rm0.active_txn_ max_pair.1,
                       txn_status := map_erase rm0.txn_status max_pair.1 }

end RecoveryManager

namespace Example

/-- A log file with the records of a transaction that committed and whose End
record did not reach the file: Begin (LSN 0) and Commit (LSN 1) of transaction 1. -/
def committed_log : List LogRecord :=
  [{ BeginLogRecord 1 INVALID_LSN with lsn_ := 0 }, { CommitLogRecord 1 0 with lsn_ := 1 }]

/-- The recovery manager at startup on the example database with this log. -/
def recovering : RecoveryManager :=
  { sm_manager_ := sm, log := committed_log, active_txn_ := [], txn_status := [],
    lsn_mapping_ := [], dirty_page_ := [] }

end Example

/-! ## Conditions: `Filter` -/

/-- `CompOp`. -/
inductive CompOp
  | OP_EQ | OP_NE | OP_LT | OP_GT | OP_LE | OP_GE
deriving DecidableEq, Repr

/-- `Condition`. -/
structure Condition where
  lhs_col : TabCol
  op : CompOp
  is_rhs_val : Bool
  rhs_col : TabCol
  rhs_val : Value
deriving DecidableEq, Repr

/-- The comparison of two numeric values of different column types after their
conversion to `long double` (the sign, as `Filter::compare` gives it for
`TYPE_DOUBLE`), a parameter of the model. -/
structure Widening where
  cmp : ColType → List Nat → ColType → List Nat → Int

namespace Filter

/-- `Filter::judge`, applied to the sign `compare` returned. -/
def judge (cmp : Int) (op : CompOp) : Bool :=
  match op with
  | .OP_EQ => decide (cmp = 0)
  | .OP_NE => decide (cmp ≠ 0)
  | .OP_LT => decide (cmp < 0)
  | .OP_GT => decide (cmp > 0)
  | .OP_LE => decide (cmp ≤ 0)
  | .OP_GE => decide (cmp ≥ 0)

/-- `Filter::filter_single(rec_cols, cond, rec)`; `none` when an exception is
thrown (`ColumnNotFoundError`, `IncompatibleTypeError`) or the value of the
condition has no raw buffer. -/
def filter_single (fc : FloatCompare) (wd : Widening) (rec_cols : List ColMeta)
    (cond : Condition) (rec : List Nat) : Option Bool :=
  match (get_col rec_cols cond.lhs_col).bind (fun pos => rec_cols.get? pos) with
  | none => none
  | some lhs_col =>
    let lhs := rec.drop lhs_col.offset
    let rhs_side : Option (ColType × List Nat) :=
      if cond.is_rhs_val then cond.rhs_val.raw.map (fun raw => (cond.rhs_val.type, raw))
      else
        ((get_col rec_cols cond.rhs_col).bind (fun pos => rec_cols.get? pos)).map
          (fun rhs_col => (rhs_col.type, rec.drop rhs_col.offset))
    match rhs_side with
    | none => none
    | some (rhs_type, rhs) =>
      if rhs_type ≠ lhs_col.type then
        if rhs_type = .TYPE_STRING ∨ lhs_col.type = .TYPE_STRING then none
        else some (judge (wd.cmp lhs_col.type lhs rhs_type rhs) cond.op)
      else some (judge (compare fc lhs rhs lhs_col.len lhs_col.type) cond.op)

/-- `Filter::filter(rec_cols, rec)`: `std::all_of` over the conditions, which
stops at the first condition that does not hold. -/
def filter (fc : FloatCompare) (wd : Widening) (rec_cols : List ColMeta) :
    List Condition → List Nat → Option Bool
  | [], _ => some true
  | cond :: rest, rec =>
    match filter_single fc wd rec_cols cond rec with
    | none => none
    | some false => some false
    | some true => filter fc wd rec_cols rest rec

end Filter

/-! ## The sequential scan -/

/-- `SeqScanExecutor`. `scan_` holds the rids the scan has still to visit, the
current one first. -/
structure SeqScanExecutor where
  tab_name_ : String
  fh_ : RmFileHandle
  cols_ : List ColMeta
  len_ : Nat
  fed_conds_ : List Condition
  rid_ : Rid
  scan_ : List Rid
  context_ : Context

namespace SeqScanExecutor

/-- The constructor; `none` when an exception is thrown (unknown table, table
lock refused). -/
def create (sm : SmManager) (tab_name : String) (conds : List Condition) (context : Context) :
    Option SeqScanExecutor :=
  match sm.tabs_ tab_name, sm.fhs_ tab_name with
  | some tab, some fh =>
    match context.lock_mgr_.lock_shared_on_table context.txn_ fh.fd_ with
    | (some true, txn1, lm1) =>
      some { tab_name_ := tab_name, fh_ := fh, cols_ := tab.cols,
             len_ := (tab.cols.getLast?.map (fun c => c.offset + c.len)).getD 0,
             fed_conds_ := conds, rid_ := ⟨-1, -1⟩, scan_ := [],
             context_ := { context with txn_ := txn1, lock_mgr_ := lm1 } }
    | _ => none
  | _, _ => none

/-- The loop shared by `beginTuple` and `nextTuple`: the scan moves on to the
first rid whose record passes the filter. `none` when an exception is thrown. -/
def seek (fc : FloatCompare) (wd : Widening) (e : SeqScanExecutor) :
    List Rid → Option SeqScanExecutor
  | [] => some { e with scan_ := [] }
  | rid :: rest =>
    match e.fh_.get_record rid (some e.context_) with
    | none => none
    | some rec =>
      match Filter.filter fc wd e.cols_ e.fed_conds_ rec with
      | none => none
      | some true => some { e with rid_ := rid, scan_ := rid :: rest }
      | some false => seek fc wd { e with rid_ := rid } rest

/-- `beginTuple()`. -/
def beginTuple (fc : FloatCompare) (wd : Widening) (e : SeqScanExecutor) :
    Option SeqScanExecutor :=
  seek fc wd e (RmScan e.fh_)

/-- `is_end()`. -/
def is_end (e : SeqScanExecutor) : Bool := e.scan_.isEmpty

/-- `nextTuple()`. -/
def nextTuple (fc : FloatCompare) (wd : Widening) (e : SeqScanExecutor) :
    Option SeqScanExecutor :=
  if e.is_end then some e else seek fc wd e e.scan_.tail

/-- `Next()`. -/
def Next (e : SeqScanExecutor) : Option (List Nat) := e.fh_.get_record e.rid_ (some e.context_)

/-- Modelled from the spec: the loop that drains an operator (the query driver
is not among the sources), `for (beginTuple(); !is_end(); nextTuple()) Next()`,
here from after `beginTuple` on. -/
def drain (fc : FloatCompare) (wd : Widening) : Nat → SeqScanExecutor →
    Option (List (List Nat))
  | 0, _ => none
  | fuel + 1, e =>
    if e.is_end then some []
    else
      match e.Next, e.nextTuple fc wd with
      | some rec, some e1 => (drain fc wd fuel e1).map (fun rows => rec :: rows)
      | _, _ => none

/-- The rows of a sequential scan of a table under the conditions. -/
def select (fc : FloatCompare) (wd : Widening) (fuel : Nat) (sm : SmManager)
    (tab_name : String) (conds : List Condition) (context : Context) :
    Option (List (List Nat)) :=
  match create sm tab_name conds context with
  | none => none
  | some e =>
    match e.beginTuple fc wd with
    | none => none
    | some e1 => drain fc wd fuel e1

end SeqScanExecutor

/-! ## The index scan -/

/-- `CHAR_MAX` where `char` is a signed type, as on x86. -/
def CHAR_MAX : Nat := 127

/-- Modelled from the spec: the order of the keys of an index (the B+-tree is
not among the sources), "typed comparison applied column-by-column": the sign of
the first column that differs. -/
def ix_compare (fc : FloatCompare) : List ColMeta → List Nat → List Nat → Int
  | [], _, _ => 0
  | col :: rest, a, b =>
    let cmp := Filter.compare fc a b col.len col.type
    if cmp ≠ 0 then cmp else ix_compare fc rest (a.drop col.len) (b.drop col.len)

namespace IxIndexHandle

/-- Modelled from the spec: the entries of the index in key order (the leaf
level from `leaf_begin()` to `leaf_end()`). -/
def leaves (fc : FloatCompare) (cols : List ColMeta) (ih : IxIndexHandle) :
    List (List Nat × Rid) :=
  std_sort (fun x y => decide (ix_compare fc cols x.1 y.1 < 0)) ih.entries

/-- Modelled from the spec: `lower_bound(key)`, the position of the "least entry
with key ≥ k". -/
def lower_bound (fc : FloatCompare) (cols : List ColMeta) (ih : IxIndexHandle)
    (key : List Nat) : Nat :=
  ((ih.leaves fc cols).takeWhile (fun e => decide (ix_compare fc cols e.1 key < 0))).length

/-- Modelled from the spec: `upper_bound(key)`, the position of the "least entry
with key > k". -/
def upper_bound (fc : FloatCompare) (cols : List ColMeta) (ih : IxIndexHandle)
    (key : List Nat) : Nat :=
  ((ih.leaves fc cols).takeWhile (fun e => decide (ix_compare fc cols e.1 key ≤ 0))).length

/-- Modelled from the spec: the rids an `IxScan` from the position `lower` up to
the position `upper` visits. -/
def scan (fc : FloatCompare) (cols : List ColMeta) (ih : IxIndexHandle) (lower upper : Nat) :
    List Rid :=
  (((ih.leaves fc cols).drop lower).take (upper - lower)).map (fun e => e.2)

end IxIndexHandle

/-- `IndexScanExecutor`. `scan_` holds the rids the scan has still to visit, the
current one first. -/
structure IndexScanExecutor where
  tab_name_ : String
  tab_ : TabMeta
  fh_ : RmFileHandle
  cols_ : List ColMeta
  len_ : Nat
  fed_conds_ : List Condition
  index_col_names_ : List String
  index_meta_ : IndexMeta
  rid_ : Rid
  scan_ : List Rid
  sm_manager_ : SmManager
  context_ : Context

namespace IndexScanExecutor

/-- `fill(val, type, len, min_or_max)`: the bytes written over `val`. The two
`float` values are `-FLT_MAX` and `FLT_MAX`. -/
def fill (val : List Nat) (type : ColType) (len : Nat) (min_or_max : Bool) : List Nat :=
  match type with
  | .TYPE_INT =>
    Serial.int_bytes (if min_or_max then -2147483648 else 2147483647) ++ val.drop 4
  | .TYPE_FLOAT =>
    (if min_or_max then [255, 255, 127, 255] else [255, 255, 127, 127]) ++ val.drop 4
  | .TYPE_STRING => List.replicate len (if min_or_max then 0 else CHAR_MAX) ++ val.drop len
  | .TYPE_BIGINT =>
    Serial.le_bytes 8 (if min_or_max then 9223372036854775808 else 9223372036854775807)
      ++ val.drop 8
  | .TYPE_DATETIME => List.replicate len (if min_or_max then 0 else CHAR_MAX) ++ val.drop len

/-- `memmove(key + offset, src, len)` on a key buffer. -/
def put (key : List Nat) (offset : Nat) (src : List Nat) (len : Nat) : List Nat :=
  key.take offset ++ src.take len ++ key.drop (offset + len)

/-- The swap of the two sides of a condition whose left side is on another table. -/
def swap_op : CompOp → CompOp
  | .OP_EQ => .OP_EQ
  | .OP_NE => .OP_NE
  | .OP_LT => .OP_GT
  | .OP_GT => .OP_LT
  | .OP_LE => .OP_GE
  | .OP_GE => .OP_LE

/-- The constructor; `none` when an exception is thrown (unknown table or
index, table lock refused). -/
def create (sm : SmManager) (tab_name : String) (conds : List Condition)
    (index_col_names : List String) (context : Context) : Option IndexScanExecutor :=
  match sm.tabs_ tab_name, sm.fhs_ tab_name with
  | some tab, some fh =>
    match tab.indexes.find? (fun ix => ix.cols.map (fun c => c.name) == index_col_names) with
    | none => none
    | some index_meta =>
      let conds1 := conds.map (fun cond =>
        if cond.lhs_col.tab_name ≠ tab_name then
          { cond with lhs_col := cond.rhs_col, rhs_col := cond.lhs_col, op := swap_op cond.op }
        else cond)
      match context.lock_mgr_.lock_shared_on_table context.txn_ fh.fd_ with
      | (some true, txn1, lm1) =>
        some { tab_name_ := tab_name, tab_ := tab, fh_ := fh, cols_ := tab.cols,
               len_ := (tab.cols.getLast?.map (fun c => c.offset + c.len)).getD 0,
               fed_conds_ := conds1, index_col_names_ := index_col_names,
               index_meta_ := index_meta, rid_ := ⟨-1, -1⟩, scan_ := [], sm_manager_ := sm,
               context_ := { context with txn_ := txn1, lock_mgr_ := lm1 } }
      | _ => none
  | _, _ => none

/-- The bounds being built in `beginTuple`: the two key buffers, the offsets
into them and the numbers of index columns matched. -/
structure Bounds where
  lKey : List Nat
  rKey : List Nat
  lOffset : Nat
  rOffset : Nat
  lower_unmatched_idx : Nat
  upper_unmatched_idx : Nat
deriving DecidableEq, Repr

/-- The loop over `fed_conds_` for the left end: every condition on the column
with a value and one of `=`, `>`, `>=` puts its value into `lKey`. -/
def match_lower (col_name : String) (len : Nat) : List Condition → Bounds → Bounds
  | [], b => b
  | cond :: rest, b =>
    if !cond.is_rhs_val || cond.lhs_col.col_name != col_name || cond.op == .OP_NE then
      match_lower col_name len rest b
    else if cond.op = .OP_EQ ∨ cond.op = .OP_GT ∨ cond.op = .OP_GE then
      match_lower col_name len rest
        { b with lKey := put b.lKey b.lOffset (cond.rhs_val.raw.getD []) len,
                 lOffset := b.lOffset + len,
                 lower_unmatched_idx := b.lower_unmatched_idx + 1 }
    else match_lower col_name len rest b

/-- The loop over `fed_conds_` for the right end: every condition on the column
with a value and one of `=`, `<`, `<=` puts its value into `rKey`. -/
def match_upper (col_name : String) (len : Nat) : List Condition → Bounds → Bounds
  | [], b => b
  | cond :: rest, b =>
    if !cond.is_rhs_val || cond.lhs_col.col_name != col_name || cond.op == .OP_NE then
      match_upper col_name len rest b
    else if cond.op = .OP_EQ ∨ cond.op = .OP_LT ∨ cond.op = .OP_LE then
      match_upper col_name len rest
        { b with rKey := put b.rKey b.rOffset (cond.rhs_val.raw.getD []) len,
                 rOffset := b.rOffset + len,
                 upper_unmatched_idx := b.upper_unmatched_idx + 1 }
    else match_upper col_name len rest b

/-- The loop over the index columns in `beginTuple`, from the column number
`idx` on. `none` when a column is unknown. -/
def match_cols (tab : TabMeta) (conds : List Condition) :
    Nat → List String → Bounds → Option Bounds
  | _, [], b => some b
  | idx, col_name :: rest, b =>
    match tab.get_col col_name with
    | none => none
    | some col =>
      let b1 := if b.lower_unmatched_idx = idx then match_lower col_name col.len conds b else b
      let b2 := if b1.upper_unmatched_idx = idx then match_upper col_name col.len conds b1
                else b1
      match_cols tab conds (idx + 1) rest b2

/-- The loops that pad a key with the least (`min_or_max`) or greatest values of
the index columns that are left. `fresh` holds the contents of `temp`. -/
def pad (tab : TabMeta) (fresh : List Nat) (min_or_max : Bool) :
    List String → List Nat → Nat → Option (List Nat)
  | [], key, _ => some key
  | col_name :: rest, key, offset =>
    match tab.get_col col_name with
    | none => none
    | some col =>
      pad tab fresh min_or_max rest
        (put key offset (fill (alloc fresh col.len) col.type col.len min_or_max) col.len)
        (offset + col.len)

/-- The part of `beginTuple` before the scan: the positions `lower` and `upper`
in the index. `none` when an exception is thrown. -/
def bounds (fc : FloatCompare) (fresh : List Nat) (e : IndexScanExecutor) :
    Option (Nat × Nat) :=
  match e.sm_manager_.ihs_ (get_index_name e.tab_name_ e.index_meta_.cols) with
  | none => none
  | some ih =>
    match match_cols e.tab_ e.fed_conds_ 0 e.index_col_names_
        { lKey := alloc fresh e.index_meta_.col_tot_len,
          rKey := alloc fresh e.index_meta_.col_tot_len,
          lOffset := 0, rOffset := 0, lower_unmatched_idx := 0, upper_unmatched_idx := 0 } with
    | none => none
    | some b =>
      let lower : Option Nat :=
        if b.lower_unmatched_idx > 0 then
          (pad e.tab_ fresh true (e.index_col_names_.drop b.lower_unmatched_idx) b.lKey
            b.lOffset).map (fun lKey => ih.lower_bound fc e.index_meta_.cols lKey)
        else some 0
      let upper : Option Nat :=
        if b.upper_unmatched_idx > 0 then
          (pad e.tab_ fresh false (e.index_col_names_.drop b.upper_unmatched_idx) b.rKey
            b.rOffset).map (fun rKey => ih.upper_bound fc e.index_meta_.cols rKey)
        else some (ih.leaves fc e.index_meta_.cols).length
      match lower, upper with
      | some lo, some hi => some (lo, hi)
      | _, _ => none

/-- The loop shared by `beginTuple` and `nextTuple`: the scan moves on to the
first rid whose record passes the filter. `none` when an exception is thrown. -/
def seek (fc : FloatCompare) (wd : Widening) (e : IndexScanExecutor) :
    List Rid → Option IndexScanExecutor
  | [] => some { e with scan_ := [] }
  | rid :: rest =>
    match e.fh_.get_record rid (some e.context_) with
    | none => none
    | some rec =>
      match Filter.filter fc wd e.cols_ e.fed_conds_ rec with
      | none => none
      | some true => some { e with rid_ := rid, scan_ := rid :: rest }
      | some false => seek fc wd { e with rid_ := rid } rest

/-- `beginTuple()`. -/
def beginTuple (fc : FloatCompare) (wd : Widening) (fresh : List Nat) (e : IndexScanExecutor) :
    Option IndexScanExecutor :=
  match e.sm_manager_.ihs_ (get_index_name e.tab_name_ e.index_meta_.cols), e.bounds fc fresh with
  | some ih, some (lower, upper) =>
    seek fc wd e (ih.scan fc e.index_meta_.cols lower upper)
  | _, _ => none

/-- `is_end()`. -/
def is_end (e : IndexScanExecutor) : Bool := e.scan_.isEmpty

/-- `nextTuple()`. -/
def nextTuple (fc : FloatCompare) (wd : Widening) (e : IndexScanExecutor) :
    Option IndexScanExecutor :=
  if e.is_end then some e else seek fc wd e e.scan_.tail

/-- `Next()`; `none` when it throws. -/
def Next (e : IndexScanExecutor) : Option (List Nat) :=
  if e.is_end then none else e.fh_.get_record e.rid_ (some e.context_)

/-- Modelled from the spec: the loop that drains an operator (the query driver
is not among the sources), `for (beginTuple(); !is_end(); nextTuple()) Next()`,
here from after `beginTuple` on. -/
def drain (fc : FloatCompare) (wd : Widening) : Nat → IndexScanExecutor →
    Option (List (List Nat))
  | 0, _ => none
  | fuel + 1, e =>
    if e.is_end then some []
    else
      match e.Next, e.nextTuple fc wd with
      | some rec, some e1 => (drain fc wd fuel e1).map (fun rows => rec :: rows)
      | _, _ => none

/-- The rows of an index scan of a table under the conditions. -/
def select (fc : FloatCompare) (wd : Widening) (fresh : List Nat) (fuel : Nat) (sm : SmManager)
    (tab_name : String) (conds : List Condition) (index_col_names : List String)
    (context : Context) : Option (List (List Nat)) :=
  match create sm tab_name conds index_col_names context with
  | none => none
  | some e =>
    match e.beginTuple fc wd fresh with
    | none => none
    | some e1 => drain fc wd fuel e1

end IndexScanExecutor

namespace Example

/-- A widening that is never looked at in the examples. -/
def no_widening : Widening := { cmp := fun _ _ _ _ => 0 }

/-- The columns of the table `k (a INT, s CHAR(1))`. -/
def k_cols : List ColMeta :=
  [⟨"k", "a", .TYPE_INT, 4, 0, true⟩, ⟨"k", "s", .TYPE_STRING, 1, 4, true⟩]

/-- The table `k (a INT, s CHAR(1))` with an index on `(a, s)`. -/
def k_tab : TabMeta :=
  { name := "k", cols := k_cols,
    indexes := [{ tab_name := "k", col_tot_len := 5, col_num := 2, cols := k_cols }] }

/-- The heap file of `k`: one record, `(1, "\x80")`, in slot 0 of page 1. -/
def k_fh : RmFileHandle :=
  { fd_ := 5, file_name := "k",
    file_hdr_ := { record_size := 5, num_pages := 2, num_records_per_page := 3,
                   first_free_page_no := 1, bitmap_size := 1, lsn := INVALID_LSN },
    pages := fun _ =>
      { lsn := INVALID_LSN,
        body := { next_free_page_no := RM_NO_PAGE, num_records := 1,
                  bitmap := fun i => i == 0,
                  slots := fun i => if i = 0 then [1, 0, 0, 0, 128] else [0, 0, 0, 0, 0] } } }

/-- The catalog with the table `k`, its heap file and its index, which holds
the key of the one record. -/
def k_sm : SmManager :=
  { tabs_ := fun n => if n = "k" then some k_tab else none,
    fhs_ := fun n => if n = "k" then some k_fh else none,
    ihs_ := fun n => if n = get_index_name "k" k_cols
      then some { entries := [([1, 0, 0, 0, 128], ⟨1, 0⟩)] } else none }

/-- The condition `a = 1`, its value prepared by `init_raw`. -/
def a_eq_1 : Condition :=
  { lhs_col := ⟨"k", "a", .FUNC_NULL, "", false⟩, op := .OP_EQ, is_rhs_val := true,
    rhs_col := ⟨"", "", .FUNC_NULL, "", false⟩,
    rhs_val := { Value.of_int 1 with raw := some [1, 0, 0, 0] } }

/-- The columns of the table `m (a INT, b INT)`. -/
def m_cols : List ColMeta :=
  [⟨"m", "a", .TYPE_INT, 4, 0, true⟩, ⟨"m", "b", .TYPE_INT, 4, 4, true⟩]

/-- The table `m (a INT, b INT)` with an index on `(a, b)`. -/
def m_tab : TabMeta :=
  { name := "m", cols := m_cols,
    indexes := [{ tab_name := "m", col_tot_len := 8, col_num := 2, cols := m_cols }] }

/-- The heap file of `m`: one record, `(2, 0)`, in slot 0 of page 1. -/
def m_fh : RmFileHandle :=
  { fd_ := 6, file_name := "m",
    file_hdr_ := { record_size := 8, num_pages := 2, num_records_per_page := 3,
                   first_free_page_no := 1, bitmap_size := 1, lsn := INVALID_LSN },
    pages := fun _ =>
      { lsn := INVALID_LSN,
        body := { next_free_page_no := RM_NO_PAGE, num_records := 1,
                  bitmap := fun i => i == 0,
                  slots := fun i => if i = 0 then [2, 0, 0, 0, 0, 0, 0, 0]
                                    else [0, 0, 0, 0, 0, 0, 0, 0] } } }

/-- The catalog with the table `m`, its heap file and its index, which holds
the key of the one record. -/
def m_sm : SmManager :=
  { tabs_ := fun n => if n = "m" then some m_tab else none,
    fhs_ := fun n => if n = "m" then some m_fh else none,
    ihs_ := fun n => if n = get_index_name "m" m_cols
      then some { entries := [([2, 0, 0, 0, 0, 0, 0, 0], ⟨1, 0⟩)] } else none }

/-- The condition `a >= v` on the table `m`, its value prepared by `init_raw`. -/
def a_ge (v : Int) : Condition :=
  { lhs_col := ⟨"m", "a", .FUNC_NULL, "", false⟩, op := .OP_GE, is_rhs_val := true,
    rhs_col := ⟨"", "", .FUNC_NULL, "", false⟩,
    rhs_val := { Value.of_int v with raw := some (Serial.int_bytes v) } }

end Example

/-! ## The update operator: index entries, record and write set -/

/-- `UpdateLogRecord(txn_id, prev_lsn, new_value, old_value, rid, table_name)`. -/
def UpdateLogRecord (txn_id prev_lsn : Int) (new_value old_value : List Nat) (rid : Rid)
    (table_name : String) : LogRecord :=
  { log_type_ := .UPDATE, lsn_ := INVALID_LSN,
    log_tot_len_ := LOG_HEADER_SIZE + 8 + old_value.length + new_value.length + 8
      + (8 + (table_name.length + 1)),
    log_tid_ := txn_id, prev_lsn_ := prev_lsn,
    payload := .update old_value new_value rid table_name }

namespace UpdateExecutor

/-- The loop `for (auto &index: tab_.indexes)` of `UpdateExecutor::Next` for one
record: where the key changes (by `strcmp`), the new key is inserted and the old
one deleted, and the two `assert`s at the end of the body are checked on the
tree: `ih->get_rid(ih->lower_bound(new_key)) == rid` and
`ih->upper_bound(old_key) == ih->leaf_end()`. `none` when `ihs_.at` throws, an
index refuses the new key (`InternalError`), or an `assert` fails and the
process is aborted. `fc` is the order of `float` the index keys are compared
with. -/
def update_index_entries (fc : FloatCompare) (tab_name : String) (old_rec new_rec : List Nat)
    (rid : Rid) : List IndexMeta → SmManager → Context → Option (SmManager × Context)
  | [], sm, context => some (sm, context)
  | index :: rest, sm, context =>
    let index_name := get_index_name tab_name index.cols
    match sm.ihs_ index_name with
    | none => none
    | some ih =>
      let old_key := InsertExecutor.key_of index old_rec
      let new_key := InsertExecutor.key_of index new_rec
      if strcmp_eq old_key new_key then
        update_index_entries fc tab_name old_rec new_rec rid rest sm context
      else
        match ih.insert_entry index_name new_key rid (some context) with
        | (true, ih1, some context1) =>
          match ih1.delete_entry index_name old_key (some context1) with
          | (_, ih2, some context2) =>
            if ((ih2.leaves fc index.cols).get? (ih2.lower_bound fc index.cols new_key)).map
                  (fun e => e.2) = some rid ∧
                ih2.upper_bound fc index.cols old_key = (ih2.leaves fc index.cols).length then
              update_index_entries fc tab_name old_rec new_rec rid rest
                { sm with ihs_ := Function.update sm.ihs_ index_name (some ih2) } context2
            else none
          | _ => none
        | _ => none

/-- The body of the loop of `UpdateExecutor::Next` for one `rid`, from the index
loop on, with `new_rec` the record the set clauses have built: the index entries
are moved, the record is overwritten, an Update log record is written and an
`UPDATE_TUPLE` entry with the old image is appended to the write set. `tab` is
the table metadata the operator copied when it was built. `none` when an
exception is thrown or an `assert` of the index loop fails. -/
def update_rid (fc : FloatCompare) (sm : SmManager) (tab : TabMeta) (tab_name : String)
    (rid : Rid) (new_rec : List Nat) (context : Context) : Option (SmManager × Context) :=
  match sm.fhs_ tab_name with
  | none => none
  | some fh =>
    match fh.get_record rid none with
    | none => none
    | some old_rec =>
      match update_index_entries fc tab_name old_rec new_rec rid tab.indexes sm context with
      | none => none
      | some (sm1, context1) =>
        match fh.update_record rid new_rec (some context1) with
        | some (fh1, some context2) =>
          let log_rec := UpdateLogRecord context2.txn_.txn_id_ context2.txn_.prev_lsn_ new_rec
            old_rec rid tab_name
          let r := context2.log_mgr_.add_log_to_buffer log_rec
          let txn1 := { context2.txn_ with prev_lsn_ := r.1 }
          let txn2 := txn1.append_write_record
            { wtype_ := .UPDATE_TUPLE, tab_name_ := tab_name, rid_ := rid, record_ := old_rec,
              col_names_ := [], lsn_ := r.1 }
          some (sm1.set_fh tab_name fh1, { context2 with log_mgr_ := r.2, txn_ := txn2 })
        | _ => none

end UpdateExecutor

namespace Example

/-- The context of a transaction (id 1, nothing written yet) on the example
database. -/
def u_context : Context :=
  { lock_mgr_ := db.lock_manager_, log_mgr_ := db.log_manager_,
    txn_ := TransactionManager.new_transaction 1 }

/-- The example database after `UPDATE` has overwritten the record at rid (1,2)
with the bytes `9 9 9 9`. -/
def updated : SmManager × Context :=
  (UpdateExecutor.update_rid no_float_order sm tab "t" ⟨1, 2⟩ [9, 9, 9, 9] u_context).getD
    (sm, u_context)

end Example

/-! ## The nested-loop join -/

/-- `NestedLoopJoinExecutor`. `buff` is the queue of joined rows, its front
first. -/
structure NestedLoopJoinExecutor where
  left_ : RowSource
  right_ : RowSource
  len_ : Nat
  cols_ : List ColMeta
  fed_conds_ : List Condition
  isend : Bool
  buffer_size : Nat
  l_records : List (List Nat)
  buff : List (List Nat)

namespace NestedLoopJoinExecutor

/-- The constructor. (For a left child with rows of length 0 the source divides
by zero; here the quotient is then 0.) -/
def create (PAGE_SIZE : Nat) (left right : RowSource) (conds : List Condition) :
    NestedLoopJoinExecutor :=
  { left_ := left, right_ := right, len_ := left.tupleLen + right.tupleLen,
    cols_ := left.cols ++
      right.cols.map (fun col => { col with offset := col.offset + left.tupleLen }),
    fed_conds_ := conds, isend := false,
    buffer_size := max 64 (4 * PAGE_SIZE / left.tupleLen),
    l_records := [], buff := [] }

/-- The joined row built in `make_buff`: `len_` zero bytes, over which the left
row and, behind it, the right row are copied. -/
def join_record (len_ : Nat) (lrec rrec : List Nat) : List Nat :=
  (IndexScanExecutor.put (memmove (List.replicate len_ 0) lrec lrec.length) lrec.length rrec
    rrec.length).take len_

/-- The loop `for (auto& lrec : l_records)` of `make_buff` for one right row:
the joined rows that pass the filter, in the order of the left rows. `none`
when the filter throws. -/
def probe (fc : FloatCompare) (wd : Widening) (cols_ : List ColMeta)
    (fed_conds_ : List Condition) (len_ : Nat) (rrec : List Nat) :
    List (List Nat) → Option (List (List Nat))
  | [] => some []
  | lrec :: rest =>
    match Filter.filter fc wd cols_ fed_conds_ (join_record len_ lrec rrec) with
    | none => none
    | some pass =>
      (probe fc wd cols_ fed_conds_ len_ rrec rest).map (fun out =>
        if pass then join_record len_ lrec rrec :: out else out)

/-- The loop `for (size_t i = 0; i < buffer_size && !left_->is_end(); i++)` of
`make_buff`: the next rows of the left child go into `l_records`. -/
def fill_block (e : NestedLoopJoinExecutor) : NestedLoopJoinExecutor :=
  let rows := (e.left_.rows.drop e.left_.pos).take e.buffer_size
  { e with l_records := e.l_records ++ rows,
           left_ := { e.left_ with pos := e.left_.pos + rows.length } }

/-- The loop `for (; !right_->is_end(); right_->nextTuple())` of `make_buff`,
over the rows the right child has left: `true` when `make_buff` returns from
inside the loop, the queue holding rows; `false` when the right child is at its
end. `none` when the filter throws. -/
def scan_right (fc : FloatCompare) (wd : Widening) :
    List (List Nat) → NestedLoopJoinExecutor → Option (Bool × NestedLoopJoinExecutor)
  | [], e => some (false, e)
  | rrec :: rest, e =>
    match probe fc wd e.cols_ e.fed_conds_ e.len_ rrec e.l_records with
    | none => none
    | some rows =>
      let e1 := { e with buff := e.buff ++ rows }
      if e1.buff ≠ [] then some (true, e1)
      else scan_right fc wd rest { e1 with right_ := e1.right_.nextTuple }

/-- The loop `for (; !left_->is_end() || !l_records.empty(); )` of `make_buff`;
`fuel` bounds the number of rounds the model runs. -/
def make_buff_loop (fc : FloatCompare) (wd : Widening) :
    Nat → NestedLoopJoinExecutor → Outcome NestedLoopJoinExecutor
  | 0, _ => .out_of_fuel
  | fuel + 1, e =>
    if !e.left_.is_end || !e.l_records.isEmpty then
      let e1 := if e.l_records.isEmpty then e.fill_block else e
      match scan_right fc wd (e1.right_.rows.drop e1.right_.pos) e1 with
      | none => .threw
      | some (true, e2) => .done e2
      | some (false, e2) =>
        make_buff_loop fc wd fuel { e2 with l_records := [], right_ := e2.right_.beginTuple }
    else .done { e with isend := true }

/-- `make_buff()`. -/
def make_buff (fc : FloatCompare) (wd : Widening) (fuel : Nat) (e : NestedLoopJoinExecutor) :
    Outcome NestedLoopJoinExecutor :=
  if e.isend then .done e else make_buff_loop fc wd fuel e

/-- `beginTuple()`. -/
def beginTuple (fc : FloatCompare) (wd : Widening) (fuel : Nat) (e : NestedLoopJoinExecutor) :
    Outcome NestedLoopJoinExecutor :=
  make_buff fc wd fuel
    { e with left_ := e.left_.beginTuple, right_ := e.right_.beginTuple, l_records := [],
             buff := [] }

/-- `nextTuple()`. -/
def nextTuple (fc : FloatCompare) (wd : Widening) (fuel : Nat) (e : NestedLoopJoinExecutor) :
    Outcome NestedLoopJoinExecutor :=
  if e.isend || !e.buff.isEmpty then .done e
  else
    make_buff fc wd fuel
      { e with right_ := if !e.right_.is_end then e.right_.nextTuple else e.right_ }

/-- `Next()`: the row at the front of the queue, which is popped; `none` for
`InternalError`. -/
def Next (e : NestedLoopJoinExecutor) : Option (List Nat × NestedLoopJoinExecutor) :=
  match e.buff with
  | [] => none
  | rec :: rest => some (rec, { e with buff := rest })

/-- `is_end()`. -/
def is_end (e : NestedLoopJoinExecutor) : Bool := e.isend

/-- Modelled from the spec: the loop that drains an operator (the query driver
is not among the sources), `for (beginTuple(); !is_end(); nextTuple()) Next()`,
here from after `beginTuple` on; `fuel` bounds the number of rows, `mfuel` the
rounds of each `make_buff`. -/
def drain (fc : FloatCompare) (wd : Widening) (mfuel : Nat) :
    Nat → NestedLoopJoinExecutor → Outcome (List (List Nat))
  | 0, _ => .out_of_fuel
  | fuel + 1, e =>
    if e.is_end then .done []
    else
      match e.Next with
      | none => .threw
      | some (rec, e1) =>
        match e1.nextTuple fc wd mfuel with
        | .threw => .threw
        | .out_of_fuel => .out_of_fuel
        | .done e2 =>
          match drain fc wd mfuel fuel e2 with
          | .threw => .threw
          | .out_of_fuel => .out_of_fuel
          | .done rows => .done (rec :: rows)

/-- The rows of a nested-loop join of two children under the conditions: the
operator is built, begun and drained. -/
def select (fc : FloatCompare) (wd : Widening) (PAGE_SIZE fuel : Nat) (left right : RowSource)
    (conds : List Condition) : Outcome (List (List Nat)) :=
  match (create PAGE_SIZE left right conds).beginTuple fc wd fuel with
  | .threw => .threw
  | .out_of_fuel => .out_of_fuel
  | .done e => drain fc wd fuel fuel e

end NestedLoopJoinExecutor

namespace Example

end Example

namespace Example

/-- The columns of the table `z (a INT)`. -/
def z_cols : List ColMeta := [⟨"z", "a", .TYPE_INT, 4, 0, true⟩]

/-- The index of `z` on `a`. -/
def z_index : IndexMeta := { tab_name := "z", col_tot_len := 4, col_num := 1, cols := z_cols }

/-- The table `z (a INT)` with the index on `a`. -/
def z_tab : TabMeta := { name := "z", cols := z_cols, indexes := [z_index] }

/-- The heap file of `z`: one record, holding `a`, in slot 0 of page 1. -/
def z_fh (a : Int) : RmFileHandle :=
  { fd_ := 6, file_name := "z",
    file_hdr_ := { record_size := 4, num_pages := 2, num_records_per_page := 3,
                   first_free_page_no := 1, bitmap_size := 1, lsn := INVALID_LSN },
    pages := fun _ =>
      { lsn := INVALID_LSN,
        body := { next_free_page_no := RM_NO_PAGE, num_records := 1,
                  bitmap := fun i => i == 0,
                  slots := fun i => if i = 0 then Serial.int_bytes a else [0, 0, 0, 0] } } }

/-- The catalog with the table `z`, its heap file with the one record `a` and
its index, which holds the key of that record. -/
def z_sm (a : Int) : SmManager :=
  { tabs_ := fun n => if n = "z" then some z_tab else none,
    fhs_ := fun n => if n = "z" then some (z_fh a) else none,
    ihs_ := fun n => if n = get_index_name "z" z_cols
      then some { entries := [(Serial.int_bytes a, ⟨1, 0⟩)] } else none }

/-- What a catalog holds for the one record of `z`: the entries of the index on
`a` and the bytes of the record at rid (1,0). -/
def z_view (sm : SmManager) : Option (List (List Nat × Rid)) × Option (List Nat) :=
  ((sm.ihs_ (get_index_name "z" z_cols)).map (fun ih => ih.entries),
   (sm.fhs_ "z").bind (fun fh => fh.get_record ⟨1, 0⟩ none))

end Example

namespace Example

/-- The database with the one table `z`, holding the record 5, and the lock
manager and log manager of the example database. -/
def z_db : Database :=
  { sm_manager_ := z_sm 5, lock_manager_ := db.lock_manager_, log_manager_ := db.log_manager_ }

/-- The database `z_db` after `UPDATE z SET a = 3` has reached the record at rid
(1,0), with the context of the transaction (id 1, nothing written before). -/
def z_updated : SmManager × Context :=
  (UpdateExecutor.update_rid no_float_order z_db.sm_manager_ z_tab "z" ⟨1, 0⟩
    (Serial.int_bytes 3)
    { lock_mgr_ := z_db.lock_manager_, log_mgr_ := z_db.log_manager_,
      txn_ := TransactionManager.new_transaction 1 }).getD (z_sm 5, u_context)

end Example

/-- The recovery manager at startup on a catalog with a log: its tables are empty. -/
def RecoveryManager.startup (sm : SmManager) (log : List LogRecord) : RecoveryManager :=
  { sm_manager_ := sm, log := log, active_txn_ := [], txn_status := [],
    lsn_mapping_ := [], dirty_page_ := [] }

namespace Example

/-- The records of the log at a crash: those in the file followed by those of
the buffer, which a flush had written out. -/
def log_at_crash (c : Context) : List LogRecord := c.log_mgr_.flush_log_to_disk.log_file

/-- The example database after `begin; INSERT INTO t VALUES (7)`, with the
context of the transaction. -/
def inserted_7 : SmManager × Context :=
  (InsertExecutor.Next sm tab "t" [7, 0, 0, 0] w_context).state

/-- The recovery manager at startup after a crash that followed
`begin; INSERT INTO t VALUES (7)`. -/
def crashed_insert : RecoveryManager :=
  RecoveryManager.startup inserted_7.1 (log_at_crash inserted_7.2)

/-- The header fields of the records of a log: type, LSN, transaction, `prev_lsn`. -/
def headers (log : List LogRecord) : List (LogRecordType × Int × Int × Int) :=
  log.map (fun r => (r.log_type_, r.lsn_, r.log_tid_, r.prev_lsn_))

end Example

namespace Example

/-- What is looked at in a heap file after recovery: the number of records and
the bitmap bit of slot 0 of the page `page_no`. -/
def page_view (sm : SmManager) (tab_name : String) (page_no : Int) : Option (Int × Bool) :=
  (sm.fhs_ tab_name).map (fun (f : RmFileHandle) =>
    ((f.pages page_no).body.num_records, (f.pages page_no).body.bitmap 0))

/-- What is looked at in the outcome of `undo`: the headers of the log, the
transaction table, and page 1 of the table `t`. `none` unless `undo` returned. -/
def undo_view : Outcome RecoveryManager →
    Option (List (LogRecordType × Int × Int × Int) × List (Int × Int) × Option (Int × Bool))
  | .done rm => some (headers rm.log, rm.active_txn_, page_view rm.sm_manager_ "t" 1)
  | _ => none

end Example

namespace Example

/-- The recovery manager at startup after a crash that followed
`begin; CREATE INDEX t(a)`. -/
def crashed_create_index : Option RecoveryManager :=
  index_created.map (fun r =>
    RecoveryManager.startup r.1.sm_manager_ r.1.log_manager_.flush_log_to_disk.log_file)

/-- The names of the columns of the indexes of a table in a catalog, and whether
the index `index_name` is open. -/
def index_view (sm : SmManager) (tab_name index_name : String) :
    Option (List (List String)) × Bool :=
  ((sm.tabs_ tab_name).map (fun (t : TabMeta) =>
      t.indexes.map (fun (i : IndexMeta) => i.cols.map (fun (c : ColMeta) => c.name))),
   (sm.ihs_ index_name).isSome)

end Example

namespace Example

/-- The example database after `begin; INSERT INTO t VALUES (7); INSERT INTO t
VALUES (8)`, with the context of the transaction: 7 went to rid (1,0), 8 to
rid (2,0). -/
def inserted_7_8 : SmManager × Context :=
  (InsertExecutor.Next inserted_7.1 tab "t" [8, 0, 0, 0] inserted_7.2).state

/-- The example database in the middle of `abort` of that transaction: the
Abort record is written, the loop has run once, for the newest entry of the
write set (the insert of 8), and has written its UndoNext record. -/
def half_aborted : Option (SmManager × Context) :=
  let context := TransactionManager.abort_context
    { sm_manager_ := inserted_7_8.1, lock_manager_ := inserted_7_8.2.lock_mgr_,
      log_manager_ := inserted_7_8.2.log_mgr_ } inserted_7_8.2.txn_
  let lsns := context.txn_.write_set_.map (fun item => item.lsn_)
  match context.txn_.write_set_.getLast? with
  | none => none
  | some item =>
    TransactionManager.abort_step lsns inserted_7_8.1
      { context with txn_ := { context.txn_ with
                                 write_set_ := context.txn_.write_set_.dropLast } } item

/-- The recovery manager at startup after a crash in the middle of that `abort`. -/
def crashed_abort : Option RecoveryManager :=
  half_aborted.map (fun r => RecoveryManager.startup r.1 (log_at_crash r.2))

/-- The `undo_next` field of the UndoNext records of a log, with their LSNs. -/
def undo_nexts (log : List LogRecord) : List (Int × Int) :=
  log.filterMap (fun r => match r.payload with
                          | .undo_next u => some (r.lsn_, u)
                          | _ => none)

end Example

/-! ## Log records as bytes: the constructors and `log_tot_len_` -/

namespace Serial

/-- `InsertLogRecord(txn_id, prev_lsn, insert_value, rid, table_name)`:
`table_name` is the `std::string`, copied with its terminating zero. -/
def InsertLogRecord.create (txn_id prev_lsn : Int) (insert_value : List Nat) (rid : Rid)
    (table_name : List Nat) : InsertLogRecord :=
  { log_type_ := LogRecordType.toInt .INSERT, lsn_ := INVALID_LSN,
    log_tot_len_ := LOG_HEADER_SIZE + 4 + insert_value.length + 8
      + (8 + (table_name.length + 1)),
    log_tid_ := txn_id, prev_lsn_ := prev_lsn, insert_value_ := insert_value, rid_ := rid,
    table_name_ := table_name ++ [0], table_name_size_ := table_name.length + 1,
    undo_next := -1 }

/-- `UndoNextLogRecord(txn_id, prev_lsn, undo_next)`. -/
def UndoNextLogRecord.create (txn_id prev_lsn undo_next : Int) : UndoNextLogRecord :=
  { log_type_ := LogRecordType.toInt .UNDO_NEXT, lsn_ := INVALID_LSN,
    log_tot_len_ := LOG_HEADER_SIZE + 4, log_tid_ := txn_id, prev_lsn_ := prev_lsn,
    undo_next := undo_next }

/-- `CreateIndexLogRecord(txn_id, prev_lsn, tab_name, col_names)`. -/
def CreateIndexLogRecord.create (txn_id prev_lsn : Int) (tab_name : List Nat)
    (col_names : List (List Nat)) : CreateIndexLogRecord :=
  { log_type_ := LogRecordType.toInt .CREATE_INDEX, lsn_ := INVALID_LSN,
    log_tot_len_ := LOG_HEADER_SIZE + (col_names.length + 2) * 8 + col_names.length
      + (col_names.map List.length).sum,
    log_tid_ := txn_id, prev_lsn_ := prev_lsn, tab_name := tab_name, col_names := col_names }

end Serial

/-! ## Recovery: `redo` -/

namespace RecoveryManager

/-- `get_min_lsn(dirty_page)`; `uninit` is the value of the variable `txn`, which
the source does not initialise. -/
def get_min_lsn (uninit : Int) (dirty_page : List (Int × Int)) : Int × Int :=
  dirty_page.foldl
    (fun (acc : Int × Int) kv => if kv.2 < acc.2 then (kv.1, kv.2) else acc)
    (uninit, 2147483647)

/-- The body of the loop of `redo` for one record. A PageImage record is applied
to the header (page 0) or to the heap page it names when the LSN stored there is
below the LSN of the record: the after-image is copied over it whole. `none`
when `fhs_.at` or `ihs_.at` throws. The pages of an index are not part of the
state kept here, so an IndexPages record only looks up its index; an image of
the other kind than the page it names (which the heap file never writes) is not
applied. -/
def redo_record (sm : SmManager) (log_rec : LogRecord) : Option SmManager :=
  match log_rec.log_type_, log_rec.payload with
  | .PAGE_SET, .page tab_name page_no _ new_page =>
    match sm.fhs_ tab_name with
    | none => none
    | some file_handle =>
      if page_no = 0 then
        match new_page with
        | .hdr new_hdr =>
          if file_handle.file_hdr_.lsn < log_rec.lsn_ then
            some (sm.set_fh tab_name { file_handle with file_hdr_ := new_hdr })
          else some sm
        | .heap _ => some sm
      else
        match new_page with
        | .heap image =>
          if (file_handle.pages page_no).lsn < log_rec.lsn_ then
            some (sm.set_fh tab_name
              { file_handle with pages := Function.update file_handle.pages page_no image })
          else some sm
        | .hdr _ => some sm
  | .INDEX_PAGE, .index_pages idx_name =>
    match sm.ihs_ idx_name with
    | none => none
    | some _ => some sm
  | _, _ => some sm

/-- The loop of `redo` over the records from the starting position on. -/
def redo_from : List LogRecord → SmManager → Option SmManager
  | [], sm => some sm
  | log_rec :: rest, sm =>
    match redo_record sm log_rec with
    | none => none
    | some sm1 => redo_from rest sm1

/-- `RecoveryManager::redo`: the scan starts at the position of the smallest LSN
of the dirty-page table (`lsn_mapping_[0x7fffffff]`, which reads as position 0,
when the table is empty). `none` when an exception is thrown. -/
def redo (uninit : Int) (rm : RecoveryManager) : Option RecoveryManager :=
  let min_pair := get_min_lsn uninit rm.dirty_page_
  let offset := map_at rm.lsn_mapping_ min_pair.2 0
  (redo_from (rm.log.drop offset) rm.sm_manager_).map (fun sm => { rm with sm_manager_ := sm })

end RecoveryManager

namespace Example

/-- The recovery manager at startup after a crash that followed
`begin; INSERT INTO t VALUES (7)` when no page of the table had been written
back: the catalog and files are those from before the transaction. -/
def crashed_insert_unflushed : RecoveryManager :=
  RecoveryManager.startup sm (log_at_crash inserted_7.2)

/-- What is looked at in a heap page: the stored LSN, the number of records and
the bytes of slot 0. -/
def page_lsn_view (sm : SmManager) (tab_name : String) (page_no : Int) :
    Option (Int × Int × List Nat) :=
  (sm.fhs_ tab_name).map (fun (f : RmFileHandle) =>
    ((f.pages page_no).lsn, (f.pages page_no).body.num_records,
     (f.pages page_no).body.slots 0))

/-- The LSN, the page number and the LSN stored in the after-image of the
PageImage records of a log that carry a heap page. -/
def page_images (log : List LogRecord) : List (Int × Int × Int) :=
  log.filterMap (fun r => match r.payload with
                          | .page _ page_no _ (.heap image) => some (r.lsn_, page_no, image.lsn)
                          | _ => none)

end Example

/-! ## Recovery: what the log says about a transaction -/

/-- The value of `key` in a map kept as the list of its entries, when it has one. -/
def map_find? {κ ν : Type} [DecidableEq κ] (m : List (κ × ν)) (key : κ) : Option ν :=
  (m.find? (fun kv => decide (kv.1 = key))).map (fun kv => kv.2)

namespace RecoveryManager

/-- Whether a record is the End record of transaction `tid`. -/
def is_end_of (tid : Int) (r : LogRecord) : Bool :=
  decide (r.log_type_ = .END ∧ r.log_tid_ = tid)

/-- Whether a record is a Begin, Commit or Abort record. -/
def is_status_record (r : LogRecord) : Bool :=
  decide (r.log_type_ = .BEGIN ∨ r.log_type_ = .COMMIT ∨ r.log_type_ = .ABORT)

/-- Whether a record is data-modifying: Update, Insert, Delete or PageImage. -/
def is_data_record (r : LogRecord) : Bool :=
  decide (r.log_type_ = .UPDATE ∨ r.log_type_ = .INSERT ∨ r.log_type_ = .DELETE
    ∨ r.log_type_ = .PAGE_SET)

/-- The records of a log that come after the last End record of transaction
`tid`: the whole log when the transaction has no End record. -/
def after_last_end (tid : Int) (log : List LogRecord) : List LogRecord :=
  log.foldl (fun acc r => if is_end_of tid r then [] else acc ++ [r]) []

/-- The Begin, Commit, Abort and data-modifying records of transaction `tid`
after its last End record, in log order. -/
def live_records (tid : Int) (log : List LogRecord) : List LogRecord :=
  (after_last_end tid log).filter
    (fun r => decide (r.log_tid_ = tid) && (is_status_record r || is_data_record r))

/-- The Begin, Commit and Abort records of transaction `tid` after its last End
record, in log order. -/
def status_records (tid : Int) (log : List LogRecord) : List LogRecord :=
  (after_last_end tid log).filter (fun r => decide (r.log_tid_ = tid) && is_status_record r)

/-- The status that goes with a Begin, Commit or Abort record: UndoCandidate,
Committed or Aborting. -/
def status_of (r : LogRecord) : TxnStatus :=
  match r.log_type_ with
  | .BEGIN => .UndoCandidate
  | .COMMIT => .Committed
  | _ => .Aborting

/-- A well-formed log: the first record of every transaction is its Begin
record, and no record of a transaction follows its End record. -/
def WellFormedLog (log : List LogRecord) : Prop :=
  ∀ r ∈ log,
    ((log.filter (fun s => decide (s.log_tid_ = r.log_tid_))).head?.map
      (fun b => b.log_type_)) = some .BEGIN ∧
    ∀ s ∈ (log.filter (fun s => decide (s.log_tid_ = r.log_tid_))).dropLast,
      s.log_type_ ≠ .END

end RecoveryManager

/-! ## The lock table and the lock sets of the transactions -/

/-- The lock manager together with the transactions that use it. -/
structure LockWorld where
  lock_manager_ : LockManager
  txns : List Transaction

namespace LockWorld

/-- The number of transactions that have `id` in their lock set. -/
def holders (w : LockWorld) (id : LockDataId) : Nat :=
  w.txns.countP (fun t => decide (id ∈ t.lock_set_))

/-- The call `lock_shared_on_table(txn, fd)` by the transaction at position `i`. -/
def lock_shared (w : LockWorld) (i : Nat) (fd : Int) : LockWorld :=
  match w.txns.get? i with
  | none => w
  | some txn =>
    let r := w.lock_manager_.lock_shared_on_table txn fd
    { lock_manager_ := r.2.2, txns := w.txns.set i r.2.1 }

/-- The call `lock_exclusive_on_table(txn, fd)` by the transaction at position `i`. -/
def lock_exclusive (w : LockWorld) (i : Nat) (fd : Int) : LockWorld :=
  match w.txns.get? i with
  | none => w
  | some txn =>
    let r := w.lock_manager_.lock_exclusive_on_table txn fd
    { lock_manager_ := r.2.2, txns := w.txns.set i r.2.1 }

/-- The release of the whole lock set of the transaction at position `i`, as
`commit` and `abort` do it:
`for (it : *lockset) lock_manager_->unlock(txn, it); lockset->clear();`. -/
def release (w : LockWorld) (i : Nat) : LockWorld :=
  match w.txns.get? i with
  | none => w
  | some txn =>
    let r := TransactionManager.unlock_all txn.lock_set_ txn w.lock_manager_
    { lock_manager_ := r.2, txns := w.txns.set i { r.1 with lock_set_ := [] } }

/-- The states of lock table and lock sets that can be reached: from an empty
lock table and transactions that hold no lock, by table lock requests and by
releases of a whole lock set. -/
inductive Reachable : LockWorld → Prop
  | start (txns : List Transaction) (h : ∀ t ∈ txns, t.lock_set_ = []) :
      Reachable { lock_manager_ := { lock_table_ := fun _ => none }, txns := txns }
  | shared (w : LockWorld) (i : Nat) (fd : Int) : Reachable w → Reachable (w.lock_shared i fd)
  | exclusive (w : LockWorld) (i : Nat) (fd : Int) :
      Reachable w → Reachable (w.lock_exclusive i fd)
  | released (w : LockWorld) (i : Nat) : Reachable w → Reachable (w.release i)

/-- What an entry of the lock table has to be when `n` transactions hold the
lock: none for no holder, S with the share count `n`, or X for one holder. -/
def entry_ok (e : Option LockStatus) (n : Nat) : Prop :=
  match e with
  | none => n = 0
  | some st => (st.mode = .S ∧ st.shared_num = (n : Int) ∧ 1 ≤ n) ∨ (st.mode = .X ∧ n = 1)

/-- The invariant of lock table and lock sets: no lock set holds a lock twice,
and every entry of the table fits the number of holders. -/
def LockOK (w : LockWorld) : Prop :=
  (∀ t ∈ w.txns, t.lock_set_.Nodup) ∧
  ∀ id, entry_ok (w.lock_manager_.lock_table_ id) (w.holders id)

end LockWorld

namespace Example

/-- Two transactions, with the ids 1 and 2, that hold no lock. -/
def two_txns : List Transaction :=
  [TransactionManager.new_transaction 1, TransactionManager.new_transaction 2]

/-- Both transactions have taken the shared lock on the table with file
descriptor 3. -/
def both_shared : LockWorld :=
  (({ lock_manager_ := { lock_table_ := fun _ => none }, txns := two_txns } :
    LockWorld).lock_shared 0 3).lock_shared 1 3

end Example

namespace Example

/-- The first of the two transactions once both hold the shared lock on the
table with file descriptor 3. -/
def first_holder : Transaction :=
  (({ lock_manager_ := { lock_table_ := fun _ => none }, txns := two_txns } :
    LockWorld).lock_manager_.lock_shared_on_table (TransactionManager.new_transaction 1) 3).2.1

end Example

namespace StorageState

/-- The state `example_updated` after `flush_log_to_disk` and the appending of
one more log record: the record of the update (LSN 0) is in the log file, the
new record (LSN 1) is in the log buffer. -/
def example_flushed_then_logged : StorageState Nat :=
  { example_updated with
      log := (example_updated.log.flush_log_to_disk.add_log_to_buffer example_record).2 }

end StorageState

/-! ## What a condition says about a row -/

namespace Condition

end Condition

/-! ## The records an abort appends to the log -/

/-- A record of a page image or of index pages: what the rollback primitives and
`add_idx_log` write. -/
def LogRecord.is_page_record (r : LogRecord) : Prop :=
  r.log_type_ = .PAGE_SET ∨ r.log_type_ = .INDEX_PAGE

/-- The log of `lm1` is the log of `lm` followed by page records only. -/
def LogManager.GrowsByPages (lm lm1 : LogManager) : Prop :=
  ∃ seg, lm1.records = lm.records ++ seg ∧ ∀ r ∈ seg, r.is_page_record

namespace TransactionManager

/-- For each entry of a write set, newest first, the LSN of the entry inserted
just before it, `INVALID_LSN` for the oldest. -/
def undo_next_values : List WriteRecord → List Int
  | [] => []
  | _ :: older =>
    (match older with
     | [] => INVALID_LSN
     | prev :: _ => prev.lsn_) :: undo_next_values older

/-- What the undo pass of transaction `tid` has to append to the log for the
entries whose `undo_next` values are given, newest entry first: for each entry
page records (what undoing the entry writes) and directly after them one
UndoNext record of the transaction with the `undo_next` of the entry; page
records only after the last of them. -/
inductive UndoLog (tid : Int) : List Int → List LogRecord → Prop
  | done (tail : List LogRecord) : (∀ r ∈ tail, r.is_page_record) → UndoLog tid [] tail
  | undone (u : Int) (us : List Int) (seg : List LogRecord) (rec : LogRecord)
      (rest : List LogRecord) :
      (∀ r ∈ seg, r.is_page_record) →
      rec.log_type_ = .UNDO_NEXT → rec.payload = .undo_next u → rec.log_tid_ = tid →
      UndoLog tid us rest → UndoLog tid (u :: us) (seg ++ rec :: rest)

end TransactionManager

namespace Example

/-- The example database and the transaction `two_writes` after its abort. -/
def two_writes_aborted : Database × Transaction :=
  match TransactionManager.abort 2 db two_writes with
  | .done r => r
  | _ => (db, two_writes)

end Example

/-! ## Theorems: buffer pool -/

namespace BufferPoolManager

/-- The frame `find_victim_page` hands out is unpinned and in range, and only the
list it was taken from changes. -/
theorem find_victim_page_spec {α : Type} {b b1 : BufferPoolManager α} {f : frame_id_t}
    (hw : WF b) (h : b.find_victim_page = some (f, b1)) : VictimOf b f b1 := by
  unfold find_victim_page at h
  cases hfl : b.free_list with
  | nil =>
    rw [hfl] at h
    simp only [LRUReplacer.victim] at h
    cases hl : b.replacer.LRUlist.getLast? with
    | none => rw [hl] at h; simp at h
    | some g =>
      rw [hl] at h
      simp only [Option.some.injEq, Prod.mk.injEq] at h
      obtain ⟨hg, hb⟩ := h
      subst hg
      subst hb
      refine ⟨rfl, rfl, rfl, rfl, ?_, ?_, ?_, ?_, ?_⟩
      · intro x hx
        simp only [hfl] at hx
        exact absurd hx (List.not_mem_nil x)
      · simp [hfl]
      · intro x hx
        exact List.mem_of_mem_dropLast hx
      · exact hw.repl_unpinned g (List.mem_of_getLast?_eq_some hl)
      · exact hw.repl_range g (List.mem_of_getLast?_eq_some hl)
  | cons g rest =>
    rw [hfl] at h
    simp only [Option.some.injEq, Prod.mk.injEq] at h
    obtain ⟨hg, hb⟩ := h
    subst hg
    subst hb
    have hnd : (g :: rest).Nodup := hfl ▸ hw.free_nodup
    rw [List.nodup_cons] at hnd
    refine ⟨rfl, rfl, rfl, rfl, ?_, hnd.2, fun x hx => hx, ?_, ?_⟩
    · intro x hx
      refine ⟨?_, ?_⟩
      · rw [hfl]; exact List.mem_cons_of_mem _ hx
      · intro hxg
        exact hnd.1 (hxg ▸ hx)
    · exact (hw.free_unpinned g (by rw [hfl]; exact List.mem_cons_self _ _)).1
    · exact hw.free_range g (by rw [hfl]; exact List.mem_cons_self _ _)

/-- Installing a page id on a victim frame keeps the pool consistent. -/
theorem wf_install {α : Type} {b b1 r : BufferPoolManager α} {f : frame_id_t}
    (hw : WF b) (hv : VictimOf b f b1) (pid : PageId) (pg : Page α)
    (hpg : pg.id = pid)
    (hpages : r.pages = Function.update b.pages f pg)
    (hpt : r.page_table =
      Function.update (Function.update b.page_table (b.pages f).id none) pid (some f))
    (hfree : r.free_list = b1.free_list)
    (hrepl : r.replacer = b1.replacer.pin f)
    (hsize : r.pool_size = b.pool_size) : WF r := by
  have hother : ∀ g, g ≠ f → r.pages g = b.pages g := by
    intro g hg; rw [hpages]; simp [Function.update, hg]
  have hself : r.pages f = pg := by rw [hpages]; simp
  have hptpid : r.page_table pid = some f := by rw [hpt]; simp
  have hptne : ∀ q, q ≠ pid → q ≠ (b.pages f).id → r.page_table q = b.page_table q := by
    intro q h1 h2; rw [hpt]; simp [Function.update, h1, h2]
  have hptold : ∀ q, q ≠ pid → q = (b.pages f).id → r.page_table q = none := by
    intro q h1 h2; subst h2; rw [hpt]; simp [Function.update, h1]
  constructor
  · intro q g hq
    by_cases h1 : q = pid
    · subst h1
      rw [hptpid] at hq
      cases hq
      rw [hself, hpg]
    · by_cases h2 : q = (b.pages f).id
      · rw [hptold q h1 h2] at hq; cases hq
      · rw [hptne q h1 h2] at hq
        have hgf : g ≠ f := by
          intro hgf; subst hgf
          exact h2 (hw.table_id q g hq).symm
        rw [hother g hgf]
        exact hw.table_id q g hq
  · intro g hg
    rw [hfree] at hg
    obtain ⟨hgb, hgf⟩ := hv.free_sub g hg
    rw [hother g hgf]
    exact hw.free_unpinned g hgb
  · intro g hg q hq
    rw [hfree] at hg
    obtain ⟨hgb, hgf⟩ := hv.free_sub g hg
    by_cases h1 : q = pid
    · subst h1
      rw [hptpid] at hq
      exact hgf (Option.some.inj hq).symm
    · by_cases h2 : q = (b.pages f).id
      · rw [hptold q h1 h2] at hq; cases hq
      · rw [hptne q h1 h2] at hq
        exact hw.free_unmapped g hgb q hq
  · rw [hfree]; exact hv.free_nodup
  · intro g hg
    rw [hrepl] at hg
    simp only [LRUReplacer.pin, List.mem_filter, decide_eq_true_eq] at hg
    rw [hother g hg.2]
    exact hw.repl_unpinned g (hv.repl_sub g hg.1)
  · intro g hg
    rw [hfree] at hg
    rw [hsize]
    exact hw.free_range g (hv.free_sub g hg).1
  · intro g hg
    rw [hrepl] at hg
    simp only [LRUReplacer.pin, List.mem_filter, decide_eq_true_eq] at hg
    rw [hsize]
    exact hw.repl_range g (hv.repl_sub g hg.1)
  · intro q g hq
    rw [hsize]
    by_cases h1 : q = pid
    · subst h1
      rw [hptpid] at hq
      cases hq
      exact hv.range
    · by_cases h2 : q = (b.pages f).id
      · rw [hptold q h1 h2] at hq; cases hq
      · rw [hptne q h1 h2] at hq
        exact hw.table_range q g hq

/-- The state `fetch_page` leaves when the page is not cached and a victim is found. -/
theorem fetch_page_miss {α : Type} [Zero α] {b b1 : BufferPoolManager α} {f : frame_id_t}
    (pid : PageId) (hun : b.page_table pid = none)
    (hv : b.find_victim_page = some (f, b1)) (hvo : VictimOf b f b1) :
    (b.fetch_page pid).1 = some f ∧
    (b.fetch_page pid).2.pool_size = b.pool_size ∧
    (b.fetch_page pid).2.free_list = b1.free_list ∧
    (b.fetch_page pid).2.replacer = b1.replacer.pin f ∧
    (b.fetch_page pid).2.page_table =
      Function.update (Function.update b.page_table (b.pages f).id none) pid (some f) ∧
    (b.fetch_page pid).2.disk =
      (if (b.pages f).is_dirty
        then b.disk.write_page (b.pages f).id.fd (b.pages f).id.page_no (b.pages f).data
        else b.disk) ∧
    (b.fetch_page pid).2.pages = Function.update b.pages f
      { id := pid,
        data := (if (b.pages f).is_dirty
          then b.disk.write_page (b.pages f).id.fd (b.pages f).id.page_no (b.pages f).data
          else b.disk).read_page pid.fd pid.page_no,
        is_dirty := false,
        pin_count := (b.pages f).pin_count + 1 } := by
  have hne : f ≠ INVALID_FRAME_ID := by
    intro h
    have h0 : (0 : Int) ≤ f := hvo.range.1
    rw [h] at h0
    exact absurd h0 (by decide)
  unfold fetch_page
  simp only [hun, hv]
  simp only [update_page, incr_pin, hvo.pages_eq, hvo.page_table_eq, hvo.disk_eq,
    hvo.pool_size_eq, hne, ne_eq, not_false_eq_true, if_true, Function.update_same,
    Function.update_idem]
  refine ⟨trivial, trivial, trivial, trivial, trivial, trivial, ?_⟩
  by_cases hd : (b.pages f).is_dirty <;> simp [hd]

/-- The state `new_page` leaves when a victim is found. -/
theorem new_page_found {α : Type} [Zero α] {b b1 : BufferPoolManager α} {f : frame_id_t}
    (fd : Int) (hv : b.find_victim_page = some (f, b1)) (hvo : VictimOf b f b1) :
    (b.new_page fd).1 = some (f, ⟨fd, b.disk.fd2pageno fd⟩) ∧
    (b.new_page fd).2.pool_size = b.pool_size ∧
    (b.new_page fd).2.free_list = b1.free_list ∧
    (b.new_page fd).2.replacer = b1.replacer.pin f ∧
    (b.new_page fd).2.page_table =
      Function.update (Function.update b.page_table (b.pages f).id none)
        ⟨fd, b.disk.fd2pageno fd⟩ (some f) ∧
    (b.new_page fd).2.disk.fd2pageno =
      Function.update b.disk.fd2pageno fd (b.disk.fd2pageno fd + 1) ∧
    (b.new_page fd).2.disk.pages =
      Function.update
        (if (b.pages f).is_dirty
          then Function.update b.disk.pages (b.pages f).id (b.pages f).data
          else b.disk.pages)
        ⟨fd, b.disk.fd2pageno fd⟩ { lsn := INVALID_LSN, body := 0 } ∧
    (b.new_page fd).2.pages = Function.update b.pages f
      { id := ⟨fd, b.disk.fd2pageno fd⟩,
        data := { lsn := INVALID_LSN, body := 0 },
        is_dirty := false,
        pin_count := (b.pages f).pin_count + 1 } := by
  unfold new_page
  simp only [hv]
  by_cases hd : (b.pages f).is_dirty <;>
    simp [hd, DiskManager.allocate_page, DiskManager.write_page, hvo.pages_eq,
      hvo.page_table_eq, hvo.disk_eq, hvo.pool_size_eq]

/-- A mapped frame is not in the free list. -/
theorem mapped_not_free {α : Type} {b : BufferPoolManager α} (hw : WF b) {pid : PageId}
    {f : frame_id_t} (h : b.page_table pid = some f) : f ∉ b.free_list :=
  fun hf => hw.free_unmapped f hf pid h

/-- `fetch_page` keeps the pool consistent, whatever page id is asked for. -/
theorem wf_fetch_page {α : Type} [Zero α] {b : BufferPoolManager α} (hw : WF b)
    (pid : PageId) : WF (b.fetch_page pid).2 := by
  cases hpt : b.page_table pid with
  | some f =>
    have hst : (b.fetch_page pid).2 =
        ({ b with replacer := b.replacer.pin f } : BufferPoolManager α).incr_pin f := by
      unfold fetch_page; simp only [hpt]
    rw [hst]
    have hother : ∀ g, g ≠ f → (({ b with replacer := b.replacer.pin f } :
        BufferPoolManager α).incr_pin f).pages g = b.pages g := by
      intro g hg; simp [incr_pin, Function.update, hg]
    have hid : ∀ g, ((({ b with replacer := b.replacer.pin f } :
        BufferPoolManager α).incr_pin f).pages g).id = (b.pages g).id := by
      intro g
      by_cases hg : g = f
      · subst hg; simp [incr_pin]
      · rw [hother g hg]
    have hnf := mapped_not_free hw hpt
    constructor
    · intro q g hq
      rw [hid]; exact hw.table_id q g hq
    · intro g hg
      have hgf : g ≠ f := fun h => hnf (h ▸ hg)
      rw [hother g hgf]
      exact hw.free_unpinned g hg
    · exact hw.free_unmapped
    · exact hw.free_nodup
    · intro g hg
      simp only [incr_pin, LRUReplacer.pin, List.mem_filter, decide_eq_true_eq] at hg
      rw [hother g hg.2]
      exact hw.repl_unpinned g hg.1
    · exact hw.free_range
    · intro g hg
      simp only [incr_pin, LRUReplacer.pin, List.mem_filter, decide_eq_true_eq] at hg
      exact hw.repl_range g hg.1
    · exact hw.table_range
  | none =>
    cases hv : b.find_victim_page with
    | none =>
      have hst : (b.fetch_page pid).2 = b := by
        unfold fetch_page; simp only [hpt, hv]
      rw [hst]; exact hw
    | some p =>
      obtain ⟨f, b1⟩ := p
      have hvo := find_victim_page_spec hw hv
      obtain ⟨_, hsz, hfl, hrp, hptb, _, hpg⟩ := fetch_page_miss pid hpt hv hvo
      exact wf_install hw hvo pid _ rfl hpg hptb hfl hrp hsz

/-- `new_page` keeps the pool consistent. -/
theorem wf_new_page {α : Type} [Zero α] {b : BufferPoolManager α} (hw : WF b) (fd : Int) :
    WF (b.new_page fd).2 := by
  cases hv : b.find_victim_page with
  | none =>
    have hst : (b.new_page fd).2 = b := by
      unfold new_page; simp only [hv]
    rw [hst]; exact hw
  | some p =>
    obtain ⟨f, b1⟩ := p
    have hvo := find_victim_page_spec hw hv
    obtain ⟨_, hsz, hfl, hrp, hptb, _, _, hpg⟩ := new_page_found fd hv hvo
    exact wf_install hw hvo ⟨fd, b.disk.fd2pageno fd⟩ _ rfl hpg hptb hfl hrp hsz

/-- `unpin_page` keeps the pool consistent. -/
theorem wf_unpin_page {α : Type} {b : BufferPoolManager α} (hw : WF b) (pid : PageId)
    (d : Bool) : WF (b.unpin_page pid d).2 := by
  unfold unpin_page
  cases hpt : b.page_table pid with
  | none => exact hw
  | some f =>
    by_cases hp : (b.pages f).pin_count = 0
    · simp only [hp, if_true]; exact hw
    · simp only [hp, if_false]
      have hnf := mapped_not_free hw hpt
      constructor
      · intro q g hq
        have := hw.table_id q g hq
        by_cases hg : g = f
        · subst hg; simpa using this
        · simpa [Function.update, hg] using this
      · intro g hg
        have hgf : g ≠ f := fun h => hnf (h ▸ hg)
        simp only [Function.update, hgf, dite_false]
        exact hw.free_unpinned g hg
      · exact hw.free_unmapped
      · exact hw.free_nodup
      · intro g hg
        by_cases hgf : g = f
        · subst hgf
          simp only [Function.update_same]
          by_cases h0 : (b.pages g).pin_count - 1 = 0
          · exact h0
          · simp only [h0, if_false] at hg
            exact absurd (hw.repl_unpinned g hg) hp
        · simp only [Function.update, hgf, dite_false]
          apply hw.repl_unpinned
          by_cases h0 : (b.pages f).pin_count - 1 = 0
          · simp only [h0, if_true, LRUReplacer.unpin] at hg
            by_cases hm : f ∈ b.replacer.LRUlist
            · simpa [hm] using hg
            · simp only [hm, if_false, List.mem_cons] at hg
              exact hg.resolve_left hgf
          · simpa [h0] using hg
      · exact hw.free_range
      · intro g hg
        by_cases h0 : (b.pages f).pin_count - 1 = 0
        · simp only [h0, if_true, LRUReplacer.unpin] at hg
          by_cases hm : f ∈ b.replacer.LRUlist
          · exact hw.repl_range g (by simpa [hm] using hg)
          · simp only [hm, if_false, List.mem_cons] at hg
            rcases hg with hg | hg
            · rw [hg]; exact hw.table_range pid f hpt
            · exact hw.repl_range g hg
        · exact hw.repl_range g (by simpa [h0] using hg)
      · exact hw.table_range

/-- `flush_page` keeps the pool consistent. -/
theorem wf_flush_page {α : Type} {b : BufferPoolManager α} (hw : WF b) (pid : PageId) :
    WF (b.flush_page pid).2 := by
  unfold flush_page
  cases hpt : b.page_table pid with
  | none => exact hw
  | some f =>
    simp only
    have hpg : ∀ g, ((Function.update b.pages f { b.pages f with is_dirty := false }) g).id
        = (b.pages g).id ∧
        ((Function.update b.pages f { b.pages f with is_dirty := false }) g).pin_count
        = (b.pages g).pin_count := by
      intro g
      by_cases hg : g = f
      · subst hg; simp
      · simp [Function.update, hg]
    constructor
    · intro q g hq; rw [(hpg g).1]; exact hw.table_id q g hq
    · intro g hg; rw [(hpg g).1, (hpg g).2]; exact hw.free_unpinned g hg
    · exact hw.free_unmapped
    · exact hw.free_nodup
    · intro g hg; rw [(hpg g).2]; exact hw.repl_unpinned g hg
    · exact hw.free_range
    · exact hw.repl_range
    · exact hw.table_range

/-- Overwriting the bytes of a frame keeps the pool consistent. -/
theorem wf_write_data {α : Type} {b : BufferPoolManager α} (hw : WF b) (f : frame_id_t)
    (d : PageImage α) : WF (b.write_data f d) := by
  unfold write_data
  simp only
  have hpg : ∀ g, ((Function.update b.pages f { b.pages f with data := d }) g).id
      = (b.pages g).id ∧
      ((Function.update b.pages f { b.pages f with data := d }) g).pin_count
      = (b.pages g).pin_count := by
    intro g
    by_cases hg : g = f
    · subst hg; simp
    · simp [Function.update, hg]
  constructor
  · intro q g hq; rw [(hpg g).1]; exact hw.table_id q g hq
  · intro g hg; rw [(hpg g).1, (hpg g).2]; exact hw.free_unpinned g hg
  · exact hw.free_unmapped
  · exact hw.free_nodup
  · intro g hg; rw [(hpg g).2]; exact hw.repl_unpinned g hg
  · exact hw.free_range
  · exact hw.repl_range
  · exact hw.table_range

/-- `delete_page` keeps the pool consistent, except that it may leave the
deleted frame in the replacer: every field of `WF` is preserved. -/
theorem wf_delete_page {α : Type} [Zero α] {b : BufferPoolManager α} (hw : WF b)
    (pid : PageId) : WF (b.delete_page pid).2 := by
  unfold delete_page
  cases hpt : b.page_table pid with
  | none => exact hw
  | some f =>
    by_cases hp : (b.pages f).pin_count > 0
    · simp only [hp, if_true]; exact hw
    · simp only [hp, if_false]
      have hp0 : (b.pages f).pin_count = 0 := by omega
      have hnf := mapped_not_free hw hpt
      have hfid : (b.pages f).id = pid := hw.table_id pid f hpt
      constructor
      · intro q g hq
        by_cases hqp : q = pid
        · subst hqp; simp at hq
        · simp only [Function.update, hqp, dite_false] at hq
          have hgf : g ≠ f := by
            intro h; subst h
            exact hqp ((hw.table_id q g hq).symm.trans hfid)
          simp only [Function.update, hgf, dite_false]
          exact hw.table_id q g hq
      · intro g hg
        simp only [List.mem_append, List.mem_singleton] at hg
        by_cases hgf : g = f
        · subst hgf; simp [INVALID_PAGE_ID]
        · simp only [Function.update, hgf, dite_false]
          exact hw.free_unpinned g (hg.resolve_right hgf)
      · intro g hg q hq
        simp only [List.mem_append, List.mem_singleton] at hg
        by_cases hqp : q = pid
        · subst hqp; simp at hq
        · simp only [Function.update, hqp, dite_false] at hq
          rcases hg with hg | hg
          · exact hw.free_unmapped g hg q hq
          · subst hg
            exact hqp ((hw.table_id q g hq).symm.trans hfid)
      · simp only
        rw [List.nodup_append]
        refine ⟨hw.free_nodup, List.nodup_singleton f, ?_⟩
        intro x hx hx2
        simp only [List.mem_singleton] at hx2
        exact hnf (hx2 ▸ hx)
      · intro g hg
        by_cases hgf : g = f
        · subst hgf; simp
        · simp only [Function.update, hgf, dite_false]
          exact hw.repl_unpinned g hg
      · intro g hg
        simp only [List.mem_append, List.mem_singleton] at hg
        rcases hg with hg | hg
        · exact hw.free_range g hg
        · rw [hg]; exact hw.table_range pid f hpt
      · exact hw.repl_range
      · intro q g hq
        by_cases hqp : q = pid
        · subst hqp; simp at hq
        · simp only [Function.update, hqp, dite_false] at hq
          exact hw.table_range q g hq

/-- One iteration of `flush_all_pages`, for a frame of the pool, keeps the pool
consistent. -/
theorem wf_flush_all_pages_step {α : Type} [Zero α] {b : BufferPoolManager α} (hw : WF b)
    (fd : Int) (i : frame_id_t) (hi : 0 ≤ i ∧ i < (b.pool_size : Int)) :
    WF (flush_all_pages_step fd b i) := by
  unfold flush_all_pages_step
  by_cases hskip : (b.pages i).id.fd ≠ fd ∨ (b.pages i).id.page_no = INVALID_PAGE_ID
  · simp only [hskip, if_true]; exact hw
  · simp only [hskip, if_false]
    have hval : (b.pages i).id.page_no ≠ INVALID_PAGE_ID := fun h => hskip (Or.inr h)
    have hnf : i ∉ b.free_list := fun h => hval (hw.free_unpinned i h).2
    by_cases hp : (b.pages i).pin_count ≠ 0
    · simp only [hp, ne_eq, not_false_eq_true, if_true]
      have hpg : ∀ g, ((Function.update b.pages i { b.pages i with is_dirty := false }) g).id
          = (b.pages g).id ∧
          ((Function.update b.pages i { b.pages i with is_dirty := false }) g).pin_count
          = (b.pages g).pin_count := by
        intro g
        by_cases hg : g = i
        · subst hg; simp
        · simp [Function.update, hg]
      constructor
      · intro q g hq; rw [(hpg g).1]; exact hw.table_id q g hq
      · intro g hg; rw [(hpg g).1, (hpg g).2]; exact hw.free_unpinned g hg
      · exact hw.free_unmapped
      · exact hw.free_nodup
      · intro g hg; rw [(hpg g).2]; exact hw.repl_unpinned g hg
      · exact hw.free_range
      · exact hw.repl_range
      · exact hw.table_range
    · have hp0 : (b.pages i).pin_count = 0 := by
        by_contra h; exact hp h
      simp only [hp0, ne_eq, not_true_eq_false, if_false]
      constructor
      · intro q g hq
        by_cases hqp : q = (b.pages i).id
        · subst hqp; simp at hq
        · simp only [Function.update, hqp, dite_false] at hq
          have hgi : g ≠ i := by
            intro h; subst h
            exact hqp (hw.table_id q g hq).symm
          simp only [Function.update, hgi, dite_false]
          exact hw.table_id q g hq
      · intro g hg
        have hgi : g ≠ i := fun h => hnf (h ▸ hg)
        simp only [Function.update, hgi, dite_false]
        exact hw.free_unpinned g hg
      · intro g hg q hq
        by_cases hqp : q = (b.pages i).id
        · subst hqp; simp at hq
        · simp only [Function.update, hqp, dite_false] at hq
          exact hw.free_unmapped g hg q hq
      · exact hw.free_nodup
      · intro g hg
        by_cases hgi : g = i
        · subst hgi; simp [hp0]
        · simp only [Function.update, hgi, dite_false]
          apply hw.repl_unpinned
          simp only [LRUReplacer.unpin] at hg
          by_cases hm : i ∈ b.replacer.LRUlist
          · simpa [hm] using hg
          · simp only [hm, if_false, List.mem_cons] at hg
            exact hg.resolve_left hgi
      · exact hw.free_range
      · intro g hg
        simp only [LRUReplacer.unpin] at hg
        by_cases hm : i ∈ b.replacer.LRUlist
        · exact hw.repl_range g (by simpa [hm] using hg)
        · simp only [hm, if_false, List.mem_cons] at hg
          rcases hg with hg | hg
          · rw [hg]; exact hi
          · exact hw.repl_range g hg
      · intro q g hq
        by_cases hqp : q = (b.pages i).id
        · subst hqp; simp at hq
        · simp only [Function.update, hqp, dite_false] at hq
          exact hw.table_range q g hq

/-- The loop body of `flush_all_pages` does not change the pool size. -/
theorem flush_all_pages_step_pool_size {α : Type} [Zero α] (b : BufferPoolManager α)
    (fd : Int) (i : frame_id_t) : (flush_all_pages_step fd b i).pool_size = b.pool_size := by
  unfold flush_all_pages_step
  by_cases h1 : (b.pages i).id.fd ≠ fd ∨ (b.pages i).id.page_no = INVALID_PAGE_ID
  · simp [h1]
  · by_cases h2 : (b.pages i).pin_count = 0 <;> simp [h1, h2]

/-- Any run of the loop of `flush_all_pages` over frames of the pool keeps the
pool consistent. -/
theorem wf_flush_all_pages_loop {α : Type} [Zero α] (fd : Int) (l : List Nat) :
    ∀ b : BufferPoolManager α, WF b → (∀ i ∈ l, i < b.pool_size) →
      WF (l.foldl (fun s i => flush_all_pages_step fd s (i : Int)) b) := by
  induction l with
  | nil => intro b hw _; exact hw
  | cons i rest ih =>
    intro b hw hl
    have hi : i < b.pool_size := hl i (List.mem_cons_self _ _)
    refine ih _ (wf_flush_all_pages_step hw fd i ⟨Int.ofNat_nonneg i, Int.ofNat_lt.mpr hi⟩) ?_
    intro j hj
    rw [flush_all_pages_step_pool_size]
    exact hl j (List.mem_cons_of_mem _ hj)

/-- The freshly constructed pool is consistent. -/
theorem wf_init {α : Type} [Zero α] (pool_size : Nat) (disk : DiskManager α) :
    WF (init pool_size disk) := by
  constructor
  · intro q g hq; simp [init] at hq
  · intro g _; simp [init]
  · intro g _ q hq; simp [init] at hq
  · simp only [init]
    apply List.Nodup.map
    · intro a c h; exact Int.ofNat.inj h
    · exact List.nodup_range pool_size
  · intro g hg; simp [init] at hg
  · intro g hg
    simp only [init, List.mem_map, List.mem_range] at hg
    obtain ⟨a, ha, rfl⟩ := hg
    simp only [init]
    exact ⟨Int.ofNat_nonneg a, Int.ofNat_lt.mpr ha⟩
  · intro g hg; simp [init] at hg
  · intro q g hq; simp [init] at hq

/-- Every reachable pool state is consistent. -/
theorem Reachable.wf {α : Type} [Zero α] {b0 b : BufferPoolManager α} (h0 : WF b0)
    (h : Reachable b0 b) : WF b := by
  induction h with
  | start => exact h0
  | fetch_page s pid _ ih => exact wf_fetch_page ih pid
  | new_page s fd _ ih => exact wf_new_page ih fd
  | unpin_page s pid d _ ih => exact wf_unpin_page ih pid d
  | flush_page s pid _ ih => exact wf_flush_page ih pid
  | delete_page s pid _ ih => exact wf_delete_page ih pid
  | flush_all_pages s fd _ ih =>
    exact wf_flush_all_pages_loop fd _ s ih (fun i hi => List.mem_range.mp hi)
  | write_data s f d _ _ ih => exact wf_write_data ih f d

/-- C10: `unpin_page(page_id, is_dirty)` returns false exactly when the page is
not in the page table or its frame has pin count 0, and then the pool is left
unchanged; otherwise it returns true, the frame's pin count drops by exactly
one, its dirty flag becomes (old dirty OR is_dirty), the frame is put into the
replacer when the new pin count is 0 and the replacer is untouched when it is
not, and no other frame, nor the page table, free list or disk, changes. -/
theorem unpin_page_contract {α : Type} (b : BufferPoolManager α) (page_id : PageId) (is_dirty : Bool) :
    ((b.unpin_page page_id is_dirty).1 = false ↔
      (b.page_table page_id = none ∨
        ∃ f, b.page_table page_id = some f ∧ (b.pages f).pin_count = 0)) ∧
    ((b.unpin_page page_id is_dirty).1 = false → (b.unpin_page page_id is_dirty).2 = b) ∧
    (∀ f, b.page_table page_id = some f → (b.pages f).pin_count ≠ 0 →
      (b.unpin_page page_id is_dirty).1 = true ∧
      ((b.unpin_page page_id is_dirty).2.pages f).pin_count + 1 = (b.pages f).pin_count ∧
      ((b.unpin_page page_id is_dirty).2.pages f).is_dirty = ((b.pages f).is_dirty || is_dirty) ∧
      ((b.unpin_page page_id is_dirty).2.pages f).id = (b.pages f).id ∧
      ((b.unpin_page page_id is_dirty).2.pages f).data = (b.pages f).data ∧
      (((b.unpin_page page_id is_dirty).2.pages f).pin_count = 0 →
        f ∈ (b.unpin_page page_id is_dirty).2.replacer.LRUlist ∧
        ∀ g, g ≠ f → (g ∈ (b.unpin_page page_id is_dirty).2.replacer.LRUlist ↔
                        g ∈ b.replacer.LRUlist)) ∧
      (((b.unpin_page page_id is_dirty).2.pages f).pin_count ≠ 0 →
        (b.unpin_page page_id is_dirty).2.replacer = b.replacer) ∧
      (∀ g, g ≠ f → (b.unpin_page page_id is_dirty).2.pages g = b.pages g) ∧
      (b.unpin_page page_id is_dirty).2.page_table = b.page_table ∧
      (b.unpin_page page_id is_dirty).2.free_list = b.free_list ∧
      (b.unpin_page page_id is_dirty).2.disk = b.disk ∧
      (b.unpin_page page_id is_dirty).2.pool_size = b.pool_size) := by
  refine ⟨?_, ?_, ?_⟩
  · unfold unpin_page
    cases h : b.page_table page_id with
    | none => simp
    | some f =>
      by_cases hp : (b.pages f).pin_count = 0 <;> simp [hp]
  · unfold unpin_page
    cases h : b.page_table page_id with
    | none => simp
    | some f =>
      by_cases hp : (b.pages f).pin_count = 0 <;> simp [hp]
  · intro f hf hp
    have hpos : 0 < (b.pages f).pin_count := Nat.pos_of_ne_zero hp
    unfold unpin_page
    simp only [hf, hp, if_false]
    refine ⟨trivial, ?_, ?_, ?_, ?_, ?_, ?_, ?_, trivial, trivial, trivial, trivial⟩
    · simp; omega
    · simp
    · simp
    · simp
    · intro h0
      simp at h0
      have h0' : (b.pages f).pin_count - 1 = 0 := by omega
      simp only [h0', if_true]
      unfold LRUReplacer.unpin
      by_cases hm : f ∈ b.replacer.LRUlist
      · simp [hm]
      · simp only [hm, if_false]
        refine ⟨by simp, ?_⟩
        intro g hg
        simp [hg]
    · intro h0
      simp at h0
      have h0' : ¬ ((b.pages f).pin_count - 1 = 0) := by omega
      simp [h0']
    · intro g hg
      simp [Function.update, hg]

/-- The frame `find_victim_page` hands out comes with the frames, the page table
and the disk untouched. -/
theorem find_victim_page_frame {α : Type} {b b1 : BufferPoolManager α} {f : frame_id_t}
    (h : b.find_victim_page = some (f, b1)) :
    b1.pages = b.pages ∧ b1.page_table = b.page_table ∧ b1.disk = b.disk := by
  unfold find_victim_page at h
  cases hfl : b.free_list with
  | nil =>
    rw [hfl] at h
    simp only [LRUReplacer.victim] at h
    cases hl : b.replacer.LRUlist.getLast? with
    | none => rw [hl] at h; simp at h
    | some g =>
      rw [hl] at h
      simp only [Option.some.injEq, Prod.mk.injEq] at h
      obtain ⟨_, hb⟩ := h
      subst hb
      exact ⟨rfl, rfl, rfl⟩
  | cons g rest =>
    rw [hfl] at h
    simp only [Option.some.injEq, Prod.mk.injEq] at h
    obtain ⟨_, hb⟩ := h
    subst hb
    exact ⟨rfl, rfl, rfl⟩

/-- The example state with an unpinned dirty frame is reachable. -/
theorem example_unpinned_dirty_reachable :
    Reachable (init 1 example_disk) example_unpinned_dirty :=
  Reachable.unpin_page _ _ _ (Reachable.new_page _ _ Reachable.start)

/-- The example state whose frame was fetched under a page number the disk layer
has not handed out is reachable. -/
theorem example_fetched_beyond_reachable :
    Reachable (init 1 example_disk) example_fetched_beyond :=
  Reachable.unpin_page _ _ _
    (Reachable.write_data _ 0 _ (Reachable.fetch_page _ ⟨0, 1⟩ Reachable.start) (by decide))

/-- C8 (the claim as stated fails): in the one-frame pool on a disk whose file 0
has the pages 0 to 0, `fetch_page` of page (0,1), a write through the pinned
frame and `unpin_page` leave frame 0 unpinned with the id (0,1); the state is
reachable. `new_page` on file 0 then takes frame 0 as victim and is given the
page number 1 by the disk layer: the id the victim held before, (0,1), is
mapped to the frame afterwards. -/
theorem new_page_maps_victim_id_again :
    Reachable (init 1 example_disk) example_fetched_beyond ∧
    example_fetched_beyond.find_victim_page.map (fun r => r.1) = some 0 ∧
    (example_fetched_beyond.pages 0).id = ⟨0, 1⟩ ∧
    (example_fetched_beyond.new_page 0).1 = some (0, ⟨0, 1⟩) ∧
    (example_fetched_beyond.new_page 0).2.page_table (example_fetched_beyond.pages 0).id
      = some 0 :=
  ⟨example_fetched_beyond_reachable, by decide, by decide, by decide, by decide⟩

/-- C8 (amended): in every state reachable from the constructed pool, with
`fetch_page` issued for any page id, when `fetch_page` is called for a page id
that is not in the page table, or `new_page` is called, and `find_victim_page`
finds a frame, then that frame is returned, its pin count is exactly 1, the page
table maps the requested (resp. newly allocated) page id to it, the frame
carries that id, and the page id the frame held before, unless it is the very id
being installed, is no longer mapped. -/
theorem victim_install_contract {α : Type} [Zero α] (pool_size : Nat) (disk : DiskManager α)
    (b : BufferPoolManager α) (hr : Reachable (init pool_size disk) b) :
    (∀ (pid : PageId) (f : frame_id_t) (b1 : BufferPoolManager α),
      b.page_table pid = none → b.find_victim_page = some (f, b1) →
        (b.fetch_page pid).1 = some f ∧
        ((b.fetch_page pid).2.pages f).pin_count = 1 ∧
        (b.fetch_page pid).2.page_table pid = some f ∧
        ((b.fetch_page pid).2.pages f).id = pid ∧
        ((b.pages f).id ≠ pid → (b.fetch_page pid).2.page_table (b.pages f).id = none)) ∧
    (∀ (fd : Int) (f : frame_id_t) (b1 : BufferPoolManager α),
      b.find_victim_page = some (f, b1) →
        (b.new_page fd).1 = some (f, ⟨fd, b.disk.fd2pageno fd⟩) ∧
        ((b.new_page fd).2.pages f).pin_count = 1 ∧
        (b.new_page fd).2.page_table ⟨fd, b.disk.fd2pageno fd⟩ = some f ∧
        ((b.new_page fd).2.pages f).id = ⟨fd, b.disk.fd2pageno fd⟩ ∧
        ((b.pages f).id ≠ ⟨fd, b.disk.fd2pageno fd⟩ →
          (b.new_page fd).2.page_table (b.pages f).id = none)) := by
  have hw : WF b := Reachable.wf (wf_init pool_size disk) hr
  constructor
  · intro pid f b1 hun hv
    have hvo := find_victim_page_spec hw hv
    obtain ⟨h1, _, _, _, hpt, _, hpg⟩ := fetch_page_miss pid hun hv hvo
    refine ⟨h1, ?_, ?_, ?_, ?_⟩
    · rw [hpg]; simp [hvo.pin0]
    · rw [hpt]; simp
    · rw [hpg]; simp
    · intro hne
      rw [hpt]; simp [Function.update, hne]
  · intro fd f b1 hv
    have hvo := find_victim_page_spec hw hv
    obtain ⟨h1, _, _, _, hpt, _, _, hpg⟩ := new_page_found fd hv hvo
    refine ⟨h1, ?_, ?_, ?_, ?_⟩
    · rw [hpg]; simp [hvo.pin0]
    · rw [hpt]; simp
    · rw [hpg]; simp
    · intro hne
      rw [hpt]; simp [Function.update, hne]

/-- Witness for C8 (amended): in the one-frame pool whose frame holds page (0,1),
unpinned, dirty and in the replacer, fetching page (0,0) takes the frame from
the replacer, installs page (0,0) with pin count 1, and page (0,1) is no longer
mapped. -/
theorem victim_install_contract_witness :
    Reachable (init 1 example_disk) example_unpinned_dirty ∧
    example_unpinned_dirty.free_list = [] ∧
    example_unpinned_dirty.replacer.LRUlist = [0] ∧
    example_unpinned_dirty.page_table ⟨0, 1⟩ = some 0 ∧
    (example_unpinned_dirty.pages 0).id = ⟨0, 1⟩ ∧
    ((example_unpinned_dirty.fetch_page ⟨0, 0⟩).1 = some 0 ∧
     ((example_unpinned_dirty.fetch_page ⟨0, 0⟩).2.pages 0).pin_count = 1 ∧
     (example_unpinned_dirty.fetch_page ⟨0, 0⟩).2.page_table ⟨0, 0⟩ = some 0 ∧
     ((example_unpinned_dirty.fetch_page ⟨0, 0⟩).2.pages 0).id = ⟨0, 0⟩ ∧
     ((example_unpinned_dirty.pages 0).id ≠ ⟨0, 0⟩ →
       (example_unpinned_dirty.fetch_page ⟨0, 0⟩).2.page_table
         (example_unpinned_dirty.pages 0).id = none)) :=
  ⟨example_unpinned_dirty_reachable, by decide, by decide, by decide, by decide,
   (victim_install_contract 1 example_disk example_unpinned_dirty
      example_unpinned_dirty_reachable).1 ⟨0, 0⟩ 0
      { example_unpinned_dirty with replacer := { LRUlist := [] } } rfl rfl⟩

/-- C9 (the claim as stated fails): in the one-frame pool on a disk whose file 0
has the pages 0 to 0, page (0,1) is fetched, the byte 7 is written through the
pinned frame and the page is unpinned with the dirty hint; the state is
reachable, and frame 0 is dirty and holds the byte 7. `new_page` on file 0 then
takes frame 0 as victim, writes it back under (0,1), is given the page number 1
by the disk layer and writes the fresh page under (0,1) as well: the disk
afterwards holds the fresh page there, not the bytes of the victim. -/
theorem new_page_overwrites_victim_bytes :
    Reachable (init 1 example_disk) example_fetched_beyond ∧
    example_fetched_beyond.find_victim_page.map (fun r => r.1) = some 0 ∧
    (example_fetched_beyond.pages 0).is_dirty = true ∧
    (example_fetched_beyond.pages 0).id = ⟨0, 1⟩ ∧
    (example_fetched_beyond.pages 0).data.body = 7 ∧
    ((example_fetched_beyond.new_page 0).2.disk.pages ⟨0, 1⟩).body = 0 ∧
    ((example_fetched_beyond.new_page 0).2.disk.pages ⟨0, 1⟩).lsn = INVALID_LSN :=
  ⟨example_fetched_beyond_reachable, by decide, by decide, by decide, by decide, by decide,
   by decide⟩

/-- C9 (amended): in every pool state, when `fetch_page` (for a page that is
not cached) reuses a victim frame whose dirty flag is set, or `new_page` does
and the page id it allocates is not the id the victim held, the disk afterwards
holds, under the page id the victim held, exactly the bytes the frame held
before it was reused; and in either function the frame's dirty flag is false
once the new page is installed. -/
theorem dirty_victim_written_back {α : Type} [Zero α] (b : BufferPoolManager α)
    (f : frame_id_t) (b1 : BufferPoolManager α) (hv : b.find_victim_page = some (f, b1)) :
    (∀ pid : PageId, b.page_table pid = none →
        ((b.pages f).is_dirty = true →
          (b.fetch_page pid).2.disk.pages (b.pages f).id = (b.pages f).data) ∧
        ((b.fetch_page pid).2.pages f).is_dirty = false) ∧
    (∀ fd : Int,
        ((b.pages f).is_dirty = true → (b.pages f).id ≠ ⟨fd, b.disk.fd2pageno fd⟩ →
          (b.new_page fd).2.disk.pages (b.pages f).id = (b.pages f).data) ∧
        ((b.new_page fd).2.pages f).is_dirty = false) := by
  obtain ⟨hpages, _, hdisk⟩ := find_victim_page_frame hv
  constructor
  · intro pid hun
    unfold fetch_page
    simp only [hun, hv, update_page, incr_pin, hpages, hdisk, Function.update_same]
    refine ⟨?_, ?_⟩
    · intro hdirty
      simp [hdirty, DiskManager.write_page]
    · by_cases hd : (b.pages f).is_dirty <;> simp [hd]
  · intro fd
    unfold new_page
    simp only [hv, hpages, hdisk, DiskManager.allocate_page, DiskManager.write_page,
      Function.update_same]
    refine ⟨?_, trivial⟩
    intro hdirty hne
    simp [hdirty, Function.update, hne]

/-- Witness for C9 (amended): in the one-frame pool whose frame holds page
(0,1) with bytes written since the page was created (the disk holds the fresh
page under (0,1), the frame the byte 7), unpinned and dirty, fetching page (0,0)
writes the frame's bytes to the disk under (0,1) and leaves the frame clean. -/
theorem dirty_victim_written_back_witness :
    (example_written.disk.pages ⟨0, 1⟩).body = 0 ∧
    (example_written.pages 0).id = ⟨0, 1⟩ ∧
    (example_written.pages 0).data.body = 7 ∧
    (example_written.pages 0).is_dirty = true ∧
    ((example_written.fetch_page ⟨0, 0⟩).2.disk.pages ⟨0, 1⟩).body = 7 ∧
    (((example_written.pages 0).is_dirty = true →
        (example_written.fetch_page ⟨0, 0⟩).2.disk.pages (example_written.pages 0).id
          = (example_written.pages 0).data) ∧
      ((example_written.fetch_page ⟨0, 0⟩).2.pages 0).is_dirty = false) :=
  ⟨by decide, by decide, by decide, by decide, by decide,
   (dirty_victim_written_back example_written 0
      { example_written with replacer := { LRUlist := [] } } rfl).1 ⟨0, 0⟩ rfl⟩

/-- C7 (evaluation at the failing input): starting from the fresh one-frame pool,
`new_page`, `unpin_page`, `delete_page` reach a state in which frame 0 is in the
free list and in the replacer at the same time. -/
theorem delete_page_leaves_frame_in_replacer :
    Reachable (init 1 example_disk) example_deleted ∧
    (0 : frame_id_t) ∈ example_deleted.free_list ∧
    (0 : frame_id_t) ∈ example_deleted.replacer.LRUlist := by
  refine ⟨Reachable.delete_page _ _ example_unpinned_dirty_reachable, ?_, ?_⟩
  · decide
  · decide

end BufferPoolManager

/-! ## Theorems: buffer pool and log -/

namespace StorageState

/-- The example state after a logged update is reachable. -/
theorem example_updated_reachable : Reachable example_start example_updated := by
  have h1 : Reachable example_start
      ({ example_start with bpm := (example_start.bpm.fetch_page ⟨0, 0⟩).2 } :
        StorageState Nat) :=
    Reachable.pool _ _ Reachable.start
      (BufferPoolManager.Reachable.fetch_page _ ⟨0, 0⟩ BufferPoolManager.Reachable.start)
  have h2 := Reachable.logged_write _ 0 7 example_record h1 (by decide)
  exact Reachable.pool _ _ h2
    (BufferPoolManager.Reachable.unpin_page _ ⟨0, 0⟩ true BufferPoolManager.Reachable.start)

/-- C6 (counterexample): the write-ahead rule at eviction does not hold in every
reachable state. After a logged update of page (0,0) in a one-frame pool the
frame is the next victim, it is dirty with page LSN 0, and the record with LSN 0
is still in the log buffer; the next `new_page` writes the page to disk while
the log file is still empty. -/
theorem eviction_ignores_wal :
    ¬ (∀ s : StorageState Nat, Reachable example_start s → EvictionRespectsWAL s) ∧
    ((example_updated.new_page 0).bpm.disk.pages ⟨0, 0⟩).lsn = 0 ∧
    ((example_updated.new_page 0).bpm.disk.pages ⟨0, 0⟩).body = 7 ∧
    (example_updated.new_page 0).log.log_file = [] ∧
    (example_updated.new_page 0).log.buffer_.map (fun r => r.lsn_) = [0] := by
  refine ⟨?_, by decide, by decide, by rfl, by rfl⟩
  intro h
  have h1 := h example_updated example_updated_reachable 0
    { example_updated.bpm with replacer := { LRUlist := [] } } rfl rfl
  have hb : example_updated.log.buffer_ = [{ example_record with lsn_ := 0 }] := rfl
  have h2 : (0 : Int) < 0 :=
    h1 { example_record with lsn_ := 0 } (by rw [hb]; exact List.mem_singleton_self _)
  exact absurd h2 (by decide)

/-- The pool part of every reachable state of pool and log is consistent. -/
theorem Reachable.wf_bpm {α : Type} [Zero α] {s0 s : StorageState α}
    (h0 : BufferPoolManager.WF s0.bpm) (h : Reachable s0 s) : BufferPoolManager.WF s.bpm := by
  induction h with
  | start => exact h0
  | pool s b _ hb ih => exact BufferPoolManager.Reachable.wf ih hb
  | add_log_to_buffer s rec _ ih => exact ih
  | flush_log_to_disk s _ ih => exact ih
  | logged_write s f body rec _ _ ih => exact BufferPoolManager.wf_write_data ih f _

end StorageState

/-! ## Theorems: log manager -/

namespace LogManager

/-- Flushing moves the buffered records to the end of the log file. -/
theorem flush_log_file (lm : LogManager) :
    lm.flush_log_to_disk.log_file = lm.records ∧ lm.flush_log_to_disk.buffer_ = [] ∧
    lm.flush_log_to_disk.records = lm.records ∧
    lm.flush_log_to_disk.global_lsn_ = lm.global_lsn_ := by
  simp [flush_log_to_disk, records]

/-- Appending assigns the current value of the LSN counter. -/
theorem add_log_lsn (lm : LogManager) (rec : LogRecord) :
    (lm.add_log_to_buffer rec).1 = lm.global_lsn_ := by
  unfold add_log_to_buffer
  by_cases h : lm.is_full rec.log_tot_len_ = true <;> simp [h, flush_log_to_disk]

/-- Appending advances the LSN counter by one. -/
theorem add_log_global (lm : LogManager) (rec : LogRecord) :
    (lm.add_log_to_buffer rec).2.global_lsn_ = lm.global_lsn_ + 1 := by
  unfold add_log_to_buffer
  by_cases h : lm.is_full rec.log_tot_len_ = true <;> simp [h, flush_log_to_disk]

/-- Appending puts the record, stamped with its LSN, at the end of the log. -/
theorem add_log_records (lm : LogManager) (rec : LogRecord) :
    (lm.add_log_to_buffer rec).2.records =
      lm.records ++ [{ rec with lsn_ := lm.global_lsn_ }] := by
  unfold add_log_to_buffer
  by_cases h : lm.is_full rec.log_tot_len_ = true <;>
    simp [h, flush_log_to_disk, records]

/-- Appending leaves the configuration constants alone. -/
theorem add_log_page_size (lm : LogManager) (rec : LogRecord) :
    (lm.add_log_to_buffer rec).2.PAGE_SIZE = lm.PAGE_SIZE := by
  unfold add_log_to_buffer
  by_cases h : lm.is_full rec.log_tot_len_ = true <;> simp [h, flush_log_to_disk]

end LogManager

/-! ## Theorems: transaction manager -/

namespace TransactionManager

/-- The effect of one `unlock` on the lock table and on the transaction. -/
theorem unlock_effect (lm : LockManager) (txn : Transaction) (id : LockDataId) :
    (lm.unlock txn id).2.1 = { txn with state_ := .SHRINKING } ∧
    (∀ id2, id2 ≠ id → (lm.unlock txn id).2.2.lock_table_ id2 = lm.lock_table_ id2) ∧
    ((lm.unlock txn id).2.2.lock_table_ id = none ∨
      ∃ st, lm.lock_table_ id = some st ∧ st.mode = .S ∧ 1 < st.shared_num ∧
        (lm.unlock txn id).2.2.lock_table_ id =
          some { st with shared_num := st.shared_num - 1 }) := by
  unfold LockManager.unlock
  cases h : lm.lock_table_ id with
  | none => simp [h]
  | some st =>
    by_cases hm : st.mode = .S
    · by_cases hs : st.shared_num - 1 ≤ 0
      · simp only [hm, hs, if_true]
        refine ⟨trivial, ?_, Or.inl (by simp)⟩
        intro id2 h2; simp [Function.update, h2]
      · simp only [hm, hs, if_true, if_false]
        refine ⟨trivial, ?_, Or.inr ⟨st, rfl, hm, by omega, by simp [hm]⟩⟩
        intro id2 h2; simp [Function.update, h2]
    · simp only [hm, if_false]
      refine ⟨trivial, ?_, Or.inl (by simp)⟩
      intro id2 h2; simp [Function.update, h2]

/-- Releasing a duplicate-free lock set: every lock in it is released (its entry
is gone, or it was shared with another holder and the share count dropped by
one), every other entry is untouched, and of the transaction only the state
changes. -/
theorem unlock_all_effect (l : List LockDataId) :
    ∀ (txn : Transaction) (lm : LockManager), l.Nodup →
      (∀ id ∈ l, (unlock_all l txn lm).2.lock_table_ id = none ∨
        ∃ st, lm.lock_table_ id = some st ∧ st.mode = .S ∧ 1 < st.shared_num ∧
          (unlock_all l txn lm).2.lock_table_ id =
            some { st with shared_num := st.shared_num - 1 }) ∧
      (∀ id, id ∉ l → (unlock_all l txn lm).2.lock_table_ id = lm.lock_table_ id) ∧
      (unlock_all l txn lm).1.write_set_ = txn.write_set_ ∧
      (unlock_all l txn lm).1.txn_id_ = txn.txn_id_ ∧
      (unlock_all l txn lm).1.prev_lsn_ = txn.prev_lsn_ := by
  induction l with
  | nil => intro txn lm _; simp [unlock_all]
  | cons a rest ih =>
    intro txn lm hnd
    rw [List.nodup_cons] at hnd
    obtain ⟨h1, h2, h3⟩ := unlock_effect lm txn a
    obtain ⟨i1, i2, i3, i4, i5⟩ := ih (lm.unlock txn a).2.1 (lm.unlock txn a).2.2 hnd.2
    simp only [unlock_all]
    refine ⟨?_, ?_, ?_, ?_, ?_⟩
    · intro id hid
      rcases List.mem_cons.mp hid with rfl | hr
      · rw [i2 id hnd.1]; exact h3
      · have hne : id ≠ a := fun h => hnd.1 (h ▸ hr)
        rcases i1 id hr with h | ⟨st, hst, hm, hs, hafter⟩
        · exact Or.inl h
        · exact Or.inr ⟨st, by rw [← h2 id hne]; exact hst, hm, hs, hafter⟩
    · intro id hid
      rw [List.mem_cons, not_or] at hid
      rw [i2 id hid.2, h2 id hid.1]
    · rw [i3, h1]
    · rw [i4, h1]
    · rw [i5, h1]

/-- `add_idx_log` keeps the transaction's id, write set, lock set and state. -/
theorem add_idx_log_fields (txn : Transaction) (lm : LogManager) :
    (txn.add_idx_log lm).1.txn_id_ = txn.txn_id_ ∧
    (txn.add_idx_log lm).1.write_set_ = txn.write_set_ ∧
    (txn.add_idx_log lm).1.lock_set_ = txn.lock_set_ ∧
    (txn.add_idx_log lm).1.state_ = txn.state_ ∧
    (txn.add_idx_log lm).1.idx_pending_ = [] := by
  simp [Transaction.add_idx_log]

/-- C4: for every (non-null) transaction, when `commit` returns, the log file
ends with the transaction's Commit record followed by its End record, whose
`prev_lsn` is the Commit record's LSN; nothing is left in the log buffer (the
flush came after the End record); the write set and the lock set are empty;
every lock of the lock set has been released in the lock table (the entry is
gone, or it was shared with another holder and its share count dropped by one);
and the state is `COMMITTED`. -/
theorem commit_contract (db : Database) (txn : Transaction) (hnd : txn.lock_set_.Nodup) :
    (commit db txn).1.log_manager_.log_file =
      (txn.add_idx_log db.log_manager_).2.records ++
        [{ CommitLogRecord txn.txn_id_ (txn.add_idx_log db.log_manager_).1.prev_lsn_ with
             lsn_ := (txn.add_idx_log db.log_manager_).2.global_lsn_ },
         { EndLogRecord txn.txn_id_ (txn.add_idx_log db.log_manager_).2.global_lsn_ with
             lsn_ := (txn.add_idx_log db.log_manager_).2.global_lsn_ + 1 }] ∧
    (commit db txn).1.log_manager_.buffer_ = [] ∧
    (commit db txn).2.write_set_ = [] ∧
    (commit db txn).2.lock_set_ = [] ∧
    (∀ id ∈ txn.lock_set_,
      (commit db txn).1.lock_manager_.lock_table_ id = none ∨
      ∃ st, db.lock_manager_.lock_table_ id = some st ∧ st.mode = .S ∧ 1 < st.shared_num ∧
        (commit db txn).1.lock_manager_.lock_table_ id =
          some { st with shared_num := st.shared_num - 1 }) ∧
    (commit db txn).2.state_ = .COMMITTED := by
  obtain ⟨f1, f2, f3, f4, _⟩ := add_idx_log_fields txn db.log_manager_
  refine ⟨?_, ?_, ?_, ?_, ?_, ?_⟩
  · simp only [commit]
    rw [(LogManager.flush_log_file _).1, LogManager.add_log_records, LogManager.add_log_records,
      LogManager.add_log_lsn, LogManager.add_log_global]
    simp [CommitLogRecord, EndLogRecord, f1]
  · simp only [commit]
    exact (LogManager.flush_log_file _).2.1
  · simp only [commit]
    rw [(unlock_all_effect _ _ _ (by simpa [f3] using hnd)).2.2.1]
  · simp [commit]
  · intro id hid
    simp only [commit]
    exact (unlock_all_effect _ _ _ (by simpa [f3] using hnd)).1 id (by simpa [f3] using hid)
  · simp [commit]

/-- The write set of the transaction of a context, if there is one. -/
theorem touch_index_write_set (c : Context) (n : String) :
    (c.touch_index n).txn_.write_set_ = c.txn_.write_set_ := by
  unfold Context.touch_index
  by_cases h : n ∈ c.txn_.idx_pending_ <;> simp [h]

/-- Inserting an index entry leaves the write set of the context alone. -/
theorem insert_entry_write_set (ih : IxIndexHandle) (n : String) (k : List Nat) (rid : Rid)
    (c : Context) :
    ∃ c1, (ih.insert_entry n k rid (some c)).2.2 = some c1 ∧
      c1.txn_.write_set_ = c.txn_.write_set_ := by
  unfold IxIndexHandle.insert_entry
  by_cases h : (ih.entries.any fun e => e.1 == k) = true
  · simp [h]
  · simp only [h, Bool.false_eq_true, if_false, Option.map_some']
    exact ⟨_, rfl, touch_index_write_set c n⟩

/-- Filling a new index from the table leaves the write set of the context alone. -/
theorem populate_index_write_set (fh : RmFileHandle) (index : IndexMeta) (n : String)
    (rids : List Rid) :
    ∀ (ih : IxIndexHandle) (c : Context) (ih1 : IxIndexHandle) (ctx1 : Option Context),
      SmManager.populate_index fh index n rids ih (some c) = some (ih1, ctx1) →
      ∃ c1, ctx1 = some c1 ∧ c1.txn_.write_set_ = c.txn_.write_set_ := by
  induction rids with
  | nil =>
    intro ih c ih1 ctx1 h
    simp only [SmManager.populate_index, Option.some.injEq, Prod.mk.injEq] at h
    exact ⟨c, h.2.symm, rfl⟩
  | cons rid rest ihr =>
    intro ih c ih1 ctx1 h
    simp only [SmManager.populate_index] at h
    cases hg : fh.get_record rid (some c) with
    | none => rw [hg] at h; cases h
    | some rec =>
      rw [hg] at h
      simp only at h
      obtain ⟨c2, hc2, hw2⟩ := insert_entry_write_set ih n (make_key index rec) rid c
      rw [hc2] at h
      obtain ⟨c3, hc3, hw3⟩ := ihr _ c2 ih1 ctx1 h
      exact ⟨c3, hc3, hw3.trans hw2⟩

/-- Taking the table lock leaves the write set of the context alone. -/
theorem ctx_lock_write_set (c : Context) (fd : Int) (ctx1 : Option Context)
    (h : SmManager.ctx_lock_exclusive_on_table (some c) fd = some ctx1) :
    ∃ c1, ctx1 = some c1 ∧ c1.txn_.write_set_ = c.txn_.write_set_ := by
  simp only [SmManager.ctx_lock_exclusive_on_table] at h
  have hws : (c.lock_mgr_.lock_exclusive_on_table c.txn_ fd).2.1.write_set_
      = c.txn_.write_set_ := by
    unfold LockManager.lock_exclusive_on_table
    by_cases h1 : c.txn_.isolation_level_ = .READ_UNCOMMITTED
    · simp [h1]
    · simp only [h1, if_false]
      by_cases h2 : LockDataId.table fd ∈ c.txn_.lock_set_
      · simp only [h2, if_true]
        split_ifs <;> rfl
      · simp only [h2, if_false]
        cases h3 : c.lock_mgr_.lock_table_ (LockDataId.table fd) with
        | some st => rfl
        | none =>
          simp only [Transaction.lock_set_insert, h2, if_false]
  generalize hr : c.lock_mgr_.lock_exclusive_on_table c.txn_ fd = r at h hws
  obtain ⟨o, t1, l1⟩ := r
  cases o with
  | none => simp at h
  | some bb =>
    cases bb with
    | false => simp at h
    | true =>
      simp only [Option.some.injEq] at h
      exact ⟨_, h.symm, hws⟩

/-- When `create_index` with a context returns, it has appended a `CREATE_INDEX`
entry to the transaction's write set. -/
theorem create_index_appends (sm sm1 : SmManager) (t : String) (cols : List String)
    (c : Context) (ctx1 : Option Context)
    (h : sm.create_index t cols (some c) = some (sm1, ctx1)) :
    ∃ c1 w, ctx1 = some c1 ∧ c1.txn_.write_set_ = c.txn_.write_set_ ++ [w] ∧
      w.wtype_ = .CREATE_INDEX := by
  unfold SmManager.create_index at h
  cases ht : sm.tabs_ t with
  | none => simp [ht] at h
  | some tab =>
    cases hf : sm.fhs_ t with
    | none => simp [ht, hf] at h
    | some fh =>
      simp only [ht, hf] at h
      cases hl : SmManager.ctx_lock_exclusive_on_table (some c) fh.fd_ with
      | none => simp [hl] at h
      | some context1 =>
        simp only [hl] at h
        obtain ⟨c1, rfl, hw1⟩ := ctx_lock_write_set c fh.fd_ context1 hl
        by_cases hi : tab.is_index cols = true
        · simp [hi] at h
        · simp only [hi, Bool.false_eq_true, if_false] at h
          cases hc : SmManager.get_cols tab cols with
          | none => simp [hc] at h
          | some colsm =>
            simp only [hc] at h
            split at h
            · cases h
            · rename_i ih context2 hp
              obtain ⟨c2, rfl, hw2⟩ := populate_index_write_set _ _ _ _ _ c1 ih context2 hp
              simp only [Option.some.injEq, Prod.mk.injEq] at h
              obtain ⟨_, rfl⟩ := h
              exact ⟨_, ⟨.CREATE_INDEX, t, ⟨-1, -1⟩, [], cols, _⟩, rfl,
                by rw [← hw1, ← hw2]; rfl, rfl⟩

/-- When `drop_index` with a context returns, it has appended a `DROP_INDEX`
entry to the transaction's write set. -/
theorem drop_index_appends (sm sm1 : SmManager) (t : String) (cols : List String)
    (c : Context) (ctx1 : Option Context)
    (h : sm.drop_index t cols (some c) = some (sm1, ctx1)) :
    ∃ c1 w, ctx1 = some c1 ∧ c1.txn_.write_set_ = c.txn_.write_set_ ++ [w] ∧
      w.wtype_ = .DROP_INDEX := by
  unfold SmManager.drop_index at h
  cases ht : sm.tabs_ t with
  | none => simp [ht] at h
  | some tab =>
    cases hf : sm.fhs_ t with
    | none => simp [ht, hf] at h
    | some fh =>
      simp only [ht, hf] at h
      cases hc : SmManager.get_cols tab cols with
      | none => simp [hc] at h
      | some colsm =>
        simp only [hc] at h
        cases hl : SmManager.ctx_lock_exclusive_on_table (some c) fh.fd_ with
        | none => simp [hl] at h
        | some context1 =>
          simp only [hl] at h
          obtain ⟨c1, rfl, hw1⟩ := ctx_lock_write_set c fh.fd_ context1 hl
          by_cases hi : tab.is_index (colsm.map fun (c : ColMeta) => c.name) = true
          · simp only [hi, Bool.not_true, Bool.false_eq_true, if_false] at h
            cases hh : sm.ihs_ (get_index_name t colsm) with
            | none => simp [hh] at h
            | some ih0 =>
              simp only [hh, Option.some.injEq, Prod.mk.injEq] at h
              obtain ⟨_, rfl⟩ := h
              exact ⟨_, ⟨.DROP_INDEX, t, ⟨-1, -1⟩, [], colsm.map fun (c : ColMeta) => c.name, _⟩,
                rfl, by rw [← hw1]; rfl, rfl⟩
          · simp [hi] at h

/-- Deleting an index entry leaves the write set of the context alone. -/
theorem delete_entry_write_set (ih : IxIndexHandle) (n : String) (k : List Nat) (c : Context) :
    ∃ c1, (ih.delete_entry n k (some c)).2.2 = some c1 ∧
      c1.txn_.write_set_ = c.txn_.write_set_ := by
  unfold IxIndexHandle.delete_entry
  by_cases h : (ih.entries.any fun e => e.1 == k) = true
  · simp only [h, if_true, Option.map_some']
    exact ⟨_, rfl, touch_index_write_set c n⟩
  · simp [h]

/-- The index loop of `rollback_insert` leaves the write set alone. -/
theorem delete_entries_write_set (t : String) (data : List Nat) (ixs : List IndexMeta) :
    ∀ (sm sm1 : SmManager) (c : Context) (ctx1 : Option Context),
      SmManager.delete_entries t data ixs sm (some c) = some (sm1, ctx1) →
      ∃ c1, ctx1 = some c1 ∧ c1.txn_.write_set_ = c.txn_.write_set_ := by
  induction ixs with
  | nil =>
    intro sm sm1 c ctx1 h
    simp only [SmManager.delete_entries, Option.some.injEq, Prod.mk.injEq] at h
    exact ⟨c, h.2.symm, rfl⟩
  | cons ix rest ihr =>
    intro sm sm1 c ctx1 h
    simp only [SmManager.delete_entries] at h
    cases hh : sm.ihs_ (get_index_name t ix.cols) with
    | none => rw [hh] at h; cases h
    | some ih =>
      rw [hh] at h
      simp only at h
      obtain ⟨c2, hc2, hw2⟩ := delete_entry_write_set ih (get_index_name t ix.cols)
        (make_key ix data) c
      rw [hc2] at h
      obtain ⟨c3, hc3, hw3⟩ := ihr _ sm1 c2 ctx1 h
      exact ⟨c3, hc3, hw3.trans hw2⟩

/-- The index loop of `rollback_delete` leaves the write set alone. -/
theorem insert_entries_write_set (t : String) (data : List Nat) (rid : Rid)
    (ixs : List IndexMeta) :
    ∀ (sm sm1 : SmManager) (c : Context) (ctx1 : Option Context),
      SmManager.insert_entries t data rid ixs sm (some c) = some (sm1, ctx1) →
      ∃ c1, ctx1 = some c1 ∧ c1.txn_.write_set_ = c.txn_.write_set_ := by
  induction ixs with
  | nil =>
    intro sm sm1 c ctx1 h
    simp only [SmManager.insert_entries, Option.some.injEq, Prod.mk.injEq] at h
    exact ⟨c, h.2.symm, rfl⟩
  | cons ix rest ihr =>
    intro sm sm1 c ctx1 h
    simp only [SmManager.insert_entries] at h
    cases hh : sm.ihs_ (get_index_name t ix.cols) with
    | none => rw [hh] at h; cases h
    | some ih =>
      rw [hh] at h
      simp only at h
      obtain ⟨c2, hc2, hw2⟩ := insert_entry_write_set ih (get_index_name t ix.cols)
        (make_key ix data) rid c
      rw [hc2] at h
      obtain ⟨c3, hc3, hw3⟩ := ihr _ sm1 c2 ctx1 h
      exact ⟨c3, hc3, hw3.trans hw2⟩

/-- The index loop of `rollback_update` leaves the write set alone. -/
theorem swap_entries_write_set (t : String) (cur old_image : List Nat) (rid : Rid)
    (ixs : List IndexMeta) :
    ∀ (sm sm1 : SmManager) (c : Context) (ctx1 : Option Context),
      SmManager.swap_entries t cur old_image rid ixs sm (some c) = some (sm1, ctx1) →
      ∃ c1, ctx1 = some c1 ∧ c1.txn_.write_set_ = c.txn_.write_set_ := by
  induction ixs with
  | nil =>
    intro sm sm1 c ctx1 h
    simp only [SmManager.swap_entries, Option.some.injEq, Prod.mk.injEq] at h
    exact ⟨c, h.2.symm, rfl⟩
  | cons ix rest ihr =>
    intro sm sm1 c ctx1 h
    simp only [SmManager.swap_entries] at h
    by_cases hs : strcmp_eq (make_key ix cur) (make_key ix old_image) = true
    · simp only [hs, if_true] at h
      exact ihr _ sm1 c ctx1 h
    · simp only [hs, Bool.false_eq_true, if_false] at h
      cases hh : sm.ihs_ (get_index_name t ix.cols) with
      | none => rw [hh] at h; cases h
      | some ih =>
        rw [hh] at h
        simp only at h
        obtain ⟨c2, hc2, hw2⟩ := delete_entry_write_set ih (get_index_name t ix.cols)
          (make_key ix cur) c
        rw [hc2] at h
        obtain ⟨c3, hc3, hw3⟩ := insert_entry_write_set
          (ih.delete_entry (get_index_name t ix.cols) (make_key ix cur) (some c)).2.1
          (get_index_name t ix.cols) (make_key ix old_image) rid c2
        rw [hc3] at h
        obtain ⟨c4, hc4, hw4⟩ := ihr _ sm1 c3 ctx1 h
        exact ⟨c4, hc4, hw4.trans (hw3.trans hw2)⟩

/-- The heap operations with a context leave the write set alone. -/
theorem heap_ops_write_set (fh : RmFileHandle) (rid : Rid) (buf : List Nat) (c : Context) :
    (∀ fh1 ctx1, fh.delete_record rid (some c) = some (fh1, ctx1) →
      ∃ c1, ctx1 = some c1 ∧ c1.txn_.write_set_ = c.txn_.write_set_) ∧
    (∀ fh1 ctx1, fh.update_record rid buf (some c) = some (fh1, ctx1) →
      ∃ c1, ctx1 = some c1 ∧ c1.txn_.write_set_ = c.txn_.write_set_) ∧
    (∀ rid1 fh1 ctx1, fh.insert_record buf (some c) = some (rid1, fh1, ctx1) →
      ∃ c1, ctx1 = some c1 ∧ c1.txn_.write_set_ = c.txn_.write_set_) := by
  refine ⟨?_, ?_, ?_⟩
  · intro fh1 ctx1 h
    simp only [RmFileHandle.delete_record, LockManager.lock_exclusive_on_record, Bool.not_true,
      Bool.false_eq_true, if_false, Option.some.injEq, Prod.mk.injEq] at h
    exact ⟨_, h.2.symm, rfl⟩
  · intro fh1 ctx1 h
    simp only [RmFileHandle.update_record, LockManager.lock_exclusive_on_record, Bool.not_true,
      Bool.false_eq_true, if_false, Option.some.injEq, Prod.mk.injEq] at h
    exact ⟨_, h.2.symm, rfl⟩
  · intro rid1 fh1 ctx1 h
    simp only [RmFileHandle.insert_record, LockManager.lock_exclusive_on_record, Bool.not_true,
      Bool.false_eq_true, if_false, Option.some.injEq, Prod.mk.injEq] at h
    exact ⟨_, h.2.2.symm, rfl⟩

/-- `ctx_add_idx_log` leaves the write set alone. -/
theorem ctx_add_idx_log_write_set (c : Context) :
    ∃ c1, SmManager.ctx_add_idx_log (some c) = some c1 ∧
      c1.txn_.write_set_ = c.txn_.write_set_ := by
  refine ⟨_, rfl, ?_⟩
  simp [Transaction.add_idx_log]

/-- When a tuple rollback primitive returns, the write set is as it was. -/
theorem rollback_tuple_write_set (sm sm1 : SmManager) (t : String) (rid : Rid)
    (record : List Nat) (c : Context) (ctx1 : Option Context) :
    (sm.rollback_insert t rid (some c) = some (sm1, ctx1) →
      ∃ c1, ctx1 = some c1 ∧ c1.txn_.write_set_ = c.txn_.write_set_) ∧
    (sm.rollback_update t rid record (some c) = some (sm1, ctx1) →
      ∃ c1, ctx1 = some c1 ∧ c1.txn_.write_set_ = c.txn_.write_set_) ∧
    (sm.rollback_delete t rid record (some c) = some (sm1, ctx1) →
      ∃ c1, ctx1 = some c1 ∧ c1.txn_.write_set_ = c.txn_.write_set_) := by
  refine ⟨?_, ?_, ?_⟩
  · intro h
    unfold SmManager.rollback_insert at h
    cases ht : sm.tabs_ t with
    | none => simp [ht] at h
    | some tab =>
      cases hf : sm.fhs_ t with
      | none => simp [ht, hf] at h
      | some fh =>
        simp only [ht, hf] at h
        cases hg : fh.get_record rid (some c) with
        | none => simp [hg] at h
        | some rec =>
          simp only [hg] at h
          cases hd : SmManager.delete_entries t rec tab.indexes sm (some c) with
          | none => simp [hd] at h
          | some p =>
            obtain ⟨sm2, ctx2⟩ := p
            obtain ⟨c2, rfl, hw2⟩ := delete_entries_write_set _ _ _ _ _ _ _ hd
            simp only [hd] at h
            obtain ⟨c3, hc3, hw3⟩ := ctx_add_idx_log_write_set c2
            rw [hc3] at h
            cases hf2 : sm2.fhs_ t with
            | none => simp [hf2] at h
            | some fh2 =>
              simp only [hf2] at h
              cases hdr : fh2.delete_record rid (some c3) with
              | none => simp [hdr] at h
              | some q =>
                obtain ⟨fh3, ctx3⟩ := q
                obtain ⟨c4, rfl, hw4⟩ := (heap_ops_write_set fh2 rid [] c3).1 _ _ hdr
                simp only [hdr, Option.some.injEq, Prod.mk.injEq] at h
                exact ⟨c4, h.2.symm, hw4.trans (hw3.trans hw2)⟩
  · intro h
    unfold SmManager.rollback_update at h
    cases ht : sm.tabs_ t with
    | none => simp [ht] at h
    | some tab =>
      cases hf : sm.fhs_ t with
      | none => simp [ht, hf] at h
      | some fh =>
        simp only [ht, hf] at h
        cases hg : fh.get_record rid (some c) with
        | none => simp [hg] at h
        | some rec =>
          simp only [hg] at h
          cases hd : SmManager.swap_entries t rec record rid tab.indexes sm (some c) with
          | none => simp [hd] at h
          | some p =>
            obtain ⟨sm2, ctx2⟩ := p
            obtain ⟨c2, rfl, hw2⟩ := swap_entries_write_set _ _ _ _ _ _ _ _ _ hd
            simp only [hd] at h
            obtain ⟨c3, hc3, hw3⟩ := ctx_add_idx_log_write_set c2
            rw [hc3] at h
            cases hf2 : sm2.fhs_ t with
            | none => simp [hf2] at h
            | some fh2 =>
              simp only [hf2] at h
              cases hdr : fh2.update_record rid record (some c3) with
              | none => simp [hdr] at h
              | some q =>
                obtain ⟨fh3, ctx3⟩ := q
                obtain ⟨c4, rfl, hw4⟩ := (heap_ops_write_set fh2 rid record c3).2.1 _ _ hdr
                simp only [hdr, Option.some.injEq, Prod.mk.injEq] at h
                exact ⟨c4, h.2.symm, hw4.trans (hw3.trans hw2)⟩
  · intro h
    unfold SmManager.rollback_delete at h
    cases ht : sm.tabs_ t with
    | none => simp [ht] at h
    | some tab =>
      cases hf : sm.fhs_ t with
      | none => simp [ht, hf] at h
      | some fh =>
        simp only [ht, hf] at h
        cases hi : fh.insert_record record (some c) with
        | none => simp [hi] at h
        | some q =>
          obtain ⟨rid1, fh1, ctx2⟩ := q
          obtain ⟨c2, rfl, hw2⟩ := (heap_ops_write_set fh rid record c).2.2 _ _ _ hi
          simp only [hi] at h
          cases hd : SmManager.insert_entries t record rid1 tab.indexes (sm.set_fh t fh1)
              (some c2) with
          | none => simp [hd] at h
          | some p =>
            obtain ⟨sm2, ctx3⟩ := p
            obtain ⟨c3, rfl, hw3⟩ := insert_entries_write_set _ _ _ _ _ _ _ _ hd
            simp only [hd, Option.some.injEq, Prod.mk.injEq] at h
            obtain ⟨c4, hc4, hw4⟩ := ctx_add_idx_log_write_set c3
            rw [hc4] at h
            exact ⟨c4, h.2.symm, hw4.trans (hw3.trans hw2)⟩

/-- In a strictly increasing list, elements compare as their positions do. -/
theorem getD_lt_of_lt (l : List Int) (hs : l.Pairwise (· < ·)) (a b : Nat) (hab : a < b)
    (hb : b < l.length) : l.getD a 0 < l.getD b 0 := by
  have ha : a < l.length := lt_trans hab hb
  rw [List.getD_eq_getElem l 0 ha, List.getD_eq_getElem l 0 hb]
  exact (List.pairwise_iff_getElem.mp hs) a b ha hb hab

/-- On a strictly increasing list the binary search of `std::lower_bound` for
the element at position `i` ends at `i`. -/
theorem lower_bound_loop_sorted (l : List Int) (hs : l.Pairwise (· < ·)) (i : Nat)
    (hi : i < l.length) :
    ∀ count first, first ≤ i → i ≤ first + count → first + count ≤ l.length →
      lower_bound_loop l (l.getD i 0) first count = i := by
  intro count
  induction count using Nat.strong_induction_on with
  | _ count ih =>
    intro first h1 h2 h3
    rw [lower_bound_loop]
    by_cases hc : count = 0
    · simp only [hc, dite_true]; omega
    · simp only [hc, dite_false]
      by_cases hlt : l.getD (first + count / 2) 0 < l.getD i 0
      · simp only [hlt, if_true]
        have hmid : first + count / 2 < i := by
          by_contra hge
          rw [not_lt] at hge
          rcases Nat.eq_or_lt_of_le hge with he | hl
          · rw [he] at hlt; exact lt_irrefl _ hlt
          · have := getD_lt_of_lt l hs i (first + count / 2) hl (by omega)
            exact lt_asymm this hlt
        exact ih (count - (count / 2 + 1)) (by omega) (first + count / 2 + 1) (by omega)
          (by omega) (by omega)
      · simp only [hlt, if_false]
        have hmid : i ≤ first + count / 2 := by
          by_contra hge
          rw [not_le] at hge
          exact hlt (getD_lt_of_lt l hs (first + count / 2) i hge hi)
        exact ih (count / 2) (by omega) first h1 hmid (by omega)

/-- On a strictly increasing list `lower_bound` finds each element at its own position. -/
theorem lower_bound_sorted (l : List Int) (hs : l.Pairwise (· < ·)) (i : Nat)
    (hi : i < l.length) : lower_bound l (l.getD i 0) = i :=
  lower_bound_loop_sorted l hs i hi l.length 0 (Nat.zero_le i) (by omega) (by omega)

/-- `add_undo_log` leaves the write set alone. -/
theorem add_undo_log_write_set (txn : Transaction) (lm : LogManager) (u : Int) :
    (add_undo_log txn lm u).1.write_set_ = txn.write_set_ := by
  simp [add_undo_log]

/-- When the rollback primitive of a tuple entry returns, the write set is as it was. -/
theorem rollback_item_tuple_write_set (sm sm1 : SmManager) (item : WriteRecord) (c : Context)
    (ctx1 : Option Context) (hi : ¬ item.is_index_entry)
    (h : rollback_item sm item c = some (sm1, ctx1)) :
    ∃ c1, ctx1 = some c1 ∧ c1.txn_.write_set_ = c.txn_.write_set_ := by
  unfold rollback_item at h
  unfold WriteRecord.is_index_entry at hi
  cases hw : item.wtype_ with
  | INSERT_TUPLE =>
    rw [hw] at h
    exact (rollback_tuple_write_set sm sm1 _ _ [] c ctx1).1 h
  | UPDATE_TUPLE =>
    rw [hw] at h
    exact (rollback_tuple_write_set sm sm1 _ _ _ c ctx1).2.1 h
  | DELETE_TUPLE =>
    rw [hw] at h
    exact (rollback_tuple_write_set sm sm1 _ _ _ c ctx1).2.2 h
  | CREATE_INDEX => exact absurd (Or.inl hw) hi
  | DROP_INDEX => exact absurd (Or.inr hw) hi

/-- The loop of `abort` and the undo pass of the specification agree, stated for
a write set of which `rev` (newest first) is still to be undone and `suf` has
been undone already. -/
theorem abort_loop_eq_undo (rev : List WriteRecord) :
    ∀ (suf : List WriteRecord) (fuel : Nat) (sm : SmManager) (c : Context),
      (((rev.reverse ++ suf).map (fun w => w.lsn_)).Pairwise (· < ·)) →
      (∀ w ∈ rev, ¬ w.is_index_entry) → rev.length ≤ fuel →
      c.txn_.write_set_ = rev.reverse →
      abort_loop ((rev.reverse ++ suf).map (fun w => w.lsn_)) fuel sm c
        = undo_newest_to_oldest rev sm c := by
  induction rev with
  | nil =>
    intro suf fuel sm c _ _ _ hc
    unfold abort_loop undo_newest_to_oldest
    simp [hc]
  | cons item older ih =>
    intro suf fuel sm c hs ht hf hc
    have hlast : c.txn_.write_set_.getLast? = some item := by
      rw [hc]; simp
    have hdrop : c.txn_.write_set_.dropLast = older.reverse := by
      rw [hc]; simp
    cases fuel with
    | zero => simp at hf
    | succ f =>
      unfold abort_loop undo_newest_to_oldest
      simp only [hlast, hdrop]
      unfold abort_step
      cases hr : rollback_item sm item
          { c with txn_ := { c.txn_ with write_set_ := older.reverse } } with
      | none => simp
      | some p =>
        obtain ⟨sm1, ctx1⟩ := p
        obtain ⟨c1, rfl, hw1⟩ := rollback_item_tuple_write_set _ _ _ _ _
          (ht item (List.mem_cons_self _ _)) hr
        simp only
        have hpos : older.length < ((((item :: older).reverse ++ suf).map
            (fun w => w.lsn_))).length := by
          simp
        have hitem : item.lsn_ = (((item :: older).reverse ++ suf).map
            (fun w => w.lsn_)).getD older.length 0 := by
          rw [List.getD_eq_getElem _ _ hpos]
          simp [List.getElem_append_left, List.getElem_append_right]
        have hidx : lower_bound (((item :: older).reverse ++ suf).map (fun w => w.lsn_))
            item.lsn_ = older.length := by
          conv_lhs => rw [hitem]
          exact lower_bound_sorted _ hs _ hpos
        rw [hidx]
        have hundo : (if older.length = 0 then (-1 : Int)
              else (((item :: older).reverse ++ suf).map (fun w => w.lsn_)).getD
                (older.length - 1) 0)
            = (match older with
               | [] => INVALID_LSN
               | prev :: _ => prev.lsn_) := by
          cases older with
          | nil => simp [INVALID_LSN]
          | cons prev o2 =>
            have hp2 : o2.length < ((((item :: prev :: o2).reverse ++ suf).map
                (fun w => w.lsn_))).length := by
              simp
            simp only [List.length_cons, Nat.add_one_ne_zero, if_false, Nat.add_sub_cancel]
            rw [List.getD_eq_getElem _ _ hp2]
            simp [List.getElem_append_left, List.getElem_append_right]
        rw [hundo]
        have hlist : (item :: older).reverse ++ suf = older.reverse ++ (item :: suf) := by
          simp
        rw [hlist] at hs ⊢
        apply ih (item :: suf) f sm1 _ hs
          (fun w hw => ht w (List.mem_cons_of_mem _ hw))
          (by simp at hf; omega)
        simp only
        rw [(add_idx_log_fields _ _).2.1, add_undo_log_write_set, hw1]

/-- The undo loop of `abort`, run on a context whose write set holds tuple entries
with strictly increasing LSNs, is the undo pass of the specification. -/
theorem abort_loop_undoes_newest_to_oldest (fuel : Nat) (sm : SmManager) (c : Context)
    (htuple : ∀ w ∈ c.txn_.write_set_, ¬ w.is_index_entry)
    (hsorted : (c.txn_.write_set_.map (fun w => w.lsn_)).Pairwise (· < ·))
    (hfuel : c.txn_.write_set_.length ≤ fuel) :
    abort_loop (c.txn_.write_set_.map (fun w => w.lsn_)) fuel sm c
      = undo_newest_to_oldest c.txn_.write_set_.reverse sm c := by
  have h := abort_loop_eq_undo c.txn_.write_set_.reverse [] fuel sm c
    (by simpa using hsorted) (by simpa using htuple) (by simpa using hfuel) (by simp)
  simpa using h

/-- The undo pass of the specification is a recursion over the write set and
never runs out of iterations. -/
theorem undo_newest_to_oldest_total (rev : List WriteRecord) :
    ∀ (sm : SmManager) (c : Context), undo_newest_to_oldest rev sm c ≠ .out_of_fuel := by
  induction rev with
  | nil => intro sm c h; simp [undo_newest_to_oldest] at h
  | cons item older ih =>
    intro sm c h
    unfold undo_newest_to_oldest at h
    dsimp only at h
    split at h
    · exact ih _ _ h
    · cases h

/-- Witness for C4: committing the example transaction, which holds one table lock. -/
theorem commit_contract_witness :
    Example.two_writes.lock_set_.Nodup ∧
    (commit Example.db Example.two_writes).2.state_ = .COMMITTED :=
  ⟨by decide, (commit_contract Example.db Example.two_writes (by decide)).2.2.2.2.2⟩

/-- When the body of the loop of `abort` returns for an index entry, it has
appended an index entry to the write set it was given. -/
theorem abort_step_index_appends (lsns : List Int) (sm sm1 : SmManager) (c c1 : Context)
    (item : WriteRecord) (hi : item.is_index_entry)
    (h : abort_step lsns sm c item = some (sm1, c1)) :
    ∃ w, c1.txn_.write_set_ = c.txn_.write_set_ ++ [w] ∧ w.is_index_entry := by
  unfold abort_step at h
  cases hr : rollback_item sm item c with
  | none => simp [hr] at h
  | some p =>
    obtain ⟨sm2, ctx2⟩ := p
    have hap : ∃ c2 w, ctx2 = some c2 ∧ c2.txn_.write_set_ = c.txn_.write_set_ ++ [w] ∧
        w.is_index_entry := by
      unfold rollback_item at hr
      rcases hi with hi | hi
      · rw [hi] at hr
        obtain ⟨c2, w, h1, h2, h3⟩ := drop_index_appends _ _ _ _ _ _ hr
        exact ⟨c2, w, h1, h2, Or.inr h3⟩
      · rw [hi] at hr
        obtain ⟨c2, w, h1, h2, h3⟩ := create_index_appends _ _ _ _ _ _ hr
        exact ⟨c2, w, h1, h2, Or.inl h3⟩
    obtain ⟨c2, w, rfl, hw, hwi⟩ := hap
    rw [hr] at h
    simp only [Option.some.injEq, Prod.mk.injEq] at h
    obtain ⟨_, rfl⟩ := h
    refine ⟨w, ?_, hwi⟩
    simp only
    rw [(add_idx_log_fields _ _).2.1, add_undo_log_write_set, hw]

/-- The loop of `abort` never comes to its end when the entry at the back of
the write set is an index entry: undoing it puts a new index entry there. -/
theorem abort_loop_index_never_done (lsns : List Int) :
    ∀ (fuel : Nat) (sm : SmManager) (c : Context),
      (∃ w, c.txn_.write_set_.getLast? = some w ∧ w.is_index_entry) →
      ∀ r, abort_loop lsns fuel sm c ≠ .done r := by
  intro fuel
  induction fuel with
  | zero =>
    intro sm c ⟨w, hw, _⟩ r h
    unfold abort_loop at h
    simp [hw] at h
  | succ n ih =>
    intro sm c ⟨w, hw, hwi⟩ r h
    unfold abort_loop at h
    simp only [hw] at h
    split at h
    · cases h
    · rename_i sm1 c2 hs
      obtain ⟨w2, hw2, hwi2⟩ := abort_step_index_appends _ _ _ _ _ _ hwi hs
      exact ih sm1 c2 ⟨w2, by rw [hw2]; simp, hwi2⟩ r h

/-- `abort` does not return for a transaction whose newest write-set entry is an
index entry, however many iterations its loop is given. -/
theorem abort_index_never_done (fuel : Nat) (db : Database) (txn : Transaction)
    (h : ∃ w, txn.write_set_.getLast? = some w ∧ w.is_index_entry) :
    ∀ r, abort fuel db txn ≠ .done r := by
  intro r hr
  unfold abort at hr
  dsimp only at hr
  split at hr
  · cases hr
  · cases hr
  · rename_i sm1 c1 hl
    refine abort_loop_index_never_done _ fuel _ _ ?_ (sm1, c1) hl
    simpa [abort_context, (add_idx_log_fields _ _).2.1] using h

/-- Two operations in a row that each keep locks and write set. -/
theorem keeps_then {c c1 c2 : Context} (h1 : CtxKeeps c c1) (h2 : CtxKeeps c1 c2) :
    CtxKeeps c c2 :=
  ⟨h2.1.trans h1.1, h2.2.1.trans h1.2.1, h2.2.2.1.trans h1.2.2.1, h2.2.2.2.trans h1.2.2.2⟩

/-- Noting that pages of an index were modified keeps locks and write set. -/
theorem touch_index_keeps (c : Context) (n : String) : CtxKeeps c (c.touch_index n) := by
  unfold Context.touch_index CtxKeeps
  by_cases h : n ∈ c.txn_.idx_pending_ <;> simp [h]

/-- Inserting an index entry keeps locks and write set. -/
theorem insert_entry_keeps (ih : IxIndexHandle) (n : String) (k : List Nat) (rid : Rid)
    (c : Context) :
    ∃ c1, (ih.insert_entry n k rid (some c)).2.2 = some c1 ∧ CtxKeeps c c1 := by
  unfold IxIndexHandle.insert_entry
  by_cases h : (ih.entries.any fun e => e.1 == k) = true
  · simp only [h, if_true]
    exact ⟨c, rfl, rfl, rfl, rfl, rfl⟩
  · simp only [h, Bool.false_eq_true, if_false, Option.map_some']
    exact ⟨_, rfl, touch_index_keeps c n⟩

/-- Filling a new index from the table never throws and keeps locks and write set. -/
theorem populate_index_keeps (fh : RmFileHandle) (index : IndexMeta) (n : String)
    (rids : List Rid) :
    ∀ (ih : IxIndexHandle) (c : Context),
      ∃ ih1 c1, SmManager.populate_index fh index n rids ih (some c) = some (ih1, some c1) ∧
        CtxKeeps c c1 := by
  induction rids with
  | nil =>
    intro ih c
    exact ⟨ih, c, rfl, rfl, rfl, rfl, rfl⟩
  | cons rid rest ihr =>
    intro ih c
    simp only [SmManager.populate_index]
    have hg : fh.get_record rid (some c)
        = some (((fh.pages rid.page_no).body.slots rid.slot_no).take fh.file_hdr_.record_size) := by
      simp [RmFileHandle.get_record, LockManager.lock_shared_on_record]
    rw [hg]
    simp only
    obtain ⟨c2, hc2, hk2⟩ := insert_entry_keeps ih n
      (make_key index (((fh.pages rid.page_no).body.slots rid.slot_no).take
        fh.file_hdr_.record_size)) rid c
    rw [hc2]
    obtain ⟨ih1, c3, h3, hk3⟩ := ihr _ c2
    exact ⟨ih1, c3, h3, keeps_then hk2 hk3⟩

/-- A transaction that already holds the exclusive lock on a table is granted it again. -/
theorem ctx_lock_held (c : Context) (fd : Int)
    (hiso : c.txn_.isolation_level_ = .SERIALIZABLE)
    (hmem : LockDataId.table fd ∈ c.txn_.lock_set_)
    (hx : c.lock_mgr_.lock_table_ (LockDataId.table fd) = some ⟨0, .X⟩) :
    ∃ c1, SmManager.ctx_lock_exclusive_on_table (some c) fd = some (some c1) ∧
      c1.lock_mgr_.lock_table_ (LockDataId.table fd) = some ⟨0, .X⟩ ∧
      c1.txn_.lock_set_ = c.txn_.lock_set_ ∧
      c1.txn_.isolation_level_ = .SERIALIZABLE ∧
      c1.txn_.write_set_ = c.txn_.write_set_ := by
  simp only [SmManager.ctx_lock_exclusive_on_table, LockManager.lock_exclusive_on_table, hiso,
    hmem, hx]
  simp

/-- Undoing `CREATE INDEX t(a)` in the example: `drop_index` with the context of
`abort` does not throw, takes the index out of the catalog, and appends a
`DROP_INDEX` entry to the write set. -/
theorem drop_index_in_cycle (sm : SmManager) (c : Context)
    (ht : sm.tabs_ "t" = some Example.tab_indexed) (hf : sm.fhs_ "t" = some Example.fh)
    (hih : ∃ ih, sm.ihs_ "t_a" = some ih)
    (hiso : c.txn_.isolation_level_ = .SERIALIZABLE)
    (hmem : LockDataId.table 3 ∈ c.txn_.lock_set_)
    (hx : c.lock_mgr_.lock_table_ (LockDataId.table 3) = some ⟨0, .X⟩) :
    ∃ sm1 c1, sm.drop_index "t" ["a"] (some c) = some (sm1, some c1) ∧
      sm1.tabs_ "t" = some Example.tab ∧ sm1.fhs_ "t" = some Example.fh ∧
      c1.txn_.isolation_level_ = .SERIALIZABLE ∧
      c1.txn_.lock_set_ = c.txn_.lock_set_ ∧
      c1.lock_mgr_.lock_table_ (LockDataId.table 3) = some ⟨0, .X⟩ ∧
      ∃ lsn, c1.txn_.write_set_ = c.txn_.write_set_ ++ [Example.index_entry false lsn] := by
  obtain ⟨c1, hl, hx1, hls1, hiso1, hws1⟩ := ctx_lock_held c 3 hiso hmem hx
  obtain ⟨ih, hih⟩ := hih
  have hc : SmManager.get_cols Example.tab_indexed ["a"]
      = some [⟨"t", "a", .TYPE_INT, 4, 0, true⟩] := by decide
  have hfd : Example.fh.fd_ = 3 := rfl
  have hidx : Example.tab_indexed.is_index
      (([⟨"t", "a", .TYPE_INT, 4, 0, true⟩] : List ColMeta).map fun (c : ColMeta) => c.name)
      = true := by decide
  have hname : get_index_name "t" [⟨"t", "a", .TYPE_INT, 4, 0, true⟩] = "t_a" := by decide
  unfold SmManager.drop_index
  simp only [ht, hf, hc, hfd, hl, hidx, hname, hih, Bool.not_true, Bool.false_eq_true, if_false]
  refine ⟨_, _, rfl, ?_, ?_, hiso1, hls1, hx1, ?_⟩
  · simp only [Function.update_same]
    decide
  · exact hf
  · exact ⟨_, by simp only [Transaction.append_write_record, hws1]; rfl⟩

/-- Undoing `DROP INDEX t(a)` in the example: `create_index` with the context of
`abort` does not throw, enters the index into the catalog again, and appends a
`CREATE_INDEX` entry to the write set. -/
theorem create_index_in_cycle (sm : SmManager) (c : Context)
    (ht : sm.tabs_ "t" = some Example.tab) (hf : sm.fhs_ "t" = some Example.fh)
    (hiso : c.txn_.isolation_level_ = .SERIALIZABLE)
    (hmem : LockDataId.table 3 ∈ c.txn_.lock_set_)
    (hx : c.lock_mgr_.lock_table_ (LockDataId.table 3) = some ⟨0, .X⟩) :
    ∃ sm1 c1, sm.create_index "t" ["a"] (some c) = some (sm1, some c1) ∧
      sm1.tabs_ "t" = some Example.tab_indexed ∧ sm1.fhs_ "t" = some Example.fh ∧
      (∃ ih, sm1.ihs_ "t_a" = some ih) ∧
      c1.txn_.isolation_level_ = .SERIALIZABLE ∧
      c1.txn_.lock_set_ = c.txn_.lock_set_ ∧
      c1.lock_mgr_.lock_table_ (LockDataId.table 3) = some ⟨0, .X⟩ ∧
      ∃ lsn, c1.txn_.write_set_ = c.txn_.write_set_ ++ [Example.index_entry true lsn] := by
  obtain ⟨c1, hl, hx1, hls1, hiso1, hws1⟩ := ctx_lock_held c 3 hiso hmem hx
  have hc : SmManager.get_cols Example.tab ["a"]
      = some [⟨"t", "a", .TYPE_INT, 4, 0, false⟩] := by decide
  have hfd : Example.fh.fd_ = 3 := rfl
  have hidx : Example.tab.is_index ["a"] = false := by decide
  have hname : get_index_name "t" [⟨"t", "a", .TYPE_INT, 4, 0, false⟩] = "t_a" := by decide
  obtain ⟨ih1, c2, hp, hk⟩ := populate_index_keeps Example.fh
    { tab_name := "t", col_tot_len := 4, col_num := 1,
      cols := [⟨"t", "a", .TYPE_INT, 4, 0, false⟩] } "t_a" (RmScan Example.fh) { entries := [] } c1
  unfold SmManager.create_index
  simp only [ht, hf, hc, hfd, hl, hidx, hname, Bool.false_eq_true, if_false]
  have hp1 : SmManager.populate_index Example.fh
      { tab_name := "t",
        col_tot_len := (([⟨"t", "a", .TYPE_INT, 4, 0, false⟩] : List ColMeta).map
          (fun (c : ColMeta) => c.len)).sum,
        col_num := (["a"] : List String).length,
        cols := [⟨"t", "a", .TYPE_INT, 4, 0, false⟩] } "t_a" (RmScan Example.fh)
      { entries := [] } (some c1) = some (ih1, some c2) := hp
  simp only [hp1]
  refine ⟨_, _, rfl, ?_, ?_, ?_, ?_, ?_, ?_, ?_⟩
  · simp only [Function.update_same]
    decide
  · exact hf
  · exact ⟨ih1, by simp only [Function.update_same]⟩
  · exact hk.2.2.1.trans hiso1
  · exact hk.2.1.trans hls1
  · show c2.lock_mgr_.lock_table_ (LockDataId.table 3) = _
    rw [hk.1]; exact hx1
  · exact ⟨_, by simp only [Transaction.append_write_record, hk.2.2.2, hws1]; rfl⟩

/-- `add_undo_log` changes only `prev_lsn_`. -/
theorem add_undo_log_fields (txn : Transaction) (lm : LogManager) (u : Int) :
    (add_undo_log txn lm u).1.write_set_ = txn.write_set_ ∧
    (add_undo_log txn lm u).1.lock_set_ = txn.lock_set_ ∧
    (add_undo_log txn lm u).1.isolation_level_ = txn.isolation_level_ := by
  simp [add_undo_log]

/-- `add_idx_log` keeps the isolation level. -/
theorem add_idx_log_isolation (txn : Transaction) (lm : LogManager) :
    (txn.add_idx_log lm).1.isolation_level_ = txn.isolation_level_ := by
  simp [Transaction.add_idx_log]

/-- One pass of the undo loop of `abort` on the example takes a state of the
cycle to the other state of the cycle, without throwing. -/
theorem index_cycle_step (lsns : List Int) (created : Bool) (sm : SmManager) (c : Context)
    (h : Example.IndexCycle created sm c) :
    ∃ item sm1 c1, c.txn_.write_set_.getLast? = some item ∧
      abort_step lsns sm
        { c with txn_ := { c.txn_ with write_set_ := c.txn_.write_set_.dropLast } } item
        = some (sm1, c1) ∧
      Example.IndexCycle (!created) sm1 c1 := by
  obtain ⟨ht, hf, hih, hiso, hmem, hx, lsn, hws⟩ := h
  refine ⟨Example.index_entry created lsn, ?_⟩
  cases created with
  | true =>
    obtain ⟨sm1, c1, hd, ht1, hf1, hiso1, hls1, hx1, lsn1, hws1⟩ :=
      drop_index_in_cycle sm
        { c with txn_ := { c.txn_ with write_set_ := c.txn_.write_set_.dropLast } }
        ht hf (hih rfl) hiso hmem hx
    have hr : rollback_item sm (Example.index_entry true lsn)
        { c with txn_ := { c.txn_ with write_set_ := c.txn_.write_set_.dropLast } }
        = some (sm1, some c1) := hd
    refine ⟨sm1, _, by rw [hws]; rfl, by unfold abort_step; rw [hr], ?_⟩
    refine ⟨ht1, hf1, (fun hh => absurd hh (by decide)), ?_, ?_, hx1, lsn1, ?_⟩
    · show (Transaction.add_idx_log _ _).1.isolation_level_ = _
      rw [add_idx_log_isolation, (add_undo_log_fields _ _ _).2.2, hiso1]
    · show _ ∈ (Transaction.add_idx_log _ _).1.lock_set_
      rw [(add_idx_log_fields _ _).2.2.1, (add_undo_log_fields _ _ _).2.1, hls1]
      exact hmem
    · show (Transaction.add_idx_log _ _).1.write_set_ = _
      rw [(add_idx_log_fields _ _).2.1, (add_undo_log_fields _ _ _).1, hws1]
      simp only [hws]
      rfl
  | false =>
    obtain ⟨sm1, c1, hd, ht1, hf1, hih1, hiso1, hls1, hx1, lsn1, hws1⟩ :=
      create_index_in_cycle sm
        { c with txn_ := { c.txn_ with write_set_ := c.txn_.write_set_.dropLast } }
        ht hf hiso hmem hx
    have hr : rollback_item sm (Example.index_entry false lsn)
        { c with txn_ := { c.txn_ with write_set_ := c.txn_.write_set_.dropLast } }
        = some (sm1, some c1) := hd
    refine ⟨sm1, _, by rw [hws]; rfl, by unfold abort_step; rw [hr], ?_⟩
    refine ⟨ht1, hf1, (fun _ => hih1), ?_, ?_, hx1, lsn1, ?_⟩
    · show (Transaction.add_idx_log _ _).1.isolation_level_ = _
      rw [add_idx_log_isolation, (add_undo_log_fields _ _ _).2.2, hiso1]
    · show _ ∈ (Transaction.add_idx_log _ _).1.lock_set_
      rw [(add_idx_log_fields _ _).2.2.1, (add_undo_log_fields _ _ _).2.1, hls1]
      exact hmem
    · show (Transaction.add_idx_log _ _).1.write_set_ = _
      rw [(add_idx_log_fields _ _).2.1, (add_undo_log_fields _ _ _).1, hws1]
      simp only [hws]
      rfl

/-- From a state of the cycle the undo loop of `abort` neither ends nor throws:
whatever number of iterations it is given, it uses them all. -/
theorem abort_loop_cycle_runs_on (lsns : List Int) :
    ∀ (fuel : Nat) (created : Bool) (sm : SmManager) (c : Context),
      Example.IndexCycle created sm c → abort_loop lsns fuel sm c = .out_of_fuel := by
  intro fuel
  induction fuel with
  | zero =>
    intro created sm c h
    obtain ⟨item, _, _, hl, _, _⟩ := index_cycle_step lsns created sm c h
    unfold abort_loop
    simp only [hl]
  | succ n ih =>
    intro created sm c h
    obtain ⟨item, sm1, c1, hl, hs, hc⟩ := index_cycle_step lsns created sm c h
    unfold abort_loop
    simp only [hl, hs]
    exact ih _ sm1 c1 hc

/-- The example after `begin; CREATE INDEX t(a)` is a state of the cycle once
`abort` has built its context. -/
theorem index_created_in_cycle :
    ∃ db1 txn1, Example.index_created = some (db1, txn1) ∧
      Example.IndexCycle true db1.sm_manager_ (abort_context db1 txn1) := by
  refine ⟨_, _, rfl, ?_, ?_, ?_, ?_, ?_, ?_, ?_⟩
  · rfl
  · rfl
  · exact fun _ => ⟨_, rfl⟩
  · rfl
  · simp only [abort_context, (add_idx_log_fields _ _).2.2.1]
    decide
  · rfl
  · exact ⟨_, rfl⟩

/-- C2 (evaluation at the failing input): `begin; CREATE INDEX t(a); abort` on
the example database. Undoing the `CREATE_INDEX` entry calls `drop_index` with
the context, which appends a `DROP_INDEX` entry to the write set being drained;
undoing that calls `create_index` with the context, which appends a
`CREATE_INDEX` entry again. No iteration throws and the write set never becomes
empty: whatever number of iterations the loop of `abort` is given, it uses them
all, so `abort` does not return. -/
theorem abort_of_create_index_never_returns :
    ∀ fuel, Example.index_created_aborted fuel = .out_of_fuel := by
  intro fuel
  obtain ⟨db1, txn1, hc, hcyc⟩ := index_created_in_cycle
  unfold Example.index_created_aborted
  rw [hc]
  simp only [abort]
  rw [abort_loop_cycle_runs_on _ fuel true _ _ hcyc]

/-- C1 (evaluation at the failing input): in the example table page 1 has slot 0
free and records in slots 1 and 2. A transaction deletes the record at rid (1,2)
and is aborted. `abort` returns, but the page is not as before: the record
has been put back into slot 0 instead of slot 2, so bit 0 of the bitmap is now
set and bit 2 is now clear. -/
theorem abort_after_delete_moves_record :
    Example.page1.body.bitmap 0 = false ∧ Example.page1.body.bitmap 2 = true ∧
    Example.page1.body.slots 2 = [2, 0, 0, 0] ∧
    (Example.page1_of Example.deleted_aborted).map (fun p => p.body.bitmap 0) = some true ∧
    (Example.page1_of Example.deleted_aborted).map (fun p => p.body.bitmap 2) = some false ∧
    (Example.page1_of Example.deleted_aborted).map (fun p => p.body.slots 0)
      = some [2, 0, 0, 0] ∧
    (Example.page1_of Example.deleted_aborted).map (fun p => p.body.slots 2)
      = some [0, 0, 0, 0] ∧
    (Example.page1_of Example.deleted_aborted).map (fun p => p.body.num_records) = some 2 := by
  refine ⟨by decide, by decide, by decide, ?_, ?_, ?_, ?_, ?_⟩ <;> rfl

end TransactionManager

/-! ## Theorems: the per-transaction chain through the log -/

/-- Chains compose. -/
theorem LogChain.followed_by {tid : Int} {a b c : LogManager × Int} (h1 : LogChain tid a b)
    (h2 : LogChain tid b c) : LogChain tid a c := by
  induction h2 with
  | refl => exact h1
  | append lm p rec _ ht hp ih => exact LogChain.append a lm p rec ih ht hp
  | append_keep lm p rec _ ht hp ih => exact LogChain.append_keep a lm p rec ih ht hp
  | flush lm p _ ih => exact LogChain.flush a lm p ih

/-- Appending a record of the transaction that points at the transaction's
`prev_lsn` keeps the chain property; the record's LSN is then a good `prev_lsn`. -/
theorem chain_ok_append (lm : LogManager) (tid p : Int) (rec : LogRecord)
    (ht : rec.log_tid_ = tid) (hp : rec.prev_lsn_ = p)
    (hok : lm.ChainOK) (h0 : 0 ≤ lm.global_lsn_) (hprev : lm.PrevOK tid p) :
    (lm.add_log_to_buffer rec).2.ChainOK ∧ 0 ≤ (lm.add_log_to_buffer rec).2.global_lsn_ ∧
    (lm.add_log_to_buffer rec).2.PrevOK tid (lm.add_log_to_buffer rec).1 ∧
    (lm.add_log_to_buffer rec).2.PrevOK tid p ∧
    (∀ r ∈ lm.records, r ∈ (lm.add_log_to_buffer rec).2.records) ∧
    lm.global_lsn_ ≤ (lm.add_log_to_buffer rec).2.global_lsn_ := by
  have hrec := LogManager.add_log_records lm rec
  have hg := LogManager.add_log_global lm rec
  have hl := LogManager.add_log_lsn lm rec
  have hsub : ∀ r ∈ lm.records, r ∈ (lm.add_log_to_buffer rec).2.records := by
    intro r hr; rw [hrec]; exact List.mem_append_left _ hr
  refine ⟨?_, by omega, ?_, ?_, hsub, by omega⟩
  · intro r hr
    rw [hrec, List.mem_append, List.mem_singleton] at hr
    rcases hr with hr | hr
    · obtain ⟨h1, h2, h3⟩ := hok r hr
      refine ⟨h1, by omega, ?_⟩
      rcases h3 with h3 | ⟨r2, hr2, h4⟩
      · exact Or.inl h3
      · exact Or.inr ⟨r2, hsub r2 hr2, h4⟩
    · subst hr
      refine ⟨h0, by simp only [hg]; omega, ?_⟩
      simp only [hp]
      rcases hprev with hprev | ⟨r2, hr2, h4, h5⟩
      · exact Or.inl hprev
      · exact Or.inr ⟨r2, hsub r2 hr2, h4, by rw [h5, ht], (hok r2 hr2).2.1⟩
  · refine Or.inr ⟨{ rec with lsn_ := lm.global_lsn_ }, ?_, ?_, ht⟩
    · rw [hrec]; simp
    · rw [hl]
  · rcases hprev with hprev | ⟨r2, hr2, h4⟩
    · exact Or.inl hprev
    · exact Or.inr ⟨r2, hsub r2 hr2, h4⟩

/-- Moving along a transaction's chain keeps the chain property of the log, keeps
the transaction's `prev_lsn` good, only adds records and never lowers the LSN
counter. -/
theorem LogChain.good {tid : Int} {a b : LogManager × Int} (h : LogChain tid a b)
    (hok : a.1.ChainOK) (h0 : 0 ≤ a.1.global_lsn_) (hprev : a.1.PrevOK tid a.2) :
    b.1.ChainOK ∧ 0 ≤ b.1.global_lsn_ ∧ b.1.PrevOK tid b.2 ∧
    (∀ r ∈ a.1.records, r ∈ b.1.records) ∧ a.1.global_lsn_ ≤ b.1.global_lsn_ := by
  induction h with
  | refl => exact ⟨hok, h0, hprev, fun r hr => hr, le_refl _⟩
  | append lm p rec _ ht hp ih =>
    obtain ⟨i1, i2, i3, i4, i5⟩ := ih
    obtain ⟨j1, j2, j3, _, j5, j6⟩ := chain_ok_append lm tid p rec ht hp i1 i2 i3
    exact ⟨j1, j2, j3, fun r hr => j5 r (i4 r hr), le_trans i5 j6⟩
  | append_keep lm p rec _ ht hp ih =>
    obtain ⟨i1, i2, i3, i4, i5⟩ := ih
    obtain ⟨j1, j2, _, j4, j5, j6⟩ := chain_ok_append lm tid p rec ht hp i1 i2 i3
    exact ⟨j1, j2, j4, fun r hr => j5 r (i4 r hr), le_trans i5 j6⟩
  | flush lm p _ ih =>
    obtain ⟨i1, i2, i3, i4, i5⟩ := ih
    obtain ⟨_, _, f3, f4⟩ := LogManager.flush_log_file lm
    refine ⟨?_, ?_, ?_, ?_, ?_⟩
    · intro r hr
      simp only [f3] at hr
      obtain ⟨h1, h2, h3⟩ := i1 r hr
      refine ⟨h1, by simp only [f4]; exact h2, ?_⟩
      simpa only [f3] using h3
    · simp only [f4]; exact i2
    · simpa only [LogManager.PrevOK, f3] using i3
    · intro r hr; simp only [f3]; exact i4 r hr
    · simp only [f4]; exact i5

/-- Steps of one context compose. -/
theorem CtxChain.and_then {c c1 c2 : Context} (h1 : CtxChain c c1) (h2 : CtxChain c1 c2) :
    CtxChain c c2 := by
  refine ⟨Eq.trans h2.1 h1.1, ?_⟩
  have := h2.2
  rw [h1.1] at this
  exact h1.2.followed_by this

/-- A context whose id, log and `prev_lsn` are unchanged has made a step. -/
theorem CtxChain.of_eq {c c1 : Context} (h1 : c1.txn_.txn_id_ = c.txn_.txn_id_)
    (h2 : c1.log_mgr_ = c.log_mgr_) (h3 : c1.txn_.prev_lsn_ = c.txn_.prev_lsn_) :
    CtxChain c c1 := by
  refine ⟨h1, ?_⟩
  rw [h2, h3]
  exact LogChain.refl _


/-- `add_idx_log` moves along the chain: the fold over the pending indexes. -/
theorem add_idx_log_fold_chain (tid : Int) (a : LogManager × Int) (l : List String) :
    ∀ (acc : Int × LogManager), LogChain tid a (acc.2, acc.1) →
      LogChain tid a
        ((l.foldl (fun (acc : Int × LogManager) idx_name =>
            acc.2.add_log_to_buffer (IndexPagesLogRecord tid acc.1 idx_name)) acc).2,
         (l.foldl (fun (acc : Int × LogManager) idx_name =>
            acc.2.add_log_to_buffer (IndexPagesLogRecord tid acc.1 idx_name)) acc).1) := by
  induction l with
  | nil => intro acc h; exact h
  | cons n rest ih =>
    intro acc h
    simp only [List.foldl_cons]
    apply ih
    exact LogChain.append a acc.2 acc.1 _ h rfl rfl

/-- `add_idx_log` moves along the chain. -/
theorem add_idx_log_chain (txn : Transaction) (lm : LogManager) :
    LogChain txn.txn_id_ (lm, txn.prev_lsn_)
      ((txn.add_idx_log lm).2, (txn.add_idx_log lm).1.prev_lsn_) := by
  have := add_idx_log_fold_chain txn.txn_id_ (lm, txn.prev_lsn_) txn.idx_pending_
    (txn.prev_lsn_, lm) (LogChain.refl _)
  simpa [Transaction.add_idx_log] using this

/-- `ctx_add_idx_log` is a step of the context. -/
theorem ctx_add_idx_log_chain (c : Context) :
    ∃ c1, SmManager.ctx_add_idx_log (some c) = some c1 ∧ CtxChain c c1 := by
  refine ⟨_, rfl, ?_, ?_⟩
  · simp [Transaction.add_idx_log]
  · exact add_idx_log_chain c.txn_ c.log_mgr_

/-- `touch_index` is a step of the context. -/
theorem touch_index_chain (c : Context) (n : String) : CtxChain c (c.touch_index n) := by
  unfold Context.touch_index
  by_cases h : n ∈ c.txn_.idx_pending_
  · simp only [h, if_true]; exact CtxChain.of_eq rfl rfl rfl
  · simp only [h, if_false]; exact CtxChain.of_eq rfl rfl rfl

/-- Inserting an index entry is a step of the context. -/
theorem insert_entry_chain (ih : IxIndexHandle) (n : String) (k : List Nat) (rid : Rid)
    (c : Context) :
    ∃ c1, (ih.insert_entry n k rid (some c)).2.2 = some c1 ∧ CtxChain c c1 := by
  unfold IxIndexHandle.insert_entry
  by_cases h : (ih.entries.any fun e => e.1 == k) = true
  · simp only [h, if_true]
    exact ⟨c, rfl, CtxChain.of_eq rfl rfl rfl⟩
  · simp only [h, Bool.false_eq_true, if_false, Option.map_some']
    exact ⟨_, rfl, touch_index_chain c n⟩

/-- Deleting an index entry is a step of the context. -/
theorem delete_entry_chain (ih : IxIndexHandle) (n : String) (k : List Nat) (c : Context) :
    ∃ c1, (ih.delete_entry n k (some c)).2.2 = some c1 ∧ CtxChain c c1 := by
  unfold IxIndexHandle.delete_entry
  by_cases h : (ih.entries.any fun e => e.1 == k) = true
  · simp only [h, if_true, Option.map_some']
    exact ⟨_, rfl, touch_index_chain c n⟩
  · simp only [h, Bool.false_eq_true, if_false]
    exact ⟨c, rfl, CtxChain.of_eq rfl rfl rfl⟩

/-- The heap operations with a context are steps of the context. -/
theorem heap_ops_chain (fh : RmFileHandle) (rid : Rid) (buf : List Nat) (c : Context) :
    (∀ fh1 ctx1, fh.delete_record rid (some c) = some (fh1, ctx1) →
      ∃ c1, ctx1 = some c1 ∧ CtxChain c c1) ∧
    (∀ fh1 ctx1, fh.update_record rid buf (some c) = some (fh1, ctx1) →
      ∃ c1, ctx1 = some c1 ∧ CtxChain c c1) ∧
    (∀ rid1 fh1 ctx1, fh.insert_record buf (some c) = some (rid1, fh1, ctx1) →
      ∃ c1, ctx1 = some c1 ∧ CtxChain c c1) := by
  have hlog : ∀ (file_name : String) (page_no : Int) (old_page : PageImage RmPage)
      (new_body : RmPage) (old_hdr new_hdr : RmFileHdr),
      LogChain c.txn_.txn_id_ (c.log_mgr_, c.txn_.prev_lsn_)
        ((RmFileHandle.log_page_and_hdr c file_name page_no old_page new_body old_hdr
            new_hdr).2.2,
         (RmFileHandle.log_page_and_hdr c file_name page_no old_page new_body old_hdr
            new_hdr).2.1) := by
    intro file_name page_no old_page new_body old_hdr new_hdr
    have key : ∀ (lm : LogManager) (p : Int) (rec1 : LogRecord) (mk2 : Int → LogRecord),
        rec1.log_tid_ = c.txn_.txn_id_ → rec1.prev_lsn_ = p →
        (∀ q, (mk2 q).log_tid_ = c.txn_.txn_id_ ∧ (mk2 q).prev_lsn_ = q) →
        LogChain c.txn_.txn_id_ (lm, p)
          (((lm.add_log_to_buffer rec1).2.add_log_to_buffer
              (mk2 (lm.add_log_to_buffer rec1).1)).2,
           ((lm.add_log_to_buffer rec1).2.add_log_to_buffer
              (mk2 (lm.add_log_to_buffer rec1).1)).1) := by
      intro lm p rec1 mk2 h1 h2 h3
      have s1 : LogChain c.txn_.txn_id_ (lm, p)
          ((lm.add_log_to_buffer rec1).2, (lm.add_log_to_buffer rec1).1) :=
        LogChain.append (lm, p) lm p rec1 (LogChain.refl _) h1 h2
      exact LogChain.append (lm, p) (lm.add_log_to_buffer rec1).2 (lm.add_log_to_buffer rec1).1
        (mk2 (lm.add_log_to_buffer rec1).1) s1 (h3 _).1 (h3 _).2
    exact key c.log_mgr_ c.txn_.prev_lsn_ _
      (fun q => PageLogRecord c.log_mgr_.PAGE_SIZE c.txn_.txn_id_ q file_name RM_FILE_HDR_PAGE
        (.hdr old_hdr) (.hdr new_hdr)) rfl rfl (fun _ => ⟨rfl, rfl⟩)
  refine ⟨?_, ?_, ?_⟩
  · intro fh1 ctx1 h
    simp only [RmFileHandle.delete_record, LockManager.lock_exclusive_on_record, Bool.not_true,
      Bool.false_eq_true, if_false, Option.some.injEq, Prod.mk.injEq] at h
    exact ⟨_, h.2.symm, rfl, hlog _ _ _ _ _ _⟩
  · intro fh1 ctx1 h
    simp only [RmFileHandle.update_record, LockManager.lock_exclusive_on_record, Bool.not_true,
      Bool.false_eq_true, if_false, Option.some.injEq, Prod.mk.injEq] at h
    exact ⟨_, h.2.symm, rfl, LogChain.append _ _ _ _ (LogChain.refl _) rfl rfl⟩
  · intro rid1 fh1 ctx1 h
    simp only [RmFileHandle.insert_record, LockManager.lock_exclusive_on_record, Bool.not_true,
      Bool.false_eq_true, if_false, Option.some.injEq, Prod.mk.injEq] at h
    exact ⟨_, h.2.2.symm, rfl, hlog _ _ _ _ _ _⟩

/-- The index loop of `rollback_insert` is a step of the context. -/
theorem delete_entries_chain (t : String) (data : List Nat) (ixs : List IndexMeta) :
    ∀ (sm sm1 : SmManager) (c : Context) (ctx1 : Option Context),
      SmManager.delete_entries t data ixs sm (some c) = some (sm1, ctx1) →
      ∃ c1, ctx1 = some c1 ∧ CtxChain c c1 := by
  induction ixs with
  | nil =>
    intro sm sm1 c ctx1 h
    simp only [SmManager.delete_entries, Option.some.injEq, Prod.mk.injEq] at h
    exact ⟨c, h.2.symm, CtxChain.of_eq rfl rfl rfl⟩
  | cons ix rest ihr =>
    intro sm sm1 c ctx1 h
    simp only [SmManager.delete_entries] at h
    cases hh : sm.ihs_ (get_index_name t ix.cols) with
    | none => rw [hh] at h; cases h
    | some ih =>
      rw [hh] at h
      simp only at h
      obtain ⟨c2, hc2, hw2⟩ := delete_entry_chain ih (get_index_name t ix.cols)
        (make_key ix data) c
      rw [hc2] at h
      obtain ⟨c3, hc3, hw3⟩ := ihr _ sm1 c2 ctx1 h
      exact ⟨c3, hc3, hw2.and_then hw3⟩

/-- The index loop of `rollback_delete` is a step of the context. -/
theorem insert_entries_chain (t : String) (data : List Nat) (rid : Rid)
    (ixs : List IndexMeta) :
    ∀ (sm sm1 : SmManager) (c : Context) (ctx1 : Option Context),
      SmManager.insert_entries t data rid ixs sm (some c) = some (sm1, ctx1) →
      ∃ c1, ctx1 = some c1 ∧ CtxChain c c1 := by
  induction ixs with
  | nil =>
    intro sm sm1 c ctx1 h
    simp only [SmManager.insert_entries, Option.some.injEq, Prod.mk.injEq] at h
    exact ⟨c, h.2.symm, CtxChain.of_eq rfl rfl rfl⟩
  | cons ix rest ihr =>
    intro sm sm1 c ctx1 h
    simp only [SmManager.insert_entries] at h
    cases hh : sm.ihs_ (get_index_name t ix.cols) with
    | none => rw [hh] at h; cases h
    | some ih =>
      rw [hh] at h
      simp only at h
      obtain ⟨c2, hc2, hw2⟩ := insert_entry_chain ih (get_index_name t ix.cols)
        (make_key ix data) rid c
      rw [hc2] at h
      obtain ⟨c3, hc3, hw3⟩ := ihr _ sm1 c2 ctx1 h
      exact ⟨c3, hc3, hw2.and_then hw3⟩

/-- The index loop of `rollback_update` is a step of the context. -/
theorem swap_entries_chain (t : String) (cur old_image : List Nat) (rid : Rid)
    (ixs : List IndexMeta) :
    ∀ (sm sm1 : SmManager) (c : Context) (ctx1 : Option Context),
      SmManager.swap_entries t cur old_image rid ixs sm (some c) = some (sm1, ctx1) →
      ∃ c1, ctx1 = some c1 ∧ CtxChain c c1 := by
  induction ixs with
  | nil =>
    intro sm sm1 c ctx1 h
    simp only [SmManager.swap_entries, Option.some.injEq, Prod.mk.injEq] at h
    exact ⟨c, h.2.symm, CtxChain.of_eq rfl rfl rfl⟩
  | cons ix rest ihr =>
    intro sm sm1 c ctx1 h
    simp only [SmManager.swap_entries] at h
    by_cases hs : strcmp_eq (make_key ix cur) (make_key ix old_image) = true
    · simp only [hs, if_true] at h
      exact ihr _ sm1 c ctx1 h
    · simp only [hs, Bool.false_eq_true, if_false] at h
      cases hh : sm.ihs_ (get_index_name t ix.cols) with
      | none => rw [hh] at h; cases h
      | some ih =>
        rw [hh] at h
        simp only at h
        obtain ⟨c2, hc2, hw2⟩ := delete_entry_chain ih (get_index_name t ix.cols)
          (make_key ix cur) c
        rw [hc2] at h
        obtain ⟨c3, hc3, hw3⟩ := insert_entry_chain
          (ih.delete_entry (get_index_name t ix.cols) (make_key ix cur) (some c)).2.1
          (get_index_name t ix.cols) (make_key ix old_image) rid c2
        rw [hc3] at h
        obtain ⟨c4, hc4, hw4⟩ := ihr _ sm1 c3 ctx1 h
        exact ⟨c4, hc4, (hw2.and_then hw3).and_then hw4⟩

/-- Filling a new index from the table is a step of the context. -/
theorem populate_index_chain (fh : RmFileHandle) (index : IndexMeta) (n : String)
    (rids : List Rid) :
    ∀ (ih : IxIndexHandle) (c : Context) (ih1 : IxIndexHandle) (ctx1 : Option Context),
      SmManager.populate_index fh index n rids ih (some c) = some (ih1, ctx1) →
      ∃ c1, ctx1 = some c1 ∧ CtxChain c c1 := by
  induction rids with
  | nil =>
    intro ih c ih1 ctx1 h
    simp only [SmManager.populate_index, Option.some.injEq, Prod.mk.injEq] at h
    exact ⟨c, h.2.symm, CtxChain.of_eq rfl rfl rfl⟩
  | cons rid rest ihr =>
    intro ih c ih1 ctx1 h
    simp only [SmManager.populate_index] at h
    cases hg : fh.get_record rid (some c) with
    | none => rw [hg] at h; cases h
    | some rec =>
      rw [hg] at h
      simp only at h
      obtain ⟨c2, hc2, hw2⟩ := insert_entry_chain ih n (make_key index rec) rid c
      rw [hc2] at h
      obtain ⟨c3, hc3, hw3⟩ := ihr _ c2 ih1 ctx1 h
      exact ⟨c3, hc3, hw2.and_then hw3⟩

/-- Taking the table lock is a step of the context. -/
theorem ctx_lock_chain (c : Context) (fd : Int) (ctx1 : Option Context)
    (h : SmManager.ctx_lock_exclusive_on_table (some c) fd = some ctx1) :
    ∃ c1, ctx1 = some c1 ∧ CtxChain c c1 := by
  simp only [SmManager.ctx_lock_exclusive_on_table] at h
  have hws : (c.lock_mgr_.lock_exclusive_on_table c.txn_ fd).2.1.txn_id_ = c.txn_.txn_id_ ∧
      (c.lock_mgr_.lock_exclusive_on_table c.txn_ fd).2.1.prev_lsn_ = c.txn_.prev_lsn_ := by
    unfold LockManager.lock_exclusive_on_table
    by_cases h1 : c.txn_.isolation_level_ = .READ_UNCOMMITTED
    · simp [h1]
    · simp only [h1, if_false]
      by_cases h2 : LockDataId.table fd ∈ c.txn_.lock_set_
      · simp only [h2, if_true]
        split_ifs <;> exact ⟨rfl, rfl⟩
      · simp only [h2, if_false]
        cases h3 : c.lock_mgr_.lock_table_ (LockDataId.table fd) with
        | some st => exact ⟨rfl, rfl⟩
        | none =>
          simp only [Transaction.lock_set_insert, h2, if_false]
          exact ⟨trivial, trivial⟩
  generalize hr : c.lock_mgr_.lock_exclusive_on_table c.txn_ fd = r at h hws
  obtain ⟨o, t1, l1⟩ := r
  cases o with
  | none => simp at h
  | some bb =>
    cases bb with
    | false => simp at h
    | true =>
      simp only [Option.some.injEq] at h
      exact ⟨_, h.symm, CtxChain.of_eq hws.1 rfl hws.2⟩

/-- When a tuple rollback primitive returns, the context has made a step. -/
theorem rollback_tuple_chain (sm sm1 : SmManager) (t : String) (rid : Rid)
    (record : List Nat) (c : Context) (ctx1 : Option Context) :
    (sm.rollback_insert t rid (some c) = some (sm1, ctx1) →
      ∃ c1, ctx1 = some c1 ∧ CtxChain c c1) ∧
    (sm.rollback_update t rid record (some c) = some (sm1, ctx1) →
      ∃ c1, ctx1 = some c1 ∧ CtxChain c c1) ∧
    (sm.rollback_delete t rid record (some c) = some (sm1, ctx1) →
      ∃ c1, ctx1 = some c1 ∧ CtxChain c c1) := by
  refine ⟨?_, ?_, ?_⟩
  · intro h
    unfold SmManager.rollback_insert at h
    cases ht : sm.tabs_ t with
    | none => simp [ht] at h
    | some tab =>
      cases hf : sm.fhs_ t with
      | none => simp [ht, hf] at h
      | some fh =>
        simp only [ht, hf] at h
        cases hg : fh.get_record rid (some c) with
        | none => simp [hg] at h
        | some rec =>
          simp only [hg] at h
          cases hd : SmManager.delete_entries t rec tab.indexes sm (some c) with
          | none => simp [hd] at h
          | some p =>
            obtain ⟨sm2, ctx2⟩ := p
            obtain ⟨c2, rfl, hw2⟩ := delete_entries_chain _ _ _ _ _ _ _ hd
            simp only [hd] at h
            obtain ⟨c3, hc3, hw3⟩ := ctx_add_idx_log_chain c2
            rw [hc3] at h
            cases hf2 : sm2.fhs_ t with
            | none => simp [hf2] at h
            | some fh2 =>
              simp only [hf2] at h
              cases hdr : fh2.delete_record rid (some c3) with
              | none => simp [hdr] at h
              | some q =>
                obtain ⟨fh3, ctx3⟩ := q
                obtain ⟨c4, rfl, hw4⟩ := (heap_ops_chain fh2 rid [] c3).1 _ _ hdr
                simp only [hdr, Option.some.injEq, Prod.mk.injEq] at h
                exact ⟨c4, h.2.symm, (hw2.and_then hw3).and_then hw4⟩
  · intro h
    unfold SmManager.rollback_update at h
    cases ht : sm.tabs_ t with
    | none => simp [ht] at h
    | some tab =>
      cases hf : sm.fhs_ t with
      | none => simp [ht, hf] at h
      | some fh =>
        simp only [ht, hf] at h
        cases hg : fh.get_record rid (some c) with
        | none => simp [hg] at h
        | some rec =>
          simp only [hg] at h
          cases hd : SmManager.swap_entries t rec record rid tab.indexes sm (some c) with
          | none => simp [hd] at h
          | some p =>
            obtain ⟨sm2, ctx2⟩ := p
            obtain ⟨c2, rfl, hw2⟩ := swap_entries_chain _ _ _ _ _ _ _ _ _ hd
            simp only [hd] at h
            obtain ⟨c3, hc3, hw3⟩ := ctx_add_idx_log_chain c2
            rw [hc3] at h
            cases hf2 : sm2.fhs_ t with
            | none => simp [hf2] at h
            | some fh2 =>
              simp only [hf2] at h
              cases hdr : fh2.update_record rid record (some c3) with
              | none => simp [hdr] at h
              | some q =>
                obtain ⟨fh3, ctx3⟩ := q
                obtain ⟨c4, rfl, hw4⟩ := (heap_ops_chain fh2 rid record c3).2.1 _ _ hdr
                simp only [hdr, Option.some.injEq, Prod.mk.injEq] at h
                exact ⟨c4, h.2.symm, (hw2.and_then hw3).and_then hw4⟩
  · intro h
    unfold SmManager.rollback_delete at h
    cases ht : sm.tabs_ t with
    | none => simp [ht] at h
    | some tab =>
      cases hf : sm.fhs_ t with
      | none => simp [ht, hf] at h
      | some fh =>
        simp only [ht, hf] at h
        cases hi : fh.insert_record record (some c) with
        | none => simp [hi] at h
        | some q =>
          obtain ⟨rid1, fh1, ctx2⟩ := q
          obtain ⟨c2, rfl, hw2⟩ := (heap_ops_chain fh rid record c).2.2 _ _ _ hi
          simp only [hi] at h
          cases hd : SmManager.insert_entries t record rid1 tab.indexes (sm.set_fh t fh1)
              (some c2) with
          | none => simp [hd] at h
          | some p =>
            obtain ⟨sm2, ctx3⟩ := p
            obtain ⟨c3, rfl, hw3⟩ := insert_entries_chain _ _ _ _ _ _ _ _ hd
            simp only [hd, Option.some.injEq, Prod.mk.injEq] at h
            obtain ⟨c4, hc4, hw4⟩ := ctx_add_idx_log_chain c3
            rw [hc4] at h
            exact ⟨c4, h.2.symm, (hw2.and_then hw3).and_then hw4⟩

/-- Appending one record of the context's transaction and taking its LSN as the
new `prev_lsn` is a step, whatever else changes in the transaction. -/
theorem CtxChain.append_record (c c1 : Context) (rec : LogRecord)
    (ht : rec.log_tid_ = c.txn_.txn_id_) (hp : rec.prev_lsn_ = c.txn_.prev_lsn_)
    (h1 : c1.txn_.txn_id_ = c.txn_.txn_id_)
    (h2 : c1.log_mgr_ = (c.log_mgr_.add_log_to_buffer rec).2)
    (h3 : c1.txn_.prev_lsn_ = (c.log_mgr_.add_log_to_buffer rec).1) : CtxChain c c1 := by
  refine ⟨h1, ?_⟩
  rw [h2, h3]
  exact LogChain.append _ _ _ rec (LogChain.refl _) ht hp

/-- When `create_index` with a context returns, the context has made a step. -/
theorem create_index_chain (sm sm1 : SmManager) (t : String) (cols : List String)
    (c : Context) (ctx1 : Option Context)
    (h : sm.create_index t cols (some c) = some (sm1, ctx1)) :
    ∃ c1, ctx1 = some c1 ∧ CtxChain c c1 := by
  unfold SmManager.create_index at h
  cases ht : sm.tabs_ t with
  | none => simp [ht] at h
  | some tab =>
    cases hf : sm.fhs_ t with
    | none => simp [ht, hf] at h
    | some fh =>
      simp only [ht, hf] at h
      cases hl : SmManager.ctx_lock_exclusive_on_table (some c) fh.fd_ with
      | none => simp [hl] at h
      | some context1 =>
        simp only [hl] at h
        obtain ⟨c1, rfl, hw1⟩ := ctx_lock_chain c fh.fd_ context1 hl
        by_cases hi : tab.is_index cols = true
        · simp [hi] at h
        · simp only [hi, Bool.false_eq_true, if_false] at h
          cases hc : SmManager.get_cols tab cols with
          | none => simp [hc] at h
          | some colsm =>
            simp only [hc] at h
            split at h
            · cases h
            · rename_i ih context2 hp
              obtain ⟨c2, rfl, hw2⟩ := populate_index_chain _ _ _ _ _ c1 ih context2 hp
              simp only [Option.some.injEq, Prod.mk.injEq] at h
              obtain ⟨_, rfl⟩ := h
              refine ⟨_, rfl, (hw1.and_then hw2).and_then ?_⟩
              exact CtxChain.append_record c2 _
                (CreateIndexLogRecord c2.txn_.txn_id_ c2.txn_.prev_lsn_ t cols) rfl rfl rfl rfl rfl

/-- When `drop_index` with a context returns, the context has made a step. -/
theorem drop_index_chain (sm sm1 : SmManager) (t : String) (cols : List String)
    (c : Context) (ctx1 : Option Context)
    (h : sm.drop_index t cols (some c) = some (sm1, ctx1)) :
    ∃ c1, ctx1 = some c1 ∧ CtxChain c c1 := by
  unfold SmManager.drop_index at h
  cases ht : sm.tabs_ t with
  | none => simp [ht] at h
  | some tab =>
    cases hf : sm.fhs_ t with
    | none => simp [ht, hf] at h
    | some fh =>
      simp only [ht, hf] at h
      cases hc : SmManager.get_cols tab cols with
      | none => simp [hc] at h
      | some colsm =>
        simp only [hc] at h
        cases hl : SmManager.ctx_lock_exclusive_on_table (some c) fh.fd_ with
        | none => simp [hl] at h
        | some context1 =>
          simp only [hl] at h
          obtain ⟨c1, rfl, hw1⟩ := ctx_lock_chain c fh.fd_ context1 hl
          by_cases hi : tab.is_index (colsm.map fun (c : ColMeta) => c.name) = true
          · simp only [hi, Bool.not_true, Bool.false_eq_true, if_false] at h
            cases hh : sm.ihs_ (get_index_name t colsm) with
            | none => simp [hh] at h
            | some ih0 =>
              simp only [hh, Option.some.injEq, Prod.mk.injEq] at h
              obtain ⟨_, rfl⟩ := h
              refine ⟨_, rfl, hw1.and_then ?_⟩
              exact CtxChain.append_record c1 _
                (DropIndexLogRecord c1.txn_.txn_id_ c1.txn_.prev_lsn_ t
                  (colsm.map fun (c : ColMeta) => c.name)) rfl rfl rfl rfl rfl
          · simp [hi] at h

namespace TransactionManager

/-- Releasing locks changes neither the id nor the `prev_lsn` of the transaction. -/
theorem unlock_all_txn (l : List LockDataId) :
    ∀ (txn : Transaction) (lm : LockManager),
      (unlock_all l txn lm).1.txn_id_ = txn.txn_id_ ∧
      (unlock_all l txn lm).1.prev_lsn_ = txn.prev_lsn_ := by
  induction l with
  | nil => intro txn lm; exact ⟨rfl, rfl⟩
  | cons a rest ih =>
    intro txn lm
    simp only [unlock_all]
    obtain ⟨i1, i2⟩ := ih (lm.unlock txn a).2.1 (lm.unlock txn a).2.2
    rw [i1, i2, (unlock_effect lm txn a).1]
    exact ⟨rfl, rfl⟩

/-- When the rollback primitive of a write-set entry returns, the context has
made a step. -/
theorem rollback_item_chain (sm sm1 : SmManager) (item : WriteRecord) (c : Context)
    (ctx1 : Option Context) (h : rollback_item sm item c = some (sm1, ctx1)) :
    ∃ c1, ctx1 = some c1 ∧ CtxChain c c1 := by
  unfold rollback_item at h
  cases hw : item.wtype_ with
  | INSERT_TUPLE =>
    rw [hw] at h
    exact (rollback_tuple_chain sm sm1 _ _ [] c ctx1).1 h
  | UPDATE_TUPLE =>
    rw [hw] at h
    exact (rollback_tuple_chain sm sm1 _ _ _ c ctx1).2.1 h
  | DELETE_TUPLE =>
    rw [hw] at h
    exact (rollback_tuple_chain sm sm1 _ _ _ c ctx1).2.2 h
  | CREATE_INDEX =>
    rw [hw] at h
    exact drop_index_chain _ _ _ _ _ _ h
  | DROP_INDEX =>
    rw [hw] at h
    exact create_index_chain _ _ _ _ _ _ h

/-- When the body of the loop of `abort` returns, the context has made a step. -/
theorem abort_step_chain (lsns : List Int) (sm sm1 : SmManager) (c c1 : Context)
    (item : WriteRecord) (h : abort_step lsns sm c item = some (sm1, c1)) :
    CtxChain c c1 := by
  unfold abort_step at h
  cases hr : rollback_item sm item c with
  | none => simp [hr] at h
  | some p =>
    obtain ⟨sm2, ctx2⟩ := p
    obtain ⟨c2, rfl, hc2⟩ := rollback_item_chain _ _ _ _ _ hr
    rw [hr] at h
    simp only [Option.some.injEq, Prod.mk.injEq] at h
    obtain ⟨_, rfl⟩ := h
    refine hc2.and_then ⟨?_, ?_⟩
    · simp [Transaction.add_idx_log, add_undo_log]
    · simp only
      have s1 : LogChain c2.txn_.txn_id_ (c2.log_mgr_, c2.txn_.prev_lsn_)
          ((add_undo_log c2.txn_ c2.log_mgr_
              (if lower_bound lsns item.lsn_ = 0 then -1
               else lsns.getD (lower_bound lsns item.lsn_ - 1) 0)).2,
           (add_undo_log c2.txn_ c2.log_mgr_
              (if lower_bound lsns item.lsn_ = 0 then -1
               else lsns.getD (lower_bound lsns item.lsn_ - 1) 0)).1.prev_lsn_) := by
        simp only [add_undo_log]
        exact LogChain.append _ _ _ _ (LogChain.refl _) rfl rfl
      have s2 := add_idx_log_chain
        (add_undo_log c2.txn_ c2.log_mgr_
          (if lower_bound lsns item.lsn_ = 0 then -1
           else lsns.getD (lower_bound lsns item.lsn_ - 1) 0)).1
        (add_undo_log c2.txn_ c2.log_mgr_
          (if lower_bound lsns item.lsn_ = 0 then -1
           else lsns.getD (lower_bound lsns item.lsn_ - 1) 0)).2
      have hid : (add_undo_log c2.txn_ c2.log_mgr_
          (if lower_bound lsns item.lsn_ = 0 then -1
           else lsns.getD (lower_bound lsns item.lsn_ - 1) 0)).1.txn_id_ = c2.txn_.txn_id_ := by
        simp [add_undo_log]
      rw [hid] at s2
      exact s1.followed_by s2

/-- When the loop of `abort` comes to its end, the context has made a step. -/
theorem abort_loop_chain (lsns : List Int) :
    ∀ (fuel : Nat) (sm sm1 : SmManager) (c c1 : Context),
      abort_loop lsns fuel sm c = .done (sm1, c1) → CtxChain c c1 := by
  intro fuel
  induction fuel with
  | zero =>
    intro sm sm1 c c1 h
    unfold abort_loop at h
    cases hl : c.txn_.write_set_.getLast? with
    | none =>
      simp only [hl, Outcome.done.injEq, Prod.mk.injEq] at h
      rw [← h.2]; exact CtxChain.of_eq rfl rfl rfl
    | some item => simp [hl] at h
  | succ n ih =>
    intro sm sm1 c c1 h
    unfold abort_loop at h
    cases hl : c.txn_.write_set_.getLast? with
    | none =>
      simp only [hl, Outcome.done.injEq, Prod.mk.injEq] at h
      rw [← h.2]; exact CtxChain.of_eq rfl rfl rfl
    | some item =>
      simp only [hl] at h
      split at h
      · cases h
      · rename_i sm2 c2 hs
        have h1 := abort_step_chain _ _ _ _ _ _ hs
        have h2 := ih _ _ _ _ h
        have h0 : CtxChain c { c with txn_ := { c.txn_ with
            write_set_ := c.txn_.write_set_.dropLast } } := CtxChain.of_eq rfl rfl rfl
        exact (h0.and_then h1).and_then h2

/-- When `abort` returns, the log and the transaction's `prev_lsn` have moved
along the transaction's chain, and the transaction has kept its id. -/
theorem abort_chain (fuel : Nat) (db : Database) (txn : Transaction)
    (r : Database × Transaction) (h : abort fuel db txn = .done r) :
    r.2.txn_id_ = txn.txn_id_ ∧
    LogChain txn.txn_id_ (db.log_manager_, txn.prev_lsn_) (r.1.log_manager_, r.2.prev_lsn_) := by
  unfold abort at h
  dsimp only at h
  split at h
  · cases h
  · cases h
  · rename_i sm1 c1 hl
    simp only [Outcome.done.injEq] at h
    subst h
    obtain ⟨hid, hch⟩ := abort_loop_chain _ _ _ _ _ _ hl
    have hid0 : (abort_context db txn).txn_.txn_id_ = txn.txn_id_ := by
      simp [abort_context, Transaction.add_idx_log]
    rw [hid0] at hid hch
    have s0 : LogChain txn.txn_id_ (db.log_manager_, txn.prev_lsn_)
        ((abort_context db txn).log_mgr_, (abort_context db txn).txn_.prev_lsn_) := by
      simp only [abort_context]
      refine LogChain.flush _ _ _ ?_
      have a1 := add_idx_log_chain txn db.log_manager_
      have a2 := LogChain.append (db.log_manager_, txn.prev_lsn_) _ _
        (AbortLogRecord (txn.add_idx_log db.log_manager_).1.txn_id_
          (txn.add_idx_log db.log_manager_).1.prev_lsn_) a1
        (by simp [AbortLogRecord, Transaction.add_idx_log]) rfl
      exact a2
    have s1 := s0.followed_by hch
    refine ⟨?_, ?_⟩
    · simp only [abort_finish]
      rw [(unlock_all_txn _ _ _).1]; exact hid
    · simp only [abort_finish]
      rw [(unlock_all_txn _ _ _).2]
      refine LogChain.flush _ _ _ ?_
      exact LogChain.append_keep _ _ _ (EndLogRecord c1.txn_.txn_id_ c1.txn_.prev_lsn_) s1
        (by simp [EndLogRecord, hid]) rfl

/-- `commit` moves the log and the transaction's `prev_lsn` along the
transaction's chain, and the transaction keeps its id. -/
theorem commit_chain (db : Database) (txn : Transaction) :
    (commit db txn).2.txn_id_ = txn.txn_id_ ∧
    LogChain txn.txn_id_ (db.log_manager_, txn.prev_lsn_)
      ((commit db txn).1.log_manager_, (commit db txn).2.prev_lsn_) := by
  refine ⟨?_, ?_⟩
  · simp only [commit]
    rw [(unlock_all_txn _ _ _).1]
    simp [Transaction.add_idx_log]
  · simp only [commit]
    rw [(unlock_all_txn _ _ _).2]
    refine LogChain.flush _ _ _ ?_
    have a1 := add_idx_log_chain txn db.log_manager_
    have a2 := LogChain.append (db.log_manager_, txn.prev_lsn_) _ _
      (CommitLogRecord (txn.add_idx_log db.log_manager_).1.txn_id_
        (txn.add_idx_log db.log_manager_).1.prev_lsn_) a1
      (by simp [CommitLogRecord, Transaction.add_idx_log]) rfl
    exact LogChain.append_keep _ _ _ (EndLogRecord _ _) a2
      (by simp [EndLogRecord, Transaction.add_idx_log]) rfl

end TransactionManager

/-- One operation of a transaction of the set keeps the chain property of the
log and the goodness of every transaction's `prev_lsn`. -/
theorem chain_inv_step (lm lm1 : LogManager) (ts : List Transaction) (t t1 : Transaction)
    (hok : lm.ChainOK) (h0 : 0 ≤ lm.global_lsn_)
    (hts : ∀ u ∈ ts, lm.PrevOK u.txn_id_ u.prev_lsn_) (ht : t ∈ ts)
    (hid : t1.txn_id_ = t.txn_id_)
    (hch : LogChain t.txn_id_ (lm, t.prev_lsn_) (lm1, t1.prev_lsn_)) :
    lm1.ChainOK ∧ 0 ≤ lm1.global_lsn_ ∧ ∀ u ∈ t1 :: ts, lm1.PrevOK u.txn_id_ u.prev_lsn_ := by
  obtain ⟨g1, g2, g3, g4, _⟩ := hch.good hok h0 (hts t ht)
  refine ⟨g1, g2, ?_⟩
  intro u hu
  rcases List.mem_cons.mp hu with rfl | hu
  · rw [hid]; exact g3
  · rcases hts u hu with h | ⟨r, hr, h⟩
    · exact Or.inl h
    · exact Or.inr ⟨r, g4 r hr, h⟩

/-- In every reachable log the chain property holds and every transaction's
`prev_lsn` is good. -/
theorem LogReachable.inv {lm : LogManager} {ts : List Transaction} (h : LogReachable lm ts) :
    lm.ChainOK ∧ 0 ≤ lm.global_lsn_ ∧ ∀ u ∈ ts, lm.PrevOK u.txn_id_ u.prev_lsn_ := by
  induction h with
  | init lm h1 h2 h3 =>
    refine ⟨?_, h3, ?_⟩
    · intro r hr; simp [LogManager.records, h1, h2] at hr
    · intro u hu; cases hu
  | bookkeeping lm ts t t1 _ ht hid hp ih =>
    obtain ⟨i1, i2, i3⟩ := ih
    refine ⟨i1, i2, ?_⟩
    intro u hu
    rcases List.mem_cons.mp hu with rfl | hu
    · rw [hid, hp]; exact i3 t ht
    · exact i3 u hu
  | begin_new lm ts next_txn_id _ ih =>
    obtain ⟨i1, i2, i3⟩ := ih
    obtain ⟨j1, j2, j3, _, j5, _⟩ := chain_ok_append lm next_txn_id INVALID_LSN
      (BeginLogRecord next_txn_id INVALID_LSN) rfl rfl i1 i2 (Or.inl rfl)
    refine ⟨j1, j2, ?_⟩
    intro u hu
    rcases List.mem_cons.mp hu with rfl | hu
    · exact j3
    · rcases i3 u hu with h | ⟨r, hr, h⟩
      · exact Or.inl h
      · exact Or.inr ⟨r, j5 r hr, h⟩
  | begin_existing lm ts next_txn_id t _ ht ih =>
    obtain ⟨i1, i2, i3⟩ := ih
    exact chain_inv_step lm _ ts t _ i1 i2 i3 ht rfl
      (LogChain.append _ _ _ (BeginLogRecord t.txn_id_ t.prev_lsn_) (LogChain.refl _) rfl rfl)
  | commit lm ts sm lk t _ ht ih =>
    obtain ⟨i1, i2, i3⟩ := ih
    obtain ⟨c1, c2⟩ := TransactionManager.commit_chain ⟨sm, lk, lm⟩ t
    exact chain_inv_step lm _ ts t _ i1 i2 i3 ht c1 c2
  | abort lm ts sm lk t fuel r _ ht hr ih =>
    obtain ⟨i1, i2, i3⟩ := ih
    obtain ⟨c1, c2⟩ := TransactionManager.abort_chain fuel ⟨sm, lk, lm⟩ t r hr
    exact chain_inv_step lm _ ts t _ i1 i2 i3 ht c1 c2
  | insert_record lm ts fh fh1 lk t buf rid c1 _ ht hr ih =>
    obtain ⟨i1, i2, i3⟩ := ih
    obtain ⟨c2, hc2, hch⟩ := (heap_ops_chain fh rid buf ⟨lk, lm, t⟩).2.2 _ _ _ hr
    cases hc2
    exact chain_inv_step lm _ ts t _ i1 i2 i3 ht hch.1 hch.2
  | delete_record lm ts fh fh1 lk t rid c1 _ ht hr ih =>
    obtain ⟨i1, i2, i3⟩ := ih
    obtain ⟨c2, hc2, hch⟩ := (heap_ops_chain fh rid [] ⟨lk, lm, t⟩).1 _ _ hr
    cases hc2
    exact chain_inv_step lm _ ts t _ i1 i2 i3 ht hch.1 hch.2
  | update_record lm ts fh fh1 lk t rid buf c1 _ ht hr ih =>
    obtain ⟨i1, i2, i3⟩ := ih
    obtain ⟨c2, hc2, hch⟩ := (heap_ops_chain fh rid buf ⟨lk, lm, t⟩).2.1 _ _ hr
    cases hc2
    exact chain_inv_step lm _ ts t _ i1 i2 i3 ht hch.1 hch.2

/-- In a log with the chain property, following `prev_lsn` from the LSN of a
record (or from `INVALID_LSN`) reaches `INVALID_LSN` within as many steps as the
LSN is large. -/
theorem chain_walk_ends (lm : LogManager) (hok : lm.ChainOK) :
    ∀ (n : Nat) (lsn : Int), (lsn = INVALID_LSN ∨ ∃ r ∈ lm.records, r.lsn_ = lsn) →
      lsn < (n : Int) → chain_reaches_invalid lm.records n lsn = true := by
  intro n
  induction n with
  | zero =>
    intro lsn h hlt
    unfold chain_reaches_invalid
    rcases h with h | ⟨r, hr, h⟩
    · simp [h]
    · have := (hok r hr).1
      rw [h] at this
      exact absurd hlt (by simpa using this)
  | succ m ih =>
    intro lsn h hlt
    unfold chain_reaches_invalid
    by_cases hi : lsn = INVALID_LSN
    · simp [hi]
    · simp only [hi, if_false]
      rcases h with h | ⟨r, hr, h⟩
      · exact absurd h hi
      · cases hf : lm.records.find? (fun x => x.lsn_ == lsn) with
        | none =>
          rw [List.find?_eq_none] at hf
          exact absurd (by simpa using h) (hf r hr)
        | some r1 =>
          have hmem : r1 ∈ lm.records := List.mem_of_find?_eq_some hf
          have hl : r1.lsn_ = lsn := by
            have := List.find?_some hf
            simpa using this
          simp only [prev_of, hf, Option.map_some']
          obtain ⟨_, _, h3⟩ := hok r1 hmem
          apply ih
          · rcases h3 with h3 | ⟨r2, hr2, h4, _, _⟩
            · exact Or.inl h3
            · exact Or.inr ⟨r2, hr2, h4⟩
          · rcases h3 with h3 | ⟨r2, hr2, h4, _, h6⟩
            · rw [h3, INVALID_LSN]
              have : (0 : Int) ≤ (m : Int) := Int.ofNat_nonneg m
              omega
            · rw [← h4]
              have : r2.lsn_ < lsn := hl ▸ h6
              push_cast at hlt
              omega

/-- C5: with LSNs handed out by the log manager's increasing counter, in the log
produced by any sequence of `begin` / `commit` / `abort` and of `insert_record` /
`delete_record` / `update_record` calls with a context, the `prev_lsn` of every
record is `INVALID_LSN` or the LSN of a record of the same transaction with a
strictly smaller LSN; hence following `prev_lsn` from any record reaches
`INVALID_LSN` after finitely many steps (at most its LSN plus one). -/
theorem prev_lsn_chain_decreasing (lm : LogManager) (ts : List Transaction)
    (h : LogReachable lm ts) :
    (∀ r ∈ lm.records, r.prev_lsn_ = INVALID_LSN ∨
      ∃ r2 ∈ lm.records, r2.lsn_ = r.prev_lsn_ ∧ r2.log_tid_ = r.log_tid_ ∧
        r2.lsn_ < r.lsn_) ∧
    (∀ r ∈ lm.records, chain_reaches_invalid lm.records (r.lsn_.toNat + 1) r.lsn_ = true) := by
  obtain ⟨hok, _, _⟩ := h.inv
  refine ⟨fun r hr => (hok r hr).2.2, ?_⟩
  intro r hr
  apply chain_walk_ends lm hok _ _ (Or.inr ⟨r, hr, rfl⟩)
  have := (hok r hr).1
  push_cast
  rw [Int.toNat_of_nonneg this]
  omega

/-- Witness for C5: the log after one `begin` on the empty example log; the walk
from the Begin record ends. -/
theorem prev_lsn_chain_decreasing_witness :
    chain_reaches_invalid (TransactionManager.begin 1 none Example.log).2.1.records
      (({ BeginLogRecord 1 INVALID_LSN with lsn_ := 0 } : LogRecord).lsn_.toNat + 1)
      ({ BeginLogRecord 1 INVALID_LSN with lsn_ := 0 } : LogRecord).lsn_ = true :=
  (prev_lsn_chain_decreasing _ _
    (LogReachable.begin_new Example.log [] 1
      (LogReachable.init Example.log rfl rfl (by decide)))).2
    { BeginLogRecord 1 INVALID_LSN with lsn_ := 0 } (List.mem_singleton_self _)

/-! ## Theorems: record heap -/

/-- The number of set bits is at most the number of bits. -/
theorem Bitmap.popcount_le (bm : Int → Bool) (n : Nat) : Bitmap.popcount bm n ≤ n := by
  unfold Bitmap.popcount
  calc ((List.range n).filter _).length ≤ (List.range n).length := List.length_filter_le _ _
    _ = n := List.length_range n

/-- Changing a bit outside the counted range leaves the count alone; changing a
bit inside it moves the count by one. -/
theorem Bitmap.popcount_update (bm : Int → Bool) (n : Nat) (pos : Nat) (v : Bool) :
    Bitmap.popcount (Function.update bm (Int.ofNat pos) v) n + (if pos < n ∧ bm (Int.ofNat pos) then 1 else 0)
      = Bitmap.popcount bm n + (if pos < n ∧ v then 1 else 0) := by
  induction n with
  | zero => simp [Bitmap.popcount]
  | succ k ih =>
    have hstep : ∀ (f : Int → Bool), Bitmap.popcount f (k + 1)
        = Bitmap.popcount f k + (if f (Int.ofNat k) then 1 else 0) := by
      intro f
      simp only [Bitmap.popcount, List.range_succ, List.filter_append, List.length_append,
        List.filter_cons, List.filter_nil]
      split <;> simp
    rw [hstep, hstep]
    by_cases hk : pos = k
    · subst hk
      have h1 : ¬ (pos < pos ∧ bm (Int.ofNat pos) = true) := fun h => absurd h.1 (lt_irrefl _)
      have h2 : ¬ (pos < pos ∧ v = true) := fun h => absurd h.1 (lt_irrefl _)
      simp only [h1, h2, if_false, Nat.add_zero] at ih
      simp only [Function.update_same, Nat.lt_succ_self, true_and]
      omega
    · have hne : (Int.ofNat k) ≠ (Int.ofNat pos) := by
        intro h; exact hk (Int.ofNat.inj h).symm
      simp only [Function.update_noteq hne]
      have e1 : (pos < k + 1 ∧ bm (Int.ofNat pos) = true) ↔ (pos < k ∧ bm (Int.ofNat pos) = true) := by
        constructor <;> rintro ⟨a, b⟩ <;> exact ⟨by omega, b⟩
      have e2 : (pos < k + 1 ∧ v = true) ↔ (pos < k ∧ v = true) := by
        constructor <;> rintro ⟨a, b⟩ <;> exact ⟨by omega, b⟩
      simp only [e1, e2]
      omega

/-- When fewer than `n` of the first `n` bits are set, `first_bit(false, …)`
finds a clear bit among them. -/
theorem Bitmap.first_bit_clear (bm : Int → Bool) (n : Nat) (h : Bitmap.popcount bm n < n) :
    ∃ pos : Nat, Bitmap.first_bit false bm n = Int.ofNat pos ∧ pos < n ∧
      bm (Int.ofNat pos) = false := by
  unfold Bitmap.first_bit
  cases hf : (List.range n).find? (fun i => bm (Int.ofNat i) == false) with
  | some i =>
    refine ⟨i, rfl, ?_, ?_⟩
    · exact List.mem_range.mp (List.mem_of_find?_eq_some hf)
    · simpa using List.find?_some hf
  | none =>
    exfalso
    rw [List.find?_eq_none] at hf
    have hall : (List.range n).filter (fun i => bm (Int.ofNat i)) = List.range n := by
      rw [List.filter_eq_self]
      intro i hi
      have := hf i hi
      revert this
      cases bm (Int.ofNat i) <;> simp
    unfold Bitmap.popcount at h
    rw [hall, List.length_range] at h
    exact lt_irrefl _ h

namespace RmFileHandle

/-- What `insert_record(buf, context)` does, whatever the context: it returns,
and the page it chose holds `buf` in the first clear slot, with that bit set and
the count raised; the page leaves the head of the free list when it is now full. -/
theorem insert_record_effect (fh : RmFileHandle) (buf : List Nat) (context : Option Context) :
    ∃ fh1 c1, fh.insert_record buf context
        = some (⟨fh.create_page_handle.1,
                 Bitmap.first_bit false (fh.create_page_handle.2.pages fh.create_page_handle.1).body.bitmap
                   fh.file_hdr_.num_records_per_page⟩, fh1, c1) ∧
      (c1.isSome = context.isSome) ∧
      fh1.file_hdr_.record_size = fh.file_hdr_.record_size ∧
      fh1.file_hdr_.num_records_per_page = fh.file_hdr_.num_records_per_page ∧
      fh1.file_hdr_.num_pages = fh.create_page_handle.2.file_hdr_.num_pages ∧
      fh1.file_hdr_.first_free_page_no =
        (if (fh.create_page_handle.2.pages fh.create_page_handle.1).body.num_records + 1
              ≥ (fh.file_hdr_.num_records_per_page : Int)
         then (fh.create_page_handle.2.pages fh.create_page_handle.1).body.next_free_page_no
         else fh.create_page_handle.2.file_hdr_.first_free_page_no) ∧
      (∀ p, p ≠ fh.create_page_handle.1 → fh1.pages p = fh.create_page_handle.2.pages p) ∧
      (fh1.pages fh.create_page_handle.1).body =
        { (fh.create_page_handle.2.pages fh.create_page_handle.1).body with
            slots := Function.update
              (fh.create_page_handle.2.pages fh.create_page_handle.1).body.slots
              (Bitmap.first_bit false
                (fh.create_page_handle.2.pages fh.create_page_handle.1).body.bitmap
                fh.file_hdr_.num_records_per_page)
              (buf.take fh.file_hdr_.record_size),
            num_records :=
              (fh.create_page_handle.2.pages fh.create_page_handle.1).body.num_records + 1,
            bitmap := Bitmap.set
              (fh.create_page_handle.2.pages fh.create_page_handle.1).body.bitmap
              (Bitmap.first_bit false
                (fh.create_page_handle.2.pages fh.create_page_handle.1).body.bitmap
                fh.file_hdr_.num_records_per_page) } := by
  have hcfg : fh.create_page_handle.2.file_hdr_.record_size = fh.file_hdr_.record_size ∧
      fh.create_page_handle.2.file_hdr_.num_records_per_page
        = fh.file_hdr_.num_records_per_page := by
    unfold create_page_handle create_new_page_handle
    split <;> simp
  rcases hc : fh.create_page_handle with ⟨page_no, fh0⟩
  rw [hc] at hcfg
  simp only at hcfg
  obtain ⟨hrs, hn⟩ := hcfg
  cases context with
  | none =>
    simp only [insert_record, hc, hrs, hn]
    refine ⟨_, _, rfl, rfl, ?_, ?_, ?_, ?_, ?_, ?_⟩
    · dsimp only
      split <;> first | rfl | assumption
    · dsimp only
      split <;> first | rfl | assumption
    · dsimp only
      split <;> rfl
    · dsimp only
      split <;> rfl
    · intro p hp
      simp only [Function.update_noteq hp]
    · simp only [Function.update_same]
  | some c =>
    simp only [insert_record, hc, hrs, hn, LockManager.lock_exclusive_on_record, Bool.not_true,
      Bool.false_eq_true, if_false]
    refine ⟨_, _, rfl, rfl, ?_, ?_, ?_, ?_, ?_, ?_⟩
    · dsimp only
      split <;> first | rfl | assumption
    · dsimp only
      split <;> first | rfl | assumption
    · dsimp only
      split <;> rfl
    · dsimp only
      split <;> rfl
    · intro p hp
      simp only [Function.update_noteq hp]
    · simp only [Function.update_same]

/-- `get_record` returns the `record_size` bytes of the slot. -/
theorem get_record_value (fh : RmFileHandle) (rid : Rid) (context : Option Context) :
    fh.get_record rid context
      = some (((fh.pages rid.page_no).body.slots rid.slot_no).take fh.file_hdr_.record_size) := by
  cases context <;> simp [get_record, LockManager.lock_shared_on_record]

/-- With no free page, `create_page_handle` makes a new page. -/
theorem create_page_handle_new (fh : RmFileHandle)
    (h : fh.file_hdr_.first_free_page_no = RM_NO_PAGE) :
    fh.create_page_handle = fh.create_new_page_handle := by
  simp [create_page_handle, h]

/-- With a free page, `create_page_handle` takes the head of the free list. -/
theorem create_page_handle_old (fh : RmFileHandle)
    (h : fh.file_hdr_.first_free_page_no ≠ RM_NO_PAGE) :
    fh.create_page_handle = (fh.file_hdr_.first_free_page_no, fh) := by
  simp [create_page_handle, h]

/-- The head of the free list is a data page that is not full. -/
theorem free_list_head (fh : RmFileHandle) (chain : List Int)
    (hc : fh.free_chain fh.file_hdr_.first_free_page_no chain)
    (h : fh.file_hdr_.first_free_page_no ≠ RM_NO_PAGE) :
    ∃ rest, chain = fh.file_hdr_.first_free_page_no :: rest ∧
      fh.free_chain (fh.pages fh.file_hdr_.first_free_page_no).body.next_free_page_no rest := by
  cases chain with
  | nil => exact absurd hc h
  | cons p rest =>
    obtain ⟨h1, h2⟩ := hc
    exact ⟨rest, by rw [h1], by rw [h1]; exact h2⟩

/-- Under the heap invariants the page `insert_record` chooses is a data page of
the file afterwards, its count is the number of set bits, and it has a clear bit. -/
theorem chosen_page_not_full (fh : RmFileHandle) (hok : fh.HeapOK) :
    1 ≤ fh.create_page_handle.1 ∧
    fh.create_page_handle.1 < fh.create_page_handle.2.file_hdr_.num_pages ∧
    (fh.create_page_handle.2.pages fh.create_page_handle.1).body.num_records
      = Bitmap.popcount (fh.create_page_handle.2.pages fh.create_page_handle.1).body.bitmap
          fh.file_hdr_.num_records_per_page ∧
    Bitmap.popcount (fh.create_page_handle.2.pages fh.create_page_handle.1).body.bitmap
      fh.file_hdr_.num_records_per_page < fh.file_hdr_.num_records_per_page := by
  by_cases h : fh.file_hdr_.first_free_page_no = RM_NO_PAGE
  · rw [create_page_handle_new fh h]
    have hp := hok.hdr_page
    have hz : Bitmap.popcount (Bitmap.init fun _ => false) fh.file_hdr_.num_records_per_page
        = 0 := by
      simp [Bitmap.popcount, Bitmap.init]
    refine ⟨hp, ?_, ?_, ?_⟩
    · simp only [create_new_page_handle]; omega
    · simp only [create_new_page_handle, Function.update_same, hz]; rfl
    · simp only [create_new_page_handle, Function.update_same, hz]; exact hok.slots_pos
  · rw [create_page_handle_old fh h]
    obtain ⟨chain, hc, _, hiff⟩ := hok.free_list
    obtain ⟨rest, hr, _⟩ := free_list_head fh chain hc h
    have hm : fh.file_hdr_.first_free_page_no ∈ chain := by rw [hr]; exact List.mem_cons_self _ _
    obtain ⟨h1, h2, h3⟩ := (hiff _).mp hm
    have hcnt := hok.counts _ h1 h2
    refine ⟨h1, h2, hcnt, ?_⟩
    rw [hcnt] at h3
    exact_mod_cast h3

/-- The pages the file already had are as they were when `create_page_handle` returns. -/
theorem create_page_handle_pages (fh : RmFileHandle) (p : Int)
    (hp : p < fh.file_hdr_.num_pages) : fh.create_page_handle.2.pages p = fh.pages p := by
  by_cases h : fh.file_hdr_.first_free_page_no = RM_NO_PAGE
  · rw [create_page_handle_new fh h]
    simp only [create_new_page_handle]
    exact Function.update_noteq (ne_of_lt hp) _ _
  · rw [create_page_handle_old fh h]

/-- A page number that `create_page_handle` returns from beyond the file is that
of a fresh page with no records. -/
theorem create_page_handle_fresh (fh : RmFileHandle)
    (hp : ¬ fh.create_page_handle.1 < fh.file_hdr_.num_pages) (hok : fh.HeapOK) :
    (fh.create_page_handle.2.pages fh.create_page_handle.1).body.num_records = 0 := by
  by_cases h : fh.file_hdr_.first_free_page_no = RM_NO_PAGE
  · rw [create_page_handle_new fh h]
    simp [create_new_page_handle]
  · exfalso
    rw [create_page_handle_old fh h] at hp
    obtain ⟨chain, hc, _, hiff⟩ := hok.free_list
    obtain ⟨rest, hr, _⟩ := free_list_head fh chain hc h
    have hm : fh.file_hdr_.first_free_page_no ∈ chain := by rw [hr]; exact List.mem_cons_self _ _
    exact hp ((hiff _).mp hm).2.1

/-- C11: for every heap file satisfying the heap invariants and every buffer
`buf` of `record_size` bytes, `insert_record(buf)` returns a rid that named no
record before (on a page the file already had, its bitmap bit was clear) and
names one after (the bit is set); `get_record(rid)` returns exactly `buf`; the
record count of the page grew by one (from 0 on a page that is new); and
`get_record` of every other rid that held a record returns the bytes it did. -/
theorem insert_record_contract (fh : RmFileHandle) (buf : List Nat) (context : Option Context)
    (hok : fh.HeapOK) (hbuf : buf.length = fh.file_hdr_.record_size) :
    ∃ rid fh1 c1, fh.insert_record buf context = some (rid, fh1, c1) ∧
      ¬ fh.occupied rid ∧
      (rid.page_no < fh.file_hdr_.num_pages →
        (fh.pages rid.page_no).body.bitmap rid.slot_no = false) ∧
      fh1.occupied rid ∧
      fh1.get_record rid c1 = some buf ∧
      (fh1.pages rid.page_no).body.num_records
        = (if rid.page_no < fh.file_hdr_.num_pages
           then (fh.pages rid.page_no).body.num_records else 0) + 1 ∧
      ∀ rid1, fh.occupied rid1 → rid1 ≠ rid →
        fh1.get_record rid1 c1 = fh.get_record rid1 context := by
  obtain ⟨fh1, c1, heq, _, hrs, hn, hnp, _, hother, hbody⟩ :=
    insert_record_effect fh buf context
  obtain ⟨hp1, hp2, _, hpop⟩ := chosen_page_not_full fh hok
  obtain ⟨pos, hpos, hlt, hclear⟩ := Bitmap.first_bit_clear _ _ hpop
  rw [hpos] at heq hbody
  have hbit : (fh.create_page_handle.1 < fh.file_hdr_.num_pages →
      (fh.pages fh.create_page_handle.1).body.bitmap (Int.ofNat pos) = false) := by
    intro hlt1
    rw [← create_page_handle_pages fh _ hlt1]
    exact hclear
  refine ⟨_, fh1, c1, heq, ?_, hbit, ?_, ?_, ?_, ?_⟩
  · rintro ⟨_, h2, _, _, h5⟩
    rw [hbit h2] at h5
    cases h5
  · refine ⟨hp1, by rw [hnp]; exact hp2, Int.ofNat_nonneg _, ?_, ?_⟩
    · rw [hn]; exact Int.ofNat_lt.mpr hlt
    · show (fh1.pages fh.create_page_handle.1).body.bitmap (Int.ofNat pos) = true
      rw [hbody]
      simp [Bitmap.set]
  · rw [get_record_value]
    show some (((fh1.pages fh.create_page_handle.1).body.slots (Int.ofNat pos)).take _) = _
    rw [hbody, hrs]
    simp only [Function.update_same, List.take_take, min_self]
    rw [List.take_of_length_le (le_of_eq hbuf)]
  · show (fh1.pages fh.create_page_handle.1).body.num_records = _
    rw [hbody]
    by_cases hlt1 : fh.create_page_handle.1 < fh.file_hdr_.num_pages
    · simp only [hlt1, if_true]
      rw [create_page_handle_pages fh _ hlt1]
    · simp only [hlt1, if_false]
      rw [create_page_handle_fresh fh hlt1 hok]
  · intro rid1 hocc hne
    rw [get_record_value, get_record_value, hrs]
    obtain ⟨_, h2, _, _, _⟩ := hocc
    by_cases hpg : rid1.page_no = fh.create_page_handle.1
    · have hslot : rid1.slot_no ≠ Int.ofNat pos := by
        intro hs
        apply hne
        cases rid1
        simp only at hpg hs
        rw [hpg, hs]
      rw [hpg, hbody]
      simp only [Function.update_noteq hslot]
      rw [← hpg, create_page_handle_pages fh _ h2]
    · rw [hother _ hpg, create_page_handle_pages fh _ h2]

/-- What `delete_record(rid, context)` does, whatever the context: it returns;
the slot is zeroed, its bit cleared and the count lowered; a page that was full
goes to the head of the free list. -/
theorem delete_record_effect (fh : RmFileHandle) (rid : Rid) (context : Option Context) :
    ∃ fh1 c1, fh.delete_record rid context = some (fh1, c1) ∧
      (c1.isSome = context.isSome) ∧
      fh1.file_hdr_.record_size = fh.file_hdr_.record_size ∧
      fh1.file_hdr_.num_records_per_page = fh.file_hdr_.num_records_per_page ∧
      fh1.file_hdr_.num_pages = fh.file_hdr_.num_pages ∧
      fh1.file_hdr_.first_free_page_no =
        (if (fh.pages rid.page_no).body.num_records = (fh.file_hdr_.num_records_per_page : Int)
         then rid.page_no else fh.file_hdr_.first_free_page_no) ∧
      (∀ p, p ≠ rid.page_no → fh1.pages p = fh.pages p) ∧
      (fh1.pages rid.page_no).body =
        { slots := Function.update (fh.pages rid.page_no).body.slots rid.slot_no
                     (List.replicate fh.file_hdr_.record_size 0),
          bitmap := Bitmap.reset (fh.pages rid.page_no).body.bitmap rid.slot_no,
          next_free_page_no :=
            (if (fh.pages rid.page_no).body.num_records
                  = (fh.file_hdr_.num_records_per_page : Int)
             then fh.file_hdr_.first_free_page_no
             else (fh.pages rid.page_no).body.next_free_page_no),
          num_records := (fh.pages rid.page_no).body.num_records - 1 } := by
  cases context with
  | none =>
    simp only [delete_record, release_page_handle]
    refine ⟨_, _, rfl, rfl, ?_, ?_, ?_, ?_, ?_, ?_⟩
    · dsimp only
      split <;> rfl
    · dsimp only
      split <;> rfl
    · dsimp only
      split <;> rfl
    · dsimp only
      split <;> rfl
    · intro p hp
      simp only [Function.update_noteq hp]
    · simp only [Function.update_same]
      split <;> rfl
  | some c =>
    simp only [delete_record, release_page_handle, LockManager.lock_exclusive_on_record,
      Bool.not_true, Bool.false_eq_true, if_false]
    refine ⟨_, _, rfl, rfl, ?_, ?_, ?_, ?_, ?_, ?_⟩
    · dsimp only
      split <;> rfl
    · dsimp only
      split <;> rfl
    · dsimp only
      split <;> rfl
    · dsimp only
      split <;> rfl
    · intro p hp
      simp only [Function.update_noteq hp]
    · simp only [Function.update_same]
      split <;> rfl

/-- The free-page list only depends on the links of the pages on it. -/
theorem free_chain_congr (fh fh1 : RmFileHandle) (chain : List Int) :
    ∀ start, (∀ p ∈ chain, (fh1.pages p).body.next_free_page_no
                = (fh.pages p).body.next_free_page_no) →
      (fh1.free_chain start chain ↔ fh.free_chain start chain) := by
  induction chain with
  | nil => intro start _; exact Iff.rfl
  | cons q rest ih =>
    intro start h
    simp only [free_chain]
    rw [h q (List.mem_cons_self _ _), ih _ (fun p hp => h p (List.mem_cons_of_mem _ hp))]

/-- With no free page the free list is empty. -/
theorem free_list_empty (fh : RmFileHandle) (chain : List Int)
    (hc : fh.free_chain fh.file_hdr_.first_free_page_no chain)
    (hr : ∀ p ∈ chain, 1 ≤ p)
    (h : fh.file_hdr_.first_free_page_no = RM_NO_PAGE) : chain = [] := by
  cases chain with
  | nil => rfl
  | cons p rest =>
    exfalso
    have h1 : fh.file_hdr_.first_free_page_no = p := hc.1
    have h2 := hr p (List.mem_cons_self _ _)
    rw [← h1, h] at h2
    exact absurd h2 (by decide)

/-- The page handle `create_page_handle` returns is the head of the free list of
a file that satisfies the heap invariants. -/
theorem create_page_handle_ok (fh : RmFileHandle) (hok : fh.HeapOK) :
    fh.create_page_handle.2.HeapOK ∧
    fh.create_page_handle.2.file_hdr_.first_free_page_no = fh.create_page_handle.1 ∧
    fh.create_page_handle.2.file_hdr_.num_records_per_page
      = fh.file_hdr_.num_records_per_page := by
  by_cases h : fh.file_hdr_.first_free_page_no = RM_NO_PAGE
  · rw [create_page_handle_new fh h]
    obtain ⟨chain, hc, _, hiff⟩ := hok.free_list
    have hnil : chain = [] := free_list_empty fh chain hc (fun p hp => ((hiff p).mp hp).1) h
    subst hnil
    have hp := hok.hdr_page
    refine ⟨⟨hok.slots_pos, ?_, ?_, ?_⟩, rfl, rfl⟩
    · simp only [create_new_page_handle]; omega
    · intro p h1 h2
      simp only [create_new_page_handle] at h2 ⊢
      by_cases hpn : p = fh.file_hdr_.num_pages
      · subst hpn
        simp [Function.update_same, Bitmap.popcount, Bitmap.init]
      · rw [Function.update_noteq hpn]
        exact hok.counts p h1 (by omega)
    · refine ⟨[fh.file_hdr_.num_pages], ?_, List.nodup_singleton _, ?_⟩
      · simp [create_new_page_handle, free_chain]
      · intro p
        simp only [create_new_page_handle, List.mem_singleton]
        constructor
        · intro hpn
          subst hpn
          simp only [Function.update_same]
          exact ⟨hp, by omega, by exact_mod_cast hok.slots_pos⟩
        · rintro ⟨h1, h2, h3⟩
          by_contra hpn
          rw [Function.update_noteq hpn] at h3
          have := (hiff p).mpr ⟨h1, by omega, h3⟩
          simp at this
  · rw [create_page_handle_old fh h]
    exact ⟨hok, rfl, rfl⟩

/-- Setting a clear bit among the first `n` raises the count of set bits by one. -/
theorem popcount_set (bm : Int → Bool) (n pos : Nat) (hlt : pos < n)
    (hclear : bm (Int.ofNat pos) = false) :
    Bitmap.popcount (Bitmap.set bm (Int.ofNat pos)) n = Bitmap.popcount bm n + 1 := by
  have h := Bitmap.popcount_update bm n pos true
  simp only [hclear, hlt, Bool.false_eq_true, and_false, if_false, and_self, if_true,
    Nat.add_zero] at h
  exact h

/-- Clearing a set bit among the first `n` lowers the count of set bits by one. -/
theorem popcount_reset (bm : Int → Bool) (n pos : Nat) (hlt : pos < n)
    (hset : bm (Int.ofNat pos) = true) :
    Bitmap.popcount (Bitmap.reset bm (Int.ofNat pos)) n + 1 = Bitmap.popcount bm n := by
  have h := Bitmap.popcount_update bm n pos false
  simp only [hset, hlt, and_self, if_true, Bool.false_eq_true, and_false, if_false,
    Nat.add_zero] at h
  exact h

/-- `insert_record(buf, context)` keeps the heap invariants. -/
theorem insert_record_heap_ok (fh : RmFileHandle) (buf : List Nat) (context : Option Context)
    (hok : fh.HeapOK) :
    ∃ rid fh1 c1, fh.insert_record buf context = some (rid, fh1, c1) ∧ fh1.HeapOK := by
  obtain ⟨fh1, c1, heq, _, _, hn, hnp, hff, hother, hbody⟩ :=
    insert_record_effect fh buf context
  obtain ⟨hok0, hhead, hn0⟩ := create_page_handle_ok fh hok
  obtain ⟨hp1, hp2, hcnt, hpop⟩ := chosen_page_not_full fh hok
  obtain ⟨pos, hpos, hlt, hclear⟩ := Bitmap.first_bit_clear _ _ hpop
  rw [hpos] at hbody
  generalize fh.create_page_handle.1 = P at *
  generalize fh.create_page_handle.2 = fh0 at *
  have hPne : fh0.file_hdr_.first_free_page_no ≠ RM_NO_PAGE := by
    rw [hhead]; intro h; rw [h] at hp1; exact absurd hp1 (by decide)
  obtain ⟨chain, hc, hnd, hiff⟩ := hok0.free_list
  obtain ⟨rest, hr, hrest⟩ := free_list_head fh0 chain hc hPne
  rw [hhead] at hr hrest
  subst hr
  have hPrest : P ∉ rest := (List.nodup_cons.mp hnd).1
  have hlinks : ∀ p ∈ rest, (fh1.pages p).body.next_free_page_no
      = (fh0.pages p).body.next_free_page_no := by
    intro p hp
    have hne : p ≠ P := fun h => hPrest (h ▸ hp)
    rw [hother p hne]
  have hcount1 : (fh1.pages P).body.num_records = (fh0.pages P).body.num_records + 1 := by
    rw [hbody]
  refine ⟨_, fh1, c1, heq, ⟨by rw [hn]; exact hok.slots_pos, by rw [hnp]; exact hok0.hdr_page,
    ?_, ?_⟩⟩
  · intro p h1 h2
    rw [hnp] at h2
    rw [hn]
    by_cases hpP : p = P
    · subst hpP
      rw [hbody]
      simp only
      rw [popcount_set _ _ _ hlt hclear, hcnt]
      push_cast
      rfl
    · rw [hother p hpP]
      have := hok0.counts p h1 h2
      rw [hn0] at this
      exact this
  · by_cases hfull : (fh0.pages P).body.num_records + 1
        ≥ (fh.file_hdr_.num_records_per_page : Int)
    · refine ⟨rest, ?_, (List.nodup_cons.mp hnd).2, ?_⟩
      · rw [hff, if_pos hfull]
        exact (free_chain_congr fh0 fh1 rest _ hlinks).mpr hrest
      · intro p
        rw [hnp, hn]
        by_cases hpP : p = P
        · subst hpP
          constructor
          · intro hm; exact absurd hm hPrest
          · rintro ⟨_, _, h3⟩
            rw [hcount1] at h3
            omega
        · rw [hother p hpP]
          have := hiff p
          rw [hn0] at this
          simp only [List.mem_cons, hpP, false_or] at this
          exact this
    · refine ⟨P :: rest, ?_, hnd, ?_⟩
      · rw [hff, if_neg hfull, hhead]
        refine ⟨rfl, ?_⟩
        have hnext : (fh1.pages P).body.next_free_page_no
            = (fh0.pages P).body.next_free_page_no := by rw [hbody]
        rw [hnext]
        exact (free_chain_congr fh0 fh1 rest _ hlinks).mpr hrest
      · intro p
        rw [hnp, hn]
        by_cases hpP : p = P
        · subst hpP
          simp only [List.mem_cons, true_or, true_iff]
          refine ⟨hp1, hp2, ?_⟩
          rw [hcount1]
          omega
        · rw [hother p hpP]
          have := hiff p
          rw [hn0] at this
          exact this

/-- `delete_record(rid, context)` on a slot that holds a record keeps the
record counts equal to the numbers of set bits. -/
theorem delete_record_counts_ok (fh : RmFileHandle) (rid : Rid) (context : Option Context)
    (hcounts : fh.CountsOK) (hocc : fh.occupied rid) :
    ∃ fh1 c1, fh.delete_record rid context = some (fh1, c1) ∧ fh1.CountsOK := by
  obtain ⟨fh1, c1, heq, _, _, hn, hnp, _, hother, hbody⟩ := delete_record_effect fh rid context
  obtain ⟨hr1, hr2, hs1, hs2, hbit⟩ := hocc
  obtain ⟨k, hk⟩ := Int.eq_ofNat_of_zero_le hs1
  have hk' : rid.slot_no = Int.ofNat k := hk
  rw [hk'] at hbit hbody hs2
  have hlt : k < fh.file_hdr_.num_records_per_page := Int.ofNat_lt.mp hs2
  refine ⟨fh1, c1, heq, ?_⟩
  intro p h1 h2
  rw [hnp] at h2
  rw [hn]
  by_cases hpR : p = rid.page_no
  · subst hpR
    rw [hbody]
    simp only
    have := popcount_reset _ _ _ hlt hbit
    rw [hcounts _ h1 h2, ← this]
    push_cast
    omega
  · rw [hother p hpR]
    exact hcounts p h1 h2

/-- `delete_record(rid, context)` on a slot that holds a record keeps the heap
invariants. -/
theorem delete_record_heap_ok (fh : RmFileHandle) (rid : Rid) (context : Option Context)
    (hok : fh.HeapOK) (hocc : fh.occupied rid) :
    ∃ fh1 c1, fh.delete_record rid context = some (fh1, c1) ∧ fh1.HeapOK := by
  obtain ⟨fh1, c1, heq, hcounts1⟩ := delete_record_counts_ok fh rid context hok.counts hocc
  obtain ⟨fh1', c1', heq', _, _, hn, hnp, hff, hother, hbody⟩ :=
    delete_record_effect fh rid context
  rw [heq] at heq'
  simp only [Option.some.injEq, Prod.mk.injEq] at heq'
  obtain ⟨rfl, rfl⟩ := heq'
  obtain ⟨hr1, hr2, _, _, _⟩ := hocc
  obtain ⟨chain, hc, hnd, hiff⟩ := hok.free_list
  have hcntR := hok.counts _ hr1 hr2
  have hle := Bitmap.popcount_le (fh.pages rid.page_no).body.bitmap
    fh.file_hdr_.num_records_per_page
  have hcount1 : (fh1.pages rid.page_no).body.num_records
      = (fh.pages rid.page_no).body.num_records - 1 := by rw [hbody]
  refine ⟨fh1, c1, heq, ⟨by rw [hn]; exact hok.slots_pos, by rw [hnp]; exact hok.hdr_page,
    hcounts1, ?_⟩⟩
  by_cases hfull : (fh.pages rid.page_no).body.num_records
      = (fh.file_hdr_.num_records_per_page : Int)
  · have hRnot : rid.page_no ∉ chain := by
      intro hm
      have := ((hiff _).mp hm).2.2
      omega
    have hlinks : ∀ p ∈ chain, (fh1.pages p).body.next_free_page_no
        = (fh.pages p).body.next_free_page_no := by
      intro p hp
      have hne : p ≠ rid.page_no := fun h => hRnot (h ▸ hp)
      rw [hother p hne]
    refine ⟨rid.page_no :: chain, ?_, List.nodup_cons.mpr ⟨hRnot, hnd⟩, ?_⟩
    · rw [hff, if_pos hfull]
      refine ⟨rfl, ?_⟩
      have hnext : (fh1.pages rid.page_no).body.next_free_page_no
          = fh.file_hdr_.first_free_page_no := by rw [hbody]; simp only [if_pos hfull]
      rw [hnext]
      exact (free_chain_congr fh fh1 chain _ hlinks).mpr hc
    · intro p
      rw [hnp, hn]
      by_cases hpR : p = rid.page_no
      · subst hpR
        simp only [List.mem_cons, true_or, true_iff]
        refine ⟨hr1, hr2, ?_⟩
        rw [hcount1]
        omega
      · rw [hother p hpR]
        simp only [List.mem_cons, hpR, false_or]
        exact hiff p
  · have hRin : rid.page_no ∈ chain := by
      apply (hiff _).mpr
      refine ⟨hr1, hr2, ?_⟩
      rw [hcntR] at hfull ⊢
      have : (Bitmap.popcount (fh.pages rid.page_no).body.bitmap
          fh.file_hdr_.num_records_per_page : Int) ≤ fh.file_hdr_.num_records_per_page := by
        exact_mod_cast hle
      omega
    have hlinks : ∀ p ∈ chain, (fh1.pages p).body.next_free_page_no
        = (fh.pages p).body.next_free_page_no := by
      intro p _
      by_cases hpR : p = rid.page_no
      · subst hpR
        rw [hbody]
        simp only [if_neg hfull]
      · rw [hother p hpR]
    refine ⟨chain, ?_, hnd, ?_⟩
    · rw [hff, if_neg hfull]
      exact (free_chain_congr fh fh1 chain _ hlinks).mpr hc
    · intro p
      rw [hnp, hn]
      by_cases hpR : p = rid.page_no
      · subst hpR
        constructor
        · intro _
          refine ⟨hr1, hr2, ?_⟩
          rw [hcount1]
          have := ((hiff _).mp hRin).2.2
          omega
        · intro _; exact hRin
      · rw [hother p hpR]
        exact hiff p

/-- `update_record(rid, buf, context)` changes the bytes of one slot only. -/
theorem update_record_effect (fh : RmFileHandle) (rid : Rid) (buf : List Nat)
    (context : Option Context) :
    ∃ fh1 c1, fh.update_record rid buf context = some (fh1, c1) ∧
      fh1.file_hdr_ = fh.file_hdr_ ∧
      ∀ p, (fh1.pages p).body.bitmap = (fh.pages p).body.bitmap ∧
        (fh1.pages p).body.num_records = (fh.pages p).body.num_records ∧
        (fh1.pages p).body.next_free_page_no = (fh.pages p).body.next_free_page_no := by
  cases context with
  | none =>
    simp only [update_record]
    refine ⟨_, _, rfl, rfl, ?_⟩
    intro p
    by_cases hp : p = rid.page_no
    · subst hp; simp only [Function.update_same, and_self]
    · simp only [Function.update_noteq hp, and_self]
  | some c =>
    simp only [update_record, LockManager.lock_exclusive_on_record, Bool.not_true,
      Bool.false_eq_true, if_false]
    refine ⟨_, _, rfl, rfl, ?_⟩
    intro p
    by_cases hp : p = rid.page_no
    · subst hp; simp only [Function.update_same, and_self]
    · simp only [Function.update_noteq hp, and_self]

end RmFileHandle

/-- The example heap file satisfies the heap invariants. -/
theorem Example.fh_heap_ok : Example.fh.HeapOK := by
  have hp : ∀ p : Int, 1 ≤ p → p < Example.fh.file_hdr_.num_pages → p = 1 := by
    intro p h1 h2
    have : Example.fh.file_hdr_.num_pages = 2 := rfl
    omega
  refine ⟨by decide, by decide, ?_, [1], ⟨rfl, rfl⟩, List.nodup_singleton _, ?_⟩
  · intro p h1 h2
    rw [hp p h1 h2]
    decide
  · intro p
    constructor
    · intro h
      rw [List.mem_singleton.mp h]
      decide
    · rintro ⟨h1, h2, _⟩
      rw [hp p h1 h2]
      exact List.mem_singleton_self _

namespace RmFileHandle

/-- C11 at the example file: a record of four bytes inserted there can be read back. -/
theorem insert_record_contract_witness :
    Example.fh.HeapOK ∧
    ∃ rid fh1 c1, Example.fh.insert_record [7, 0, 0, 0] none = some (rid, fh1, c1) ∧
      fh1.get_record rid c1 = some [7, 0, 0, 0] := by
  obtain ⟨rid, fh1, c1, h1, _, _, _, h5, _⟩ :=
    insert_record_contract Example.fh [7, 0, 0, 0] none Example.fh_heap_ok rfl
  exact ⟨Example.fh_heap_ok, rid, fh1, c1, h1, h5⟩

/-- C12 (the claim as stated fails): on page 1 of the example file, whose count
2 is the number of set bits, `delete_record` on the clear slot 0 lowers the count
to 1 while two bits stay set; and `insert_record(rid, buf)` on the clear slot 0
sets a third bit while the count stays 2. -/
theorem count_broken_on_clear_slot :
    (Example.fh.pages 1).body.num_records
      = Bitmap.popcount (Example.fh.pages 1).body.bitmap 3 ∧
    (Example.fh.pages 1).body.bitmap 0 = false ∧
    (Example.fh.delete_record ⟨1, 0⟩ none).map
      (fun r => ((r.1.pages 1).body.num_records, Bitmap.popcount (r.1.pages 1).body.bitmap 3))
      = some (1, 2) ∧
    ((Example.fh.insert_record_at ⟨1, 0⟩ [7, 0, 0, 0]).pages 1).body.num_records = 2 ∧
    Bitmap.popcount ((Example.fh.insert_record_at ⟨1, 0⟩ [7, 0, 0, 0]).pages 1).body.bitmap 3
      = 3 := by
  refine ⟨by decide, by decide, by decide, by decide, by decide⟩

/-- C12 (amended): on a heap file that satisfies the heap invariants,
`num_records = popcount(bitmap)` on every data page still holds after
`insert_record(buf, context)`, after `delete_record(rid, context)` for every rid
whose slot holds a record, and after `update_record(rid, buf, context)` for
every rid that names a slot of a data page of the file, whether the slot holds
a record or not; each of the three returns. -/
theorem counts_preserved (fh : RmFileHandle) (hok : fh.HeapOK) :
    (∀ buf context, ∃ rid fh1 c1,
      fh.insert_record buf context = some (rid, fh1, c1) ∧ fh1.CountsOK) ∧
    (∀ rid context, fh.occupied rid →
      ∃ fh1 c1, fh.delete_record rid context = some (fh1, c1) ∧ fh1.CountsOK) ∧
    (∀ rid buf context, fh.is_slot rid →
      ∃ fh1 c1, fh.update_record rid buf context = some (fh1, c1) ∧ fh1.CountsOK) := by
  refine ⟨?_, ?_, ?_⟩
  · intro buf context
    obtain ⟨rid, fh1, c1, h, hok1⟩ := insert_record_heap_ok fh buf context hok
    exact ⟨rid, fh1, c1, h, hok1.counts⟩
  · intro rid context hocc
    exact delete_record_counts_ok fh rid context hok.counts hocc
  · intro rid buf context _
    obtain ⟨fh1, c1, h, hhdr, hpages⟩ := update_record_effect fh rid buf context
    refine ⟨fh1, c1, h, ?_⟩
    intro p h1 h2
    rw [hhdr] at h2 ⊢
    rw [(hpages p).1, (hpages p).2.1]
    exact hok.counts p h1 h2

/-- C12 (amended) at the example file: `update_record` on the slot (1,1), which
holds a record. -/
theorem counts_preserved_witness :
    Example.fh.HeapOK ∧ Example.fh.is_slot ⟨1, 1⟩ ∧
    ∃ fh1 c1, Example.fh.update_record ⟨1, 1⟩ [5, 0, 0, 0] none = some (fh1, c1) ∧
      fh1.CountsOK :=
  ⟨Example.fh_heap_ok, by decide,
   (counts_preserved Example.fh Example.fh_heap_ok).2.2 ⟨1, 1⟩ [5, 0, 0, 0] none (by decide)⟩

/-- C13: on a heap file that satisfies the heap invariants (among them: the
pages reachable from `first_free_page_no` through the `next_free_page_no` links
are exactly the data pages with `num_records < num_records_per_page`),
`insert_record(buf, context)` returns and the invariants hold afterwards, whether
the page stays on the free list, becomes full and leaves it, or is a new page;
and `delete_record(rid, context)` on a slot that holds a record returns and the
invariants hold afterwards, whether or not the page was full. -/
theorem free_list_invariant_preserved (fh : RmFileHandle) (hok : fh.HeapOK) :
    (∀ buf context, ∃ rid fh1 c1,
      fh.insert_record buf context = some (rid, fh1, c1) ∧ fh1.HeapOK ∧ fh1.FreeListOK) ∧
    (∀ rid context, fh.occupied rid →
      ∃ fh1 c1, fh.delete_record rid context = some (fh1, c1) ∧ fh1.HeapOK ∧ fh1.FreeListOK) := by
  refine ⟨?_, ?_⟩
  · intro buf context
    obtain ⟨rid, fh1, c1, h, hok1⟩ := insert_record_heap_ok fh buf context hok
    exact ⟨rid, fh1, c1, h, hok1, hok1.free_list⟩
  · intro rid context hocc
    obtain ⟨fh1, c1, h, hok1⟩ := delete_record_heap_ok fh rid context hok hocc
    exact ⟨fh1, c1, h, hok1, hok1.free_list⟩

/-- C13 at the example file: deleting the record at rid (1,2). -/
theorem free_list_invariant_preserved_witness :
    Example.fh.HeapOK ∧ Example.fh.occupied ⟨1, 2⟩ ∧
    ∃ fh1 c1, Example.fh.delete_record ⟨1, 2⟩ none = some (fh1, c1) ∧
      fh1.HeapOK ∧ fh1.FreeListOK :=
  ⟨Example.fh_heap_ok, by decide,
   (free_list_invariant_preserved Example.fh Example.fh_heap_ok).2 ⟨1, 2⟩ none (by decide)⟩

end RmFileHandle

/-- A heap file right after its creation satisfies the heap invariants. -/
theorem Example.fh_new_heap_ok : Example.fh_new.HeapOK := by
  have hp : ∀ p : Int, 1 ≤ p → p < Example.fh_new.file_hdr_.num_pages → False := by
    intro p h1 h2
    have : Example.fh_new.file_hdr_.num_pages = 1 := rfl
    omega
  refine ⟨by decide, by decide, ?_, [], rfl, List.nodup_nil, ?_⟩
  · intro p h1 h2
    exact (hp p h1 h2).elim
  · intro p
    constructor
    · intro h; cases h
    · rintro ⟨h1, h2, _⟩
      exact (hp p h1 h2).elim

namespace RmFileHandle

/-- C14 (the claim as stated fails): a heap file right after its creation has
one page (the header) and no free page. `insert_record` allocates page 1;
after `delete_record` of the record the file still has two pages and page 1 is
the head of the free list. -/
theorem insert_then_delete_keeps_new_page :
    Example.fh_new.HeapOK ∧
    Example.fh_new.file_hdr_.num_pages = 1 ∧
    Example.fh_new.file_hdr_.first_free_page_no = RM_NO_PAGE ∧
    (Example.fh_new.insert_then_delete [7, 0, 0, 0] none).map
      (fun r => (r.1.file_hdr_.num_pages, r.1.file_hdr_.first_free_page_no)) = some (2, 1) :=
  ⟨Example.fh_new_heap_ok, rfl, rfl, by decide⟩

/-- C14 (amended): for every heap file that satisfies the heap invariants and
has a free page, and every record, `rid = insert_record(r)` followed by
`delete_record(rid)` returns and leaves every page bitmap, every record count,
every `next_free_page_no` link and the header's `first_free_page_no` and
`num_pages` as they were before the insert. -/
theorem insert_then_delete_restores (fh : RmFileHandle) (buf : List Nat)
    (context : Option Context) (hok : fh.HeapOK)
    (hfree : fh.file_hdr_.first_free_page_no ≠ RM_NO_PAGE) :
    ∃ fh2 c2, fh.insert_then_delete buf context = some (fh2, c2) ∧
      (∀ p, (fh2.pages p).body.bitmap = (fh.pages p).body.bitmap ∧
        (fh2.pages p).body.num_records = (fh.pages p).body.num_records ∧
        (fh2.pages p).body.next_free_page_no = (fh.pages p).body.next_free_page_no) ∧
      fh2.file_hdr_.first_free_page_no = fh.file_hdr_.first_free_page_no ∧
      fh2.file_hdr_.num_pages = fh.file_hdr_.num_pages := by
  obtain ⟨fh1, c1, heq, _, _, hn, hnp, hff, hother, hbody⟩ :=
    insert_record_effect fh buf context
  obtain ⟨_, _, hcnt, hpop⟩ := chosen_page_not_full fh hok
  obtain ⟨pos, hpos, hlt, hclear⟩ := Bitmap.first_bit_clear _ _ hpop
  rw [hpos] at hbody heq
  rw [create_page_handle_old fh hfree] at heq hnp hff hother hbody hcnt hclear hpop
  simp only at heq hnp hff hother hbody hcnt hclear hpop
  obtain ⟨fh2, c2, heq2, _, _, _, hnp2, hff2, hother2, hbody2⟩ :=
    delete_record_effect fh1 ⟨fh.file_hdr_.first_free_page_no, Int.ofNat pos⟩ c1
  simp only at hff2 hother2 hbody2
  have hcount1 : (fh1.pages fh.file_hdr_.first_free_page_no).body.num_records
      = (fh.pages fh.file_hdr_.first_free_page_no).body.num_records + 1 := by rw [hbody]
  have hnext1 : (fh1.pages fh.file_hdr_.first_free_page_no).body.next_free_page_no
      = (fh.pages fh.file_hdr_.first_free_page_no).body.next_free_page_no := by rw [hbody]
  have hbm1 : (fh1.pages fh.file_hdr_.first_free_page_no).body.bitmap
      = Bitmap.set (fh.pages fh.file_hdr_.first_free_page_no).body.bitmap (Int.ofNat pos) := by
    rw [hbody]
  have hlow : (fh.pages fh.file_hdr_.first_free_page_no).body.num_records
      < (fh.file_hdr_.num_records_per_page : Int) := by
    rw [hcnt]; exact_mod_cast hpop
  rw [hn, hcount1] at hff2 hbody2
  refine ⟨fh2, c2, by simp only [insert_then_delete, heq]; exact heq2, ?_, ?_, ?_⟩
  · intro p
    by_cases hp : p = fh.file_hdr_.first_free_page_no
    · rw [hp, hbody2]
      refine ⟨?_, by simp only; omega, ?_⟩
      · simp only [hbm1, Bitmap.reset, Bitmap.set, Function.update_idem]
        exact Function.update_eq_self_iff.mpr hclear.symm
      · simp only [hnext1, hff]
        split <;> rename_i h1
        · rw [if_pos (by omega)]
        · rfl
    · rw [hother2 p hp, hother p hp]
      exact ⟨rfl, rfl, rfl⟩
  · rw [hff2, hff]
    split <;> rename_i h1
    · rfl
    · rw [if_neg (by omega)]
  · rw [hnp2, hnp]

/-- C14 (amended) at the example file, which has page 1 on its free list. -/
theorem insert_then_delete_restores_witness :
    Example.fh.HeapOK ∧ Example.fh.file_hdr_.first_free_page_no ≠ RM_NO_PAGE ∧
    ∃ fh2 c2, Example.fh.insert_then_delete [7, 0, 0, 0] none = some (fh2, c2) ∧
      fh2.file_hdr_.num_pages = Example.fh.file_hdr_.num_pages := by
  obtain ⟨fh2, c2, h1, _, _, h4⟩ :=
    insert_then_delete_restores Example.fh [7, 0, 0, 0] none Example.fh_heap_ok (by decide)
  exact ⟨Example.fh_heap_ok, by decide, fh2, c2, h1, h4⟩

/-- C15 (the claim as stated fails): slot 0 of page 1 of the example file has
its bitmap bit clear, and `get_record` of rid (1,0) returns the bytes of the slot. -/
theorem get_record_of_clear_slot_returns :
    (Example.fh.pages 1).body.bitmap 0 = false ∧
    Example.fh.get_record ⟨1, 0⟩ none = some [0, 0, 0, 0] :=
  ⟨by decide, by decide⟩

/-- C15 (amended): for every rid, whether the bitmap bit of the slot is set or
clear, `get_record(rid)` returns the `record_size` bytes stored in the slot. -/
theorem get_record_returns_slot_bytes (fh : RmFileHandle) (rid : Rid)
    (context : Option Context) :
    fh.get_record rid context
      = some (((fh.pages rid.page_no).body.slots rid.slot_no).take fh.file_hdr_.record_size) :=
  get_record_value fh rid context

end RmFileHandle

/-! ## Theorems: lock manager -/

namespace LockManager

/-- The table lock requests of a transaction whose isolation level is not
`READ_UNCOMMITTED`, whatever its state. If it does not hold the table lock yet,
`lock_shared_on_table` is granted exactly when the table is unlocked or held in
S mode, and `lock_exclusive_on_table` exactly when the table is unlocked. If it
holds the table in S mode, `lock_exclusive_on_table` is granted exactly when
the share count is at most 1, and then the mode is X. When a request is not
granted, lock table and lock set are unchanged. -/
theorem table_lock_requests (lm : LockManager) (txn : Transaction) (fd : Int)
    (hiso : txn.isolation_level_ ≠ .READ_UNCOMMITTED) :
    (LockDataId.table fd ∉ txn.lock_set_ →
      ((lm.lock_shared_on_table txn fd).1 = some true ↔
        (lm.lock_table_ (LockDataId.table fd) = none ∨
         ∃ st, lm.lock_table_ (LockDataId.table fd) = some st ∧ st.mode = .S)) ∧
      ((lm.lock_exclusive_on_table txn fd).1 = some true ↔
        lm.lock_table_ (LockDataId.table fd) = none)) ∧
    (∀ st, LockDataId.table fd ∈ txn.lock_set_ →
      lm.lock_table_ (LockDataId.table fd) = some st → st.mode = .S →
      ((lm.lock_exclusive_on_table txn fd).1 = some true ↔ st.shared_num ≤ 1) ∧
      ((lm.lock_exclusive_on_table txn fd).1 = some true →
        (lm.lock_exclusive_on_table txn fd).2.2.lock_table_ (LockDataId.table fd)
          = some { st with mode := .X })) ∧
    ((lm.lock_shared_on_table txn fd).1 ≠ some true →
      (lm.lock_shared_on_table txn fd).2.2.lock_table_ = lm.lock_table_ ∧
      (lm.lock_shared_on_table txn fd).2.1.lock_set_ = txn.lock_set_) ∧
    ((lm.lock_exclusive_on_table txn fd).1 ≠ some true →
      (lm.lock_exclusive_on_table txn fd).2.2.lock_table_ = lm.lock_table_ ∧
      (lm.lock_exclusive_on_table txn fd).2.1.lock_set_ = txn.lock_set_) := by
  refine ⟨?_, ?_, ?_, ?_⟩
  · intro hnot
    constructor
    · simp only [lock_shared_on_table, hiso, if_false, hnot]
      cases hl : lm.lock_table_ (LockDataId.table fd) with
      | none => simp
      | some st =>
        by_cases hm : st.mode = .S
        · simp [hm]
        · simp [hm]
    · simp only [lock_exclusive_on_table, hiso, if_false, hnot]
      cases hl : lm.lock_table_ (LockDataId.table fd) with
      | none => simp
      | some st => simp
  · intro st hmem hl hm
    simp only [lock_exclusive_on_table, hiso, if_false, hmem, if_true, hl, Option.getD_some, hm]
    by_cases hs : st.shared_num > 1
    · simp only [hs, if_true]
      constructor
      · constructor
        · intro h; simp at h
        · intro h; omega
      · intro h; simp at h
    · simp only [hs, if_false, true_iff]
      exact ⟨by omega, fun _ => by simp only [Function.update_same]⟩
  · intro hng
    simp only [lock_shared_on_table, hiso, if_false] at hng ⊢
    by_cases hmem : LockDataId.table fd ∈ txn.lock_set_
    · simp [hmem] at hng
    · simp only [hmem, if_false] at hng ⊢
      cases hl : lm.lock_table_ (LockDataId.table fd) with
      | none => simp [hl] at hng
      | some st =>
        by_cases hm : st.mode = .S
        · simp [hl, hm] at hng
        · simp [hm]
  · intro hng
    simp only [lock_exclusive_on_table, hiso, if_false] at hng ⊢
    by_cases hmem : LockDataId.table fd ∈ txn.lock_set_
    · simp only [hmem, if_true] at hng ⊢
      cases hl : lm.lock_table_ (LockDataId.table fd) with
      | none => simp [hl] at hng
      | some st =>
        simp only [hl, Option.getD_some] at hng ⊢
        by_cases hm : st.mode = .S
        · by_cases hs : st.shared_num > 1
          · simp only [hm, hs, if_true, and_true]
            funext id
            by_cases hid : id = LockDataId.table fd
            · rw [hid, Function.update_same, hl]
            · rw [Function.update_noteq hid]
          · simp [hm, hs] at hng
        · simp [hm] at hng
    · simp only [hmem, if_false] at hng ⊢
      cases hl : lm.lock_table_ (LockDataId.table fd) with
      | none => simp [hl] at hng
      | some st => simp

/-- C19 (evaluation at the failing input): the transaction has taken the shared
lock on table 3 and released it, so its state is `SHRINKING`. It then asks for a
lock on table 5: `lock_shared_on_table` and `lock_exclusive_on_table` both
return true, enter the lock into the lock table and the lock set, and set the
state back to `GROWING`. -/
theorem shrinking_transaction_is_granted :
    Example.after_unlock.1.state_ = .SHRINKING ∧
    (Example.after_unlock.2.lock_shared_on_table Example.after_unlock.1 5).1 = some true ∧
    (Example.after_unlock.2.lock_shared_on_table Example.after_unlock.1 5).2.1.state_
      = .GROWING ∧
    LockDataId.table 5 ∈
      (Example.after_unlock.2.lock_shared_on_table Example.after_unlock.1 5).2.1.lock_set_ ∧
    (Example.after_unlock.2.lock_shared_on_table Example.after_unlock.1 5).2.2.lock_table_
      (LockDataId.table 5) = some ⟨1, .S⟩ ∧
    (Example.after_unlock.2.lock_exclusive_on_table Example.after_unlock.1 5).1 = some true ∧
    (Example.after_unlock.2.lock_exclusive_on_table Example.after_unlock.1 5).2.1.state_
      = .GROWING ∧
    LockDataId.table 5 ∈
      (Example.after_unlock.2.lock_exclusive_on_table Example.after_unlock.1 5).2.1.lock_set_ ∧
    (Example.after_unlock.2.lock_exclusive_on_table Example.after_unlock.1 5).2.2.lock_table_
      (LockDataId.table 5) = some ⟨0, .X⟩ := by
  refine ⟨by decide, by decide, by decide, by decide, by decide, by decide, by decide,
    by decide, by decide⟩

end LockManager

/-! ## Theorems: insert operator -/

namespace InsertExecutor

/-- C20 (evaluation at the failing input): the table `w (a, b)` has a unique
index on `a` and one on `b` and holds the row `(1, 5)`. `INSERT (2, 5)` puts the
key 2 into the index on `a`; the index on `b` refuses the key 5; the statement
deletes the heap record again and throws. Afterwards the heap slot is free and
the index on `b` is as before, but the index on `a` still holds the entry of
the rejected row, pointing at the freed slot. -/
theorem rejected_insert_leaves_index_entry :
    Example.index_entries Example.w_sm "w_a" = some [([1], ⟨1, 0⟩)] ∧
    Example.index_entries Example.w_sm "w_b" = some [([5], ⟨1, 0⟩)] ∧
    Example.w_insert_dup.failed = true ∧
    Example.index_entries Example.w_insert_dup.state.1 "w_a"
      = some [([1], ⟨1, 0⟩), ([2], ⟨1, 1⟩)] ∧
    Example.index_entries Example.w_insert_dup.state.1 "w_b" = some [([5], ⟨1, 0⟩)] ∧
    (Example.w_insert_dup.state.1.fhs_ "w").map
      (fun fh => ((fh.pages 1).body.bitmap 1, (fh.pages 1).body.num_records))
      = some (false, 1) := by
  refine ⟨by decide, by decide, by decide, by decide, by decide, by decide⟩

end InsertExecutor

/-! ## Theorems: log records as bytes -/

namespace Serial

/-- Reading what was just copied gives it back. -/
theorem read_memcpy_same (d : Buf) (off : Nat) (src : List Nat) (n : Nat)
    (hn : n = src.length) : read (memcpy d off src) off n = src := by
  subst hn
  apply List.ext_getElem
  · simp [read]
  · intro i h1 h2
    simp only [read, List.getElem_map, List.getElem_range, memcpy]
    have : off ≤ off + i ∧ off + i < off + src.length := ⟨by omega, by omega⟩
    simp only [this, and_self, if_true, Nat.add_sub_cancel_left]
    exact (List.getD_eq_getElem _ _ h2)

/-- Reading at the place and of the length of what was copied gives it back. -/
theorem read_memcpy_at (d : Buf) (off : Nat) (src : List Nat) (off2 n : Nat)
    (ho : off2 = off) (hn : n = src.length) : read (memcpy d off src) off2 n = src := by
  subst ho
  exact read_memcpy_same d off2 src n hn

/-- `le_bytes w` gives `w` bytes. -/
theorem le_bytes_length (w v : Nat) : (le_bytes w v).length = w := by
  induction w generalizing v with
  | zero => rfl
  | succ k ih => simp [le_bytes, ih]

/-- The bytes of a number give back its low part. -/
theorem le_val_le_bytes (w v : Nat) : le_val (le_bytes w v) = v % 256 ^ w := by
  induction w generalizing v with
  | zero => simp [le_bytes, le_val, Nat.mod_one]
  | succ k ih =>
    simp only [le_bytes, le_val, ih]
    rw [pow_succ, Nat.mul_comm (256 ^ k) 256, Nat.mod_mul]

/-- An `int` read back from its four bytes is the same `int`. -/
theorem bytes_int_int_bytes (v : Int) (h : IsInt v) : bytes_int (int_bytes v) = v := by
  unfold bytes_int int_bytes
  rw [le_val_le_bytes]
  obtain ⟨h1, h2⟩ := h
  have e : (256 : Nat) ^ 4 = 4294967296 := by norm_num
  rw [e]
  have hm : (v % 4294967296).toNat % 4294967296 = (v % 4294967296).toNat := by
    apply Nat.mod_eq_of_lt
    omega
  rw [hm]
  split <;> omega

/-- Lengths of the encodings. -/
theorem int_bytes_length (v : Int) : (int_bytes v).length = 4 := le_bytes_length _ _

/-- Length of the encoding of a `uint32_t`. -/
theorem uint32_bytes_length (v : Nat) : (uint32_bytes v).length = 4 := le_bytes_length _ _

/-- C17 (evaluation at the failing input): an IndexPages record for the index
`i` with one page, id `(fd 7, page 3)`, and a file header of four bytes,
serialised into a zeroed buffer and read back into a fresh record. `serialize`
copies the page id and then the header length to the start of the buffer, over
the record type and the LSN, and leaves their places in the payload unwritten:
the record read back has type 4 (not 9, `INDEX_PAGE`), LSN 3 (not -1), page id
`(0, 0)` (not `(7, 3)`), header length 0 (not 4) and an empty file header. -/
theorem index_pages_roundtrip_fails :
    example_index_pages.log_type_ = 9 ∧
    example_index_pages.lsn_ = -1 ∧
    example_index_pages.page_ids = [⟨7, 3⟩] ∧
    example_index_pages.hdr_len = 4 ∧
    example_index_pages.file_hdr = some [1, 2, 3, 4] ∧
    example_index_pages_back.map (fun r => r.log_type_) = some 4 ∧
    example_index_pages_back.map (fun r => r.lsn_) = some 3 ∧
    example_index_pages_back.map (fun r => r.idx_name) = some [105] ∧
    example_index_pages_back.map (fun r => r.page_ids) = some [⟨0, 0⟩] ∧
    example_index_pages_back.map (fun r => r.pages) = some [[9, 9]] ∧
    example_index_pages_back.map (fun r => r.hdr_len) = some 0 ∧
    example_index_pages_back.map (fun r => r.file_hdr) = some (some []) := by
  refine ⟨by decide, by decide, by decide, by decide, by decide, by decide, by decide,
    by decide, by decide, by decide, by decide, by decide⟩

end Serial

/-! ## Theorems: values -/

namespace Value

/-- C21: for every string value `s` (a value set with a string, its raw buffer
not made yet, the string shorter than 2^31 bytes) and every column length
`len`: `init_raw(len)` throws `StringOverflowError` exactly when `|s| > len`;
otherwise it returns with a raw buffer of exactly `len` bytes, the bytes of `s`
followed by `len - |s|` zero bytes. -/
theorem init_raw_string (v : Value) (len : Nat)
    (htype : v.type = .TYPE_STRING ∨ v.type = .TYPE_DATETIME) (hraw : v.raw = none)
    (hsize : v.str_val.length < 2147483648) :
    (v.init_raw len = .string_overflow ↔ v.str_val.length > len) ∧
    (¬ v.str_val.length > len →
      v.init_raw len
        = .done { v with raw := some (v.str_val ++ List.replicate (len - v.str_val.length) 0) } ∧
      (v.str_val ++ List.replicate (len - v.str_val.length) 0).length = len) := by
  have hcast : to_int32 v.str_val.length = (v.str_val.length : Int) := by
    unfold to_int32
    have : v.str_val.length % 4294967296 = v.str_val.length := Nat.mod_eq_of_lt (by omega)
    rw [this, if_pos hsize]
  have hlen : ¬ v.str_val.length > len →
      (v.str_val ++ List.replicate (len - v.str_val.length) 0).length = len := by
    intro h
    simp only [List.length_append, List.length_replicate]
    omega
  have key : v.init_raw len =
      if (len : Int) < (v.str_val.length : Int) then .string_overflow
      else .done { v with raw := some (v.str_val ++ List.replicate (len - v.str_val.length) 0) } := by
    unfold init_raw
    rw [hraw]
    simp only [Option.isSome_none, Bool.false_eq_true, if_false]
    have htake : ¬ ((len : Int) < (v.str_val.length : Int)) →
        (v.str_val ++ List.replicate (len - v.str_val.length) 0).take len
          = v.str_val ++ List.replicate (len - v.str_val.length) 0 := by
      intro h
      apply List.take_of_length_le
      rw [hlen (by omega)]
    rcases htype with ht | ht <;> rw [ht] <;> simp only [hcast] <;> split
    · rfl
    · rename_i h; rw [htake h]
    · rfl
    · rename_i h; rw [htake h]
  constructor
  · rw [key]
    constructor
    · intro h
      split at h
      · rename_i h1; omega
      · cases h
    · intro h
      rw [if_pos (by omega)]
  · intro h
    refine ⟨?_, hlen h⟩
    rw [key, if_neg (by omega)]

/-- C21 at the string `ab` and a column of four bytes. -/
theorem init_raw_string_witness :
    (of_str [97, 98]).type = .TYPE_STRING ∧
    ((of_str [97, 98]).init_raw 4 = .string_overflow ↔ (of_str [97, 98]).str_val.length > 4) :=
  ⟨rfl, (init_raw_string (of_str [97, 98]) 4 (Or.inl rfl) rfl (by decide)).1⟩

end Value

/-- `std::stoi` of a short string of digits is the number they stand for. -/
theorem stoi_digits (ds : List Nat) (hd : ∀ c ∈ ds, is_digit c = true) (hne : ds ≠ [])
    (hlen : ds.length ≤ 4) : stoi ds = some (decimal ds : Int) := by
  have hbound : ∀ (l : List Nat) (acc : Nat), (∀ c ∈ l, is_digit c = true) →
      l.foldl (fun acc c => acc * 10 + (c - 48)) acc < (acc + 1) * 10 ^ l.length := by
    intro l
    induction l with
    | nil => intro acc _; simp
    | cons c r ih =>
      intro acc h
      have hc := h c (List.mem_cons_self _ _)
      simp only [is_digit, Bool.and_eq_true, decide_eq_true_eq] at hc
      have := ih (acc * 10 + (c - 48)) (fun x hx => h x (List.mem_cons_of_mem _ hx))
      simp only [List.foldl_cons, List.length_cons, pow_succ]
      calc _ < (acc * 10 + (c - 48) + 1) * 10 ^ r.length := this
        _ ≤ ((acc + 1) * 10) * 10 ^ r.length := by
            apply Nat.mul_le_mul_right
            omega
        _ = (acc + 1) * (10 ^ r.length * 10) := by ring
  have hsmall : decimal ds < 10000 := by
    have h1 := hbound ds 0 hd
    have h2 : 10 ^ ds.length ≤ 10 ^ 4 := Nat.pow_le_pow_right (by norm_num) hlen
    unfold decimal
    omega
  obtain ⟨c, r, rfl⟩ := List.exists_cons_of_ne_nil hne
  have hc := hd c (List.mem_cons_self _ _)
  have hcd : 48 ≤ c ∧ c ≤ 57 := by
    simpa [is_digit] using hc
  have hsp : is_space c = false := by
    simp only [is_space, Bool.or_eq_false_iff, beq_eq_false_iff_ne, Bool.and_eq_false_iff,
      decide_eq_false_iff_not]
    omega
  have h45 : c ≠ 45 := by omega
  have h43 : c ≠ 43 := by omega
  have htw : (c :: r).takeWhile is_digit = c :: r :=
    List.takeWhile_eq_self_iff.mpr hd
  unfold stoi
  simp only [List.dropWhile_cons, hsp, Bool.false_eq_true, if_false, List.head?_cons,
    Option.some.injEq, h45, h43, or_self, htw, reduceCtorEq]
  rw [if_neg (by omega)]

namespace Value

/-- C23 (the claim as stated fails): `2023/01/01T00:00:00` has `/` and `T` in the
places of `-` and the space, and `is_valid_datetime` returns true;
`abcd-01-01 00:00:00` makes `std::stoi` throw, so `is_valid_datetime` throws. -/
theorem is_valid_datetime_ignores_separators :
    example_slashes.str_val.getD 4 0 ≠ 45 ∧ example_slashes.str_val.getD 10 0 ≠ 32 ∧
    example_slashes.is_valid_datetime = some true ∧
    example_letters.is_valid_datetime = none := by
  refine ⟨by decide, by decide, by decide, by decide⟩

/-- A field of a string of 19 characters is a short, non-empty string. -/
theorem substr_length (s : List Nat) (pos n : Nat) (h : pos + n ≤ s.length) :
    (substr s pos n).length = n := by
  simp only [substr, List.length_take, List.length_drop]
  omega

/-- C23 (amended): `is_valid_datetime` returns false for every string whose
length is not 19. For a string of 19 characters whose six numeric fields
(positions 0-3, 5-6, 8-9, 11-12, 14-15, 17-18) consist of digits, whatever
stands at positions 4, 7, 10, 13 and 16, it does not throw and returns true if
and only if the year is in 1000..9999, the month in 1..12, the day between 1 and
the number of days of that month in that year (Gregorian leap-year rule), the
hour in 0..23, the minute in 0..59 and the second in 0..59. -/
theorem is_valid_datetime_of_digit_fields (v : Value) :
    (v.str_val.length ≠ 19 → v.is_valid_datetime = some false) ∧
    (v.str_val.length = 19 → fields_are_digits v.str_val →
      v.is_valid_datetime = some (fields_in_range v.str_val)) := by
  constructor
  · intro h
    simp [is_valid_datetime, h]
  · intro hlen hdig
    have f : ∀ pos n, pos + n ≤ 19 → 0 < n → n ≤ 4 →
        (∀ c ∈ substr v.str_val pos n, is_digit c = true) →
        stoi (substr v.str_val pos n) = some (decimal (substr v.str_val pos n) : Int) := by
      intro pos n h1 h2 h3 h4
      have hl := substr_length v.str_val pos n (by omega)
      apply stoi_digits _ h4
      · intro he
        rw [he] at hl
        simp at hl
        omega
      · omega
    have e1 := f 0 4 (by omega) (by omega) (by omega) (fun c hc => hdig c (Or.inl hc))
    have e2 := f 5 2 (by omega) (by omega) (by omega)
      (fun c hc => hdig c (Or.inr (Or.inl hc)))
    have e3 := f 8 2 (by omega) (by omega) (by omega)
      (fun c hc => hdig c (Or.inr (Or.inr (Or.inl hc))))
    have e4 := f 11 2 (by omega) (by omega) (by omega)
      (fun c hc => hdig c (Or.inr (Or.inr (Or.inr (Or.inl hc)))))
    have e5 := f 14 2 (by omega) (by omega) (by omega)
      (fun c hc => hdig c (Or.inr (Or.inr (Or.inr (Or.inr (Or.inl hc))))))
    have e6 := f 17 2 (by omega) (by omega) (by omega)
      (fun c hc => hdig c (Or.inr (Or.inr (Or.inr (Or.inr (Or.inr hc))))))
    simp only [is_valid_datetime, hlen, ne_eq, not_true_eq_false, if_false, e1, e2, e3, e4, e5,
      e6, fields_in_range, days_in_month]
    generalize decimal (substr v.str_val 0 4) = y
    generalize decimal (substr v.str_val 5 2) = m
    generalize decimal (substr v.str_val 8 2) = d
    generalize decimal (substr v.str_val 11 2) = h
    generalize decimal (substr v.str_val 14 2) = mi
    generalize decimal (substr v.str_val 17 2) = se
    split_ifs <;> simp only [Option.some.injEq] <;> symm <;>
      first
        | (rw [decide_eq_false_iff_not]; omega)
        | (rw [decide_eq_true_iff]; omega)

/-- C23 (amended) at the string `2024-02-29 23:59:59`. -/
theorem is_valid_datetime_of_digit_fields_witness :
    example_leap_day.str_val.length = 19 ∧ fields_are_digits example_leap_day.str_val ∧
    example_leap_day.is_valid_datetime = some (fields_in_range example_leap_day.str_val) := by
  have hd : fields_are_digits example_leap_day.str_val := by
    intro c hc
    simp only [example_leap_day, of_str, substr, List.drop, List.take, List.mem_cons,
      List.mem_singleton, List.not_mem_nil, or_false] at hc
    have hr : 48 ≤ c ∧ c ≤ 57 := by omega
    simp [is_digit, hr]
  exact ⟨rfl, hd, (is_valid_datetime_of_digit_fields example_leap_day).2 rfl hd⟩

end Value

namespace UpdateExecutor

/-- C22 (evaluation at the failing input): the table `c` has one column
`s CHAR(2)` and a record `xy`. `INSERT` of the value `abc` fails with
`StringOverflowError` (`init_raw`), but `UPDATE c SET s = 'abc'` does not fail:
the new record is `ab`. `INSERT` of `a` stores `a` followed by a zero byte;
`UPDATE c SET s = 'a'` stores `a` followed by the byte that lies behind the
one-byte array of `to_bytes` (here 7). -/
theorem update_skips_overflow_check_and_padding :
    (Value.of_str [97, 98, 99]).init_raw 2 = .string_overflow ∧
    apply_set_clause Example.c_tab [] [120, 121] Example.set_abc
      = .done [97, 98] Example.set_abc ∧
    (Value.of_str [97]).init_raw 2
      = .done { Value.of_str [97] with raw := some [97, 0] } ∧
    apply_set_clause Example.c_tab [7] [120, 121] Example.set_a
      = .done [97, 7] Example.set_a := by
  refine ⟨by decide, by decide, by decide, by decide⟩

end UpdateExecutor

/-! ## Theorems: update and abort -/

namespace TransactionManager

/-- When the index loop of the update operator returns, it has left the catalog,
the heap files and the write set alone, and every index of the list is open. -/
theorem update_index_entries_frame (fc : FloatCompare) (t : String)
    (old_rec new_rec : List Nat) (rid : Rid) (ixs : List IndexMeta) :
    ∀ (sm sm1 : SmManager) (c c1 : Context),
      UpdateExecutor.update_index_entries fc t old_rec new_rec rid ixs sm c = some (sm1, c1) →
      sm1.fhs_ = sm.fhs_ ∧ sm1.tabs_ = sm.tabs_ ∧
      c1.txn_.write_set_ = c.txn_.write_set_ ∧
      (∀ n, (sm.ihs_ n).isSome → (sm1.ihs_ n).isSome) ∧
      (∀ ix ∈ ixs, (sm1.ihs_ (get_index_name t ix.cols)).isSome) := by
  induction ixs with
  | nil =>
    intro sm sm1 c c1 h
    simp only [UpdateExecutor.update_index_entries, Option.some.injEq, Prod.mk.injEq] at h
    obtain ⟨rfl, rfl⟩ := h
    exact ⟨rfl, rfl, rfl, fun _ h => h, fun _ h => by cases h⟩
  | cons ix rest ihr =>
    intro sm sm1 c c1 h
    simp only [UpdateExecutor.update_index_entries] at h
    cases hh : sm.ihs_ (get_index_name t ix.cols) with
    | none => rw [hh] at h; cases h
    | some ih =>
      rw [hh] at h
      simp only at h
      by_cases hs : strcmp_eq (InsertExecutor.key_of ix old_rec)
          (InsertExecutor.key_of ix new_rec) = true
      · simp only [hs, if_true] at h
        obtain ⟨a1, a2, a3, a4, a5⟩ := ihr _ _ _ _ h
        refine ⟨a1, a2, a3, a4, ?_⟩
        intro ix1 hix1
        rcases List.mem_cons.mp hix1 with rfl | hr
        · exact a4 _ (by rw [hh]; rfl)
        · exact a5 _ hr
      · simp only [hs, Bool.false_eq_true, if_false] at h
        obtain ⟨c2, hc2, hw2⟩ := insert_entry_write_set ih (get_index_name t ix.cols)
          (InsertExecutor.key_of ix new_rec) rid c
        rcases hie : ih.insert_entry (get_index_name t ix.cols)
          (InsertExecutor.key_of ix new_rec) rid (some c) with ⟨b, ih1, oc⟩
        rw [hie] at h hc2
        simp only at hc2
        subst hc2
        cases b with
        | false => simp at h
        | true =>
          simp only at h
          obtain ⟨c3, hc3, hw3⟩ := delete_entry_write_set ih1 (get_index_name t ix.cols)
            (InsertExecutor.key_of ix old_rec) c2
          rcases hde : ih1.delete_entry (get_index_name t ix.cols)
            (InsertExecutor.key_of ix old_rec) (some c2) with ⟨b2, ih2, oc2⟩
          rw [hde] at h hc3
          simp only at hc3
          subst hc3
          simp only at h
          split_ifs at h
          obtain ⟨a1, a2, a3, a4, a5⟩ := ihr _ _ _ _ h
          have hkeep : ∀ n, (sm.ihs_ n).isSome →
              (Function.update sm.ihs_ (get_index_name t ix.cols) (some ih2) n).isSome := by
            intro n hn
            by_cases hne : n = get_index_name t ix.cols
            · subst hne; simp
            · rw [Function.update_noteq hne]; exact hn
          refine ⟨a1, a2, a3.trans (hw3.trans hw2), fun n hn => a4 n (hkeep n hn), ?_⟩
          intro ix1 hix1
          rcases List.mem_cons.mp hix1 with rfl | hr
          · exact a4 _ (by simp)
          · exact a5 _ hr

/-- The index loop of `rollback_update` returns when every index of the list is
open, and leaves the catalog and the heap files alone. -/
theorem swap_entries_returns (t : String) (cur old_image : List Nat) (rid : Rid)
    (ixs : List IndexMeta) :
    ∀ (sm : SmManager) (ctx : Option Context),
      (∀ ix ∈ ixs, (sm.ihs_ (get_index_name t ix.cols)).isSome) →
      ∃ sm1 ctx1, SmManager.swap_entries t cur old_image rid ixs sm ctx = some (sm1, ctx1) ∧
        sm1.fhs_ = sm.fhs_ ∧ sm1.tabs_ = sm.tabs_ := by
  induction ixs with
  | nil =>
    intro sm ctx _
    exact ⟨sm, ctx, rfl, rfl, rfl⟩
  | cons ix rest ihr =>
    intro sm ctx hopen
    simp only [SmManager.swap_entries]
    by_cases hs : strcmp_eq (make_key ix cur) (make_key ix old_image) = true
    · simp only [hs, if_true]
      exact ihr sm ctx (fun ix1 h1 => hopen ix1 (List.mem_cons_of_mem _ h1))
    · simp only [hs, Bool.false_eq_true, if_false]
      have h0 := hopen ix (List.mem_cons_self _ _)
      cases hh : sm.ihs_ (get_index_name t ix.cols) with
      | none => rw [hh] at h0; cases h0
      | some ih =>
        simp only
        refine ihr _ _ ?_
        intro ix1 h1
        simp only
        by_cases hne : get_index_name t ix1.cols = get_index_name t ix.cols
        · rw [hne]; simp
        · rw [Function.update_noteq hne]
          exact hopen ix1 (List.mem_cons_of_mem _ h1)

/-- What `update_record` stores: the slot holds the first `record_size` bytes of
the buffer, the header and the page headers are as before. -/
theorem update_record_slot (fh : RmFileHandle) (rid : Rid) (buf : List Nat) (c : Context) :
    ∃ fh1 c1, fh.update_record rid buf (some c) = some (fh1, some c1) ∧
      c1.txn_.write_set_ = c.txn_.write_set_ ∧
      fh1.file_hdr_ = fh.file_hdr_ ∧
      (fh1.pages rid.page_no).body.slots rid.slot_no = buf.take fh.file_hdr_.record_size ∧
      ∀ p, (fh1.pages p).body.bitmap = (fh.pages p).body.bitmap ∧
        (fh1.pages p).body.num_records = (fh.pages p).body.num_records ∧
        (fh1.pages p).body.next_free_page_no = (fh.pages p).body.next_free_page_no := by
  simp only [RmFileHandle.update_record, LockManager.lock_exclusive_on_record, Bool.not_true,
    Bool.false_eq_true, if_false]
  refine ⟨_, _, rfl, rfl, rfl, ?_, ?_⟩
  · simp only [Function.update_same]
  · intro p
    by_cases hp : p = rid.page_no
    · subst hp; simp only [Function.update_same, and_self]
    · simp only [Function.update_noteq hp, and_self]

/-- `rollback_update` on an open table whose indexes are open returns; the slot
then holds the old image, and the file header, the bitmaps, the record counts
and the free-list links are as before. -/
theorem rollback_update_restores (sm : SmManager) (t : String) (tab : TabMeta)
    (fh : RmFileHandle) (rid : Rid) (record : List Nat) (c : Context)
    (htab : sm.tabs_ t = some tab) (hfh : sm.fhs_ t = some fh)
    (hopen : ∀ ix ∈ tab.indexes, (sm.ihs_ (get_index_name t ix.cols)).isSome) :
    ∃ sm1 c1 fh1, sm.rollback_update t rid record (some c) = some (sm1, some c1) ∧
      c1.txn_.write_set_ = c.txn_.write_set_ ∧
      sm1.fhs_ t = some fh1 ∧
      fh1.file_hdr_ = fh.file_hdr_ ∧
      (fh1.pages rid.page_no).body.slots rid.slot_no = record.take fh.file_hdr_.record_size ∧
      ∀ p, (fh1.pages p).body.bitmap = (fh.pages p).body.bitmap ∧
        (fh1.pages p).body.num_records = (fh.pages p).body.num_records ∧
        (fh1.pages p).body.next_free_page_no = (fh.pages p).body.next_free_page_no := by
  have hget : fh.get_record rid (some c)
      = some (((fh.pages rid.page_no).body.slots rid.slot_no).take fh.file_hdr_.record_size) := by
    simp [RmFileHandle.get_record, LockManager.lock_shared_on_record]
  obtain ⟨sm1, ctx1, hswap, hf1, _⟩ := swap_entries_returns t
    (((fh.pages rid.page_no).body.slots rid.slot_no).take fh.file_hdr_.record_size)
    record rid tab.indexes sm (some c) hopen
  obtain ⟨c1, rfl, hw1⟩ := swap_entries_write_set _ _ _ _ _ _ _ _ _ hswap
  obtain ⟨c2, hc2, hw2⟩ := ctx_add_idx_log_write_set c1
  obtain ⟨fh2, c3, hupd, hw3, hh, hslot, hrest⟩ := update_record_slot fh rid record c2
  refine ⟨sm1.set_fh t fh2, c3, fh2, ?_, hw3.trans (hw2.trans hw1), ?_, hh, hslot, hrest⟩
  · unfold SmManager.rollback_update
    simp only [htab, hfh, hget, hswap, hc2, hf1, hupd]
  · simp [SmManager.set_fh]

/-- The loop of `abort` on an empty write set returns at once. -/
theorem abort_loop_empty (lsns : List Int) (fuel : Nat) (sm : SmManager) (c : Context)
    (h : c.txn_.write_set_ = []) : abort_loop lsns fuel sm c = .done (sm, c) := by
  unfold abort_loop
  simp [h]

/-- Aborting a transaction whose write set is one `UPDATE_TUPLE` entry returns;
afterwards the slot of the entry holds the old image kept in the entry, and the
file header, the bitmaps, the record counts and the free-list links of the table
are as before the abort. -/
theorem abort_single_update (fuel : Nat) (db : Database) (txn : Transaction) (w : WriteRecord)
    (tab : TabMeta) (fh : RmFileHandle)
    (hw : txn.write_set_ = [w]) (hty : w.wtype_ = .UPDATE_TUPLE)
    (htab : db.sm_manager_.tabs_ w.tab_name_ = some tab)
    (hfh : db.sm_manager_.fhs_ w.tab_name_ = some fh)
    (hopen : ∀ ix ∈ tab.indexes,
      (db.sm_manager_.ihs_ (get_index_name w.tab_name_ ix.cols)).isSome)
    (hfuel : 0 < fuel) :
    ∃ db2 txn2 fh2, abort fuel db txn = .done (db2, txn2) ∧
      db2.sm_manager_.fhs_ w.tab_name_ = some fh2 ∧
      fh2.file_hdr_ = fh.file_hdr_ ∧
      (fh2.pages w.rid_.page_no).body.slots w.rid_.slot_no
        = w.record_.take fh.file_hdr_.record_size ∧
      ∀ p, (fh2.pages p).body.bitmap = (fh.pages p).body.bitmap ∧
        (fh2.pages p).body.num_records = (fh.pages p).body.num_records ∧
        (fh2.pages p).body.next_free_page_no = (fh.pages p).body.next_free_page_no := by
  obtain ⟨f, rfl⟩ : ∃ f, fuel = f + 1 := ⟨fuel - 1, by omega⟩
  have hctx : (abort_context db txn).txn_.write_set_ = [w] := by
    simp only [abort_context]
    rw [(add_idx_log_fields _ _).2.1, hw]
  obtain ⟨sm1, c1, fh1, hroll, hw1, hf1, hh1, hs1, hr1⟩ := rollback_update_restores
    db.sm_manager_ w.tab_name_ tab fh w.rid_ w.record_
    { abort_context db txn with
        txn_ := { (abort_context db txn).txn_ with write_set_ := [] } } htab hfh hopen
  have hloop : ∃ c4, abort_loop [w.lsn_] (f + 1) db.sm_manager_ (abort_context db txn)
      = .done (sm1, c4) := by
    unfold abort_loop
    simp only [hctx, List.getLast?_singleton, List.dropLast_single]
    unfold abort_step rollback_item
    simp only [hty, hroll]
    exact ⟨_, abort_loop_empty _ _ _ _ (by
      simp only
      rw [(add_idx_log_fields _ _).2.1, add_undo_log_write_set, hw1])⟩
  obtain ⟨c4, hl⟩ := hloop
  refine ⟨(abort_finish sm1 c4).1, (abort_finish sm1 c4).2, fh1, ?_, hf1, hh1, hs1, hr1⟩
  unfold abort
  simp only [hctx, List.map_cons, List.map_nil, hl]

/-- C24: for every database, transaction that has written nothing yet, open
table `t` with heap file `fh`, rid of an occupied slot and new record image:
when the update operator has stored the new image at `rid` (index entries moved
and the two asserts of the index loop passed, record overwritten, log record
and write-set entry added) and the transaction is then aborted, `abort`
returns, and in the heap file of `t` afterwards `get_record(rid)` gives the
bytes it gave before the update, and the file header (with the head of the free
list), every page's bitmap, record count and free-list link are as before the
update. -/
theorem update_then_abort_restores (fc : FloatCompare) (fuel : Nat) (db : Database)
    (txn : Transaction) (tab : TabMeta) (t : String) (fh : RmFileHandle) (rid : Rid)
    (new_rec : List Nat) (sm1 : SmManager) (c1 : Context)
    (htab : db.sm_manager_.tabs_ t = some tab) (hfh : db.sm_manager_.fhs_ t = some fh)
    (_ : fh.occupied rid)
    (hws : txn.write_set_ = [])
    (hupd : UpdateExecutor.update_rid fc db.sm_manager_ tab t rid new_rec
      { lock_mgr_ := db.lock_manager_, log_mgr_ := db.log_manager_, txn_ := txn }
        = some (sm1, c1))
    (hfuel : 0 < fuel) :
    ∃ db2 txn2 fh2,
      abort fuel { sm_manager_ := sm1, lock_manager_ := c1.lock_mgr_,
                   log_manager_ := c1.log_mgr_ } c1.txn_ = .done (db2, txn2) ∧
      db2.sm_manager_.fhs_ t = some fh2 ∧
      fh2.get_record rid none = fh.get_record rid none ∧
      fh2.file_hdr_ = fh.file_hdr_ ∧
      ∀ p, (fh2.pages p).body.bitmap = (fh.pages p).body.bitmap ∧
        (fh2.pages p).body.num_records = (fh.pages p).body.num_records ∧
        (fh2.pages p).body.next_free_page_no = (fh.pages p).body.next_free_page_no := by
  have hget : fh.get_record rid none
      = some (((fh.pages rid.page_no).body.slots rid.slot_no).take fh.file_hdr_.record_size) := by
    simp [RmFileHandle.get_record]
  unfold UpdateExecutor.update_rid at hupd
  rw [hfh] at hupd
  simp only [hget] at hupd
  cases hix : UpdateExecutor.update_index_entries fc t
      (((fh.pages rid.page_no).body.slots rid.slot_no).take fh.file_hdr_.record_size)
      new_rec rid tab.indexes db.sm_manager_
      { lock_mgr_ := db.lock_manager_, log_mgr_ := db.log_manager_, txn_ := txn } with
  | none => rw [hix] at hupd; cases hupd
  | some p =>
    obtain ⟨smi, ci⟩ := p
    rw [hix] at hupd
    obtain ⟨a1, a2, a3, _, a5⟩ := update_index_entries_frame _ _ _ _ _ _ _ _ _ _ hix
    obtain ⟨fh1, c2, hu, hw2, hh1, _, hrest1⟩ := update_record_slot fh rid new_rec ci
    simp only [hu, Option.some.injEq, Prod.mk.injEq] at hupd
    obtain ⟨rfl, rfl⟩ := hupd
    generalize c2.log_mgr_.add_log_to_buffer
      (UpdateLogRecord c2.txn_.txn_id_ c2.txn_.prev_lsn_ new_rec
        (((fh.pages rid.page_no).body.slots rid.slot_no).take fh.file_hdr_.record_size)
        rid t) = L
    obtain ⟨db2, txn2, fh2, hab, hf2, hh2, hs2, hr2⟩ := abort_single_update fuel
      { sm_manager_ := smi.set_fh t fh1, lock_manager_ := c2.lock_mgr_, log_manager_ := L.2 }
      (Transaction.append_write_record { c2.txn_ with prev_lsn_ := L.1 }
        { wtype_ := .UPDATE_TUPLE, tab_name_ := t, rid_ := rid,
          record_ := ((fh.pages rid.page_no).body.slots rid.slot_no).take
            fh.file_hdr_.record_size,
          col_names_ := [], lsn_ := L.1 })
      { wtype_ := .UPDATE_TUPLE, tab_name_ := t, rid_ := rid,
        record_ := ((fh.pages rid.page_no).body.slots rid.slot_no).take
          fh.file_hdr_.record_size,
        col_names_ := [], lsn_ := L.1 }
      tab fh1
      (by show c2.txn_.write_set_ ++ [_] = [_]
          rw [hw2, a3.trans hws]; rfl)
      rfl
      (by simp only [SmManager.set_fh]; rw [a2]; exact htab)
      (by simp [SmManager.set_fh])
      (fun ix hx => a5 ix hx)
      hfuel
    refine ⟨db2, txn2, fh2, hab, hf2, ?_, hh2.trans hh1, ?_⟩
    · simp only [RmFileHandle.get_record, Bool.false_eq_true, if_false, Option.some.injEq]
      rw [hs2, hh2, hh1]
      simp only [List.take_take, Nat.min_self]
    · intro p
      obtain ⟨b1, b2, b3⟩ := hr2 p
      obtain ⟨d1, d2, d3⟩ := hrest1 p
      exact ⟨b1.trans d1, b2.trans d2, b3.trans d3⟩

/-- C24 on the table `z (a INT)` with an index on `a` and the one record 5 at
rid (1,0): the update to 3 changes the key, so the index loop inserts the key 3,
deletes the key 5 and passes its two asserts, and the record becomes 3. The
abort that follows returns with the record 5 at rid (1,0) again. -/
theorem update_then_abort_restores_witness :
    Example.z_db.sm_manager_.fhs_ "z" = some (Example.z_fh 5) ∧
    (Example.z_fh 5).occupied ⟨1, 0⟩ ∧
    strcmp_eq (InsertExecutor.key_of Example.z_index (Serial.int_bytes 5))
      (InsertExecutor.key_of Example.z_index (Serial.int_bytes 3)) = false ∧
    Example.z_view Example.z_updated.1
      = (some [(Serial.int_bytes 3, ⟨1, 0⟩)], some (Serial.int_bytes 3)) ∧
    (Example.z_fh 5).get_record ⟨1, 0⟩ none = some (Serial.int_bytes 5) ∧
    ∃ db2 txn2 fh2,
      abort 1 { sm_manager_ := Example.z_updated.1,
                lock_manager_ := Example.z_updated.2.lock_mgr_,
                log_manager_ := Example.z_updated.2.log_mgr_ } Example.z_updated.2.txn_
        = .done (db2, txn2) ∧
      db2.sm_manager_.fhs_ "z" = some fh2 ∧
      fh2.get_record ⟨1, 0⟩ none = (Example.z_fh 5).get_record ⟨1, 0⟩ none ∧
      fh2.file_hdr_ = (Example.z_fh 5).file_hdr_ ∧
      ∀ p, (fh2.pages p).body.bitmap = ((Example.z_fh 5).pages p).body.bitmap ∧
        (fh2.pages p).body.num_records = ((Example.z_fh 5).pages p).body.num_records ∧
        (fh2.pages p).body.next_free_page_no
          = ((Example.z_fh 5).pages p).body.next_free_page_no :=
  ⟨rfl, by decide, by decide, by decide, by decide,
   update_then_abort_restores Example.no_float_order 1 Example.z_db (new_transaction 1)
    Example.z_tab "z" (Example.z_fh 5) ⟨1, 0⟩ (Serial.int_bytes 3) Example.z_updated.1
    Example.z_updated.2 rfl rfl (by decide) rfl rfl (by decide)⟩

end TransactionManager

/-! ## Theorems: heap files that have only received inserts -/

/-- On a bitmap whose set bits are the first `k` of `n`, `first_bit(false, …)` is `k`. -/
theorem Bitmap.first_bit_initial (bm : Int → Bool) (k : Nat) :
    ∀ n : Nat, k < n → (∀ i : Nat, i < n → (bm (Int.ofNat i) = true ↔ i < k)) →
      Bitmap.first_bit false bm n = Int.ofNat k := by
  have key : ∀ n : Nat, k < n → (∀ i : Nat, i < n → (bm (Int.ofNat i) = true ↔ i < k)) →
      (List.range n).find? (fun i => bm (Int.ofNat i) == false) = some k := by
    intro n
    induction n with
    | zero => intro h; omega
    | succ m ih =>
      intro hk h
      rw [List.range_succ, List.find?_append]
      by_cases hkm : k < m
      · rw [ih hkm (fun i hi => h i (by omega))]
        rfl
      · have hkm2 : k = m := by omega
        subst hkm2
        have hnone : (List.range k).find? (fun i => bm (Int.ofNat i) == false) = none := by
          rw [List.find?_eq_none]
          intro i hi
          have hi2 := List.mem_range.mp hi
          have := (h i (by omega)).mpr hi2
          show ¬ ((bm (Int.ofNat i) == false) = true)
          rw [this]
          decide
        have hlast : bm (Int.ofNat k) = false := by
          have := (h k (by omega))
          cases hb : bm (Int.ofNat k) with
          | false => rfl
          | true => exact absurd (this.mp hb) (lt_irrefl _)
        rw [hnone, List.find?_cons_of_pos _ (by rw [hlast]; rfl)]
        rfl
  intro n hk h
  unfold Bitmap.first_bit
  rw [key n hk h]

/-- Filtering the first `n` numbers by a test that holds exactly below `k` gives
the first `k` numbers. -/
theorem filter_range_initial (f : Nat → Bool) :
    ∀ (n k : Nat), k ≤ n → (∀ i : Nat, i < n → (f i = true ↔ i < k)) →
      (List.range n).filter f = List.range k := by
  intro n
  induction n with
  | zero =>
    intro k hk _
    have : k = 0 := by omega
    subst this
    rfl
  | succ m ih =>
    intro k hk h
    rw [List.range_succ, List.filter_append]
    by_cases hkm : k ≤ m
    · rw [ih k hkm (fun i hi => h i (by omega))]
      have hm : f m = false := by
        cases hb : f m with
        | false => rfl
        | true => have := (h m (by omega)).mp hb; omega
      simp [hm]
    · have hkm2 : k = m + 1 := by omega
      subst hkm2
      rw [ih m (le_refl _) (fun i hi => by
        have := h i (by omega)
        constructor
        · intro _; exact hi
        · intro _; exact this.mpr (by omega))]
      have hm : f m = true := (h m (by omega)).mpr (by omega)
      simp [hm, List.range_succ]

namespace RmFileHandle

/-- The scan visits the data pages in order, each page's set bits in order. -/
theorem RmScan_eq (fh : RmFileHandle) :
    RmScan fh = ((List.range (fh.file_hdr_.num_pages.toNat - 1)).map
      (fun i => Int.ofNat (i + 1))).flatMap (fun page_no => fh.page_rids page_no) := rfl

/-- The scan of a file with a data page: the pages before the last one, then the
last one. -/
theorem RmScan_last (fh : RmFileHandle) (h : 2 ≤ fh.file_hdr_.num_pages) :
    RmScan fh = ((List.range (fh.file_hdr_.num_pages.toNat - 2)).map
      (fun i => Int.ofNat (i + 1))).flatMap (fun page_no => fh.page_rids page_no)
      ++ fh.page_rids (fh.file_hdr_.num_pages - 1) := by
  rw [RmScan_eq]
  obtain ⟨m, hm⟩ : ∃ m : Nat, fh.file_hdr_.num_pages = Int.ofNat (m + 2) :=
    ⟨(fh.file_hdr_.num_pages - 2).toNat, by simp only [Int.ofNat_eq_coe]; omega⟩
  rw [hm]
  have e1 : (Int.ofNat (m + 2)).toNat - 1 = m + 1 := by
    show m + 2 - 1 = m + 1
    omega
  have e2 : (Int.ofNat (m + 2)).toNat - 2 = m := by
    show m + 2 - 2 = m
    omega
  have e3 : Int.ofNat (m + 2) - 1 = Int.ofNat (m + 1) := by
    simp only [Int.ofNat_eq_coe]; omega
  rw [e1, e2, e3, List.range_succ, List.map_append, List.flatMap_append]
  simp

/-- Two functions that agree on the elements of a list give the same `flatMap`. -/
theorem flatMap_congr_mem {α β : Type} (f g : α → List β) :
    ∀ l : List α, (∀ x ∈ l, f x = g x) → l.flatMap f = l.flatMap g := by
  intro l
  induction l with
  | nil => intro _; rfl
  | cons a t ih =>
    intro h
    rw [List.flatMap_cons, List.flatMap_cons, h a (List.mem_cons_self _ _),
      ih (fun x hx => h x (List.mem_cons_of_mem _ hx))]

/-- The rids of a page whose set bits are the first `k`. -/
theorem page_rids_initial (fh : RmFileHandle) (p : Int) (k : Nat)
    (hk : k ≤ fh.file_hdr_.num_records_per_page)
    (h : ∀ i : Nat, i < fh.file_hdr_.num_records_per_page →
      ((fh.pages p).body.bitmap (Int.ofNat i) = true ↔ i < k)) :
    fh.page_rids p = (List.range k).map (fun slot => (⟨p, Int.ofNat slot⟩ : Rid)) := by
  unfold page_rids
  rw [filter_range_initial _ _ k hk h]

/-- An insert into an insert-only file without a free page: the record goes into
slot 0 of a new page. -/
theorem insert_record_step_new (fh : RmFileHandle) (buf : List Nat) (context : Option Context)
    (h : fh.InsertOnly) (hff : fh.file_hdr_.first_free_page_no = RM_NO_PAGE) :
    ∃ fh1 c1, fh.insert_record buf context = some (fh.frontier, fh1, c1) ∧
      fh1.InsertOnly ∧ Rid.lt fh.frontier fh1.frontier ∧
      fh.frontier.page_no < fh1.file_hdr_.num_pages ∧
      fh.file_hdr_.num_pages ≤ fh1.file_hdr_.num_pages ∧
      fh1.file_hdr_.record_size = fh.file_hdr_.record_size ∧
      RmScan fh1 = RmScan fh ++ [fh.frontier] ∧
      (fh1.pages fh.frontier.page_no).body.slots fh.frontier.slot_no
        = buf.take fh.file_hdr_.record_size ∧
      ∀ r : Rid, r.page_no < fh.file_hdr_.num_pages → r ≠ fh.frontier →
        (fh1.pages r.page_no).body.slots r.slot_no
          = (fh.pages r.page_no).body.slots r.slot_no := by
  obtain ⟨fh1, c1, heq, _, hrs, hn, hnp, hfree, hother, hbody⟩ :=
    insert_record_effect fh buf context
  have hfr : fh.frontier = ⟨fh.file_hdr_.num_pages, Int.ofNat 0⟩ := by
    simp [frontier, hff]
  have hcp1 : fh.create_page_handle.1 = fh.file_hdr_.num_pages := by
    rw [create_page_handle_new fh hff]; rfl
  have hcpp : ∀ p, p ≠ fh.file_hdr_.num_pages →
      fh.create_page_handle.2.pages p = fh.pages p := by
    intro p hp
    rw [create_page_handle_new fh hff]
    exact Function.update_noteq hp _ _
  have hcpb : (fh.create_page_handle.2.pages fh.file_hdr_.num_pages).body
      = { num_records := 0, next_free_page_no := RM_NO_PAGE, bitmap := fun _ => false,
          slots := fun _ => List.replicate fh.file_hdr_.record_size 0 } := by
    rw [create_page_handle_new fh hff]
    simp only [create_new_page_handle, Function.update_same]
    rfl
  have hcpn : fh.create_page_handle.2.file_hdr_.num_pages = fh.file_hdr_.num_pages + 1 := by
    rw [create_page_handle_new fh hff]; rfl
  have hcpf : fh.create_page_handle.2.file_hdr_.first_free_page_no
      = fh.file_hdr_.num_pages := by
    rw [create_page_handle_new fh hff]; rfl
  have hfb : Bitmap.first_bit false (fun _ => false) fh.file_hdr_.num_records_per_page
      = Int.ofNat 0 :=
    Bitmap.first_bit_initial _ 0 _ h.slots_pos (fun i _ => by simp)
  rw [hcp1] at heq hfree hother hbody
  rw [hcpb] at heq hfree hbody
  simp only [hfb] at heq hbody
  rw [hcpn] at hnp
  rw [hcpf] at hfree
  have hpos := h.slots_pos
  have hhdr := h.hdr_page
  have hbit : ∀ i : Nat, ((fh1.pages fh.file_hdr_.num_pages).body.bitmap (Int.ofNat i) = true
      ↔ i < 1) := by
    intro i
    rw [hbody]
    show Function.update (fun _ => false) (Int.ofNat 0) true (Int.ofNat i) = true ↔ i < 1
    by_cases hi : i = 0
    · subst hi; simp
    · have : Int.ofNat i ≠ Int.ofNat 0 := fun hc => hi (Int.ofNat.inj hc)
      rw [Function.update_noteq this]
      simp only [Bool.false_eq_true, false_iff]
      omega
  have hfree2 : (fh.file_hdr_.num_records_per_page = 1 ∧
        fh1.file_hdr_.first_free_page_no = RM_NO_PAGE) ∨
      (1 < fh.file_hdr_.num_records_per_page ∧
        fh1.file_hdr_.first_free_page_no = fh.file_hdr_.num_pages) := by
    by_cases hc : (0 : Int) + 1 ≥ (fh.file_hdr_.num_records_per_page : Int)
    · rw [if_pos hc] at hfree
      exact Or.inl ⟨by omega, hfree⟩
    · rw [if_neg hc] at hfree
      exact Or.inr ⟨by omega, hfree⟩
  have hnum : (fh1.pages fh.file_hdr_.num_pages).body.num_records = 1 := by
    rw [hbody]; rfl
  have hnext : (fh1.pages fh.file_hdr_.num_pages).body.next_free_page_no = RM_NO_PAGE := by
    rw [hbody]
  refine ⟨fh1, c1, by rw [hfr]; exact heq, ?_, ?_, ?_, ?_, hrs, ?_, ?_, ?_⟩
  · refine ⟨by rw [hn]; exact hpos, by omega, ?_, ?_⟩
    · intro p hp1 hp2 hp3 i hi
      rw [hn] at hi
      by_cases hp : p = fh.file_hdr_.num_pages
      · subst hp
        rcases hfree2 with ⟨h1, _⟩ | ⟨_, h2⟩
        · exact (hbit i).mpr (by omega)
        · exact absurd h2.symm hp3
      · rw [hother p hp, hcpp p hp]
        refine h.full p hp1 (by omega) ?_ i hi
        rw [hff]
        unfold RM_NO_PAGE
        omega
    · intro hne
      rcases hfree2 with ⟨_, h2⟩ | ⟨h1, h2⟩
      · exact absurd h2 hne
      · rw [h2, hnum, hnext, hn, hnp]
        refine ⟨by omega, hhdr, rfl, by omega, by omega, ?_⟩
        intro i _
        rw [hbit i]
        simp only [Int.ofNat_eq_coe]
        omega
  · rw [hfr]
    unfold frontier
    rcases hfree2 with ⟨_, h2⟩ | ⟨_, h2⟩
    · rw [if_pos h2, hnp]
      exact Or.inl (by show fh.file_hdr_.num_pages < fh.file_hdr_.num_pages + 1; omega)
    · have hne : fh1.file_hdr_.first_free_page_no ≠ RM_NO_PAGE := by
        rw [h2]; unfold RM_NO_PAGE; omega
      rw [if_neg hne, h2, hnum]
      exact Or.inr ⟨rfl, by show Int.ofNat 0 < 1; decide⟩
  · rw [hfr, hnp]
    show fh.file_hdr_.num_pages < fh.file_hdr_.num_pages + 1
    omega
  · omega
  · rw [hfr, RmScan_last fh1 (by omega), RmScan_eq fh, hnp]
    have e1 : (fh.file_hdr_.num_pages + 1).toNat - 2 = fh.file_hdr_.num_pages.toNat - 1 := by
      omega
    have e2 : fh.file_hdr_.num_pages + 1 - 1 = fh.file_hdr_.num_pages := by omega
    rw [e1, e2]
    congr 1
    · apply flatMap_congr_mem
      intro x hx
      obtain ⟨i, hi, rfl⟩ := List.mem_map.mp hx
      have hi2 := List.mem_range.mp hi
      have hne : Int.ofNat (i + 1) ≠ fh.file_hdr_.num_pages := by
        simp only [Int.ofNat_eq_coe]; omega
      unfold page_rids
      rw [hn, hother _ hne, hcpp _ hne]
    · rw [page_rids_initial fh1 _ 1 (by rw [hn]; exact hpos) (fun i _ => hbit i)]
      rfl
  · rw [hfr]
    show (fh1.pages fh.file_hdr_.num_pages).body.slots (Int.ofNat 0) = _
    rw [hbody]
    simp only [Function.update_same]
  · intro r hr _
    have hne : r.page_no ≠ fh.file_hdr_.num_pages := by omega
    rw [hother _ hne, hcpp _ hne]

/-- An insert into an insert-only file with a free page: the record goes into
the first clear slot of that page, which is the slot after its records. -/
theorem insert_record_step_old (fh : RmFileHandle) (buf : List Nat) (context : Option Context)
    (h : fh.InsertOnly) (hff : fh.file_hdr_.first_free_page_no ≠ RM_NO_PAGE) :
    ∃ fh1 c1, fh.insert_record buf context = some (fh.frontier, fh1, c1) ∧
      fh1.InsertOnly ∧ Rid.lt fh.frontier fh1.frontier ∧
      fh.frontier.page_no < fh1.file_hdr_.num_pages ∧
      fh.file_hdr_.num_pages ≤ fh1.file_hdr_.num_pages ∧
      fh1.file_hdr_.record_size = fh.file_hdr_.record_size ∧
      RmScan fh1 = RmScan fh ++ [fh.frontier] ∧
      (fh1.pages fh.frontier.page_no).body.slots fh.frontier.slot_no
        = buf.take fh.file_hdr_.record_size ∧
      ∀ r : Rid, r.page_no < fh.file_hdr_.num_pages → r ≠ fh.frontier →
        (fh1.pages r.page_no).body.slots r.slot_no
          = (fh.pages r.page_no).body.slots r.slot_no := by
  obtain ⟨fh1, c1, heq, _, hrs, hn, hnp, hfree, hother, hbody⟩ :=
    insert_record_effect fh buf context
  obtain ⟨hF, hF1, hnextF, hk0, hkn, hbits⟩ := h.last hff
  have hpos := h.slots_pos
  have hhdr := h.hdr_page
  rw [create_page_handle_old fh hff] at heq hnp hfree hother hbody
  simp only at heq hnp hfree hother hbody
  generalize hFd : fh.file_hdr_.first_free_page_no = F at *
  generalize hkd : (fh.pages F).body.num_records = k at *
  have hfr : fh.frontier = ⟨F, k⟩ := by
    unfold frontier
    rw [hFd, if_neg hff, hkd]
  have hkk : Int.ofNat k.toNat = k := by
    simp only [Int.ofNat_eq_coe]; omega
  have hfb : Bitmap.first_bit false (fh.pages F).body.bitmap fh.file_hdr_.num_records_per_page
      = k := by
    rw [Bitmap.first_bit_initial _ k.toNat _ (by omega) (fun i hi => by
      rw [hbits i hi]
      simp only [Int.ofNat_eq_coe]
      omega), hkk]
  rw [hfb] at heq hbody
  rw [hnextF] at hfree
  have hbit : ∀ i : Nat, i < fh.file_hdr_.num_records_per_page →
      ((fh1.pages F).body.bitmap (Int.ofNat i) = true ↔ i < k.toNat + 1) := by
    intro i hi
    rw [hbody]
    show Function.update (fh.pages F).body.bitmap k true (Int.ofNat i) = true ↔ i < k.toNat + 1
    by_cases hik : Int.ofNat i = k
    · rw [hik, Function.update_same]
      simp only [Int.ofNat_eq_coe] at hik
      simp only [true_iff]
      omega
    · rw [Function.update_noteq hik, hbits i hi]
      simp only [Int.ofNat_eq_coe] at hik ⊢
      omega
  have hfree2 : (k + 1 ≥ (fh.file_hdr_.num_records_per_page : Int) ∧
        fh1.file_hdr_.first_free_page_no = RM_NO_PAGE) ∨
      (k + 1 < (fh.file_hdr_.num_records_per_page : Int) ∧
        fh1.file_hdr_.first_free_page_no = F) := by
    by_cases hc : k + 1 ≥ (fh.file_hdr_.num_records_per_page : Int)
    · rw [if_pos hc] at hfree
      exact Or.inl ⟨hc, hfree⟩
    · rw [if_neg hc] at hfree
      exact Or.inr ⟨by omega, hfree⟩
  have hnum : (fh1.pages F).body.num_records = k + 1 := by
    rw [hbody]
  have hnext : (fh1.pages F).body.next_free_page_no = RM_NO_PAGE := by
    rw [hbody]; exact hnextF
  refine ⟨fh1, c1, by rw [hfr]; exact heq, ?_, ?_, ?_, ?_, hrs, ?_, ?_, ?_⟩
  · refine ⟨by rw [hn]; exact hpos, by omega, ?_, ?_⟩
    · intro p hp1 hp2 hp3 i hi
      rw [hn] at hi
      by_cases hp : p = F
      · subst hp
        rcases hfree2 with ⟨h1, _⟩ | ⟨_, h2⟩
        · exact (hbit i hi).mpr (by omega)
        · exact absurd h2.symm hp3
      · rw [hother p hp]
        exact h.full p hp1 (by omega) (by rw [hFd]; exact hp) i hi
    · intro hne
      rcases hfree2 with ⟨_, h2⟩ | ⟨h1, h2⟩
      · exact absurd h2 hne
      · rw [h2, hnum, hnext, hn, hnp]
        refine ⟨hF, hF1, rfl, by omega, h1, ?_⟩
        intro i hi
        rw [hbit i hi]
        simp only [Int.ofNat_eq_coe]
        omega
  · rw [hfr]
    unfold frontier
    rcases hfree2 with ⟨_, h2⟩ | ⟨_, h2⟩
    · rw [if_pos h2, hnp]
      exact Or.inl (by show F < fh.file_hdr_.num_pages; omega)
    · rw [if_neg (by rw [h2]; exact hff), h2, hnum]
      exact Or.inr ⟨rfl, by show k < k + 1; omega⟩
  · rw [hfr, hnp]
    show F < fh.file_hdr_.num_pages
    omega
  · omega
  · rw [hfr, RmScan_last fh1 (by omega), RmScan_last fh (by omega), hnp]
    have e2 : fh.file_hdr_.num_pages - 1 = F := by omega
    rw [e2, page_rids_initial fh1 F (k.toNat + 1) (by rw [hn]; omega)
        (fun i hi => hbit i (by rw [← hn]; exact hi)),
      page_rids_initial fh F k.toNat (by omega) (fun i hi => by
        rw [hbits i hi]
        simp only [Int.ofNat_eq_coe]
        omega),
      List.range_succ, List.map_append, ← List.append_assoc]
    congr 1
    · congr 1
      apply flatMap_congr_mem
      intro x hx
      obtain ⟨i, hi, rfl⟩ := List.mem_map.mp hx
      have hi2 := List.mem_range.mp hi
      have hne : Int.ofNat (i + 1) ≠ F := by
        simp only [Int.ofNat_eq_coe]; omega
      unfold page_rids
      rw [hn, hother _ hne]
    · simp only [List.map_cons, List.map_nil, hkk]
  · rw [hfr]
    show (fh1.pages F).body.slots k = _
    rw [hbody]
    simp only [Function.update_same]
  · intro r hr hne
    by_cases hp : r.page_no = F
    · have hs : r.slot_no ≠ k := by
        intro hs
        apply hne
        rw [hfr]
        cases r
        simp only at hp hs
        rw [hp, hs]
      rw [hp, hbody]
      exact Function.update_noteq hs _ _
    · rw [hother _ hp]

/-- An insert into an insert-only file returns the frontier slot, keeps the
file insert-only with a greater frontier, appends the slot to the scan, stores
the buffer there and leaves the other slots of the file alone. -/
theorem insert_record_step (fh : RmFileHandle) (buf : List Nat) (context : Option Context)
    (h : fh.InsertOnly) :
    ∃ fh1 c1, fh.insert_record buf context = some (fh.frontier, fh1, c1) ∧
      fh1.InsertOnly ∧ Rid.lt fh.frontier fh1.frontier ∧
      fh.frontier.page_no < fh1.file_hdr_.num_pages ∧
      fh.file_hdr_.num_pages ≤ fh1.file_hdr_.num_pages ∧
      fh1.file_hdr_.record_size = fh.file_hdr_.record_size ∧
      RmScan fh1 = RmScan fh ++ [fh.frontier] ∧
      (fh1.pages fh.frontier.page_no).body.slots fh.frontier.slot_no
        = buf.take fh.file_hdr_.record_size ∧
      ∀ r : Rid, r.page_no < fh.file_hdr_.num_pages → r ≠ fh.frontier →
        (fh1.pages r.page_no).body.slots r.slot_no
          = (fh.pages r.page_no).body.slots r.slot_no := by
  by_cases hff : fh.file_hdr_.first_free_page_no = RM_NO_PAGE
  · exact insert_record_step_new fh buf context h hff
  · exact insert_record_step_old fh buf context h hff

/-- The order of rids is transitive. -/
theorem rid_lt_trans {a b c : Rid} (h1 : Rid.lt a b) (h2 : Rid.lt b c) : Rid.lt a c := by
  unfold Rid.lt at *
  omega

/-- The order of rids is irreflexive. -/
theorem rid_lt_irrefl (a : Rid) : ¬ Rid.lt a a := by
  unfold Rid.lt
  omega

/-- Successive inserts into an insert-only file: every call returns, the rids
come out in increasing order, the scan of the file is extended by exactly these
rids in this order, the slots named hold the buffers, and the slots before the
frontier are left alone. -/
theorem insert_records_insert_only (bufs : List (List Nat)) :
    ∀ (fh : RmFileHandle) (context : Option Context), fh.InsertOnly →
      ∃ rids fh1 c1, fh.insert_records bufs context = some (rids, fh1, c1) ∧
        fh1.InsertOnly ∧
        (∀ r ∈ rids, (r = fh.frontier ∨ Rid.lt fh.frontier r) ∧
          r.page_no < fh1.file_hdr_.num_pages) ∧
        rids.Pairwise Rid.lt ∧
        fh.file_hdr_.num_pages ≤ fh1.file_hdr_.num_pages ∧
        fh1.file_hdr_.record_size = fh.file_hdr_.record_size ∧
        RmScan fh1 = RmScan fh ++ rids ∧
        rids.map (fun r => (fh1.pages r.page_no).body.slots r.slot_no)
          = bufs.map (fun buf => buf.take fh.file_hdr_.record_size) ∧
        ∀ r : Rid, r.page_no < fh.file_hdr_.num_pages → Rid.lt r fh.frontier →
          (fh1.pages r.page_no).body.slots r.slot_no
            = (fh.pages r.page_no).body.slots r.slot_no := by
  induction bufs with
  | nil =>
    intro fh context h
    exact ⟨[], fh, context, rfl, h, (fun _ hr => absurd hr (List.not_mem_nil _)),
      List.Pairwise.nil, le_refl _, rfl, (List.append_nil _).symm, rfl, (fun _ _ _ => rfl)⟩
  | cons buf rest ih =>
    intro fh context h
    obtain ⟨fh1, c1, heq, h1, hlt, hpage, hnp, hrs, hscan, hslot, hkeep⟩ :=
      insert_record_step fh buf context h
    obtain ⟨rids, fh2, c2, heq2, h2, hmem, hpw, hnp2, hrs2, hscan2, hslots2, hkeep2⟩ :=
      ih fh1 c1 h1
    have hafter : ∀ r ∈ rids, Rid.lt fh.frontier r := by
      intro r hr
      rcases (hmem r hr).1 with rfl | hl
      · exact hlt
      · exact rid_lt_trans hlt hl
    refine ⟨fh.frontier :: rids, fh2, c2, ?_, h2, ?_, ?_, by omega, hrs2.trans hrs, ?_, ?_, ?_⟩
    · simp only [insert_records, heq, heq2]
    · intro r hr
      rcases List.mem_cons.mp hr with rfl | hr2
      · exact ⟨Or.inl rfl, by omega⟩
      · exact ⟨Or.inr (hafter r hr2), (hmem r hr2).2⟩
    · exact List.Pairwise.cons hafter hpw
    · rw [hscan2, hscan, List.append_assoc]
      rfl
    · rw [List.map_cons, List.map_cons, hslots2, hrs, hkeep2 _ hpage hlt, hslot]
    · intro r hr hl
      rw [hkeep2 r (by omega) (rid_lt_trans hl hlt)]
      exact hkeep r hr (fun hc => rid_lt_irrefl _ (hc ▸ hl))

/-- A file right after its creation is insert-only, and its scan is empty. -/
theorem created_insert_only (fh : RmFileHandle) (h : fh.Created) :
    fh.InsertOnly ∧ RmScan fh = [] := by
  obtain ⟨h1, h2, h3⟩ := h
  refine ⟨⟨h3, by omega, ?_, fun hne => absurd h2 hne⟩, ?_⟩
  · intro p hp1 hp2
    omega
  · rw [RmScan_eq, h1]
    rfl

/-- C29: for every heap file right after its creation and every list of
buffers, the successive calls `insert_record(buf, context)` all return; the rids
they return are strictly increasing in the order by page number, then slot
number; and the scan of the file afterwards, which visits the set bits in page
and slot order, visits exactly these rids in the order of the calls, each slot
holding the first `record_size` bytes of the buffer of its call. -/
theorem insert_only_rids_increase (fh : RmFileHandle) (bufs : List (List Nat))
    (context : Option Context) (hnew : fh.Created) :
    ∃ rids fh1 c1, fh.insert_records bufs context = some (rids, fh1, c1) ∧
      rids.Pairwise Rid.lt ∧
      RmScan fh1 = rids ∧
      (RmScan fh1).map (fun r => fh1.get_record r none)
        = bufs.map (fun buf => some (buf.take fh.file_hdr_.record_size)) := by
  obtain ⟨hio, hempty⟩ := created_insert_only fh hnew
  obtain ⟨rids, fh1, c1, heq, _, _, hpw, _, hrs, hscan, hslots, _⟩ :=
    insert_records_insert_only bufs fh context hio
  rw [hempty, List.nil_append] at hscan
  refine ⟨rids, fh1, c1, heq, hpw, hscan, ?_⟩
  rw [hscan]
  have hget : (fun r => fh1.get_record r none)
      = (fun s => some (List.take fh.file_hdr_.record_size s)) ∘
        (fun r : Rid => (fh1.pages r.page_no).body.slots r.slot_no) := by
    funext r
    simp [get_record, hrs]
  rw [hget, ← List.map_map, hslots, List.map_map]
  apply List.map_congr_left
  intro buf _
  simp [List.take_take]

/-- C29 on the example file `u`, new, with room for three records on a page:
four inserts. -/
theorem insert_only_rids_increase_witness :
    Example.fh_new.Created ∧
    ∃ rids fh1 c1, Example.fh_new.insert_records [[1, 0, 0, 0], [2, 0, 0, 0], [3, 0, 0, 0],
        [4, 0, 0, 0]] none = some (rids, fh1, c1) ∧
      rids.Pairwise Rid.lt ∧
      RmScan fh1 = rids ∧
      (RmScan fh1).map (fun r => fh1.get_record r none)
        = [[1, 0, 0, 0], [2, 0, 0, 0], [3, 0, 0, 0], [4, 0, 0, 0]].map
            (fun buf => some (buf.take Example.fh_new.file_hdr_.record_size)) :=
  ⟨⟨rfl, rfl, by decide⟩, insert_only_rids_increase Example.fh_new _ none ⟨rfl, rfl, by decide⟩⟩

end RmFileHandle

/-! ## Theorems: aggregates -/

namespace Serial

/-- Four bytes stand for an `int`. -/
theorem bytes_int_is_int (bs : List Nat) (hl : bs.length = 4) (hb : ∀ b ∈ bs, b < 256) :
    IsInt (bytes_int bs) := by
  match bs, hl with
  | [a, b, c, d], _ =>
    have ha := hb a (by simp)
    have hb2 := hb b (by simp)
    have hc := hb c (by simp)
    have hd := hb d (by simp)
    unfold bytes_int
    simp only [le_val]
    split <;> constructor <;> omega

/-- Reading four bytes as an `int` and writing it back gives the bytes. -/
theorem int_bytes_bytes_int (bs : List Nat) (hl : bs.length = 4) (hb : ∀ b ∈ bs, b < 256) :
    int_bytes (bytes_int bs) = bs := by
  match bs, hl with
  | [a, b, c, d], _ =>
    have ha := hb a (by simp)
    have hb2 := hb b (by simp)
    have hc := hb c (by simp)
    have hd := hb d (by simp)
    have hv : ((bytes_int [a, b, c, d]) % 4294967296).toNat
        = a + 256 * (b + 256 * (c + 256 * d)) := by
      unfold bytes_int
      simp only [le_val]
      split <;> omega
    unfold int_bytes
    rw [hv]
    simp only [le_bytes]
    congr 1
    · omega
    · congr 1
      · omega
      · congr 1
        · omega
        · congr 1
          omega

/-- Arithmetic on an `int` kept in four bytes is arithmetic modulo 2^32. -/
theorem int_bytes_add_wrapped (c w : Int) :
    int_bytes (bytes_int (int_bytes c) + w) = int_bytes (c + w) := by
  unfold int_bytes bytes_int
  rw [le_val_le_bytes]
  have e : (256 : Nat) ^ 4 = 4294967296 := by norm_num
  rw [e]
  congr 1
  split <;> omega

end Serial

/-- A fresh allocation has the size asked for. -/
theorem alloc_length (fresh : List Nat) (n : Nat) : (alloc fresh n).length = n := by
  simp [alloc]

namespace AggregateExecutor

/-- With one aggregate, a child row changes the one function. -/
theorem calc_row_single (fl : FloatOps) (cols : List ColMeta) (idx : Nat) (col : ColMeta)
    (hcol : cols.get? idx = some col) (rows : List (List Nat)) :
    ∀ fn : function,
      rows.foldl (fun fns prev_rec => calc_row fl cols prev_rec [idx] fns) [fn]
        = [rows.foldl (fun fn prev_rec => fn.calc_ fl (prev_rec.drop col.offset)) fn] := by
  induction rows with
  | nil => intro fn; rfl
  | cons r rest ih =>
    intro fn
    simp only [List.foldl_cons, calc_row, hcol, Option.map_some', Option.getD_some]
    exact ih _

/-- `calc` keeps the length, the type and the kind of a function. -/
theorem calc_keeps (fl : FloatOps) (fn : function) (param : List Nat) :
    (fn.calc_ fl param).len = fn.len ∧ (fn.calc_ fl param).type = fn.type ∧
    (fn.calc_ fl param).f = fn.f := by
  unfold function.calc_
  split
  · exact ⟨rfl, rfl, rfl⟩
  · split
    · exact ⟨rfl, rfl, rfl⟩
    · split <;> (repeat' split) <;> exact ⟨rfl, rfl, rfl⟩

/-- The length of a function after the rows of the child. -/
theorem fold_len (fl : FloatOps) (offset : Nat) (rows : List (List Nat)) :
    ∀ fn : function,
      (rows.foldl (fun fn prev_rec => fn.calc_ fl (prev_rec.drop offset)) fn).len = fn.len := by
  induction rows with
  | nil => intro fn; rfl
  | cons r rest ih =>
    intro fn
    rw [List.foldl_cons, ih, (calc_keeps fl fn _).1]

/-- With one aggregate over a column of the child, on a child that has a row or
for COUNT, the operator yields one row: the first bytes of the result of the
function after all rows of the child. -/
theorem select_single (fl : FloatOps) (zero_float fresh : List Nat) (fuel : Nat)
    (prev : RowSource) (sel_col : TabCol) (idx : Nat) (col : ColMeta) (f0 : function)
    (hget : get_col prev.cols sel_col = some idx) (hcol : prev.cols.get? idx = some col)
    (hf : function.create zero_float fresh sel_col.func col.type col.len = some f0)
    (hlen : f0.len = 4) (hrun : f0.f = .FUNC_COUNT ∨ prev.rows ≠ []) :
    select fl zero_float fresh (fuel + 2) prev [sel_col]
      = some [((prev.rows.foldl (fun fn prev_rec => fn.calc_ fl (prev_rec.drop col.offset))
          f0).result).take 4] := by
  have hnotend : ((if f0.f = .FUNC_COUNT then false else true) && decide (prev.rows.length ≤ 0))
      = false := by
    rcases hrun with h | h
    · simp [h]
    · have : ¬ prev.rows.length ≤ 0 := by
        intro hc
        exact h (List.length_eq_zero.mp (by omega))
      simp [this]
  simp only [select, create, add_sel_cols, hget, hcol, hf, Option.map_some', beginTuple,
    RowSource.beginTuple, List.nil_append, Nat.zero_add]
  simp only [drain, is_end, RowSource.is_end, hnotend, Bool.false_eq_true, if_false, Next,
    nextTuple, List.drop_zero, calc_row_single fl prev.cols idx col hcol, write_results,
    Nat.zero_max, le_refl, decide_True, Bool.and_self, if_true, Option.map_some',
    memmove, fold_len, hlen]
  have : (alloc fresh 4).drop 4 = [] := by
    apply List.drop_eq_nil_of_le
    rw [alloc_length]
  rw [this, List.append_nil]

/-- The four bytes of an `int` are four bytes. -/
theorem int_bytes_take_drop (c : Int) :
    (Serial.int_bytes c).take 4 = Serial.int_bytes c ∧ (Serial.int_bytes c).drop 4 = [] := by
  have h := Serial.int_bytes_length c
  exact ⟨List.take_of_length_le (by omega), List.drop_eq_nil_of_le (by omega)⟩

/-- COUNT after the rows of the child: the count has grown by their number. -/
theorem fold_count (fl : FloatOps) (offset : Nat) (t : ColType) (rows : List (List Nat)) :
    ∀ c : Int,
      (rows.foldl (fun fn prev_rec => fn.calc_ fl (prev_rec.drop offset))
        (⟨Serial.int_bytes c, t, 4, .FUNC_COUNT, false⟩ : function)).result = Serial.int_bytes (c + rows.length) := by
  induction rows with
  | nil => intro c; simp
  | cons r rest ih =>
    intro c
    have hstep : function.calc_ fl (⟨Serial.int_bytes c, t, 4, .FUNC_COUNT, false⟩ : function) (r.drop offset)
        = (⟨Serial.int_bytes (c + 1), t, 4, .FUNC_COUNT, false⟩ : function) := by
      simp only [function.calc_, function.write_int, function.read_int,
        (int_bytes_take_drop c).1, (int_bytes_take_drop c).2, List.append_nil,
        Serial.int_bytes_add_wrapped]
      simp
    rw [List.foldl_cons, hstep, ih]
    congr 1
    simp only [List.length_cons, Nat.cast_add, Nat.cast_one]
    omega

/-- SUM over an INT column after the rows of the child: the sum has grown by
their values, modulo 2^32. -/
theorem fold_sum (fl : FloatOps) (offset : Nat) (rows : List (List Nat)) :
    ∀ c : Int,
      (rows.foldl (fun fn prev_rec => fn.calc_ fl (prev_rec.drop offset))
        (⟨Serial.int_bytes c, .TYPE_INT, 4, .FUNC_SUM, false⟩ : function)).result
        = Serial.int_bytes (c + (rows.map (fun r => int_at r offset)).sum) := by
  induction rows with
  | nil => intro c; simp
  | cons r rest ih =>
    intro c
    have hstep : function.calc_ fl (⟨Serial.int_bytes c, .TYPE_INT, 4, .FUNC_SUM, false⟩ : function) (r.drop offset)
        = (⟨Serial.int_bytes (c + int_at r offset), .TYPE_INT, 4, .FUNC_SUM, false⟩ : function) := by
      simp only [function.calc_, function.write_int, function.read_int,
        (int_bytes_take_drop c).1, (int_bytes_take_drop c).2, List.append_nil,
        Serial.int_bytes_add_wrapped, int_at]
      simp
    rw [List.foldl_cons, hstep, ih]
    congr 1
    simp only [List.map_cons, List.sum_cons]
    omega

/-- The value an INT column holds in a row of bytes is an `int`. -/
theorem int_at_is_int (r : List Nat) (offset : Nat)
    (h : offset + 4 ≤ r.length ∧ ∀ b ∈ r, b < 256) : Serial.IsInt (int_at r offset) := by
  apply Serial.bytes_int_is_int
  · simp only [List.length_take, List.length_drop]
    omega
  · intro b hb
    exact h.2 b (List.mem_of_mem_drop (List.mem_of_mem_take hb))

/-- MAX over an INT column after the rows of the child. -/
theorem fold_max (fl : FloatOps) (offset : Nat) (rows : List (List Nat))
    (hrows : ∀ r ∈ rows, offset + 4 ≤ r.length ∧ ∀ b ∈ r, b < 256) :
    ∀ m : Int, Serial.IsInt m →
      (rows.foldl (fun fn prev_rec => fn.calc_ fl (prev_rec.drop offset))
        (⟨Serial.int_bytes m, .TYPE_INT, 4, .FUNC_MAX, false⟩ : function)).result
        = Serial.int_bytes ((rows.map (fun r => int_at r offset)).foldl max m) := by
  induction rows with
  | nil => intro m _; simp
  | cons r rest ih =>
    intro m hm
    have hr := int_at_is_int r offset (hrows r (List.mem_cons_self _ _))
    have hstep : function.calc_ fl (⟨Serial.int_bytes m, .TYPE_INT, 4, .FUNC_MAX, false⟩ : function) (r.drop offset)
        = (⟨Serial.int_bytes (max m (int_at r offset)), .TYPE_INT, 4, .FUNC_MAX, false⟩ : function) := by
      simp only [function.calc_, function.write_int, function.read_int,
        (int_bytes_take_drop m).1, (int_bytes_take_drop m).2, List.append_nil,
        Serial.bytes_int_int_bytes m hm, int_at]
      simp
    rw [List.foldl_cons, hstep, ih (fun r1 h1 => hrows r1 (List.mem_cons_of_mem _ h1))]
    · simp only [List.map_cons, List.foldl_cons]
    · unfold Serial.IsInt at *
      omega

/-- MIN over an INT column after the rows of the child. -/
theorem fold_min (fl : FloatOps) (offset : Nat) (rows : List (List Nat))
    (hrows : ∀ r ∈ rows, offset + 4 ≤ r.length ∧ ∀ b ∈ r, b < 256) :
    ∀ m : Int, Serial.IsInt m →
      (rows.foldl (fun fn prev_rec => fn.calc_ fl (prev_rec.drop offset))
        (⟨Serial.int_bytes m, .TYPE_INT, 4, .FUNC_MIN, false⟩ : function)).result
        = Serial.int_bytes ((rows.map (fun r => int_at r offset)).foldl min m) := by
  induction rows with
  | nil => intro m _; simp
  | cons r rest ih =>
    intro m hm
    have hr := int_at_is_int r offset (hrows r (List.mem_cons_self _ _))
    have hstep : function.calc_ fl (⟨Serial.int_bytes m, .TYPE_INT, 4, .FUNC_MIN, false⟩ : function) (r.drop offset)
        = (⟨Serial.int_bytes (min m (int_at r offset)), .TYPE_INT, 4, .FUNC_MIN, false⟩ : function) := by
      simp only [function.calc_, function.write_int, function.read_int,
        (int_bytes_take_drop m).1, (int_bytes_take_drop m).2, List.append_nil,
        Serial.bytes_int_int_bytes m hm, int_at]
      simp
    rw [List.foldl_cons, hstep, ih (fun r1 h1 => hrows r1 (List.mem_cons_of_mem _ h1))]
    · simp only [List.map_cons, List.foldl_cons]
    · unfold Serial.IsInt at *
      omega

/-- The running maximum of a list is one of the values seen and bounds them all. -/
theorem foldl_max_spec (l : List Int) :
    ∀ m : Int, m ≤ l.foldl max m ∧ (∀ v ∈ l, v ≤ l.foldl max m) ∧
      (l.foldl max m = m ∨ l.foldl max m ∈ l) := by
  induction l with
  | nil => intro m; simp
  | cons a t ih =>
    intro m
    obtain ⟨h1, h2, h3⟩ := ih (max m a)
    simp only [List.foldl_cons]
    refine ⟨le_trans (le_max_left m a) h1, ?_, ?_⟩
    · intro v hv
      rcases List.mem_cons.mp hv with rfl | hv
      · exact le_trans (le_max_right m v) h1
      · exact h2 v hv
    · rcases h3 with h | h
      · rcases max_choice m a with hc | hc
        · exact Or.inl (h.trans hc)
        · exact Or.inr (by rw [h, hc]; exact List.mem_cons_self _ _)
      · exact Or.inr (List.mem_cons_of_mem _ h)

/-- The running minimum of a list is one of the values seen and bounds them all. -/
theorem foldl_min_spec (l : List Int) :
    ∀ m : Int, l.foldl min m ≤ m ∧ (∀ v ∈ l, l.foldl min m ≤ v) ∧
      (l.foldl min m = m ∨ l.foldl min m ∈ l) := by
  induction l with
  | nil => intro m; simp
  | cons a t ih =>
    intro m
    obtain ⟨h1, h2, h3⟩ := ih (min m a)
    simp only [List.foldl_cons]
    refine ⟨le_trans h1 (min_le_left m a), ?_, ?_⟩
    · intro v hv
      rcases List.mem_cons.mp hv with rfl | hv
      · exact le_trans h1 (min_le_right m v)
      · exact h2 v hv
    · rcases h3 with h | h
      · rcases min_choice m a with hc | hc
        · exact Or.inl (h.trans hc)
        · exact Or.inr (by rw [h, hc]; exact List.mem_cons_self _ _)
      · exact Or.inr (List.mem_cons_of_mem _ h)

/-- The first row a MAX or MIN function over an INT column meets: its value is
copied into the result. -/
theorem calc_first (fl : FloatOps) (fresh : List Nat) (fn : Func) (hfn : fn ≠ .FUNC_NULL)
    (r : List Nat) (offset : Nat) (h : offset + 4 ≤ r.length ∧ ∀ b ∈ r, b < 256) :
    function.calc_ fl (⟨alloc fresh 4, .TYPE_INT, 4, fn, true⟩ : function) (r.drop offset)
      = (⟨Serial.int_bytes (int_at r offset), .TYPE_INT, 4, fn, false⟩ : function) := by
  have hd : (alloc fresh 4).drop 4 = [] := by
    apply List.drop_eq_nil_of_le
    rw [alloc_length]
  have hb : Serial.int_bytes (int_at r offset) = (r.drop offset).take 4 := by
    apply Serial.int_bytes_bytes_int
    · simp only [List.length_take, List.length_drop]
      omega
    · intro b hb
      exact h.2 b (List.mem_of_mem_drop (List.mem_of_mem_take hb))
  simp only [function.calc_, hfn, if_false, if_true, memmove, hd, List.append_nil, hb]

/-- C26: for a select list that is one aggregate over an INT column of the
child, and every child (its rows holding four bytes at the column), the
operator, built, begun and drained, yields exactly one row in each of these
cases: for COUNT, the number of child rows (0 for a child without rows); for
MAX and a child with a row, the largest value of the column; for MIN and a
child with a row, the smallest; for SUM and a child with a row, the sum of the
values; each as the four bytes of an `int`, that is, modulo 2^32 in two's
complement. -/
theorem aggregate_single_int (fl : FloatOps) (zero_float fresh : List Nat) (fuel : Nat)
    (prev : RowSource) (sel_col : TabCol) (idx : Nat) (col : ColMeta)
    (hget : get_col prev.cols sel_col = some idx) (hcol : prev.cols.get? idx = some col)
    (htype : col.type = .TYPE_INT) (hlen : col.len = 4)
    (hrows : ∀ r ∈ prev.rows, col.offset + 4 ≤ r.length ∧ ∀ b ∈ r, b < 256)
    (hfuel : 2 ≤ fuel) :
    (sel_col.func = .FUNC_COUNT →
      select fl zero_float fresh fuel prev [sel_col]
        = some [Serial.int_bytes prev.rows.length]) ∧
    (sel_col.func = .FUNC_MAX → prev.rows ≠ [] →
      ∃ m, m ∈ prev.rows.map (fun r => int_at r col.offset) ∧
        (∀ v ∈ prev.rows.map (fun r => int_at r col.offset), v ≤ m) ∧
        select fl zero_float fresh fuel prev [sel_col] = some [Serial.int_bytes m]) ∧
    (sel_col.func = .FUNC_MIN → prev.rows ≠ [] →
      ∃ m, m ∈ prev.rows.map (fun r => int_at r col.offset) ∧
        (∀ v ∈ prev.rows.map (fun r => int_at r col.offset), m ≤ v) ∧
        select fl zero_float fresh fuel prev [sel_col] = some [Serial.int_bytes m]) ∧
    (sel_col.func = .FUNC_SUM → prev.rows ≠ [] →
      select fl zero_float fresh fuel prev [sel_col]
        = some [Serial.int_bytes (prev.rows.map (fun r => int_at r col.offset)).sum]) := by
  obtain ⟨f, rfl⟩ : ∃ f, fuel = f + 2 := ⟨fuel - 2, by omega⟩
  have hd : (alloc fresh 4).drop 4 = [] := by
    apply List.drop_eq_nil_of_le
    rw [alloc_length]
  refine ⟨?_, ?_, ?_, ?_⟩
  · intro hfunc
    have hf : function.create zero_float fresh sel_col.func col.type col.len
        = some (⟨Serial.int_bytes 0, .TYPE_INT, 4, .FUNC_COUNT, false⟩ : function) := by
      simp [function.create, hfunc, htype, function.write_int, hd]
    rw [select_single fl zero_float fresh f prev sel_col idx col _ hget hcol hf rfl
      (Or.inl rfl), fold_count, (int_bytes_take_drop _).1]
    simp
  · intro hfunc hne
    have hf : function.create zero_float fresh sel_col.func col.type col.len
        = some (⟨alloc fresh 4, .TYPE_INT, 4, .FUNC_MAX, true⟩ : function) := by
      simp [function.create, hfunc, htype, hlen]
    rw [select_single fl zero_float fresh f prev sel_col idx col _ hget hcol hf rfl
      (Or.inr hne)]
    cases hr : prev.rows with
    | nil => exact absurd hr hne
    | cons r rest =>
      rw [hr] at hrows
      rw [List.foldl_cons, calc_first fl fresh .FUNC_MAX (by decide) r col.offset
        (hrows r (List.mem_cons_self _ _)),
        fold_max fl col.offset rest (fun r1 h1 => hrows r1 (List.mem_cons_of_mem _ h1)) _
          (int_at_is_int r col.offset (hrows r (List.mem_cons_self _ _))),
        (int_bytes_take_drop _).1]
      obtain ⟨h1, h2, h3⟩ := foldl_max_spec (rest.map (fun r => int_at r col.offset))
        (int_at r col.offset)
      refine ⟨_, ?_, ?_, rfl⟩
      · rw [List.map_cons]
        rcases h3 with h | h
        · rw [h]; exact List.mem_cons_self _ _
        · exact List.mem_cons_of_mem _ h
      · intro v hv
        rw [List.map_cons] at hv
        rcases List.mem_cons.mp hv with rfl | hv
        · exact h1
        · exact h2 v hv
  · intro hfunc hne
    have hf : function.create zero_float fresh sel_col.func col.type col.len
        = some (⟨alloc fresh 4, .TYPE_INT, 4, .FUNC_MIN, true⟩ : function) := by
      simp [function.create, hfunc, htype, hlen]
    rw [select_single fl zero_float fresh f prev sel_col idx col _ hget hcol hf rfl
      (Or.inr hne)]
    cases hr : prev.rows with
    | nil => exact absurd hr hne
    | cons r rest =>
      rw [hr] at hrows
      rw [List.foldl_cons, calc_first fl fresh .FUNC_MIN (by decide) r col.offset
        (hrows r (List.mem_cons_self _ _)),
        fold_min fl col.offset rest (fun r1 h1 => hrows r1 (List.mem_cons_of_mem _ h1)) _
          (int_at_is_int r col.offset (hrows r (List.mem_cons_self _ _))),
        (int_bytes_take_drop _).1]
      obtain ⟨h1, h2, h3⟩ := foldl_min_spec (rest.map (fun r => int_at r col.offset))
        (int_at r col.offset)
      refine ⟨_, ?_, ?_, rfl⟩
      · rw [List.map_cons]
        rcases h3 with h | h
        · rw [h]; exact List.mem_cons_self _ _
        · exact List.mem_cons_of_mem _ h
      · intro v hv
        rw [List.map_cons] at hv
        rcases List.mem_cons.mp hv with rfl | hv
        · exact h1
        · exact h2 v hv
  · intro hfunc hne
    have hf : function.create zero_float fresh sel_col.func col.type col.len
        = some (⟨Serial.int_bytes 0, .TYPE_INT, 4, .FUNC_SUM, false⟩ : function) := by
      simp [function.create, hfunc, htype, hlen, function.write_int, hd]
    rw [select_single fl zero_float fresh f prev sel_col idx col _ hget hcol hf rfl
      (Or.inr hne), fold_sum, (int_bytes_take_drop _).1]
    simp

/-- C26 on the example child with the rows 1, 5, 3: `COUNT(a)` yields 3. -/
theorem aggregate_single_int_witness :
    select Example.no_floats [0, 0, 0, 0] [7, 7, 7, 7] 2 Example.ints
        [⟨"t", "a", .FUNC_COUNT, "", false⟩]
      = some [Serial.int_bytes Example.ints.rows.length] :=
  (aggregate_single_int Example.no_floats [0, 0, 0, 0] [7, 7, 7, 7] 2 Example.ints
    ⟨"t", "a", .FUNC_COUNT, "", false⟩ 0 ⟨"t", "a", .TYPE_INT, 4, 0, false⟩
    (by decide) (by decide) rfl rfl (by decide) (by decide)).1 rfl

end AggregateExecutor

/-! ## Theorems: the sort operator -/

namespace SortExecutor

/-- C25 (evaluation at the failing input): the child yields the rows
(t1.a, t2.a) = (1, 2), (2, 1). With `ORDER BY t1.a, t2.a` and no limit, the
operator yields (2, 1) before (1, 2): both keys are looked up in `cols_map`
under the name `a`, where the constructor has left the column `t2.a`, so the
rows are compared by `t2.a` alone: under the comparator the row (2, 1) is `less`
than the row (1, 2), so `std::sort` has to put it first, although it holds the
greater value of the first key. -/
theorem order_by_same_column_name :
    select Example.no_float_order 10 Example.joined Example.order_by_both (-1)
      = some [[2, 0, 0, 0, 1, 0, 0, 0], [1, 0, 0, 0, 2, 0, 0, 0]] ∧
    (∃ e, create Example.joined Example.order_by_both (-1) = some e ∧
      cols_map_at e.cols_map "a" = ⟨"t2", "a", .TYPE_INT, 4, 4, false⟩ ∧
      less Example.no_float_order e.cols_map e.key_cols_
        [2, 0, 0, 0, 1, 0, 0, 0] [1, 0, 0, 0, 2, 0, 0, 0] = true) ∧
    int_at [1, 0, 0, 0, 2, 0, 0, 0] 0 < int_at [2, 0, 0, 0, 1, 0, 0, 0] 0 := by
  refine ⟨by decide, ⟨_, rfl, by decide, by decide⟩, by decide⟩

end SortExecutor

/-! ## Theorems: recovery -/

namespace RecoveryManager

/-- While the transaction with the greatest last LSN is Committed, the loop of
`undo` goes round without changing anything. -/
theorem undo_committed_spins (uninit : Int) (rm : RecoveryManager)
    (hne : rm.active_txn_ ≠ [])
    (hin : rm.txn_status.any (fun kv => decide (kv.1 = (get_max_lsn uninit rm.active_txn_).1))
      = true)
    (hst : map_at rm.txn_status (get_max_lsn uninit rm.active_txn_).1 TxnStatus.UndoCandidate
      = .Committed) :
    ∀ fuel, undo uninit fuel rm = .out_of_fuel := by
  intro fuel
  induction fuel with
  | zero => simp [undo, hne]
  | succ n ih =>
    rw [undo]
    simp only [hne, if_false, hst, hin, if_true]
    exact ih

/-- C30 (evaluation at the failing input): the log file holds the Begin and the
Commit record of transaction 1 and no End record. `analyze` leaves transaction 1
in `active_txn_` with the status Committed, and `undo` then does not terminate:
for every number of rounds the loop is still running, with transaction 1 still
in the table. -/
theorem undo_spins_on_committed :
    Example.recovering.analyze.active_txn_ = [(1, 1)] ∧
    Example.recovering.analyze.txn_status = [(1, TxnStatus.Committed)] ∧
    ∀ uninit fuel, undo uninit fuel Example.recovering.analyze = .out_of_fuel := by
  refine ⟨by decide, by decide, ?_⟩
  intro uninit fuel
  have h1 : Example.recovering.analyze.active_txn_ = [(1, 1)] := by decide
  have h2 : Example.recovering.analyze.txn_status = [(1, TxnStatus.Committed)] := by decide
  have hmax : (get_max_lsn uninit Example.recovering.analyze.active_txn_).1 = 1 := by
    rw [h1]
    simp [get_max_lsn]
  apply undo_committed_spins
  · rw [h1]; simp
  · rw [hmax, h2]; decide
  · rw [hmax, h2]; decide

end RecoveryManager

/-! ## Theorems: index scan and sequential scan -/

namespace IndexScanExecutor

/-- C27 (evaluation at two failing inputs). First: the table `k (a INT, s CHAR(1))`
with an index on `(a, s)` holds the one record `(1, "\x80")`, and the condition is
`a = 1`. The sequential scan yields the record; the index scan yields nothing:
the right end of its range is the key `(1, "\x7f")`, the column `s` being padded
with `CHAR_MAX`, and the key of the record lies above it. Second: the table
`m (a INT, b INT)` with an index on `(a, b)` holds the one record `(2, 0)`, and the
conditions are `a >= 2 AND a >= 1`. The sequential scan yields the record; the
index scan yields nothing: both values are put into the left key, which becomes
`(2, 1)`, and the key of the record lies below it. The last two parts give the
positions between which the index is scanned: from 0 up to 0, and from 1 up to 1. -/
theorem index_scan_misses_records :
    SeqScanExecutor.select Example.no_float_order Example.no_widening 10 Example.k_sm "k"
        [Example.a_eq_1] Example.u_context = some [[1, 0, 0, 0, 128]] ∧
    select Example.no_float_order Example.no_widening [] 10 Example.k_sm "k"
        [Example.a_eq_1] ["a", "s"] Example.u_context = some [] ∧
    SeqScanExecutor.select Example.no_float_order Example.no_widening 10 Example.m_sm "m"
        [Example.a_ge 2, Example.a_ge 1] Example.u_context = some [[2, 0, 0, 0, 0, 0, 0, 0]] ∧
    select Example.no_float_order Example.no_widening [] 10 Example.m_sm "m"
        [Example.a_ge 2, Example.a_ge 1] ["a", "b"] Example.u_context = some [] ∧
    (create Example.k_sm "k" [Example.a_eq_1] ["a", "s"] Example.u_context).map
        (fun e => e.bounds Example.no_float_order []) = some (some (0, 0)) ∧
    (create Example.m_sm "m" [Example.a_ge 2, Example.a_ge 1] ["a", "b"]
        Example.u_context).map (fun e => e.bounds Example.no_float_order [])
      = some (some (1, 1)) := by
  refine ⟨by decide, by decide, by decide, by decide, by decide, by decide⟩

end IndexScanExecutor

/-! ## Theorems: the nested-loop join -/

namespace NestedLoopJoinExecutor

end NestedLoopJoinExecutor

/-! ## Theorems: aggregates in a select list of several -/

namespace AggregateExecutor

/-- C40: on the child with the rows 1, 5, 3 and the select list
`COUNT(a), MAX(a)`, `cols()` reports the offsets 0 and 4, yet the one record
`Next` returns holds the result of `MAX(a)`, 5, at offset 0 and the bytes the
new record happened to hold at offset 4: every result was copied to the start
of the record, so the count 3 was overwritten and is nowhere in the record. -/
theorem aggregate_results_all_at_offset_zero :
    (create [0, 0, 0, 0] [7, 7, 7, 7, 8, 8, 8, 8] Example.ints
        [⟨"t", "a", .FUNC_COUNT, "", false⟩, ⟨"t", "a", .FUNC_MAX, "", false⟩]).map
        (fun e => (e.cols_.map (fun c => c.offset), e.len_)) = some ([0, 4], 8) ∧
    select Example.no_floats [0, 0, 0, 0] [7, 7, 7, 7, 8, 8, 8, 8] 2 Example.ints
        [⟨"t", "a", .FUNC_COUNT, "", false⟩, ⟨"t", "a", .FUNC_MAX, "", false⟩]
      = some [Serial.int_bytes 5 ++ [8, 8, 8, 8]] ∧
    Serial.int_bytes 5 ++ [8, 8, 8, 8] ≠ Serial.int_bytes 3 ++ Serial.int_bytes 5 := by
  refine ⟨by decide, by decide, by decide⟩

end AggregateExecutor

/-! ## Theorems: key equality by C-string compare -/

namespace UpdateExecutor

/-- C38: the little-endian INT keys 256 and 512 are two different keys of four
bytes that `strcmp` takes for equal, both starting with a zero byte. On the
table `z (a INT)` with an index on `a` and the one record 256, the index loop of
`UpdateExecutor::Next` for the new record 512 leaves the index entry under the
key 256 while the record becomes 512; and `SmManager::rollback_update` of the
record 512 to the old image 256 leaves the index entry under the key 512 while
the record becomes 256. -/
theorem strcmp_equates_distinct_keys :
    Serial.int_bytes 256 ≠ Serial.int_bytes 512 ∧
    (Serial.int_bytes 256).length = (Serial.int_bytes 512).length ∧
    (Serial.int_bytes 256).head? = some 0 ∧ (Serial.int_bytes 512).head? = some 0 ∧
    strcmp_eq (InsertExecutor.key_of Example.z_index (Serial.int_bytes 256))
      (InsertExecutor.key_of Example.z_index (Serial.int_bytes 512)) = true ∧
    strcmp_eq (make_key Example.z_index (Serial.int_bytes 512))
      (make_key Example.z_index (Serial.int_bytes 256)) = true ∧
    Example.z_view (Example.z_sm 256)
      = (some [(Serial.int_bytes 256, ⟨1, 0⟩)], some (Serial.int_bytes 256)) ∧
    (update_rid Example.no_float_order (Example.z_sm 256) Example.z_tab "z" ⟨1, 0⟩
        (Serial.int_bytes 512) Example.u_context).map (fun r => Example.z_view r.1)
      = some (some [(Serial.int_bytes 256, ⟨1, 0⟩)], some (Serial.int_bytes 512)) ∧
    ((Example.z_sm 512).rollback_update "z" ⟨1, 0⟩ (Serial.int_bytes 256)
        (some Example.u_context)).map (fun r => Example.z_view r.1)
      = some (some [(Serial.int_bytes 512, ⟨1, 0⟩)], some (Serial.int_bytes 256)) := by
  refine ⟨by decide, by decide, by decide, by decide, by decide, by decide, by decide,
    by decide, by decide⟩

end UpdateExecutor

/-! ## Theorems: the tables of `analyze` and the log during `undo` -/

namespace RecoveryManager

/-- The dirty-page table stays empty through `analyze`: an entry is only ever
written for a page that is already in the table. -/
theorem analyze_from_dirty_page_nil (log : List LogRecord) :
    ∀ (offset : Nat) (rm : RecoveryManager), rm.dirty_page_ = [] →
      (analyze_from offset log rm).dirty_page_ = [] := by
  induction log with
  | nil => intro _ rm h; exact h
  | cons r rest ih =>
    intro offset rm h
    apply ih
    unfold analyze_record
    split_ifs <;> simp_all

/-- C34: after a crash that followed `begin; INSERT INTO t VALUES (7)` the log
holds a PageImage record for page 1 (LSN 1), one for the header page 0 (LSN 2)
and an Insert record for page 1 (LSN 3), and after `analyze` the dirty-page
table is empty: it holds neither page 1 nor page 0, where the claim has them
mapped to the LSNs 1 and 2. -/
theorem analyze_dirty_page_table_empty :
    Example.headers Example.crashed_insert.log
      = [(.BEGIN, 0, 1, -1), (.PAGE_SET, 1, 1, 0), (.PAGE_SET, 2, 1, 1), (.INSERT, 3, 1, 2)] ∧
    Example.crashed_insert.log.map touched_page = [0, 1, 0, 1] ∧
    Example.crashed_insert.dirty_page_ = [] ∧
    Example.crashed_insert.analyze.dirty_page_ = [] := by
  refine ⟨by decide, by decide, rfl, by decide⟩

/-- C31: after a crash that followed `begin; INSERT INTO t VALUES (7)`,
transaction 1 is a loser with the chain Begin (0), PageImage (1), PageImage (2),
Insert (3). `analyze` followed by `undo` undoes the insert (page 1 is back at
two records, slot 0 free) through `rollback_insert` without a context, which
leaves no context to write a log record with, and takes the transaction out of
the table; the log afterwards holds the same four records, so neither an
UndoNext record for the undone insert nor an End record was emitted. -/
theorem undo_emits_no_clr_and_no_end :
    Example.page_view Example.crashed_insert.sm_manager_ "t" 1 = some (3, true) ∧
    Example.crashed_insert.analyze.active_txn_ = [(1, 3)] ∧
    Example.crashed_insert.analyze.txn_status = [(1, .UndoCandidate)] ∧
    Example.undo_view (undo 0 5 Example.crashed_insert.analyze)
      = some ([(.BEGIN, 0, 1, -1), (.PAGE_SET, 1, 1, 0), (.PAGE_SET, 2, 1, 1),
               (.INSERT, 3, 1, 2)], [], some (2, false)) ∧
    (Example.crashed_insert.sm_manager_.rollback_insert "t" ⟨1, 0⟩ none).map
      (fun r => r.2.isNone) = some true := by
  refine ⟨by decide, by decide, by decide, rfl, by decide⟩

end RecoveryManager

/-! ## Theorems: the walk of `undo` -/

namespace RecoveryManager

/-- C37: after a crash that followed `begin; CREATE INDEX t(a)` the log holds
Begin (LSN 0) and CreateIndex (LSN 1) of transaction 1, and the catalog has the
index. `analyze` leaves the transaction in the table as an undo candidate with
the LSN of its Begin record as last LSN, the CreateIndex record not being one
of the types it looks at; `undo` then starts at the Begin record and ends
there, and the index is still in the catalog and open, where
`rollback_create_index` for the CreateIndex record would have dropped it. -/
theorem undo_skips_trailing_create_index :
    Example.crashed_create_index.map (fun rm => Example.headers rm.log)
      = some [(.BEGIN, 0, 1, -1), (.CREATE_INDEX, 1, 1, 0)] ∧
    Example.crashed_create_index.map
        (fun rm => (rm.analyze.active_txn_, rm.analyze.txn_status))
      = some ([(1, 0)], [(1, .UndoCandidate)]) ∧
    Example.crashed_create_index.map (fun rm =>
        match undo 0 5 rm.analyze with
        | .done rm1 => some (rm1.active_txn_, Example.index_view rm1.sm_manager_ "t" "t_a")
        | _ => none)
      = some (some ([], some [["a"]], true)) ∧
    Example.crashed_create_index.map (fun rm =>
        (rm.sm_manager_.rollback_create_index "t" ["a"] none).map
          (fun r => Example.index_view r.1 "t" "t_a"))
      = some (some (some [], false)) := by
  refine ⟨by decide, by decide, rfl, rfl⟩

/-- C36: transaction 1 inserted 7 at rid (1,0) (Insert record, LSN 3) and 8 at
rid (2,0) (LSN 6); its `abort` wrote the Abort record (LSN 7), undid the insert
of 8 (PageImage records 8 and 9, page 2 left with no record) and wrote the
UndoNext record (LSN 10) with `undo_next` 3; then the system crashed. `analyze`
gives the transaction the status Aborting and the last LSN 9, the LSN of a
PageImage record, the UndoNext record not being one of the types it looks at.
`undo` therefore starts at record 9, which is no UndoNext record, walks the
whole chain and undoes the insert of 8 a second time: page 2 ends with the
record count -1. A walk continued at `undo_next`, the record with LSN 3, leaves
page 2 with the count 0. -/
theorem undo_repeats_compensated_action :
    Example.crashed_abort.map (fun rm => Example.headers rm.log)
      = some [(.BEGIN, 0, 1, -1), (.PAGE_SET, 1, 1, 0), (.PAGE_SET, 2, 1, 1),
              (.INSERT, 3, 1, 2), (.PAGE_SET, 4, 1, 3), (.PAGE_SET, 5, 1, 4),
              (.INSERT, 6, 1, 5), (.ABORT, 7, 1, 6), (.PAGE_SET, 8, 1, 7),
              (.PAGE_SET, 9, 1, 8), (.UNDO_NEXT, 10, 1, 9)] ∧
    Example.crashed_abort.map (fun rm => Example.undo_nexts rm.log) = some [(10, 3)] ∧
    Example.crashed_abort.map (fun rm =>
        (Example.page_view rm.sm_manager_ "t" 1, Example.page_view rm.sm_manager_ "t" 2))
      = some (some (3, true), some (0, false)) ∧
    Example.crashed_abort.map (fun rm => (rm.analyze.active_txn_, rm.analyze.txn_status))
      = some ([(1, 9)], [(1, .Aborting)]) ∧
    Example.crashed_abort.map (fun rm =>
        match undo 0 20 rm.analyze with
        | .done rm1 => some (rm1.active_txn_, Example.page_view rm1.sm_manager_ "t" 1,
                             Example.page_view rm1.sm_manager_ "t" 2)
        | _ => none)
      = some (some ([], some (2, false), some (-1, false))) ∧
    Example.crashed_abort.map (fun rm =>
        match undo_walk 20 rm.sm_manager_ rm.log rm.analyze.lsn_mapping_ .UndoCandidate
            (map_at rm.analyze.lsn_mapping_ 3 0) with
        | .done sm1 => some (Example.page_view sm1 "t" 1, Example.page_view sm1 "t" 2)
        | _ => none)
      = some (some (some (2, false), some (0, false))) := by
  refine ⟨by decide, by decide!, by decide, by decide, rfl, rfl⟩

end RecoveryManager

/-! ## Theorems: `log_tot_len_` and the bytes `serialize` writes -/

namespace Serial

/-- C32: the Insert record for the value `7 0 0 0` at rid (1,0) of the table
`t` has `log_tot_len_` 46, and `serialize` writes the four bytes of `undo_next`
(-1) at the offsets 46 to 49, whatever the buffer held: 50 bytes in all. The
UndoNext record counts the same field (24 bytes, and the buffer is left as it
was from offset 24 on). The CreateIndex record for the table `tt` and the
column `a` has `log_tot_len_` 46, with the number of columns counted where the
length of the table name is written, and `serialize` writes the byte of the
column name at offset 46: 47 bytes in all. -/
theorem serialize_writes_past_log_tot_len (dest : Buf) :
    (InsertLogRecord.create 1 0 [7, 0, 0, 0] ⟨1, 0⟩ [116]).log_tot_len_ = 46 ∧
    read ((InsertLogRecord.create 1 0 [7, 0, 0, 0] ⟨1, 0⟩ [116]).serialize dest) 46 4
      = int_bytes (-1) ∧
    int_bytes (-1) = [255, 255, 255, 255] ∧
    (UndoNextLogRecord.create 1 0 3).log_tot_len_ = 24 ∧
    read ((UndoNextLogRecord.create 1 0 3).serialize dest) 20 4 = int_bytes 3 ∧
    (∀ i, 24 ≤ i → ((UndoNextLogRecord.create 1 0 3).serialize dest) i = dest i) ∧
    (CreateIndexLogRecord.create 1 0 [116, 116] [[97]]).log_tot_len_ = 46 ∧
    ((CreateIndexLogRecord.create 1 0 [116, 116] [[97]]).serialize dest) 46 = 97 := by
  refine ⟨by decide, ?_, by decide, by decide, ?_, ?_, by decide, ?_⟩
  · exact read_memcpy_at _ _ _ _ _ rfl (int_bytes_length _).symm
  · exact read_memcpy_at _ _ _ _ _ rfl (int_bytes_length _).symm
  · intro i hi
    simp only [UndoNextLogRecord.serialize, LogRecord.serialize, memcpy, int_bytes_length,
      uint32_bytes_length, OFFSET_LOG_DATA, OFFSET_LOG_TYPE, OFFSET_LSN, OFFSET_LOG_TOT_LEN,
      OFFSET_LOG_TID, OFFSET_PREV_LSN]
    rw [if_neg (by omega), if_neg (by omega), if_neg (by omega), if_neg (by omega),
      if_neg (by omega), if_neg (by omega)]
  · simp [CreateIndexLogRecord.serialize, CreateIndexLogRecord.create, write_cols, memcpy,
      LOG_HEADER_SIZE]

end Serial

/-! ## Theorems: `redo` -/

namespace RecoveryManager

/-- C35: transaction 1 inserted 7 into page 1 of the table `t`; `insert_record`
wrote the PageImage record with LSN 1 and stamped the live page with LSN 1, but
it had taken the after-image before the stamp, so the image carries the LSN the
page had before, -1. After a crash with page 1 on disk as before the insert
(LSN -1, two records), `redo` finds -1 < 1 and replaces the page by the
after-image: the page holds the record 7, three records, and its stored LSN is
-1 again, not the LSN 1 of the record applied to it (nor the LSN the live page
had). -/
theorem redo_leaves_old_page_lsn :
    Example.page_images Example.crashed_insert_unflushed.log = [(1, 1, -1)] ∧
    Example.page_lsn_view Example.inserted_7.1 "t" 1 = some (1, 3, [7, 0, 0, 0]) ∧
    Example.page_lsn_view Example.crashed_insert_unflushed.sm_manager_ "t" 1
      = some (-1, 2, [0, 0, 0, 0]) ∧
    (redo 0 Example.crashed_insert_unflushed.analyze).map
        (fun rm => Example.page_lsn_view rm.sm_manager_ "t" 1)
      = some (some (-1, 3, [7, 0, 0, 0])) := by
  refine ⟨by decide, by decide, by decide, by decide⟩

end RecoveryManager

/-! ## Theorems: the transaction table of `analyze` -/

/-- A key without an entry is not found. -/
theorem map_find_absent {κ ν : Type} [DecidableEq κ] (m : List (κ × ν)) (key : κ)
    (h : m.any (fun kv => decide (kv.1 = key)) = false) : map_find? m key = none := by
  unfold map_find?
  induction m with
  | nil => rfl
  | cons kv rest ih =>
    simp only [List.any_cons, Bool.or_eq_false_iff, decide_eq_false_iff_not] at h
    simp only [List.find?_cons, h.1, decide_False]
    exact ih h.2

/-- Looking up after every entry of `key` was replaced. -/
theorem map_find_replace {κ ν : Type} [DecidableEq κ] (m : List (κ × ν)) (key : κ) (v : ν)
    (k : κ) :
    map_find? (m.map (fun kv => if kv.1 = key then (key, v) else kv)) k
      = if k = key then (if m.any (fun kv => decide (kv.1 = key)) then some v else none)
        else map_find? m k := by
  unfold map_find?
  induction m with
  | nil => simp
  | cons kv rest ih =>
    by_cases hkv : kv.1 = key
    · by_cases h : k = key
      · subst h; simp [hkv]
      · have h2 : ¬ key = k := fun e => h e.symm
        have hk : ¬ kv.1 = k := fun e => h (e.symm.trans hkv)
        simp only [List.map_cons, hkv, if_true, List.find?_cons, h2, decide_False, hk]
        rw [ih, if_neg h, if_neg h]
    · by_cases h : k = key
      · subst h
        simp only [List.map_cons, hkv, if_false, List.find?_cons, decide_False, List.any_cons,
          Bool.false_or]
        rw [ih]; simp
      · simp only [List.map_cons, hkv, if_false, List.find?_cons]
        by_cases hk : kv.1 = k
        · simp [hk, h]
        · simp only [hk, decide_False]
          rw [ih, if_neg h, if_neg h]

/-- Looking up after an entry was appended. -/
theorem map_find_append {κ ν : Type} [DecidableEq κ] (m : List (κ × ν)) (key : κ) (v : ν)
    (k : κ) :
    map_find? (m ++ [(key, v)]) k
      = (map_find? m k).orElse (fun _ => if k = key then some v else none) := by
  unfold map_find?
  induction m with
  | nil =>
    by_cases h : k = key
    · subst h; simp
    · have h2 : ¬ key = k := fun e => h e.symm
      simp [h, h2]
  | cons kv rest ih =>
    by_cases hk : kv.1 = k
    · simp [hk]
    · simp only [List.cons_append, List.find?_cons, hk, decide_False]
      exact ih

/-- Looking up after `m[key] = v`. -/
theorem map_find_set {κ ν : Type} [DecidableEq κ] (m : List (κ × ν)) (key : κ) (v : ν)
    (k : κ) : map_find? (map_set m key v) k = if k = key then some v else map_find? m k := by
  unfold map_set
  by_cases hany : m.any (fun kv => decide (kv.1 = key)) = true
  · rw [if_pos hany, map_find_replace, hany]; simp
  · rw [if_neg hany, map_find_append]
    by_cases h : k = key
    · subst h
      rw [map_find_absent m k (Bool.eq_false_iff.mpr hany)]; simp
    · simp [h]

/-- Looking up after `m.erase(key)`. -/
theorem map_find_erase {κ ν : Type} [DecidableEq κ] (m : List (κ × ν)) (key : κ) (k : κ) :
    map_find? (map_erase m key) k = if k = key then none else map_find? m k := by
  unfold map_erase map_find?
  induction m with
  | nil => simp
  | cons kv rest ih =>
    by_cases hkv : kv.1 = key
    · by_cases h : k = key
      · subst h
        simp only [List.filter_cons, hkv, decide_True, Bool.not_true, if_true]
        rw [if_neg (by simp)]
        rw [ih]; simp
      · have hk : ¬ kv.1 = k := fun e => h (e.symm.trans hkv)
        have h2 : ¬ key = k := fun e => h e.symm
        simp only [List.filter_cons, hkv, decide_True, Bool.not_true, List.find?_cons, h2,
          decide_False]
        rw [if_neg (by simp), ih, if_neg h]
    · simp only [List.filter_cons, hkv, decide_False, Bool.not_false, if_true, List.find?_cons]
      by_cases hk : kv.1 = k
      · have h : ¬ k = key := fun e => hkv (hk.trans e)
        simp [hk, h]
      · simp only [hk, decide_False]
        rw [ih]

/-- The assignment `m[key] = v` keeps the keys apart. -/
theorem map_set_nodup {κ ν : Type} [DecidableEq κ] (m : List (κ × ν)) (key : κ) (v : ν)
    (h : (m.map Prod.fst).Nodup) : ((map_set m key v).map Prod.fst).Nodup := by
  unfold map_set
  by_cases hany : m.any (fun kv => decide (kv.1 = key)) = true
  · rw [if_pos hany]
    have : (m.map (fun kv => if kv.1 = key then (key, v) else kv)).map Prod.fst
        = m.map Prod.fst := by
      rw [List.map_map]
      apply List.map_congr_left
      intro kv _
      by_cases hk : kv.1 = key
      · simp [hk]
      · simp [hk]
    rw [this]; exact h
  · rw [if_neg hany, List.map_append]
    refine List.Nodup.append h (by simp) ?_
    intro a ha hb
    simp only [List.map_cons, List.map_nil, List.mem_singleton] at hb
    subst hb
    apply hany
    obtain ⟨kv, hkv, hfst⟩ := List.mem_map.mp ha
    exact List.any_eq_true.mpr ⟨kv, hkv, by simp [hfst]⟩

/-- The call `m.erase(key)` keeps the keys apart. -/
theorem map_erase_nodup {κ ν : Type} [DecidableEq κ] (m : List (κ × ν)) (key : κ)
    (h : (m.map Prod.fst).Nodup) : ((map_erase m key).map Prod.fst).Nodup :=
  List.Nodup.sublist (List.Sublist.map _ (List.filter_sublist _)) h

namespace RecoveryManager

/-- The loop of `analyze` over a log and one more record. -/
theorem analyze_from_snoc (log : List LogRecord) (r : LogRecord) :
    ∀ (offset : Nat) (rm : RecoveryManager),
      analyze_from offset (log ++ [r]) rm
        = (analyze_from offset log rm).analyze_record (offset + log.length) r := by
  induction log with
  | nil => intro offset rm; rfl
  | cons x rest ih =>
    intro offset rm
    show analyze_from (offset + 1) (rest ++ [r]) _ = _
    rw [ih]
    simp only [List.length_cons, analyze_from]
    congr 1
    omega

/-- The records after the last End record, for a log and one more record. -/
theorem after_last_end_snoc (tid : Int) (log : List LogRecord) (r : LogRecord) :
    after_last_end tid (log ++ [r])
      = if is_end_of tid r then [] else after_last_end tid log ++ [r] := by
  simp [after_last_end, List.foldl_append]

/-- The last element of a list followed by at most one more element. -/
theorem getLast_append_if {α : Type} (xs : List α) (c : Bool) (r : α) :
    (xs ++ (if c then [r] else [])).getLast? = if c then some r else xs.getLast? := by
  cases c
  · simp
  · simp

/-- The last live record of a transaction, for a log and one more record. -/
theorem live_last_snoc (tid : Int) (log : List LogRecord) (r : LogRecord) :
    (live_records tid (log ++ [r])).getLast?
      = if is_end_of tid r then none
        else if (decide (r.log_tid_ = tid) && (is_status_record r || is_data_record r))
          then some r
        else (live_records tid log).getLast? := by
  unfold live_records
  rw [after_last_end_snoc]
  by_cases he : is_end_of tid r = true
  · simp [he]
  · rw [if_neg he, if_neg he, List.filter_append, ← getLast_append_if]
    congr 1
    simp only [List.filter_cons, List.filter_nil]

/-- The last status record of a transaction, for a log and one more record. -/
theorem status_last_snoc (tid : Int) (log : List LogRecord) (r : LogRecord) :
    (status_records tid (log ++ [r])).getLast?
      = if is_end_of tid r then none
        else if (decide (r.log_tid_ = tid) && is_status_record r) then some r
        else (status_records tid log).getLast? := by
  unfold status_records
  rw [after_last_end_snoc]
  by_cases he : is_end_of tid r = true
  · simp [he]
  · rw [if_neg he, if_neg he, List.filter_append, ← getLast_append_if]
    congr 1
    simp only [List.filter_cons, List.filter_nil]

/-- The transaction table after the loop of `analyze`, started on empty tables:
no transaction has two entries, the entry of a transaction is the LSN of the
last of its live records, and its status that of the last of its status
records. -/
theorem analyze_from_tables (sm : SmManager) (all : List LogRecord) (tid : Int)
    (log : List LogRecord) :
    ((analyze_from 0 log (startup sm all)).active_txn_.map Prod.fst).Nodup ∧
    ((analyze_from 0 log (startup sm all)).txn_status.map Prod.fst).Nodup ∧
    map_find? (analyze_from 0 log (startup sm all)).active_txn_ tid
      = (live_records tid log).getLast?.map (fun r => r.lsn_) ∧
    map_find? (analyze_from 0 log (startup sm all)).txn_status tid
      = (status_records tid log).getLast?.map status_of := by
  induction log using List.reverseRecOn with
  | nil => exact ⟨List.nodup_nil, List.nodup_nil, rfl, rfl⟩
  | append_singleton l r ih =>
    obtain ⟨n1, n2, f1, f2⟩ := ih
    rw [analyze_from_snoc, live_last_snoc, status_last_snoc]
    simp only [apply_ite (Option.map (fun r : LogRecord => r.lsn_)),
      apply_ite (Option.map status_of), Option.map_none', Option.map_some', ← f1, ← f2]
    generalize analyze_from 0 l (startup sm all) = rm at n1 n2
    by_cases htid : tid = r.log_tid_
    · subst htid
      cases ht : r.log_type_ <;>
        simp [analyze_record, ht, is_end_of, is_status_record, is_data_record, status_of,
          map_find_set, map_find_erase, map_set_nodup, map_erase_nodup, n1, n2]
    · have h2 : ¬ r.log_tid_ = tid := fun e => htid e.symm
      cases ht : r.log_type_ <;>
        simp [analyze_record, ht, htid, h2, is_end_of, is_status_record, is_data_record,
          status_of, map_find_set, map_find_erase, map_set_nodup, map_erase_nodup, n1, n2]

/-- A log is what precedes the records after the last End record of a
transaction, which is nothing or ends with that End record, followed by them. -/
theorem after_last_end_split (tid : Int) (log : List LogRecord) :
    ∃ pre, log = pre ++ after_last_end tid log ∧
      (pre = [] ∨ ∃ p e, pre = p ++ [e] ∧ is_end_of tid e = true) := by
  induction log using List.reverseRecOn with
  | nil => exact ⟨[], rfl, Or.inl rfl⟩
  | append_singleton l r ih =>
    obtain ⟨pre, h1, h2⟩ := ih
    rw [after_last_end_snoc]
    by_cases he : is_end_of tid r = true
    · rw [if_pos he]
      exact ⟨l ++ [r], by simp, Or.inr ⟨l, r, rfl, he⟩⟩
    · rw [if_neg he]
      refine ⟨pre, ?_, h2⟩
      rw [← List.append_assoc, ← h1]

/-- In a well-formed log a transaction with a live record has a status record
among them: its Begin record. -/
theorem wf_live_has_status (log : List LogRecord) (hw : WellFormedLog log) (tid : Int)
    (h : live_records tid log ≠ []) : status_records tid log ≠ [] := by
  obtain ⟨r, hr⟩ := List.exists_mem_of_ne_nil _ h
  unfold live_records at hr
  obtain ⟨hra, hrp⟩ := List.mem_filter.mp hr
  have hrt : r.log_tid_ = tid := by
    simp only [Bool.and_eq_true, decide_eq_true_eq] at hrp
    exact hrp.1
  obtain ⟨pre, hsplit, hpre⟩ := after_last_end_split tid log
  have hrl : r ∈ log := by rw [hsplit]; exact List.mem_append_right _ hra
  obtain ⟨hhead, hlast⟩ := hw r hrl
  rw [hrt] at hhead hlast
  have hra2 : r ∈ (after_last_end tid log).filter (fun s => decide (s.log_tid_ = tid)) :=
    List.mem_filter.mpr ⟨hra, by simp [hrt]⟩
  rcases hpre with hnil | ⟨p, e, hp, he⟩
  · rw [hnil, List.nil_append] at hsplit
    cases hm : log.filter (fun s => decide (s.log_tid_ = tid)) with
    | nil => rw [hm] at hhead; simp at hhead
    | cons b rest =>
      rw [hm] at hhead
      simp only [List.head?_cons, Option.map_some', Option.some.injEq] at hhead
      have hb : b ∈ log.filter (fun s => decide (s.log_tid_ = tid)) := by
        rw [hm]; exact List.mem_cons_self _ _
      obtain ⟨hbl, hbt⟩ := List.mem_filter.mp hb
      have : b ∈ status_records tid log := by
        unfold status_records
        rw [← hsplit]
        exact List.mem_filter.mpr ⟨hbl, by simp [is_status_record, hhead] at hbt ⊢; exact hbt⟩
      exact List.ne_nil_of_mem this
  · exfalso
    have het : e.log_type_ = .END ∧ e.log_tid_ = tid := by
      simpa [is_end_of] using he
    obtain ⟨a, z, haz⟩ : ∃ a z,
        (after_last_end tid log).filter (fun s => decide (s.log_tid_ = tid)) = a ++ [z] := by
      rcases List.eq_nil_or_concat
        ((after_last_end tid log).filter (fun s => decide (s.log_tid_ = tid))) with h0 | ⟨a, z, h1⟩
      · rw [h0] at hra2; exact absurd hra2 (List.not_mem_nil _)
      · exact ⟨a, z, by rw [h1, List.concat_eq_append]⟩
    have hmine : log.filter (fun s => decide (s.log_tid_ = tid))
        = (p.filter (fun s => decide (s.log_tid_ = tid)) ++ [e] ++ a) ++ [z] := by
      conv_lhs => rw [hsplit, hp]
      rw [List.filter_append, List.filter_append, haz]
      simp [het.2, List.append_assoc]
    rw [hmine, List.dropLast_concat] at hlast
    exact hlast e (by simp) het.1

/-- A key is not found exactly when the map has no entry for it. -/
theorem map_find_none_iff {κ ν : Type} [DecidableEq κ] (m : List (κ × ν)) (key : κ) :
    map_find? m key = none ↔ key ∉ m.map Prod.fst := by
  unfold map_find?
  induction m with
  | nil => simp
  | cons kv rest ih =>
    by_cases hk : kv.1 = key
    · simp [hk]
    · have h2 : ¬ key = kv.1 := fun e => hk e.symm
      simp only [List.find?_cons, hk, decide_False, List.map_cons, List.mem_cons, h2, false_or]
      exact ih

/-- C33: for every well-formed log and every transaction `tid`, after `analyze`
(started on empty tables) the transaction table has no transaction twice; it
has `tid` exactly when `tid` has a Begin, Commit, Abort or data-modifying
(Update, Insert, Delete, PageImage) record after its last End record; and then
its last LSN is the LSN of the last such record `r`, and its status is
UndoCandidate, Committed or Aborting according to the last `s` of its Begin,
Commit and Abort records being Begin, Commit or Abort. -/
theorem analyze_transaction_table (sm : SmManager) (log : List LogRecord)
    (hw : WellFormedLog log) (tid : Int) :
    ((startup sm log).analyze.active_txn_.map Prod.fst).Nodup ∧
    ((startup sm log).analyze.txn_status.map Prod.fst).Nodup ∧
    (tid ∈ (startup sm log).analyze.active_txn_.map Prod.fst ↔ live_records tid log ≠ []) ∧
    (∀ r, (live_records tid log).getLast? = some r →
      map_find? (startup sm log).analyze.active_txn_ tid = some r.lsn_ ∧
      ∃ s, (status_records tid log).getLast? = some s ∧
        (s.log_type_ = .BEGIN ∨ s.log_type_ = .COMMIT ∨ s.log_type_ = .ABORT) ∧
        map_find? (startup sm log).analyze.txn_status tid = some (status_of s)) := by
  obtain ⟨n1, n2, f1, f2⟩ := analyze_from_tables sm log tid log
  have ha : (startup sm log).analyze = analyze_from 0 log (startup sm log) := rfl
  rw [ha]
  refine ⟨n1, n2, ?_, ?_⟩
  · rw [← not_iff_not, ← map_find_none_iff, f1]
    simp [List.getLast?_eq_none_iff]
  · intro r hr
    rw [f1, f2, hr]
    refine ⟨rfl, ?_⟩
    have hne : live_records tid log ≠ [] := by
      intro h0; rw [h0] at hr; simp at hr
    have hs := wf_live_has_status log hw tid hne
    obtain ⟨s, hsl⟩ : ∃ s, (status_records tid log).getLast? = some s := by
      cases hx : (status_records tid log).getLast? with
      | none => exact absurd (List.getLast?_eq_none_iff.mp hx) hs
      | some s => exact ⟨s, rfl⟩
    refine ⟨s, hsl, ?_, by rw [hsl]; rfl⟩
    have hmem : s ∈ status_records tid log := List.mem_of_getLast?_eq_some hsl
    unfold status_records at hmem
    have := (List.mem_filter.mp hmem).2
    simp only [Bool.and_eq_true] at this
    simpa [is_status_record] using this.2

/-- C33 on the log a crash left after `begin; INSERT INTO t VALUES (7)`: Begin
(LSN 0), PageImage (1, 2), Insert (3) of transaction 1. The log is well-formed;
the table has transaction 1, which has live records, with the last LSN 3 and
the status UndoCandidate. -/
theorem analyze_transaction_table_witness :
    WellFormedLog Example.crashed_insert.log ∧
    (1 ∈ (startup Example.inserted_7.1 Example.crashed_insert.log).analyze.active_txn_.map
        Prod.fst ↔ live_records 1 Example.crashed_insert.log ≠ []) ∧
    map_find? (startup Example.inserted_7.1 Example.crashed_insert.log).analyze.active_txn_ 1
      = some 3 ∧
    map_find? (startup Example.inserted_7.1 Example.crashed_insert.log).analyze.txn_status 1
      = some .UndoCandidate :=
  have hw : WellFormedLog Example.crashed_insert.log := by
    unfold WellFormedLog; decide
  ⟨hw,
   (analyze_transaction_table Example.inserted_7.1 Example.crashed_insert.log hw 1).2.2.1,
   by decide, by decide⟩

end RecoveryManager

/-! ## Theorems: the lock table and the lock sets -/

namespace LockWorld

/-- Counting after one element of a list was replaced. -/
theorem countP_set_add {α : Type} (p : α → Bool) :
    ∀ (l : List α) (i : Nat) (a b : α), l.get? i = some a →
      (l.set i b).countP p + (if p a then 1 else 0) = l.countP p + (if p b then 1 else 0) := by
  intro l
  induction l with
  | nil => intro i a b h; simp at h
  | cons x rest ih =>
    intro i a b h
    cases i with
    | zero =>
      simp only [List.get?_cons_zero, Option.some.injEq] at h
      subst h
      simp only [List.set_cons_zero, List.countP_cons]
      omega
    | succ j =>
      simp only [List.get?_cons_succ] at h
      have := ih j a b h
      simp only [List.set_cons_succ, List.countP_cons]
      omega

/-- The holders of a lock after the transaction at position `i` was replaced. -/
theorem holders_set (w : LockWorld) (lm : LockManager) (i : Nat) (t t2 : Transaction)
    (id : LockDataId) (h : w.txns.get? i = some t) :
    holders { lock_manager_ := lm, txns := w.txns.set i t2 } id
        + (if id ∈ t.lock_set_ then 1 else 0)
      = w.holders id + (if id ∈ t2.lock_set_ then 1 else 0) := by
  have := countP_set_add (fun t => decide (id ∈ t.lock_set_)) w.txns i t t2 h
  simpa [holders] using this

/-- The invariant after the transaction at position `i` and the lock table were
replaced, when the new lock set holds no lock twice and every new entry fits
the new number of holders. -/
theorem step_ok (w : LockWorld) (hw : LockOK w) (i : Nat) (t t2 : Transaction)
    (lm : LockManager) (hget : w.txns.get? i = some t) (hnd : t2.lock_set_.Nodup)
    (hentry : ∀ id n, n + (if id ∈ t.lock_set_ then 1 else 0)
        = w.holders id + (if id ∈ t2.lock_set_ then 1 else 0) →
      entry_ok (lm.lock_table_ id) n) :
    LockOK { lock_manager_ := lm, txns := w.txns.set i t2 } := by
  refine ⟨?_, ?_⟩
  · intro x hx
    rcases List.mem_or_eq_of_mem_set hx with h | h
    · exact hw.1 x h
    · rw [h]; exact hnd
  · intro id
    exact hentry id _ (holders_set w lm i t t2 id hget)

/-- A transaction of the world that holds a lock is one of its holders. -/
theorem holders_pos (w : LockWorld) (i : Nat) (t : Transaction) (id : LockDataId)
    (hget : w.txns.get? i = some t) (hid : id ∈ t.lock_set_) : 1 ≤ w.holders id := by
  unfold holders
  exact List.countP_pos_iff.mpr ⟨t, List.get?_mem hget, by simpa using hid⟩

/-- The entry of a lock after the release of a duplicate-free lock set that
holds it: a shared entry loses one share and goes when none is left, any other
entry goes. -/
theorem unlock_all_exact (l : List LockDataId) :
    ∀ (txn : Transaction) (lm : LockManager), l.Nodup → ∀ id ∈ l,
      (TransactionManager.unlock_all l txn lm).2.lock_table_ id =
        match lm.lock_table_ id with
        | none => none
        | some st =>
          if st.mode = .S then
            (if st.shared_num - 1 ≤ 0 then none
             else some { st with shared_num := st.shared_num - 1 })
          else none := by
  induction l with
  | nil => intro _ _ _ id hid; exact absurd hid (List.not_mem_nil _)
  | cons a rest ih =>
    intro txn lm hnd id hid
    rw [List.nodup_cons] at hnd
    obtain ⟨_, h2, _⟩ := TransactionManager.unlock_effect lm txn a
    simp only [TransactionManager.unlock_all]
    rcases List.mem_cons.mp hid with rfl | hr
    · rw [(TransactionManager.unlock_all_effect rest _ _ hnd.2).2.1 id hnd.1]
      unfold LockManager.unlock
      cases h : lm.lock_table_ id with
      | none => simp [h]
      | some st =>
        by_cases hm : st.mode = .S
        · by_cases hs : st.shared_num - 1 ≤ 0
          · simp [hm, hs]
          · simp [hm, hs]
        · simp [hm]
    · have hne : id ≠ a := fun h => hnd.1 (h ▸ hr)
      rw [ih _ _ hnd.2 id hr, h2 id hne]

/-- The invariant is kept by `lock_shared_on_table`. -/
theorem lock_shared_ok (w : LockWorld) (i : Nat) (fd : Int) (hw : LockOK w) :
    LockOK (w.lock_shared i fd) := by
  unfold lock_shared
  cases hget : w.txns.get? i with
  | none => exact hw
  | some t =>
    have hmem : t ∈ w.txns := List.get?_mem hget
    have same : ∀ (t2 : Transaction), t2.lock_set_ = t.lock_set_ →
        LockOK { lock_manager_ := w.lock_manager_, txns := w.txns.set i t2 } := by
      intro t2 h2
      refine step_ok w hw i t t2 _ hget (h2 ▸ hw.1 t hmem) ?_
      intro id n hn
      rw [h2] at hn
      have : n = w.holders id := by omega
      rw [this]; exact hw.2 id
    simp only [LockManager.lock_shared_on_table]
    by_cases hiso : t.isolation_level_ = .READ_UNCOMMITTED
    · simp only [hiso, if_true]
      exact same _ rfl
    · simp only [hiso, if_false]
      by_cases hin : LockDataId.table fd ∈ t.lock_set_
      · simp only [hin, if_true]
        exact same _ rfl
      · simp only [hin, if_false]
        have hins : ∀ (s : TransactionState),
            (Transaction.lock_set_insert { t with state_ := s } (LockDataId.table fd)).lock_set_
              = t.lock_set_ ++ [LockDataId.table fd] := by
          intro s; simp [Transaction.lock_set_insert, hin]
        have hnd2 : (t.lock_set_ ++ [LockDataId.table fd]).Nodup := by
          refine List.Nodup.append (hw.1 t hmem) (by simp) ?_
          intro a ha hb
          simp only [List.mem_singleton] at hb
          subst hb; exact hin ha
        have h0 := hw.2 (LockDataId.table fd)
        cases hst : w.lock_manager_.lock_table_ (LockDataId.table fd) with
        | none =>
          simp only [hst]
          refine step_ok w hw i t _ _ hget (by rw [hins]; exact hnd2) ?_
          intro id n hn
          rw [hins] at hn
          by_cases hid : id = LockDataId.table fd
          · subst hid
            rw [hst] at h0
            have h00 : w.holders (LockDataId.table fd) = 0 := h0
            simp only [hin, if_false, List.mem_append, List.mem_singleton, or_true, if_true] at hn
            dsimp only
            rw [Function.update_same]
            exact Or.inl ⟨rfl, by show (1 : Int) = (n : Int); omega, by omega⟩
          · have hm : (id ∈ t.lock_set_ ++ [LockDataId.table fd]) ↔ id ∈ t.lock_set_ := by
              simp [hid]
            simp only [hm] at hn
            have : n = w.holders id := by omega
            dsimp only
            rw [this, Function.update_noteq hid]; exact hw.2 id
        | some st =>
          simp only [hst]
          by_cases hmode : st.mode = .S
          · simp only [hmode, if_true]
            refine step_ok w hw i t _ _ hget (by rw [hins]; exact hnd2) ?_
            intro id n hn
            rw [hins] at hn
            by_cases hid : id = LockDataId.table fd
            · subst hid
              rw [hst] at h0
              simp only [hin, if_false, List.mem_append, List.mem_singleton, or_true,
                if_true] at hn
              dsimp only
              rw [Function.update_same]
              rcases h0 with ⟨_, hsn, _⟩ | ⟨hx, _⟩
              · exact Or.inl ⟨rfl, by
                  show st.shared_num + 1 = (n : Int)
                  omega, by omega⟩
              · rw [hmode] at hx; exact absurd hx (by decide)
            · have hm : (id ∈ t.lock_set_ ++ [LockDataId.table fd]) ↔ id ∈ t.lock_set_ := by
                simp [hid]
              simp only [hm] at hn
              have : n = w.holders id := by omega
              dsimp only
              rw [this, Function.update_noteq hid]; exact hw.2 id
          · simp only [hmode, if_false]
            exact same _ rfl

/-- The invariant is kept by `lock_exclusive_on_table`. -/
theorem lock_exclusive_ok (w : LockWorld) (i : Nat) (fd : Int) (hw : LockOK w) :
    LockOK (w.lock_exclusive i fd) := by
  unfold lock_exclusive
  cases hget : w.txns.get? i with
  | none => exact hw
  | some t =>
    have hmem : t ∈ w.txns := List.get?_mem hget
    have same : ∀ (t2 : Transaction) (lm : LockManager), t2.lock_set_ = t.lock_set_ →
        (∀ id, lm.lock_table_ id = w.lock_manager_.lock_table_ id) →
        LockOK { lock_manager_ := lm, txns := w.txns.set i t2 } := by
      intro t2 lm h2 hlm
      refine step_ok w hw i t t2 _ hget (h2 ▸ hw.1 t hmem) ?_
      intro id n hn
      rw [h2] at hn
      have : n = w.holders id := by omega
      rw [this, hlm]; exact hw.2 id
    simp only [LockManager.lock_exclusive_on_table]
    by_cases hiso : t.isolation_level_ = .READ_UNCOMMITTED
    · simp only [hiso, if_true]
      exact same _ _ rfl (fun _ => rfl)
    · simp only [hiso, if_false]
      have h0 := hw.2 (LockDataId.table fd)
      by_cases hin : LockDataId.table fd ∈ t.lock_set_
      · simp only [hin, if_true]
        have hpos := holders_pos w i t _ hget hin
        cases hst : w.lock_manager_.lock_table_ (LockDataId.table fd) with
        | none =>
          rw [hst] at h0
          have h00 : w.holders (LockDataId.table fd) = 0 := h0
          omega
        | some st =>
          rw [hst] at h0
          have hsame : ∀ id, Function.update w.lock_manager_.lock_table_ (LockDataId.table fd)
              (some st) id = w.lock_manager_.lock_table_ id := by
            intro id
            by_cases hid : id = LockDataId.table fd
            · subst hid; rw [Function.update_same, hst]
            · rw [Function.update_noteq hid]
          simp only [Option.getD_some]
          by_cases hmode : st.mode = .S
          · simp only [hmode, if_true]
            by_cases hnum : st.shared_num > 1
            · simp only [hnum, if_true]
              exact same _ _ rfl hsame
            · simp only [hnum, if_false]
              refine step_ok w hw i t _ _ hget (hw.1 t hmem) ?_
              intro id n hn
              have hn2 : n = w.holders id := by
                simp only at hn
                omega
              by_cases hid : id = LockDataId.table fd
              · subst hid
                dsimp only
                rw [Function.update_same]
                rcases h0 with ⟨_, hsn, _⟩ | ⟨hx, _⟩
                · exact Or.inr ⟨rfl, by omega⟩
                · rw [hmode] at hx; exact absurd hx (by decide)
              · dsimp only
                rw [hn2, Function.update_noteq hid]; exact hw.2 id
          · simp only [hmode, if_false]
            exact same _ _ rfl hsame
      · simp only [hin, if_false]
        have hins : ∀ (s : TransactionState),
            (Transaction.lock_set_insert { t with state_ := s } (LockDataId.table fd)).lock_set_
              = t.lock_set_ ++ [LockDataId.table fd] := by
          intro s; simp [Transaction.lock_set_insert, hin]
        have hnd2 : (t.lock_set_ ++ [LockDataId.table fd]).Nodup := by
          refine List.Nodup.append (hw.1 t hmem) (by simp) ?_
          intro a ha hb
          simp only [List.mem_singleton] at hb
          subst hb; exact hin ha
        cases hst : w.lock_manager_.lock_table_ (LockDataId.table fd) with
        | some st =>
          simp only [hst]
          exact same _ _ rfl (fun _ => rfl)
        | none =>
          simp only [hst]
          refine step_ok w hw i t _ _ hget (by rw [hins]; exact hnd2) ?_
          intro id n hn
          rw [hins] at hn
          by_cases hid : id = LockDataId.table fd
          · subst hid
            rw [hst] at h0
            have h00 : w.holders (LockDataId.table fd) = 0 := h0
            simp only [hin, if_false, List.mem_append, List.mem_singleton, or_true, if_true] at hn
            dsimp only
            rw [Function.update_same]
            exact Or.inr ⟨rfl, by omega⟩
          · have hm : (id ∈ t.lock_set_ ++ [LockDataId.table fd]) ↔ id ∈ t.lock_set_ := by
              simp [hid]
            simp only [hm] at hn
            have : n = w.holders id := by omega
            dsimp only
            rw [this, Function.update_noteq hid]; exact hw.2 id

/-- The invariant is kept by the release of a whole lock set. -/
theorem release_ok (w : LockWorld) (i : Nat) (hw : LockOK w) : LockOK (w.release i) := by
  unfold release
  cases hget : w.txns.get? i with
  | none => exact hw
  | some t =>
    have hmem : t ∈ w.txns := List.get?_mem hget
    have hnd := hw.1 t hmem
    dsimp only
    refine step_ok w hw i t _ _ hget List.nodup_nil ?_
    intro id n hn
    simp only [List.not_mem_nil, if_false, Nat.add_zero] at hn
    have h0 := hw.2 id
    by_cases hid : id ∈ t.lock_set_
    · rw [unlock_all_exact t.lock_set_ t w.lock_manager_ hnd id hid]
      simp only [hid, if_true] at hn
      cases hst : w.lock_manager_.lock_table_ id with
      | none =>
        rw [hst] at h0
        have h00 : w.holders id = 0 := h0
        omega
      | some st =>
        rw [hst] at h0
        dsimp only
        rcases h0 with ⟨hm, hsn, _⟩ | ⟨hm, hone⟩
        · rw [if_pos hm]
          by_cases hs : st.shared_num - 1 ≤ 0
          · rw [if_pos hs]
            show n = 0
            omega
          · rw [if_neg hs]
            exact Or.inl ⟨hm, by show st.shared_num - 1 = (n : Int); omega, by omega⟩
        · rw [if_neg (by rw [hm]; decide)]
          show n = 0
          omega
    · rw [(TransactionManager.unlock_all_effect t.lock_set_ t w.lock_manager_ hnd).2.1 id hid]
      simp only [hid, if_false, Nat.add_zero] at hn
      rw [hn]; exact h0

/-- Every reachable state of lock table and lock sets satisfies the invariant. -/
theorem reachable_ok (w : LockWorld) (h : Reachable w) : LockOK w := by
  induction h with
  | start txns h0 =>
    refine ⟨fun t ht => by rw [h0 t ht]; exact List.nodup_nil, fun id => ?_⟩
    show holders _ id = 0
    unfold holders
    rw [List.countP_eq_zero]
    intro t ht
    simp [h0 t ht]
  | shared w i fd _ ih => exact lock_shared_ok w i fd ih
  | exclusive w i fd _ ih => exact lock_exclusive_ok w i fd ih
  | released w i _ ih => exact release_ok w i ih

/-- The lock table after the release loop does not depend on the other fields
of the transaction that is passed along. -/
theorem unlock_all_table (l : List LockDataId) :
    ∀ (txn txn2 : Transaction) (lm : LockManager),
      (TransactionManager.unlock_all l txn lm).2
        = (TransactionManager.unlock_all l txn2 lm).2 := by
  induction l with
  | nil => intro _ _ _; rfl
  | cons a rest ih =>
    intro txn txn2 lm
    simp only [TransactionManager.unlock_all]
    have : (lm.unlock txn a).2.2 = (lm.unlock txn2 a).2.2 := by
      unfold LockManager.unlock
      cases lm.lock_table_ a with
      | none => rfl
      | some st => dsimp only; split_ifs <;> rfl
    rw [this]
    exact ih _ _ _

/-- The lock table `commit` leaves and the lock set of the committed
transaction are those of the release step. -/
theorem commit_is_release (db : Database) (txn : Transaction) :
    (TransactionManager.commit db txn).1.lock_manager_
      = (release { lock_manager_ := db.lock_manager_, txns := [txn] } 0).lock_manager_ ∧
    (TransactionManager.commit db txn).2.lock_set_ = [] := by
  refine ⟨?_, rfl⟩
  have f3 := (TransactionManager.add_idx_log_fields txn db.log_manager_).2.2.1
  simp only [TransactionManager.commit, release, List.get?_cons_zero]
  rw [f3]
  exact unlock_all_table _ _ _ _

/-- The lock table `abort` leaves after its loop and the lock set of the aborted
transaction are those of the release step. -/
theorem abort_finish_is_release (sm1 : SmManager) (context1 : Context) :
    (TransactionManager.abort_finish sm1 context1).1.lock_manager_
      = (release { lock_manager_ := context1.lock_mgr_,
                   txns := [context1.txn_] } 0).lock_manager_ ∧
    (TransactionManager.abort_finish sm1 context1).2.lock_set_ = [] :=
  ⟨rfl, rfl⟩

/-- C39: in every state of lock table and lock sets that is reached from an
empty lock table by `lock_shared_on_table`, `lock_exclusive_on_table` and the
release of a transaction's whole lock set (as `commit` and `abort` do it), a
lock whose entry has the group mode X is in the lock set of exactly one
transaction, and for a lock whose entry has the group mode S the stored
`shared_num` is the number of transactions that have it in their lock set. -/
theorem lock_table_counts_holders (w : LockWorld) (h : Reachable w) (id : LockDataId)
    (st : LockStatus) (hst : w.lock_manager_.lock_table_ id = some st) :
    (st.mode = .X → w.holders id = 1) ∧
    (st.mode = .S → st.shared_num = (w.holders id : Int)) := by
  have h0 := (reachable_ok w h).2 id
  rw [hst] at h0
  rcases h0 with ⟨hm, hsn, _⟩ | ⟨hm, hone⟩
  · exact ⟨fun hx => by rw [hm] at hx; exact absurd hx (by decide), fun _ => hsn⟩
  · exact ⟨fun _ => hone, fun hs => by rw [hm] at hs; exact absurd hs (by decide)⟩

/-- C39 where two transactions have both taken the shared lock on the table with
file descriptor 3: the state is reachable, the entry of the table is S with
`shared_num` 2, and two transactions have the table in their lock set. -/
theorem lock_table_counts_holders_witness :
    Reachable Example.both_shared ∧
    Example.both_shared.lock_manager_.lock_table_ (LockDataId.table 3) = some ⟨2, .S⟩ ∧
    Example.both_shared.holders (LockDataId.table 3) = 2 ∧
    (((⟨2, .S⟩ : LockStatus).mode = .X → Example.both_shared.holders (LockDataId.table 3) = 1) ∧
     ((⟨2, .S⟩ : LockStatus).mode = .S →
        (⟨2, .S⟩ : LockStatus).shared_num
          = (Example.both_shared.holders (LockDataId.table 3) : Int))) :=
  have hr : Reachable Example.both_shared :=
    Reachable.shared _ 1 3 (Reachable.shared _ 0 3
      (Reachable.start Example.two_txns (by decide)))
  have hst : Example.both_shared.lock_manager_.lock_table_ (LockDataId.table 3)
      = some ⟨2, .S⟩ := by decide
  ⟨hr, hst, by decide,
   lock_table_counts_holders Example.both_shared hr (LockDataId.table 3) ⟨2, .S⟩ hst⟩

end LockWorld

/-! ## Theorems: table lock requests -/

namespace LockManager

/-- C18: for a transaction with the isolation level the program gives every
transaction it creates (`SERIALIZABLE`), whatever its state, so in particular
when it is not shrinking. If it does not hold the table lock yet,
`lock_shared_on_table` is granted exactly when the table is unlocked or held in
S mode, and `lock_exclusive_on_table` exactly when the table is unlocked. If it
holds the table in S mode, `lock_exclusive_on_table` is granted exactly when the
share count is at most 1, and then the mode is X; in a state of lock table and
lock sets reached from the empty lock table that is exactly when the
transaction is the only one that has the table in its lock set. When a request
is not granted, lock table and lock set are unchanged. -/
theorem table_lock_grants (lm : LockManager) (txn : Transaction) (fd : Int)
    (hiso : txn.isolation_level_ = .SERIALIZABLE) :
    (LockDataId.table fd ∉ txn.lock_set_ →
      ((lm.lock_shared_on_table txn fd).1 = some true ↔
        (lm.lock_table_ (LockDataId.table fd) = none ∨
         ∃ st, lm.lock_table_ (LockDataId.table fd) = some st ∧ st.mode = .S)) ∧
      ((lm.lock_exclusive_on_table txn fd).1 = some true ↔
        lm.lock_table_ (LockDataId.table fd) = none)) ∧
    (∀ st, LockDataId.table fd ∈ txn.lock_set_ →
      lm.lock_table_ (LockDataId.table fd) = some st → st.mode = .S →
      ((lm.lock_exclusive_on_table txn fd).1 = some true ↔ st.shared_num ≤ 1) ∧
      ((lm.lock_exclusive_on_table txn fd).1 = some true →
        (lm.lock_exclusive_on_table txn fd).2.2.lock_table_ (LockDataId.table fd)
          = some { st with mode := .X })) ∧
    (∀ (w : LockWorld) (i : Nat) (st : LockStatus), LockWorld.Reachable w →
      w.lock_manager_ = lm → w.txns.get? i = some txn →
      LockDataId.table fd ∈ txn.lock_set_ →
      lm.lock_table_ (LockDataId.table fd) = some st → st.mode = .S →
      ((lm.lock_exclusive_on_table txn fd).1 = some true ↔
        w.holders (LockDataId.table fd) = 1)) ∧
    ((lm.lock_shared_on_table txn fd).1 ≠ some true →
      (lm.lock_shared_on_table txn fd).2.2.lock_table_ = lm.lock_table_ ∧
      (lm.lock_shared_on_table txn fd).2.1.lock_set_ = txn.lock_set_) ∧
    ((lm.lock_exclusive_on_table txn fd).1 ≠ some true →
      (lm.lock_exclusive_on_table txn fd).2.2.lock_table_ = lm.lock_table_ ∧
      (lm.lock_exclusive_on_table txn fd).2.1.lock_set_ = txn.lock_set_) := by
  have hne : txn.isolation_level_ ≠ .READ_UNCOMMITTED := by rw [hiso]; decide
  obtain ⟨h1, h2, h3, h4⟩ := table_lock_requests lm txn fd hne
  refine ⟨h1, h2, ?_, h3, h4⟩
  intro w i st hw hlm hget hmem hst hm
  rw [(h2 st hmem hst hm).1]
  have hok := (LockWorld.reachable_ok w hw).2 (LockDataId.table fd)
  rw [hlm, hst] at hok
  have hpos := LockWorld.holders_pos w i txn (LockDataId.table fd) hget hmem
  rcases hok with ⟨_, hsn, _⟩ | ⟨hx, _⟩
  · rw [hsn]
    omega
  · rw [hm] at hx
    exact absurd hx (by decide)

/-- C18 where two transactions created by `begin` both hold the shared lock on
the table with file descriptor 3: the first of them asks for the exclusive lock
and is refused, there being two holders. -/
theorem table_lock_grants_witness :
    Example.first_holder.isolation_level_ = .SERIALIZABLE ∧
    LockWorld.Reachable Example.both_shared ∧
    Example.both_shared.txns.get? 0 = some Example.first_holder ∧
    LockDataId.table 3 ∈ Example.first_holder.lock_set_ ∧
    Example.both_shared.lock_manager_.lock_table_ (LockDataId.table 3) = some ⟨2, .S⟩ ∧
    Example.both_shared.holders (LockDataId.table 3) = 2 ∧
    (Example.both_shared.lock_manager_.lock_exclusive_on_table Example.first_holder 3).1
      = some false ∧
    ((Example.both_shared.lock_manager_.lock_exclusive_on_table Example.first_holder 3).1
        = some true ↔ Example.both_shared.holders (LockDataId.table 3) = 1) :=
  have hr : LockWorld.Reachable Example.both_shared :=
    LockWorld.Reachable.shared _ 1 3 (LockWorld.Reachable.shared _ 0 3
      (LockWorld.Reachable.start Example.two_txns (by decide)))
  ⟨by decide, hr, rfl, by decide, by decide, by decide, by decide,
   (table_lock_grants Example.both_shared.lock_manager_ Example.first_holder 3
      (by decide)).2.2.1 Example.both_shared 0 ⟨2, .S⟩ hr rfl rfl (by decide)
      (by decide) rfl⟩

end LockManager

/-! ## Theorems: eviction and the log -/

namespace StorageState

/-- A record in the log buffer after `add_log_to_buffer` was there before or is
the new one, which carries the value of the LSN counter. -/
theorem add_log_buffer_mem (lm : LogManager) (rec r : LogRecord)
    (h : r ∈ (lm.add_log_to_buffer rec).2.buffer_) :
    r ∈ lm.buffer_ ∨ r.lsn_ = lm.global_lsn_ := by
  unfold LogManager.add_log_to_buffer at h
  by_cases hf : lm.is_full rec.log_tot_len_ = true
  · simp only [hf, if_true, LogManager.flush_log_to_disk, List.nil_append,
      List.mem_singleton] at h
    right; rw [h]
  · simp only [hf, if_false, List.mem_append, List.mem_singleton] at h
    rcases h with h | h
    · left; exact h
    · right; rw [h]; simp

/-- The LSN counter never goes down. -/
theorem Reachable.global_lsn_mono {α : Type} [Zero α] {s0 s : StorageState α}
    (h : Reachable s0 s) : s0.log.global_lsn_ ≤ s.log.global_lsn_ := by
  induction h with
  | start => exact le_refl _
  | pool s b _ _ ih => exact ih
  | add_log_to_buffer s rec _ ih =>
    show _ ≤ (s.log.add_log_to_buffer rec).2.global_lsn_
    rw [LogManager.add_log_global]; omega
  | flush_log_to_disk s _ ih => exact ih
  | logged_write s f body rec _ _ ih =>
    show _ ≤ (s.log.add_log_to_buffer rec).2.global_lsn_
    rw [LogManager.add_log_global]; omega

/-- From a state whose log buffer is empty on, every record in the log buffer
carries an LSN that was handed out since. -/
theorem Reachable.buffer_lsns {α : Type} [Zero α] {s0 s : StorageState α}
    (h0 : s0.log.buffer_ = []) (h : Reachable s0 s) :
    ∀ r ∈ s.log.buffer_, s0.log.global_lsn_ ≤ r.lsn_ := by
  induction h with
  | start => intro r hr; rw [h0] at hr; exact absurd hr (List.not_mem_nil r)
  | pool s b _ _ ih => exact ih
  | add_log_to_buffer s rec hs ih =>
    intro r hr
    rcases add_log_buffer_mem s.log rec r hr with h1 | h1
    · exact ih r h1
    · rw [h1]; exact hs.global_lsn_mono
  | flush_log_to_disk s _ ih =>
    intro r hr
    simp [LogManager.flush_log_to_disk] at hr
  | logged_write s f body rec hs _ ih =>
    intro r hr
    rcases add_log_buffer_mem s.log rec r hr with h1 | h1
    · exact ih r h1
    · rw [h1]; exact hs.global_lsn_mono

/-- C6 (amended): `flush_log_to_disk` runs in the state `s`, and `s1` is any
state of pool and log reached afterwards. Every page stamped by a logged write
before the flush carries an LSN below the LSN counter of `s`. When `fetch_page`
(for a page that is not cached) or `new_page` takes as victim in `s1` a dirty
frame whose page LSN is below the LSN counter of `s`, so was handed out before
the flush, the log manager is the same before and after the call, the disk
afterwards holds the victim's bytes under its page id (with `new_page`: unless
that is the id of the new page), and no record with an LSN up to the page LSN is
in the log buffer when the bytes are written. -/
theorem eviction_wal_when_flushed {α : Type} [Zero α] (s s1 : StorageState α)
    (hr : Reachable { s with log := s.log.flush_log_to_disk } s1)
    (f : frame_id_t) (b1 : BufferPoolManager α)
    (hv : s1.bpm.find_victim_page = some (f, b1))
    (hdirty : (s1.bpm.pages f).is_dirty = true)
    (hstamp : (s1.bpm.pages f).data.lsn < s.log.global_lsn_) :
    (∀ (sa : StorageState α) (fa : frame_id_t) (body : α) (rec : LogRecord),
      Reachable (sa.logged_write fa body rec) s →
      ((sa.logged_write fa body rec).bpm.pages fa).data.lsn < s.log.global_lsn_) ∧
    (∀ pid, s1.bpm.page_table pid = none →
      (s1.fetch_page pid).log = s1.log ∧
      (s1.fetch_page pid).bpm.disk.pages (s1.bpm.pages f).id = (s1.bpm.pages f).data ∧
      wal_ok (s1.fetch_page pid).log
        ((s1.fetch_page pid).bpm.disk.pages (s1.bpm.pages f).id)) ∧
    (∀ fd,
      (s1.new_page fd).log = s1.log ∧
      ((s1.bpm.pages f).id ≠ ⟨fd, s1.bpm.disk.fd2pageno fd⟩ →
        (s1.new_page fd).bpm.disk.pages (s1.bpm.pages f).id = (s1.bpm.pages f).data) ∧
      wal_ok (s1.new_page fd).log (s1.bpm.pages f).data) := by
  have hwal : wal_ok s1.log (s1.bpm.pages f).data := by
    intro r hmem
    have h1 := Reachable.buffer_lsns
      (show ({ s with log := s.log.flush_log_to_disk } : StorageState α).log.buffer_ = [] from rfl)
      hr r hmem
    have h2 : ({ s with log := s.log.flush_log_to_disk } : StorageState α).log.global_lsn_
        = s.log.global_lsn_ := rfl
    rw [h2] at h1
    omega
  obtain ⟨hpages, _, hdisk⟩ := BufferPoolManager.find_victim_page_frame hv
  refine ⟨?_, ?_, ?_⟩
  · intro sa fa body rec hra
    have h1 := hra.global_lsn_mono
    have h2 : ((sa.logged_write fa body rec).bpm.pages fa).data.lsn = sa.log.global_lsn_ := by
      simp only [logged_write, BufferPoolManager.write_data, Function.update_same]
      exact LogManager.add_log_lsn sa.log rec
    have h3 : (sa.logged_write fa body rec).log.global_lsn_ = sa.log.global_lsn_ + 1 :=
      LogManager.add_log_global sa.log rec
    omega
  · intro pid hun
    have h1 : (s1.bpm.fetch_page pid).2.disk.pages (s1.bpm.pages f).id
        = (s1.bpm.pages f).data := by
      unfold BufferPoolManager.fetch_page
      simp only [hun, hv, BufferPoolManager.update_page, BufferPoolManager.incr_pin, hpages,
        hdisk]
      simp [hdirty, DiskManager.write_page]
    refine ⟨rfl, h1, ?_⟩
    show wal_ok s1.log ((s1.bpm.fetch_page pid).2.disk.pages (s1.bpm.pages f).id)
    rw [h1]; exact hwal
  · intro fd
    refine ⟨rfl, ?_, hwal⟩
    intro hne
    show (s1.bpm.new_page fd).2.disk.pages (s1.bpm.pages f).id = (s1.bpm.pages f).data
    unfold BufferPoolManager.new_page
    simp only [hv, hpages, hdisk, DiskManager.allocate_page, DiskManager.write_page]
    simp [hdirty, Function.update, hne]

/-- Witness for the amended C6: the page (0,0) is updated with a logged write
(LSN 0), the log is flushed, and one more record (LSN 1) is appended, which
stays in the log buffer. The frame is the victim of `fetch_page` of page (0,1),
dirty with page LSN 0: its bytes reach the disk, and the one record in the
buffer has a larger LSN. -/
theorem eviction_wal_when_flushed_witness :
    Reachable ({ example_updated with log := example_updated.log.flush_log_to_disk } :
      StorageState Nat) example_flushed_then_logged ∧
    example_flushed_then_logged.log.buffer_.map (fun r => r.lsn_) = [1] ∧
    (example_flushed_then_logged.bpm.pages 0).is_dirty = true ∧
    (example_flushed_then_logged.bpm.pages 0).data.lsn = 0 ∧
    example_updated.log.global_lsn_ = 1 ∧
    ((example_flushed_then_logged.fetch_page ⟨0, 1⟩).log = example_flushed_then_logged.log ∧
     (example_flushed_then_logged.fetch_page ⟨0, 1⟩).bpm.disk.pages
        (example_flushed_then_logged.bpm.pages 0).id
        = (example_flushed_then_logged.bpm.pages 0).data ∧
     wal_ok (example_flushed_then_logged.fetch_page ⟨0, 1⟩).log
       ((example_flushed_then_logged.fetch_page ⟨0, 1⟩).bpm.disk.pages
         (example_flushed_then_logged.bpm.pages 0).id)) :=
  have hr : Reachable ({ example_updated with log := example_updated.log.flush_log_to_disk } :
      StorageState Nat) example_flushed_then_logged :=
    Reachable.add_log_to_buffer _ example_record Reachable.start
  ⟨hr, by rfl, by decide, by decide, by rfl,
   (eviction_wal_when_flushed example_updated example_flushed_then_logged hr 0
      { example_flushed_then_logged.bpm with replacer := { LRUlist := [] } } rfl rfl
      (by decide)).2.1 ⟨0, 1⟩ rfl⟩

end StorageState

/-! ## Theorems: the rows a join yields and the conditions -/

namespace Filter

end Filter

namespace NestedLoopJoinExecutor

end NestedLoopJoinExecutor

/-! ## Theorems: the records an abort appends to the log -/

namespace LogManager

/-- Nothing appended is a growth by page records. -/
theorem GrowsByPages.same (lm : LogManager) : lm.GrowsByPages lm :=
  ⟨[], by simp, fun r hr => absurd hr (List.not_mem_nil r)⟩

/-- Growths by page records compose. -/
theorem GrowsByPages.followed {a b c : LogManager} (h1 : a.GrowsByPages b)
    (h2 : b.GrowsByPages c) : a.GrowsByPages c := by
  obtain ⟨s1, e1, p1⟩ := h1
  obtain ⟨s2, e2, p2⟩ := h2
  refine ⟨s1 ++ s2, by rw [e2, e1, List.append_assoc], ?_⟩
  intro r hr
  rcases List.mem_append.mp hr with h | h
  · exact p1 r h
  · exact p2 r h

/-- Appending a page record is a growth by page records. -/
theorem GrowsByPages.append (lm : LogManager) (rec : LogRecord) (h : rec.is_page_record) :
    lm.GrowsByPages (lm.add_log_to_buffer rec).2 := by
  refine ⟨[{ rec with lsn_ := lm.global_lsn_ }], add_log_records lm rec, ?_⟩
  intro r hr
  rw [List.mem_singleton] at hr
  subst hr
  exact h

end LogManager

namespace TransactionManager

/-- The fold of `add_idx_log` over the pending indexes writes page records only. -/
theorem add_idx_log_fold_grows (tid : Int) (l : List String) :
    ∀ (acc : Int × LogManager),
      acc.2.GrowsByPages
        (l.foldl (fun (acc : Int × LogManager) idx_name =>
            acc.2.add_log_to_buffer (IndexPagesLogRecord tid acc.1 idx_name)) acc).2 := by
  induction l with
  | nil => intro acc; exact LogManager.GrowsByPages.same _
  | cons n rest ih =>
    intro acc
    simp only [List.foldl_cons]
    exact (LogManager.GrowsByPages.append acc.2 (IndexPagesLogRecord tid acc.1 n)
      (Or.inr rfl)).followed (ih _)

/-- `add_idx_log` writes page records only. -/
theorem add_idx_log_grows (txn : Transaction) (lm : LogManager) :
    lm.GrowsByPages (txn.add_idx_log lm).2 := by
  have := add_idx_log_fold_grows txn.txn_id_ txn.idx_pending_ (txn.prev_lsn_, lm)
  simpa [Transaction.add_idx_log] using this

/-- `ctx_add_idx_log` writes page records only. -/
theorem ctx_add_idx_log_grows (c : Context) :
    ∃ c1, SmManager.ctx_add_idx_log (some c) = some c1 ∧
      c.log_mgr_.GrowsByPages c1.log_mgr_ :=
  ⟨_, rfl, add_idx_log_grows c.txn_ c.log_mgr_⟩

/-- `touch_index` leaves the log alone. -/
theorem touch_index_log (c : Context) (n : String) : (c.touch_index n).log_mgr_ = c.log_mgr_ := by
  unfold Context.touch_index
  by_cases h : n ∈ c.txn_.idx_pending_ <;> simp [h]

/-- Inserting an index entry writes no log record. -/
theorem insert_entry_grows (ih : IxIndexHandle) (n : String) (k : List Nat) (rid : Rid)
    (c : Context) :
    ∃ c1, (ih.insert_entry n k rid (some c)).2.2 = some c1 ∧
      c.log_mgr_.GrowsByPages c1.log_mgr_ := by
  unfold IxIndexHandle.insert_entry
  by_cases h : (ih.entries.any fun e => e.1 == k) = true
  · simp only [h, if_true]
    exact ⟨c, rfl, LogManager.GrowsByPages.same _⟩
  · simp only [h, Bool.false_eq_true, if_false, Option.map_some']
    refine ⟨_, rfl, ?_⟩
    rw [touch_index_log]
    exact LogManager.GrowsByPages.same _

/-- Deleting an index entry writes no log record. -/
theorem delete_entry_grows (ih : IxIndexHandle) (n : String) (k : List Nat) (c : Context) :
    ∃ c1, (ih.delete_entry n k (some c)).2.2 = some c1 ∧
      c.log_mgr_.GrowsByPages c1.log_mgr_ := by
  unfold IxIndexHandle.delete_entry
  by_cases h : (ih.entries.any fun e => e.1 == k) = true
  · simp only [h, if_true, Option.map_some']
    refine ⟨_, rfl, ?_⟩
    rw [touch_index_log]
    exact LogManager.GrowsByPages.same _
  · simp only [h, Bool.false_eq_true, if_false]
    exact ⟨c, rfl, LogManager.GrowsByPages.same _⟩

/-- The heap operations with a context write page records only. -/
theorem heap_ops_grow (fh : RmFileHandle) (rid : Rid) (buf : List Nat) (c : Context) :
    (∀ fh1 ctx1, fh.delete_record rid (some c) = some (fh1, ctx1) →
      ∃ c1, ctx1 = some c1 ∧ c.log_mgr_.GrowsByPages c1.log_mgr_) ∧
    (∀ fh1 ctx1, fh.update_record rid buf (some c) = some (fh1, ctx1) →
      ∃ c1, ctx1 = some c1 ∧ c.log_mgr_.GrowsByPages c1.log_mgr_) ∧
    (∀ rid1 fh1 ctx1, fh.insert_record buf (some c) = some (rid1, fh1, ctx1) →
      ∃ c1, ctx1 = some c1 ∧ c.log_mgr_.GrowsByPages c1.log_mgr_) := by
  have hlog : ∀ (file_name : String) (page_no : Int) (old_page : PageImage RmPage)
      (new_body : RmPage) (old_hdr new_hdr : RmFileHdr),
      c.log_mgr_.GrowsByPages
        (RmFileHandle.log_page_and_hdr c file_name page_no old_page new_body old_hdr
            new_hdr).2.2 := by
    intro file_name page_no old_page new_body old_hdr new_hdr
    exact (LogManager.GrowsByPages.append c.log_mgr_ _ (Or.inl rfl)).followed
      (LogManager.GrowsByPages.append _ _ (Or.inl rfl))
  refine ⟨?_, ?_, ?_⟩
  · intro fh1 ctx1 h
    simp only [RmFileHandle.delete_record, LockManager.lock_exclusive_on_record, Bool.not_true,
      Bool.false_eq_true, if_false, Option.some.injEq, Prod.mk.injEq] at h
    exact ⟨_, h.2.symm, hlog _ _ _ _ _ _⟩
  · intro fh1 ctx1 h
    simp only [RmFileHandle.update_record, LockManager.lock_exclusive_on_record, Bool.not_true,
      Bool.false_eq_true, if_false, Option.some.injEq, Prod.mk.injEq] at h
    exact ⟨_, h.2.symm, LogManager.GrowsByPages.append _ _ (Or.inl rfl)⟩
  · intro rid1 fh1 ctx1 h
    simp only [RmFileHandle.insert_record, LockManager.lock_exclusive_on_record, Bool.not_true,
      Bool.false_eq_true, if_false, Option.some.injEq, Prod.mk.injEq] at h
    exact ⟨_, h.2.2.symm, hlog _ _ _ _ _ _⟩

/-- The index loop of `rollback_insert` writes no log record. -/
theorem delete_entries_grow (t : String) (data : List Nat) (ixs : List IndexMeta) :
    ∀ (sm sm1 : SmManager) (c : Context) (ctx1 : Option Context),
      SmManager.delete_entries t data ixs sm (some c) = some (sm1, ctx1) →
      ∃ c1, ctx1 = some c1 ∧ c.log_mgr_.GrowsByPages c1.log_mgr_ := by
  induction ixs with
  | nil =>
    intro sm sm1 c ctx1 h
    simp only [SmManager.delete_entries, Option.some.injEq, Prod.mk.injEq] at h
    exact ⟨c, h.2.symm, LogManager.GrowsByPages.same _⟩
  | cons ix rest ihr =>
    intro sm sm1 c ctx1 h
    simp only [SmManager.delete_entries] at h
    cases hh : sm.ihs_ (get_index_name t ix.cols) with
    | none => rw [hh] at h; cases h
    | some ih =>
      rw [hh] at h
      simp only at h
      obtain ⟨c2, hc2, hw2⟩ := delete_entry_grows ih (get_index_name t ix.cols)
        (make_key ix data) c
      rw [hc2] at h
      obtain ⟨c3, hc3, hw3⟩ := ihr _ sm1 c2 ctx1 h
      exact ⟨c3, hc3, hw2.followed hw3⟩

/-- The index loop of `rollback_delete` writes no log record. -/
theorem insert_entries_grow (t : String) (data : List Nat) (rid : Rid)
    (ixs : List IndexMeta) :
    ∀ (sm sm1 : SmManager) (c : Context) (ctx1 : Option Context),
      SmManager.insert_entries t data rid ixs sm (some c) = some (sm1, ctx1) →
      ∃ c1, ctx1 = some c1 ∧ c.log_mgr_.GrowsByPages c1.log_mgr_ := by
  induction ixs with
  | nil =>
    intro sm sm1 c ctx1 h
    simp only [SmManager.insert_entries, Option.some.injEq, Prod.mk.injEq] at h
    exact ⟨c, h.2.symm, LogManager.GrowsByPages.same _⟩
  | cons ix rest ihr =>
    intro sm sm1 c ctx1 h
    simp only [SmManager.insert_entries] at h
    cases hh : sm.ihs_ (get_index_name t ix.cols) with
    | none => rw [hh] at h; cases h
    | some ih =>
      rw [hh] at h
      simp only at h
      obtain ⟨c2, hc2, hw2⟩ := insert_entry_grows ih (get_index_name t ix.cols)
        (make_key ix data) rid c
      rw [hc2] at h
      obtain ⟨c3, hc3, hw3⟩ := ihr _ sm1 c2 ctx1 h
      exact ⟨c3, hc3, hw2.followed hw3⟩

/-- The index loop of `rollback_update` writes no log record. -/
theorem swap_entries_grow (t : String) (cur old_image : List Nat) (rid : Rid)
    (ixs : List IndexMeta) :
    ∀ (sm sm1 : SmManager) (c : Context) (ctx1 : Option Context),
      SmManager.swap_entries t cur old_image rid ixs sm (some c) = some (sm1, ctx1) →
      ∃ c1, ctx1 = some c1 ∧ c.log_mgr_.GrowsByPages c1.log_mgr_ := by
  induction ixs with
  | nil =>
    intro sm sm1 c ctx1 h
    simp only [SmManager.swap_entries, Option.some.injEq, Prod.mk.injEq] at h
    exact ⟨c, h.2.symm, LogManager.GrowsByPages.same _⟩
  | cons ix rest ihr =>
    intro sm sm1 c ctx1 h
    simp only [SmManager.swap_entries] at h
    by_cases hs : strcmp_eq (make_key ix cur) (make_key ix old_image) = true
    · simp only [hs, if_true] at h
      exact ihr _ sm1 c ctx1 h
    · simp only [hs, Bool.false_eq_true, if_false] at h
      cases hh : sm.ihs_ (get_index_name t ix.cols) with
      | none => rw [hh] at h; cases h
      | some ih =>
        rw [hh] at h
        simp only at h
        obtain ⟨c2, hc2, hw2⟩ := delete_entry_grows ih (get_index_name t ix.cols)
          (make_key ix cur) c
        rw [hc2] at h
        obtain ⟨c3, hc3, hw3⟩ := insert_entry_grows
          (ih.delete_entry (get_index_name t ix.cols) (make_key ix cur) (some c)).2.1
          (get_index_name t ix.cols) (make_key ix old_image) rid c2
        rw [hc3] at h
        obtain ⟨c4, hc4, hw4⟩ := ihr _ sm1 c3 ctx1 h
        exact ⟨c4, hc4, (hw2.followed hw3).followed hw4⟩

/-- When a tuple rollback primitive returns, it has written page records only. -/
theorem rollback_tuple_grows (sm sm1 : SmManager) (t : String) (rid : Rid)
    (record : List Nat) (c : Context) (ctx1 : Option Context) :
    (sm.rollback_insert t rid (some c) = some (sm1, ctx1) →
      ∃ c1, ctx1 = some c1 ∧ c.log_mgr_.GrowsByPages c1.log_mgr_) ∧
    (sm.rollback_update t rid record (some c) = some (sm1, ctx1) →
      ∃ c1, ctx1 = some c1 ∧ c.log_mgr_.GrowsByPages c1.log_mgr_) ∧
    (sm.rollback_delete t rid record (some c) = some (sm1, ctx1) →
      ∃ c1, ctx1 = some c1 ∧ c.log_mgr_.GrowsByPages c1.log_mgr_) := by
  refine ⟨?_, ?_, ?_⟩
  · intro h
    unfold SmManager.rollback_insert at h
    cases ht : sm.tabs_ t with
    | none => simp [ht] at h
    | some tab =>
      cases hf : sm.fhs_ t with
      | none => simp [ht, hf] at h
      | some fh =>
        simp only [ht, hf] at h
        cases hg : fh.get_record rid (some c) with
        | none => simp [hg] at h
        | some rec =>
          simp only [hg] at h
          cases hd : SmManager.delete_entries t rec tab.indexes sm (some c) with
          | none => simp [hd] at h
          | some p =>
            obtain ⟨sm2, ctx2⟩ := p
            obtain ⟨c2, rfl, hw2⟩ := delete_entries_grow _ _ _ _ _ _ _ hd
            simp only [hd] at h
            obtain ⟨c3, hc3, hw3⟩ := ctx_add_idx_log_grows c2
            rw [hc3] at h
            cases hf2 : sm2.fhs_ t with
            | none => simp [hf2] at h
            | some fh2 =>
              simp only [hf2] at h
              cases hdr : fh2.delete_record rid (some c3) with
              | none => simp [hdr] at h
              | some q =>
                obtain ⟨fh3, ctx3⟩ := q
                obtain ⟨c4, rfl, hw4⟩ := (heap_ops_grow fh2 rid [] c3).1 _ _ hdr
                simp only [hdr, Option.some.injEq, Prod.mk.injEq] at h
                exact ⟨c4, h.2.symm, (hw2.followed hw3).followed hw4⟩
  · intro h
    unfold SmManager.rollback_update at h
    cases ht : sm.tabs_ t with
    | none => simp [ht] at h
    | some tab =>
      cases hf : sm.fhs_ t with
      | none => simp [ht, hf] at h
      | some fh =>
        simp only [ht, hf] at h
        cases hg : fh.get_record rid (some c) with
        | none => simp [hg] at h
        | some rec =>
          simp only [hg] at h
          cases hd : SmManager.swap_entries t rec record rid tab.indexes sm (some c) with
          | none => simp [hd] at h
          | some p =>
            obtain ⟨sm2, ctx2⟩ := p
            obtain ⟨c2, rfl, hw2⟩ := swap_entries_grow _ _ _ _ _ _ _ _ _ hd
            simp only [hd] at h
            obtain ⟨c3, hc3, hw3⟩ := ctx_add_idx_log_grows c2
            rw [hc3] at h
            cases hf2 : sm2.fhs_ t with
            | none => simp [hf2] at h
            | some fh2 =>
              simp only [hf2] at h
              cases hdr : fh2.update_record rid record (some c3) with
              | none => simp [hdr] at h
              | some q =>
                obtain ⟨fh3, ctx3⟩ := q
                obtain ⟨c4, rfl, hw4⟩ := (heap_ops_grow fh2 rid record c3).2.1 _ _ hdr
                simp only [hdr, Option.some.injEq, Prod.mk.injEq] at h
                exact ⟨c4, h.2.symm, (hw2.followed hw3).followed hw4⟩
  · intro h
    unfold SmManager.rollback_delete at h
    cases ht : sm.tabs_ t with
    | none => simp [ht] at h
    | some tab =>
      cases hf : sm.fhs_ t with
      | none => simp [ht, hf] at h
      | some fh =>
        simp only [ht, hf] at h
        cases hi : fh.insert_record record (some c) with
        | none => simp [hi] at h
        | some q =>
          obtain ⟨rid1, fh1, ctx2⟩ := q
          obtain ⟨c2, rfl, hw2⟩ := (heap_ops_grow fh rid record c).2.2 _ _ _ hi
          simp only [hi] at h
          cases hd : SmManager.insert_entries t record rid1 tab.indexes (sm.set_fh t fh1)
              (some c2) with
          | none => simp [hd] at h
          | some p =>
            obtain ⟨sm2, ctx3⟩ := p
            obtain ⟨c3, rfl, hw3⟩ := insert_entries_grow _ _ _ _ _ _ _ _ hd
            simp only [hd, Option.some.injEq, Prod.mk.injEq] at h
            obtain ⟨c4, hc4, hw4⟩ := ctx_add_idx_log_grows c3
            rw [hc4] at h
            exact ⟨c4, h.2.symm, (hw2.followed hw3).followed hw4⟩

/-- When the rollback primitive of a tuple entry returns, it has written page
records only and the transaction has kept its id. -/
theorem rollback_item_grows (sm sm1 : SmManager) (item : WriteRecord) (c : Context)
    (ctx1 : Option Context) (hi : ¬ item.is_index_entry)
    (h : rollback_item sm item c = some (sm1, ctx1)) :
    ∃ c1, ctx1 = some c1 ∧ c1.txn_.txn_id_ = c.txn_.txn_id_ ∧
      c.log_mgr_.GrowsByPages c1.log_mgr_ := by
  obtain ⟨c0, hc0, hid, _⟩ := rollback_item_chain sm sm1 item c ctx1 h
  have hg : ∃ c1, ctx1 = some c1 ∧ c.log_mgr_.GrowsByPages c1.log_mgr_ := by
    unfold rollback_item at h
    unfold WriteRecord.is_index_entry at hi
    cases hw : item.wtype_ with
    | INSERT_TUPLE =>
      rw [hw] at h
      exact (rollback_tuple_grows sm sm1 _ _ [] c ctx1).1 h
    | UPDATE_TUPLE =>
      rw [hw] at h
      exact (rollback_tuple_grows sm sm1 _ _ _ c ctx1).2.1 h
    | DELETE_TUPLE =>
      rw [hw] at h
      exact (rollback_tuple_grows sm sm1 _ _ _ c ctx1).2.2 h
    | CREATE_INDEX => exact absurd (Or.inl hw) hi
    | DROP_INDEX => exact absurd (Or.inr hw) hi
  obtain ⟨c1, hc1, hgr⟩ := hg
  have e : c1 = c0 := Option.some.inj (hc1.symm.trans hc0)
  exact ⟨c1, hc1, e ▸ hid, hgr⟩

/-- Page records in front of what an undo pass appends are part of it. -/
theorem UndoLog.after_pages {tid : Int} {us : List Int} {rest : List LogRecord}
    (h : UndoLog tid us rest) (pre : List LogRecord) (hp : ∀ r ∈ pre, r.is_page_record) :
    UndoLog tid us (pre ++ rest) := by
  cases h with
  | done tail ht =>
    refine UndoLog.done _ ?_
    intro r hr
    rcases List.mem_append.mp hr with h1 | h1
    · exact hp r h1
    · exact ht r h1
  | undone u us seg rec rest hs h1 h2 h3 h4 =>
    rw [← List.append_assoc]
    refine UndoLog.undone u us (pre ++ seg) rec rest ?_ h1 h2 h3 h4
    intro r hr
    rcases List.mem_append.mp hr with h5 | h5
    · exact hp r h5
    · exact hs r h5

/-- The appending of the UndoNext record with the value `u` and of the pending
index pages, followed by an undo pass that appends `app`. -/
theorem undo_next_then (c c2 c1 : Context) (u : Int) (us : List Int)
    (seg app : List LogRecord)
    (hid2 : c2.txn_.txn_id_ = c.txn_.txn_id_)
    (hseg : c2.log_mgr_.records = c.log_mgr_.records ++ seg)
    (hpg : ∀ r ∈ seg, r.is_page_record)
    (hid3 : c1.txn_.txn_id_ =
      (Transaction.add_idx_log
        { c2.txn_ with prev_lsn_ := (c2.log_mgr_.add_log_to_buffer
            (UndoNextLogRecord c2.txn_.txn_id_ c2.txn_.prev_lsn_ u)).1 }
        (c2.log_mgr_.add_log_to_buffer
            (UndoNextLogRecord c2.txn_.txn_id_ c2.txn_.prev_lsn_ u)).2).1.txn_id_)
    (happ : c1.log_mgr_.records =
      (Transaction.add_idx_log
        { c2.txn_ with prev_lsn_ := (c2.log_mgr_.add_log_to_buffer
            (UndoNextLogRecord c2.txn_.txn_id_ c2.txn_.prev_lsn_ u)).1 }
        (c2.log_mgr_.add_log_to_buffer
            (UndoNextLogRecord c2.txn_.txn_id_ c2.txn_.prev_lsn_ u)).2).2.records ++ app)
    (hul : UndoLog
      (Transaction.add_idx_log
        { c2.txn_ with prev_lsn_ := (c2.log_mgr_.add_log_to_buffer
            (UndoNextLogRecord c2.txn_.txn_id_ c2.txn_.prev_lsn_ u)).1 }
        (c2.log_mgr_.add_log_to_buffer
            (UndoNextLogRecord c2.txn_.txn_id_ c2.txn_.prev_lsn_ u)).2).1.txn_id_ us app) :
    c1.txn_.txn_id_ = c.txn_.txn_id_ ∧
    ∃ appended, c1.log_mgr_.records = c.log_mgr_.records ++ appended ∧
      UndoLog c.txn_.txn_id_ (u :: us) appended := by
  obtain ⟨idx, hidx, hpidx⟩ := add_idx_log_grows
    { c2.txn_ with prev_lsn_ := (c2.log_mgr_.add_log_to_buffer
        (UndoNextLogRecord c2.txn_.txn_id_ c2.txn_.prev_lsn_ u)).1 }
    (c2.log_mgr_.add_log_to_buffer
        (UndoNextLogRecord c2.txn_.txn_id_ c2.txn_.prev_lsn_ u)).2
  have hrec := (LogManager.add_log_records c2.log_mgr_
    (UndoNextLogRecord c2.txn_.txn_id_ c2.txn_.prev_lsn_ u)).trans
    (congrArg (fun l => l ++ [_]) hseg)
  have hidx2 := hidx.trans (congrArg (fun l => l ++ idx) hrec)
  have hidt : (Transaction.add_idx_log
        { c2.txn_ with prev_lsn_ := (c2.log_mgr_.add_log_to_buffer
            (UndoNextLogRecord c2.txn_.txn_id_ c2.txn_.prev_lsn_ u)).1 }
        (c2.log_mgr_.add_log_to_buffer
            (UndoNextLogRecord c2.txn_.txn_id_ c2.txn_.prev_lsn_ u)).2).1.txn_id_
      = c.txn_.txn_id_ := (add_idx_log_fields _ _).1.trans hid2
  have hul2 : UndoLog c.txn_.txn_id_ us app :=
    (congrArg (fun t => UndoLog t us app) hidt).mp hul
  refine ⟨hid3.trans hidt,
    seg ++ { UndoNextLogRecord c2.txn_.txn_id_ c2.txn_.prev_lsn_ u with
              lsn_ := c2.log_mgr_.global_lsn_ } :: (idx ++ app), ?_, ?_⟩
  · exact happ.trans ((congrArg (fun l => l ++ app) hidx2).trans
      (by simp only [List.append_assoc, List.singleton_append, List.cons_append,
            List.nil_append]))
  · exact UndoLog.undone u us seg _ (idx ++ app) hpg rfl rfl hid2
      (hul2.after_pages idx hpidx)

/-- When the undo pass of the specification returns for tuple entries, it has
appended to the log, for each entry from the newest to the oldest, page records
and directly after them one UndoNext record of the transaction with the LSN of
the entry inserted just before. -/
theorem undo_pass_log (rev : List WriteRecord) :
    ∀ (sm sm1 : SmManager) (c c1 : Context), (∀ w ∈ rev, ¬ w.is_index_entry) →
      undo_newest_to_oldest rev sm c = .done (sm1, c1) →
      c1.txn_.txn_id_ = c.txn_.txn_id_ ∧
      ∃ appended, c1.log_mgr_.records = c.log_mgr_.records ++ appended ∧
        UndoLog c.txn_.txn_id_ (undo_next_values rev) appended := by
  induction rev with
  | nil =>
    intro sm sm1 c c1 _ h
    simp only [undo_newest_to_oldest, Outcome.done.injEq, Prod.mk.injEq] at h
    obtain ⟨_, rfl⟩ := h
    exact ⟨rfl, [], by simp, UndoLog.done [] (fun r hr => absurd hr (List.not_mem_nil r))⟩
  | cons item older ih =>
    intro sm sm1 c c1 ht h
    unfold undo_newest_to_oldest at h
    dsimp only at h
    cases hr : rollback_item sm item
        { c with txn_ := { c.txn_ with write_set_ := older.reverse } } with
    | none => rw [hr] at h; cases h
    | some p =>
      obtain ⟨sm2, ctx2⟩ := p
      obtain ⟨c2, rfl, hid2, seg, hseg, hpg⟩ := rollback_item_grows _ _ _ _ _
        (ht item (List.mem_cons_self _ _)) hr
      rw [hr] at h
      dsimp only at h
      obtain ⟨hid3, app, happ, hul⟩ := ih _ _ _ _
        (fun w hw => ht w (List.mem_cons_of_mem _ hw)) h
      cases older with
      | nil => exact undo_next_then c c2 c1 INVALID_LSN _ seg app hid2 hseg hpg hid3 happ hul
      | cons prev o2 =>
        exact undo_next_then c c2 c1 prev.lsn_ _ seg app hid2 hseg hpg hid3 happ hul

/-- C3: for every write set of insert/update/delete entries whose LSNs are
strictly increasing in insertion order, and at least as many loop iterations as
the write set has entries. `abort` is: its first part, then the undo pass of the
specification over the write set (the rollback primitive of each entry, from the
newest to the oldest, each followed by the appending of an UndoNext record),
then its last part; the loop does not run out of iterations, so `abort` returns
unless a rollback primitive throws. When it returns, the log is the log it
found, followed by the pending index pages, the Abort record, then for each
entry from the newest to the oldest the page records its rollback writes and
directly after them one UndoNext record of the transaction whose `undo_next` is
the LSN of the entry inserted just before it (`INVALID_LSN`, i.e. -1, for the
oldest), then page records only, and the End record. -/
theorem abort_undoes_newest_to_oldest (fuel : Nat) (db : Database) (txn : Transaction)
    (htuple : ∀ w ∈ txn.write_set_, ¬ w.is_index_entry)
    (hsorted : (txn.write_set_.map (fun w => w.lsn_)).Pairwise (· < ·))
    (hfuel : txn.write_set_.length ≤ fuel) :
    abort fuel db txn =
      (match undo_newest_to_oldest txn.write_set_.reverse db.sm_manager_
          (abort_context db txn) with
       | .done (sm1, c1) => .done (abort_finish sm1 c1)
       | .threw => .threw
       | .out_of_fuel => .out_of_fuel) ∧
    abort fuel db txn ≠ .out_of_fuel ∧
    (∀ db2 txn2, abort fuel db txn = .done (db2, txn2) →
      ∃ (pre : List LogRecord) (abort_rec : LogRecord) (appended : List LogRecord)
        (end_rec : LogRecord),
        db2.log_manager_.records
          = db.log_manager_.records ++ pre ++ [abort_rec] ++ appended ++ [end_rec] ∧
        (∀ r ∈ pre, r.is_page_record) ∧
        abort_rec.log_type_ = .ABORT ∧ abort_rec.log_tid_ = txn.txn_id_ ∧
        end_rec.log_type_ = .END ∧ end_rec.log_tid_ = txn.txn_id_ ∧
        UndoLog txn.txn_id_ (undo_next_values txn.write_set_.reverse) appended) := by
  have hws : (abort_context db txn).txn_.write_set_ = txn.write_set_ := by
    simp [abort_context, Transaction.add_idx_log]
  have hloop := abort_loop_undoes_newest_to_oldest fuel db.sm_manager_ (abort_context db txn)
    (by rw [hws]; exact htuple) (by rw [hws]; exact hsorted) (by rw [hws]; exact hfuel)
  rw [hws] at hloop
  have heq : abort fuel db txn =
      (match undo_newest_to_oldest txn.write_set_.reverse db.sm_manager_
          (abort_context db txn) with
       | .done (sm1, c1) => .done (abort_finish sm1 c1)
       | .threw => .threw
       | .out_of_fuel => .out_of_fuel) := by
    unfold abort
    dsimp only
    rw [hws, hloop]
    generalize undo_newest_to_oldest txn.write_set_.reverse db.sm_manager_
      (abort_context db txn) = o
    rcases o with ⟨⟨_, _⟩⟩ | _ | _ <;> rfl
  refine ⟨heq, ?_, ?_⟩
  · rw [heq]
    have ht := undo_newest_to_oldest_total txn.write_set_.reverse db.sm_manager_
      (abort_context db txn)
    intro h
    split at h
    · cases h
    · cases h
    · rename_i hx; exact ht hx
  · intro db2 txn2 hdone
    rw [heq] at hdone
    cases hu : undo_newest_to_oldest txn.write_set_.reverse db.sm_manager_
        (abort_context db txn) with
    | threw => rw [hu] at hdone; cases hdone
    | out_of_fuel => rw [hu] at hdone; cases hdone
    | done p =>
      obtain ⟨sm1, c1⟩ := p
      rw [hu] at hdone
      simp only [Outcome.done.injEq] at hdone
      have hid0 : (abort_context db txn).txn_.txn_id_ = txn.txn_id_ := by
        simp [abort_context, Transaction.add_idx_log]
      obtain ⟨hid1, app, happ, hul⟩ := undo_pass_log _ _ _ _ _
        (by intro w hw; exact htuple w (List.mem_reverse.mp hw)) hu
      rw [hid0] at hul hid1
      obtain ⟨pre, hpre, hppre⟩ := add_idx_log_grows txn db.log_manager_
      have h0 : (abort_context db txn).log_mgr_.records
          = db.log_manager_.records ++ pre ++
            [{ AbortLogRecord (txn.add_idx_log db.log_manager_).1.txn_id_
                (txn.add_idx_log db.log_manager_).1.prev_lsn_ with
                lsn_ := (txn.add_idx_log db.log_manager_).2.global_lsn_ }] := by
        simp only [abort_context]
        rw [(LogManager.flush_log_file _).2.2.1, LogManager.add_log_records, hpre]
      have h2 : db2.log_manager_.records = c1.log_mgr_.records ++
          [{ EndLogRecord c1.txn_.txn_id_ c1.txn_.prev_lsn_ with
              lsn_ := c1.log_mgr_.global_lsn_ }] := by
        have hdb : db2 = (abort_finish sm1 c1).1 := by rw [hdone]
        rw [hdb]
        simp only [abort_finish]
        rw [(LogManager.flush_log_file _).2.2.1, LogManager.add_log_records]
      refine ⟨pre,
        { AbortLogRecord (txn.add_idx_log db.log_manager_).1.txn_id_
            (txn.add_idx_log db.log_manager_).1.prev_lsn_ with
            lsn_ := (txn.add_idx_log db.log_manager_).2.global_lsn_ },
        app,
        { EndLogRecord c1.txn_.txn_id_ c1.txn_.prev_lsn_ with
            lsn_ := c1.log_mgr_.global_lsn_ },
        ?_, hppre, rfl, ?_, rfl, hid1, hul⟩
      · rw [h2, happ, h0]
      · exact (add_idx_log_fields txn db.log_manager_).1

/-- Witness for C3: the transaction with an update (LSN 2) and an insert (LSN 4)
in its write set, on the example database. Its abort returns, and the UndoNext
records in the log afterwards carry the values 2 and -1, in that order. -/
theorem abort_undoes_newest_to_oldest_witness :
    Example.two_writes.write_set_.map (fun w => w.lsn_) = [2, 4] ∧
    undo_next_values Example.two_writes.write_set_.reverse = [2, -1] ∧
    abort 2 Example.db Example.two_writes
      = .done (Example.two_writes_aborted.1, Example.two_writes_aborted.2) ∧
    Example.two_writes_aborted.1.log_manager_.records.filterMap
      (fun r => match r.payload with
                | .undo_next u => some u
                | _ => none) = [2, -1] ∧
    ∃ (pre : List LogRecord) (abort_rec : LogRecord) (appended : List LogRecord)
      (end_rec : LogRecord),
      Example.two_writes_aborted.1.log_manager_.records
        = Example.db.log_manager_.records ++ pre ++ [abort_rec] ++ appended ++ [end_rec] ∧
      (∀ r ∈ pre, r.is_page_record) ∧
      abort_rec.log_type_ = .ABORT ∧ abort_rec.log_tid_ = Example.two_writes.txn_id_ ∧
      end_rec.log_type_ = .END ∧ end_rec.log_tid_ = Example.two_writes.txn_id_ ∧
      UndoLog Example.two_writes.txn_id_
        (undo_next_values Example.two_writes.write_set_.reverse) appended :=
  ⟨by decide, by decide, rfl, by decide!,
   (abort_undoes_newest_to_oldest 2 Example.db Example.two_writes (by decide) (by decide)
    (by decide)).2.2 Example.two_writes_aborted.1 Example.two_writes_aborted.2 rfl⟩

end TransactionManager

end OshinoDB
